import Mathlib

/-!
# bk-turbo: the action DAG engine of `ubttool` and its surroundings

Shallow embedding of `src/backend/booster/bk_dist/ubttool/pkg/ubttool.go`
(`getReadyActions`, `selectReadyAction`, `selectActionsToExecute`,
`onActionFinished`, `executeActions`, `runActions`, `executeOneAction`,
`dealWorkNotFound`, `isIPValid` and the host address of
`adjustActions4UBAAgent`), of the slot normalisation of `ServerConfig.Parse`
(`bk_dist/controller/config/config.go`), of `Run` of the booster command
(`bk_dist/booster/command/command.go`), of the k8s operator
(`server/pkg/resource/crm/operator/k8s/operator.go`: `getYAMLFromTemplate`,
`getServerStatus`, `releaseServer`, `getClientSet`, `getFederationResource`
and the two port name functions) and of the handlers `ReleaseResource` and
`SendMessage` (`server/pkg/api/v2/handler.go`), and the properties proved over
them.

Conventions of the embedding:

* a Go slice is a `List`; a loop over a slice is a structural recursion that
  carries the loop counter where the source uses it;
* the `int32` counters are integers wrapped by `int32` after every arithmetic
  step;
* goroutines and the result channel are explicit: `selectActionsToExecute`
  returns the actions it hands to `go h.executeOneAction`, and a `Run` keeps the
  list of launched actions whose result has not been received yet;
* logging, the progress line on stdout and the `moduleselected` counters (read
  only by a log line) are left out;
* a Go string is a `String`, and the functions of package `strings` work on
  its characters; a Go map is the list of its entries, with unique keys;
* what a function gets from a package outside these sources (the executor,
  the JSON decoder, the return codes of package `api`, `float64` arithmetic
  and formatting, the answers of the k8s API server and of the task manager)
  is a parameter of its embedding.

The definitions come first: the embedding of the source, then the notions the
properties are stated and proved with. The theorems follow; the theorem of
claim `Cn` is named `Cn_...`.
-/

namespace UBT

/-! ## Data model -/

/-- Modelled from the spec: the `common.Action` record, whose declaration is in
package `ubttool/common`; the fields are the ones `ubttool.go` reads or
writes (`Attributes`, an opaque map handed to the executor, is left out). -/
structure Action where
  Index : String
  Dep : List String := []
  FollowIndex : List String := []
  Running : Bool := false
  Finished : Bool := false
  IsCompile : Bool := false
  ModulePath : String := ""
  Cmd : String := ""
  Arg : String := ""
  Workdir : String := ""
  Desc : String := ""
deriving DecidableEq

/-- Modelled from the spec: the `common.Actionresult` record sent on the result
channel; `Err` is `true` for a non-nil error. Only the fields that
`executeActions` reads are kept. -/
structure Actionresult where
  Index : String
  Exitcode : Int
  Err : Bool
deriving DecidableEq

/-- The errors `runActions` can return. `actionFailed` is the
`fmt.Errorf("exit code:%d,error:%v", ...)` value of `executeActions`;
`resolveFailed` is an error of `resolveActionJSON`. -/
inductive ToolError where
  | ErrorNoActionsToRun
  | ErrorOverMaxTime
  | actionFailed (exitcode : Int) (err : Bool)
  | resolveFailed
deriving DecidableEq

def MaxWaitSecs : Nat := 10800
def TickSecs : Nat := 30
def DefaultJobs : Int := 240

/-- Conversion to `int32`: two's complement wrap-around. -/
def int32 (x : Int) : Int := (x + 2147483648) % 4294967296 - 2147483648

/-- The fields of `UBTTool` that the DAG engine uses. `MostDepentFirst` is
`h.flags.MostDepentFirst`, `ContinueOnError` is `h.settings.ContinueOnError`. -/
structure UBTTool where
  MostDepentFirst : Bool
  ContinueOnError : Bool
  allactions : List Action
  readyactions : List Action
  finishednumber : Int
  runningnumber : Int
  maxjobs : Int
  finished : Bool
deriving DecidableEq

/-- The constructor `NewUBTTool`: empty lists, zero counters. -/
def NewUBTTool (most cont : Bool) : UBTTool :=
  { MostDepentFirst := most, ContinueOnError := cont,
    allactions := [], readyactions := [],
    finishednumber := 0, runningnumber := 0, maxjobs := 0, finished := false }

/-- Modelled from the spec: `remove(slice, s)` of package `ubttool/pkg`, whose
body is in another file; it drops the entry at position `s` and keeps the
order of the others. -/
def remove (slice : List String) (s : Nat) : List String := slice.eraseIdx s

/-- Modelled from the spec: `removeaction(slice, s)` of package `ubttool/pkg`,
whose body is in another file; it drops the entry at position `s` and keeps
the order of the others. -/
def removeaction (slice : List Action) (s : Nat) : List Action := slice.eraseIdx s

/-! ## getReadyActions -/

/-- The test `!v.Running && !v.Finished && len(v.Dep) == 0` of
`getReadyActions`. -/
def noDepend (v : Action) : Bool := !v.Running && !v.Finished && v.Dep.length == 0

/-- The loop of `getReadyActions` (ubttool.go:570-575): `go` walks the rest of
`allactions`, `ready` is `h.readyactions`; the result is the updated rest and
the updated ready list. The copy `v` appended to the ready list is made
before `h.allactions[i].Running` is set. -/
def getReadyLoop : List Action → List Action → List Action × List Action
  | [], ready => ([], ready)
  | v :: rest, ready =>
    if noDepend v then
      let r := getReadyLoop rest (ready ++ [v])
      ({ v with Running := true } :: r.1, r.2)
    else
      let r := getReadyLoop rest ready
      (v :: r.1, r.2)

/-- The method `getReadyActions` (ubttool.go:560-578); its error result is always nil
(see `getReadyActionsErr`). -/
def getReadyActions (h : UBTTool) : UBTTool :=
  let r := getReadyLoop h.allactions h.readyactions
  { h with allactions := r.1, readyactions := r.2 }

/-- The error value of `getReadyActions`: its only `return` is `return nil`. -/
def getReadyActionsErr (_h : UBTTool) : Option ToolError := none

/-! ## selectReadyAction and selectActionsToExecute -/

/-- The loop of `selectReadyAction` under `MostDepentFirst`
(ubttool.go:466-474); `i` is the loop counter, `index` and `followers` the two
locals. -/
def mostFollowersLoop : List Action → Nat → Int → Int → Int
  | [], _, index, _ => index
  | a :: rest, i, index, followers =>
    if !a.Running then
      if (a.FollowIndex.length : Int) > followers then
        mostFollowersLoop rest (i + 1) (i : Int) (a.FollowIndex.length : Int)
      else
        mostFollowersLoop rest (i + 1) index followers
    else
      mostFollowersLoop rest (i + 1) index followers

/-- The loop of `selectReadyAction` without `MostDepentFirst`
(ubttool.go:476-481): the first entry that is not running, `-1` when there is
none. -/
def firstNotRunningLoop : List Action → Nat → Int
  | [], _ => -1
  | a :: rest, i => if !a.Running then (i : Int) else firstNotRunningLoop rest (i + 1)

/-- The method `selectReadyAction` (ubttool.go:460-491). -/
def selectReadyAction (h : UBTTool) : Int :=
  if h.MostDepentFirst then mostFollowersLoop h.readyactions 0 (-1) (-1)
  else firstNotRunningLoop h.readyactions 0

/-- The assignment `h.readyactions[index].Running = true`. -/
def setRunning : List Action → Nat → List Action
  | [], _ => []
  | a :: rest, 0 => { a with Running := true } :: rest
  | a :: rest, i + 1 => a :: setRunning rest i

/-- The loop of `selectActionsToExecute` (ubttool.go:443-455). `out` collects
the actions handed to `go h.executeOneAction`, in launch order. Every turn
that does not leave the loop sets the `Running` flag of one more ready entry,
so `len(h.readyactions)` turns are enough (`selectLoop_fuel`). -/
def selectLoop : Nat → UBTTool → List Action → UBTTool × List Action
  | 0, h, out => (h, out)
  | fuel + 1, h, out =>
    if h.runningnumber < h.maxjobs then
      let index := selectReadyAction h
      if index < 0 then (h, out)
      else
        let ready := setRunning h.readyactions index.toNat
        let h1 := { h with readyactions := ready, runningnumber := int32 (h.runningnumber + 1) }
        selectLoop fuel h1 (out ++ (ready.get? index.toNat).toList)
    else (h, out)

/-- The method `selectActionsToExecute` (ubttool.go:439-458): the new state and the
actions launched, in order. Its error result is always nil. -/
def selectActionsToExecute (h : UBTTool) : UBTTool × List Action :=
  selectLoop h.readyactions.length h []

/-! ## onActionFinished -/

/-- The loop "delete from ready array" (ubttool.go:604-609): `ready` is the
whole list, the second argument the part still to visit, `i` the loop
counter. -/
def deleteReadyLoop (ready : List Action) : List Action → Nat → String → List Action
  | [], _, _ => ready
  | v :: rest, i, index =>
    if v.Index == index then removeaction ready i
    else deleteReadyLoop ready rest (i + 1) index

/-- The loop "update status in allactions" (ubttool.go:612-618): the first
record with the given `Index` gets `Finished = true`. -/
def markFinished : List Action → String → List Action
  | [], _ => []
  | v :: rest, index =>
    if v.Index == index then { v with Finished := true } :: rest
    else v :: markFinished rest index

/-- The inner loop "update depend" (ubttool.go:628-633): `dep` is
`h.allactions[i].Dep`, the second argument the part of `v.Dep` still to visit,
`i1` the loop counter. -/
def removeDepLoop (dep : List String) : List String → Nat → String → List String
  | [], _, _ => dep
  | v1 :: rest, i1, index =>
    if v1 == index then remove dep i1
    else removeDepLoop dep rest (i1 + 1) index

/-- The outer loop of the branch `exitcode == 0` (ubttool.go:622-640) over the
rest of `allactions`, with `ready` being `h.readyactions`. The copy `v`
appended to the ready list is the record as it was when the turn began. -/
def dependLoop : List Action → String → List Action → List Action × List Action
  | [], _, ready => ([], ready)
  | v :: rest, index, ready =>
    if v.Finished then
      let r := dependLoop rest index ready
      (v :: r.1, r.2)
    else
      let dep := removeDepLoop v.Dep v.Dep 0 index
      if !v.Running && !v.Finished && dep.length == 0 then
        let r := dependLoop rest index (ready ++ [v])
        ({ v with Dep := dep, Running := true } :: r.1, r.2)
      else
        let r := dependLoop rest index ready
        ({ v with Dep := dep } :: r.1, r.2)

/-- The method `onActionFinished` (ubttool.go:581-644); its error result is always
nil. -/
def onActionFinished (h : UBTTool) (index : String) (exitcode : Int) : UBTTool :=
  let h1 := { h with finishednumber := int32 (h.finishednumber + 1),
                     runningnumber := int32 (h.runningnumber - 1) }
  if h1.finishednumber ≥ int32 (h1.allactions.length : Int) then
    { h1 with finished := true }
  else
    let ready := deleteReadyLoop h1.readyactions h1.readyactions 0 index
    let all := markFinished h1.allactions index
    if exitcode == 0 then
      let r := dependLoop all index ready
      { h1 with allactions := r.1, readyactions := r.2 }
    else
      { h1 with allactions := all, readyactions := ready }

/-! ## Runs: goroutines, the result channel, executeActions -/

/-- What a run records, in the order of the events: an action handed to
`go h.executeOneAction`, or a call `onActionFinished(index, exitcode)`. -/
inductive LogEntry where
  | dispatch (a : Action)
  | finish (index : String) (exitcode : Int)
deriving DecidableEq

/-- The engine together with its goroutines: `pending` are the launched
actions whose result has not been received yet, `log` the history. -/
structure Run where
  h : UBTTool
  pending : List Action
  log : List LogEntry
deriving DecidableEq

/-- A call of `selectActionsToExecute`: the launched actions become pending. -/
def Run.select (s : Run) : Run :=
  let r := selectActionsToExecute s.h
  { h := r.1, pending := s.pending ++ r.2, log := s.log ++ r.2.map LogEntry.dispatch }

/-- The result of the pending action at position `k` has been received and
`onActionFinished(index, exitcode)` is called with it. -/
def Run.finish (s : Run) (k : Nat) (index : String) (exitcode : Int) : Run :=
  { h := onActionFinished s.h index exitcode,
    pending := s.pending.eraseIdx k,
    log := s.log ++ [LogEntry.finish index exitcode] }

/-- One move of a run of the engine: a call of `selectActionsToExecute`, or
the call of `onActionFinished` for a dispatched action (the pending action at
position `pos` modulo the number of pending ones) with some exit code. -/
inductive Step where
  | select
  | finish (pos : Nat) (exitcode : Int)
deriving DecidableEq

/-- The run after one move; a `finish` move when no action is pending changes
nothing. -/
def Run.step (s : Run) : Step → Run
  | Step.select => s.select
  | Step.finish pos exitcode =>
    match s.pending.get? (pos % s.pending.length) with
    | none => s
    | some a => s.finish (pos % s.pending.length) a.Index exitcode

/-- The run after a sequence of moves. -/
def Run.steps (s : Run) (l : List Step) : Run := l.foldl Run.step s

/-- The engine after `getReadyActions` on a fresh tool loaded with `acts`. -/
def initRun (most cont : Bool) (maxjobs : Int) (acts : List Action) : Run :=
  { h := getReadyActions { NewUBTTool most cont with allactions := acts, maxjobs := maxjobs },
    pending := [], log := [] }

/-- What the `select` of `executeActions` receives: the result of the pending
action at position `pos` (modulo the number of pending ones), or a tick of the
ticker, with `elapsed` the value of `curtime.Sub(starttime)` in nanoseconds. -/
inductive Event where
  | result (pos : Nat)
  | tick (elapsed : Nat)
deriving DecidableEq

/-- How a call of `executeActions` ends: it returns (nil or an error), it is
still waiting when the events run out, or `make(chan, h.maxjobs)` panics on a
negative size. -/
inductive Outcome where
  | returned (err : Option ToolError)
  | waiting
  | panicked
deriving DecidableEq

/-- The `Actionresult` that `executeOneAction` sends for action `a`
(ubttool.go:544-554): `Index` is the action's, `outcome a` gives the exit code
and whether the error is non-nil. -/
def sentResult (outcome : Action → Int × Bool) (a : Action) : Actionresult :=
  { Index := a.Index, Exitcode := (outcome a).1, Err := (outcome a).2 }

/-- The `for { select { ... } }` loop of `executeActions` (ubttool.go:290-321),
over the events its `select` receives. A result event while no action is
pending cannot be received and is passed over. When the loop returns on a
failed result the run is given back as it was when the result was received. -/
def executeLoop (outcome : Action → Int × Bool) : List Event → Run → Outcome × Run
  | [], s => (Outcome.waiting, s)
  | Event.tick elapsed :: es, s =>
    if elapsed > MaxWaitSecs * 1000000000 then
      (Outcome.returned (some ToolError.ErrorOverMaxTime), s)
    else executeLoop outcome es s
  | Event.result pos :: es, s =>
    match s.pending.get? (pos % s.pending.length) with
    | none => executeLoop outcome es s
    | some a =>
      let r := sentResult outcome a
      if (r.Exitcode != 0 || r.Err) && !s.h.ContinueOnError then
        (Outcome.returned (some (ToolError.actionFailed r.Exitcode r.Err)), s)
      else
        let s1 := s.finish (pos % s.pending.length) r.Index r.Exitcode
        if s1.h.finished then (Outcome.returned none, s1)
        else
          let s2 := s1.select
          if s2.h.runningnumber ≤ 0 then
            (Outcome.returned (some ToolError.ErrorNoActionsToRun), s2)
          else executeLoop outcome es s2

/-- The method `executeActions` (ubttool.go:263-322). `envjobs` is the result of
`strconv.Atoi` on the max-jobs environment value (`none` when it fails). -/
def executeActions (h : UBTTool) (envjobs : Option Int) (outcome : Action → Int × Bool)
    (events : List Event) : Outcome × Run :=
  let h0 := { h with maxjobs := match envjobs with
                                | none => DefaultJobs
                                | some m => int32 m }
  if h0.maxjobs < 0 then (Outcome.panicked, { h := h0, pending := [], log := [] })
  else
    let s := Run.select { h := h0, pending := [], log := [] }
    if s.h.runningnumber ≤ 0 then
      (Outcome.returned (some ToolError.ErrorNoActionsToRun), s)
    else executeLoop outcome events s

/-- The part of `runActions` before `executeActions` (ubttool.go:226-250).
`resolved` is the result of `resolveActionJSON`, whose body is in another
file. `adjustActions4UBAAgent` and `analyzeActions` rewrite `Cmd`, `Workdir`,
`Arg`, `IsCompile`, `Desc` and `ModulePath` only and never fail; the list is
taken as they leave it. -/
def runActionsLoad (h : UBTTool) (resolved : Except ToolError (List Action)) :
    Except ToolError UBTTool :=
  match resolved with
  | Except.error e => Except.error e
  | Except.ok acts =>
    let h1 := { h with allactions := acts }
    match getReadyActionsErr h1 with
    | some e => Except.error e
    | none => Except.ok (getReadyActions h1)

/-- The method `runActions` (ubttool.go:218-260) for an action-chain file name that is
neither empty nor `nothing`. -/
def runActions (h : UBTTool) (resolved : Except ToolError (List Action)) (envjobs : Option Int)
    (outcome : Action → Int × Bool) (events : List Event) : Outcome × Option Run :=
  match runActionsLoad h resolved with
  | Except.error e => (Outcome.returned (some e), none)
  | Except.ok h2 =>
    let r := executeActions h2 envjobs outcome events
    (r.1, some r.2)

/-- The `Index` values of the actions dispatched in a log, in order. -/
def dispatched : List LogEntry → List String
  | [] => []
  | LogEntry.dispatch a :: l => a.Index :: dispatched l
  | LogEntry.finish _ _ :: l => dispatched l

/-- The `Index` values passed to `onActionFinished` in a log, in order. -/
def reported : List LogEntry → List String
  | [] => []
  | LogEntry.dispatch _ :: l => reported l
  | LogEntry.finish index _ :: l => index :: reported l

/-- The diamond `A→B, A→C, B→D, C→D`, listed in the order A, B, C, D. -/
def diamond : List Action :=
  [ { Index := "A", FollowIndex := ["B", "C"] },
    { Index := "B", Dep := ["A"], FollowIndex := ["D"] },
    { Index := "C", Dep := ["A"], FollowIndex := ["D"] },
    { Index := "D", Dep := ["B", "C"] } ]

/-! ## Definitions used to state and prove the properties -/

/-- What one turn of the loop of `getReadyActions` leaves in `allactions`. -/
def readyRec (v : Action) : Action := if noDepend v then { v with Running := true } else v

/-- The ready list without its first entry of the given `Index`. -/
def eraseIndex : List Action → String → List Action
  | [], _ => []
  | v :: rest, index => if v.Index == index then rest else v :: eraseIndex rest index

/-- The test of the branch "copy to ready if no depent" for record `v`, after
the removal of `index` from its `Dep`. -/
def becomesReady (index : String) (v : Action) : Bool :=
  !v.Finished && !v.Running && (v.Dep.erase index).length == 0

/-- What one turn of the loop of the branch `exitcode == 0` leaves in
`allactions`. -/
def updateRec (index : String) (v : Action) : Action :=
  if v.Finished then v
  else if becomesReady index v then { v with Dep := v.Dep.erase index, Running := true }
  else { v with Dep := v.Dep.erase index }

/-- What the loop "update status in allactions" does to the record it stops
at. -/
def markRec (index : String) (v : Action) : Action :=
  if v.Index == index then { v with Finished := true } else v

/-- The state after one turn of the loop of `selectActionsToExecute` that
launches the ready entry `r`, found between `pre` and `post`. -/
def dispatchOne (h : UBTTool) (pre : List Action) (r : Action) (post : List Action) : UBTTool :=
  { h with readyactions := pre ++ { r with Running := true } :: post,
           runningnumber := int32 (h.runningnumber + 1) }

/-- The number of ready entries that are not running. -/
def idle (l : List Action) : Nat := (l.filter (fun r => !r.Running)).length

/-- The call of `onActionFinished` on `h` is the one that reaches
`h.finishednumber >= len(h.allactions)` and only sets `h.finished`. -/
def completes (h : UBTTool) : Prop :=
  int32 (h.finishednumber + 1) ≥ int32 (h.allactions.length : Int)

instance (h : UBTTool) : Decidable (completes h) := by unfold completes; infer_instance

/-- What a call `onActionFinished(index, exitcode)` that does not complete the
run leaves of record `v`, when the `Index` values of `allactions` are unique. -/
def finRec (index : String) (exitcode : Int) (v : Action) : Action :=
  if exitcode == 0 then updateRec index (markRec index v) else markRec index v

/-- The invariants of a run over the action list `acts`. -/
structure Inv (acts : List Action) (s : Run) : Prop where
  idx : s.h.allactions.map Action.Index = acts.map Action.Index
  deps : ∀ b ∈ acts, ∀ v ∈ s.h.allactions, v.Index = b.Index →
    ∀ d ∈ b.Dep, d ∈ v.Dep ∨ LogEntry.finish d 0 ∈ s.log
  ready_rec : ∀ r ∈ s.h.readyactions, ∀ v ∈ s.h.allactions, v.Index = r.Index →
    v.Dep = [] ∧ v.Running = true ∧ v.Finished = false
  ready_in : ∀ r ∈ s.h.readyactions, r.Index ∈ acts.map Action.Index
  ready_nodup : (s.h.readyactions.map Action.Index).Nodup
  ready_unfin : ∀ r ∈ s.h.readyactions, r.Finished = false
  dep_before : ∀ pre a post, s.log = pre ++ LogEntry.dispatch a :: post →
    ∀ b ∈ acts, b.Index = a.Index → ∀ d ∈ b.Dep, LogEntry.finish d 0 ∈ pre
  disp_nodup : (dispatched s.log).Nodup
  disp_ready : ∀ x ∈ dispatched s.log, ∀ r ∈ s.h.readyactions, r.Index = x → r.Running = true
  disp_rec : ∀ x ∈ dispatched s.log, ∀ v ∈ s.h.allactions, v.Index = x → v.Running = true
  pend_disp : ∀ a ∈ s.pending, a.Index ∈ dispatched s.log
  pend_nodup : (s.pending.map Action.Index).Nodup
  pend_unrep : ∀ a ∈ s.pending, a.Index ∉ reported s.log
  rep_disp : ∀ x ∈ reported s.log, x ∈ dispatched s.log
  rep_nodup : (reported s.log).Nodup
  disp_in : ∀ x ∈ dispatched s.log, x ∈ acts.map Action.Index

/-- The run after one launching turn of `selectActionsToExecute`. -/
def Run.dispatchOne (s : Run) (pre : List Action) (r : Action) (post : List Action) : Run :=
  { h := UBT.dispatchOne s.h pre r post,
    pending := s.pending ++ [{ r with Running := true }],
    log := s.log ++ [LogEntry.dispatch { r with Running := true }] }

/-- The action `x` has left the ready list: no ready entry carries its
`Index`, and its record is finished and keeps the `Running` mark it got when
it was copied to the ready list. -/
def Left (x : String) (s : Run) : Prop :=
  x ∉ s.h.readyactions.map Action.Index ∧
    ∀ v ∈ s.h.allactions, v.Index = x → v.Finished = true ∧ v.Running = true

/-- Two actions, the second naming the first twice in its `Dep` list. -/
def twice : List Action :=
  [ { Index := "A" }, { Index := "D", Dep := ["A", "A"] } ]

/-- The tool as `runActions` hands it to `executeActions`: a new tool whose
`allactions` is `acts`, after `getReadyActions`. -/
def loaded (most cont : Bool) (acts : List Action) : UBTTool :=
  getReadyActions { NewUBTTool most cont with allactions := acts }

/-- The value `executeActions` gives to `h.maxjobs`. -/
def jobsOf (envjobs : Option Int) : Int :=
  match envjobs with
  | none => DefaultJobs
  | some m => int32 m

/-- The relation `Descendant acts f x`: in the action list `acts` the action with `Index`
`x` depends on `f`, directly or through other actions. -/
inductive Descendant (acts : List Action) (f : String) : String → Prop where
  | direct (b : Action) : b ∈ acts → f ∈ b.Dep → Descendant acts f b.Index
  | step (b : Action) (y : String) : b ∈ acts → y ∈ b.Dep → Descendant acts f y →
      Descendant acts f b.Index

/-- The outcomes of the scenarios of the spec in which `B` fails: exit code 1
for `B`, exit code 0 for every other action, no error. -/
def failB (a : Action) : Int × Bool := if a.Index = "B" then (1, false) else (0, false)

/-- The counters of the engine against the history of the run:
`runningnumber` counts the launched actions whose result has not been
processed, `finishednumber` the calls of `onActionFinished`. -/
structure Cnt (s : Run) : Prop where
  run : s.h.runningnumber = (s.pending.length : Int)
  fin : s.h.finishednumber = ((reported s.log).length : Int)

/-- What holds in a run whose results so far all had exit code 0, before the
run is complete. -/
structure Prog (acts : List Action) (s : Run) : Prop where
  fin_rep : ∀ v ∈ s.h.allactions, v.Finished = true → v.Index ∈ reported s.log
  dep_sub : ∀ b ∈ acts, ∀ v ∈ s.h.allactions, v.Index = b.Index → ∀ d ∈ v.Dep, d ∈ b.Dep
  dep_nd : ∀ v ∈ s.h.allactions, v.Dep.Nodup
  dep_unrep : ∀ v ∈ s.h.allactions, v.Finished = false → ∀ d ∈ v.Dep, d ∉ reported s.log
  nodep_run : ∀ v ∈ s.h.allactions, v.Finished = false → v.Dep = [] → v.Running = true
  run_ready : ∀ v ∈ s.h.allactions, v.Running = true → v.Finished = false →
    ∃ r ∈ s.h.readyactions, r.Index = v.Index
  run_pend : ∀ r ∈ s.h.readyactions, r.Running = true → ∃ a ∈ s.pending, a.Index = r.Index
  notfin : s.h.finished = false
  room : (reported s.log).length < acts.length

/-- The number of results among the events. -/
def results : List Event → Nat
  | [] => 0
  | Event.result _ :: es => results es + 1
  | Event.tick _ :: es => results es

/-- No tick of the events is one at which `executeActions` gives up. -/
def ticksWithin (events : List Event) : Prop :=
  ∀ t, Event.tick t ∈ events → t ≤ MaxWaitSecs * 1000000000

/-- A numbering of the diamond that grows along its dependencies. -/
def diamondRank (x : String) : Nat := if x = "A" then 0 else if x = "D" then 2 else 1

/-- The run `s` with `h.maxjobs` set to `m`. -/
def Run.setJobs (m : Int) (s : Run) : Run := { s with h := { s.h with maxjobs := m } }

/-- What the loop of `executeActions` does with the result of the pending
action `a` at position `k` (ubttool.go:294-310): it returns, or goes on in a
new state. -/
def afterResult (outcome : Action → Int × Bool) (k : Nat) (a : Action) (s : Run) :
    Sum (Outcome × Run) Run :=
  if ((sentResult outcome a).Exitcode != 0 || (sentResult outcome a).Err) &&
      !s.h.ContinueOnError then
    Sum.inl (Outcome.returned (some (ToolError.actionFailed (sentResult outcome a).Exitcode
      (sentResult outcome a).Err)), s)
  else if (s.finish k a.Index (sentResult outcome a).Exitcode).h.finished then
    Sum.inl (Outcome.returned none, s.finish k a.Index (sentResult outcome a).Exitcode)
  else if (s.finish k a.Index (sentResult outcome a).Exitcode).select.h.runningnumber ≤ 0 then
    Sum.inl (Outcome.returned (some ToolError.ErrorNoActionsToRun),
      (s.finish k a.Index (sentResult outcome a).Exitcode).select)
  else Sum.inr (s.finish k a.Index (sentResult outcome a).Exitcode).select

/-- The ways the loop of `executeActions` can end within `n` results, over
every order in which the results of the pending actions can arrive; a run
that has not returned by then is listed as waiting. -/
def explore (outcome : Action → Int × Bool) : Nat → Run → List (Outcome × Run)
  | 0, s => [(Outcome.waiting, s)]
  | n + 1, s =>
    if s.pending.length = 0 then [(Outcome.waiting, s)]
    else (List.range s.pending.length).flatMap (fun k =>
      match s.pending.get? k with
      | none => []
      | some a =>
        match afterResult outcome k a s with
        | Sum.inl r => [r]
        | Sum.inr s2 => explore outcome n s2)

/-- The ways `executeActions` can end within `n` results for the list `acts`
and `maxjobs = j`. -/
def exploreAll (most cont : Bool) (j : Int) (acts : List Action)
    (outcome : Action → Int × Bool) (n : Nat) : List (Outcome × Run) :=
  if (initRun most cont j acts).select.h.runningnumber ≤ 0 then
    [(Outcome.returned (some ToolError.ErrorNoActionsToRun), (initRun most cont j acts).select)]
  else explore outcome n (initRun most cont j acts).select

/-- Under `ContinueOnError = false`: exit code 0 without error stays, every
other outcome becomes exit code 1 without error. -/
def normFail (outcome : Action → Int × Bool) (a : Action) : Int × Bool :=
  if (outcome a).1 = 0 ∧ (outcome a).2 = false then (0, false) else (1, false)

/-- Under `ContinueOnError = true`: only whether the exit code is 0 counts. -/
def normCode (outcome : Action → Int × Bool) (a : Action) : Int × Bool :=
  (if (outcome a).1 = 0 then 0 else 1, false)

/-- Two runs with the same engine state, the same pending actions and the
same dispatches so far. -/
def Sim (s t : Run) : Prop :=
  s.h = t.h ∧ s.pending = t.pending ∧ dispatched s.log = dispatched t.log

/-- The job bound of a run: `runningnumber` lies between 0 and `maxjobs`, it
counts the launched actions whose result has not been received, and these are
the dispatched actions that `onActionFinished` has not been called for. -/
structure Bnd (s : Run) : Prop where
  lo : 0 ≤ s.h.runningnumber
  hi : s.h.runningnumber ≤ s.h.maxjobs
  run : s.h.runningnumber = (s.pending.length : Int)
  unreported : (dispatched s.log).length = (reported s.log).length + s.pending.length

/-! ## executeOneAction and dealWorkNotFound -/

/-- The two values of `api.ServerErrCode` that `executeOneAction` compares the
return code with; the enumeration is declared in package `controller/pkg/api`,
so the two values are parameters of the embedding. -/
structure RetCodes where
  ServerErrOK : Int
  ServerErrWorkNotFound : Int

/-- What a call of `h.executor.Run` returns: `retcode`, `retmsg`, and whether
`err` is non-nil. -/
structure RunResult where
  retcode : Int
  retmsg : String
  err : Bool
deriving DecidableEq

/-- The record `v1.WorkerChanged`, declared in package `controller/pkg/api/v1`;
`dealWorkNotFound` reads its field `NewWorkID` only. -/
structure WorkerChanged where
  NewWorkID : String
deriving DecidableEq

/-- The calls by which `dealWorkNotFound` changes the executor. -/
inductive ExecCall where
  | SetEnv (workID : String)
  | Update
  | setToolChain
deriving DecidableEq

/-- What `dealWorkNotFound` acts on: `workID` is the value of the environment
variable `env.KeyExecutorControllerWorkID`, `calls` the calls made so far, in
order. -/
structure ExecState where
  workID : String
  calls : List ExecCall
deriving DecidableEq

/-- The function `strings.Split(s, sep)` for a one-character separator, on the
characters of `s`: the pieces between the separators, in order (one piece when
there is no separator). -/
def splitChars (sep : Char) : List Char → List (List Char)
  | [] => [[]]
  | c :: cs =>
    if c = sep then [] :: splitChars sep cs
    else
      match splitChars sep cs with
      | [] => [[c]]
      | piece :: pieces => (c :: piece) :: pieces

/-- The call `strings.Split(s, "|")`. -/
def Split (s : String) : List String := (splitChars '|' s.data).map String.mk

/-- The method `dealWorkNotFound` (ubttool.go:834-862): the new state and whether the
returned error is non-nil. `decJSON` is `codec.DecJSON` into a
`v1.WorkerChanged` (`none` when it returns an error); the pattern
`_ :: second :: _` is `len(msgs) >= 2` with `second = msgs[1]`. The error of
`h.setToolChain()` is dropped by the source. -/
def dealWorkNotFound (decJSON : String → Option WorkerChanged) (st : ExecState)
    (_retcode : Int) (retmsg : String) : ExecState × Bool :=
  if retmsg == "" then (st, false)
  else
    match Split retmsg with
    | _ :: second :: _ =>
      match decJSON second with
      | none => (st, true)
      | some workerid =>
        if workerid.NewWorkID != "" then
          ({ workID := workerid.NewWorkID,
             calls := st.calls ++ [ExecCall.SetEnv workerid.NewWorkID, ExecCall.Update,
               ExecCall.setToolChain] }, false)
        else (st, false)
    | _ => (st, false)

/-- What `executeOneAction` does, in order: a call of `h.executor.Run` (in the
loop turn `attempt`, with what it returned), a `time.Sleep` of `secs`
seconds, the send of the result on `actionchan`. -/
inductive ExecEvent where
  | run (attempt : Nat) (result : RunResult)
  | sleep (secs : Int)
  | send (r : Actionresult)
deriving DecidableEq

/-- The loop `for try := 0; try < 3; try++` of `executeOneAction`
(ubttool.go:518-542). The first argument is the number of turns left,
`attempt` is `try`, `last` holds `retcode, retmsg, err`, and `run st attempt`
is what `h.executor.Run` returns in that turn when the executor is in state
`st`. -/
def tryLoop (codes : RetCodes) (decJSON : String → Option WorkerChanged)
    (run : ExecState → Nat → RunResult) :
    Nat → Nat → Int → ExecState → RunResult → List ExecEvent →
      ExecState × RunResult × List ExecEvent
  | 0, _, _, st, last, tr => (st, last, tr)
  | n + 1, attempt, waitsecs, st, _, tr =>
    let r := run st attempt
    let tr1 := tr ++ [ExecEvent.run attempt r]
    if r.retcode != codes.ServerErrOK then
      if r.retcode == codes.ServerErrWorkNotFound then
        tryLoop codes decJSON run n (attempt + 1) waitsecs
          (dealWorkNotFound decJSON st r.retcode r.retmsg).1 r tr1
      else (st, r, tr1)
    else if r.err then
      tryLoop codes decJSON run n (attempt + 1) (waitsecs * 2) st r
        (tr1 ++ [ExecEvent.sleep waitsecs])
    else (st, r, tr1)

/-- The method `executeOneAction` (ubttool.go:493-557) from the retry loop on: the
state of the executor afterwards and what was done, in order. The command
line built before the loop is an argument of `h.executor.Run` and is part of
`run`. -/
def executeOneAction (codes : RetCodes) (decJSON : String → Option WorkerChanged)
    (run : ExecState → Nat → RunResult) (st : ExecState) (action : Action) :
    ExecState × List ExecEvent :=
  let r := tryLoop codes decJSON run 3 0 5 st { retcode := 0, retmsg := "", err := false } []
  (r.1, r.2.2 ++ [ExecEvent.send
    { Index := action.Index, Exitcode := r.2.1.retcode, Err := r.2.1.err }])

/-- The calls of `h.executor.Run` in a trace: loop turn and result. -/
def runsOf : List ExecEvent → List (Nat × RunResult)
  | [] => []
  | ExecEvent.run attempt result :: l => (attempt, result) :: runsOf l
  | _ :: l => runsOf l

/-- The sleeps of a trace, in seconds. -/
def sleepsOf : List ExecEvent → List Int
  | [] => []
  | ExecEvent.sleep secs :: l => secs :: sleepsOf l
  | _ :: l => sleepsOf l

/-- The results sent in a trace. -/
def sentOf : List ExecEvent → List Actionresult
  | [] => []
  | ExecEvent.send r :: l => r :: sentOf l
  | _ :: l => sentOf l

/-- The traces that `n` turns of the loop of `executeOneAction` can add,
starting in turn `attempt` with `waitsecs = w`: a call that returns the OK
code without error, or a code that is neither OK nor work-not-found, ends
the loop; a call that returns work-not-found is followed by the next turn; a
call that returns the OK code with an error is followed by a sleep of `w`
seconds and the next turn with `w` doubled. -/
inductive Shape (codes : RetCodes) : Nat → Nat → Int → List ExecEvent → Prop where
  | done (attempt : Nat) (w : Int) : Shape codes 0 attempt w []
  | ok (n attempt : Nat) (w : Int) (r : RunResult) :
      r.retcode = codes.ServerErrOK → r.err = false →
      Shape codes (n + 1) attempt w [ExecEvent.run attempt r]
  | fail (n attempt : Nat) (w : Int) (r : RunResult) :
      r.retcode ≠ codes.ServerErrOK → r.retcode ≠ codes.ServerErrWorkNotFound →
      Shape codes (n + 1) attempt w [ExecEvent.run attempt r]
  | notfound (n attempt : Nat) (w : Int) (r : RunResult) (rest : List ExecEvent) :
      r.retcode ≠ codes.ServerErrOK → r.retcode = codes.ServerErrWorkNotFound →
      Shape codes n (attempt + 1) w rest →
      Shape codes (n + 1) attempt w (ExecEvent.run attempt r :: rest)
  | retry (n attempt : Nat) (w : Int) (r : RunResult) (rest : List ExecEvent) :
      r.retcode = codes.ServerErrOK → r.err = true →
      Shape codes n (attempt + 1) (w * 2) rest →
      Shape codes (n + 1) attempt w (ExecEvent.run attempt r :: ExecEvent.sleep w :: rest)

/-- Example values of the two return codes. -/
def sampleCodes : RetCodes := { ServerErrOK := 0, ServerErrWorkNotFound := 6 }

/-- A decoder for the examples: it reads the one document
`{"new_work_id":"work-2"}` and returns an error for every other text. -/
def sampleDecJSON (s : String) : Option WorkerChanged :=
  if s = "\x7b\"new_work_id\":\"work-2\"\x7d" then some { NewWorkID := "work-2" } else none

/-! ## adjustActions4UBAAgent: the host address -/

/-- The template `UbaTemplateHostIP`, the text `${host_ip}`. -/
def UbaTemplateHostIP : String := "$\x7bhost_ip\x7d"

/-- The function `strings.HasPrefix(s, prefix)`, on the characters of the two
strings. -/
def HasPrefix (s pre : String) : Bool := pre.data.isPrefixOf s.data

/-- The function `strings.ContainsAny(s, chars)`: some character of `s` is one
of `chars`. -/
def ContainsAny (s chars : String) : Bool := s.data.any (fun c => chars.data.contains c)

/-- The scan of `strings.Replace(s, old, new, -1)` for a non-empty `old`, on
characters: `skip` counts the characters of a match of `old` still to pass
over; the matches are found from the left and do not overlap. -/
def replaceChars (old new : List Char) : Nat → List Char → List Char
  | _, [] => []
  | skip + 1, _ :: cs => replaceChars old new skip cs
  | 0, c :: cs =>
    if old.isPrefixOf (c :: cs) then new ++ replaceChars old new (old.length - 1) cs
    else c :: replaceChars old new 0 cs

/-- The call `strings.Replace(s, old, new, -1)`, for a non-empty `old`. -/
def Replace (s old new : String) : String := String.mk (replaceChars old.data new.data 0 s.data)

/-- The function `isIPValid` (ubttool.go:159-167). -/
def isIPValid (ip : String) : Bool :=
  if HasPrefix ip "192." || HasPrefix ip "172." || HasPrefix ip "127." then false
  else true

/-- The loop `for _, ipstr := range ips` of `adjustActions4UBAAgent`
(ubttool.go:202-207); the second argument is the local `ip`. -/
def hostIPLoop : List String → String → String
  | [], ip => ip
  | ipstr :: rest, ip => if isIPValid ipstr then ipstr else hostIPLoop rest ip

/-- The address that `adjustActions4UBAAgent` puts in place of `${host_ip}`
(ubttool.go:199-207), for `ips` the result of `util.GetIPAddress()`; `none`
when `len(ips) == 0` and nothing is replaced. -/
def hostIP (ips : List String) : Option String :=
  match ips with
  | [] => none
  | ip0 :: _ => some (hostIPLoop ips ip0)

/-- What `adjustActions4UBAAgent` does to the `Arg` of one action for the host
address (ubttool.go:199-211). -/
def adjustHostIP (ips : List String) (a : Action) : Action :=
  match hostIP ips with
  | none => a
  | some ip =>
    if ContainsAny a.Arg UbaTemplateHostIP then
      { a with Arg := Replace a.Arg UbaTemplateHostIP ip }
    else a

/-- The number written by a run of decimal digits. -/
def digitsToNat (l : List Char) : Nat := l.foldl (fun n c => 10 * n + (c.toNat - 48)) 0

/-- The private ranges as the claim lists them, for a dotted quad:
10.0.0.0/8, 172.16.0.0/12 and 192.168.0.0/16. -/
def inRFC1918 (ip : String) : Bool :=
  match (splitChars '.' ip.data).map digitsToNat with
  | [a, b, _, _] => a == 10 || (a == 172 && 16 ≤ b && b ≤ 31) || (a == 192 && b == 168)
  | _ => false

/-- The address the claim describes: the first address of the list outside
the private ranges, the first address of the list when there is none. -/
def specHostIP (ips : List String) : Option String :=
  match ips.find? (fun ip => !inRFC1918 ip) with
  | some ip => some ip
  | none => ips.head?

/-! ## ServerConfig.Parse: the local slots -/

/-- The four slot settings of `ServerConfig` (config.go:31-34). -/
structure ServerConfig where
  LocalSlots : Int
  LocalPreSlots : Int
  LocalExeSlots : Int
  LocalPostSlots : Int
deriving DecidableEq

/-- The slot normalisation of `ServerConfig.Parse` (config.go:99-117), the
assignments in the order of the source. `numCPU` is `runtime.NumCPU()`, a
count of processors, so that `numCPU - 2` does not overflow; the settings are
compared and copied only. -/
def ServerConfig.Parse (dsc : ServerConfig) (numCPU : Nat) : ServerConfig :=
  let dsc1 := if dsc.LocalSlots == 0 then { dsc with LocalSlots := (numCPU : Int) - 2 } else dsc
  let dsc2 := if dsc1.LocalSlots ≤ 0 then { dsc1 with LocalSlots := 1 } else dsc1
  let dsc3 :=
    if dsc2.LocalPreSlots ≤ 0 || dsc2.LocalPreSlots > dsc2.LocalSlots then
      { dsc2 with LocalPreSlots := dsc2.LocalSlots }
    else dsc2
  let dsc4 :=
    if dsc3.LocalExeSlots ≤ 0 || dsc3.LocalExeSlots > dsc3.LocalSlots then
      { dsc3 with LocalExeSlots := dsc3.LocalSlots }
    else dsc3
  if dsc4.LocalPostSlots ≤ 0 || dsc4.LocalPostSlots > dsc4.LocalSlots then
    { dsc4 with LocalPostSlots := dsc4.LocalSlots }
  else dsc4

/-! ## The booster command: exit codes -/

/-- The error values that `Run` tells apart in `switch err`: `pkg.ErrCompile`,
`pkg.ErrNoLocal` (variables of package `booster/pkg`), or any other non-nil
error. -/
inductive BoosterError where
  | ErrCompile
  | ErrNoLocal
  | other (msg : String)
deriving DecidableEq

/-- The function `Run` of the booster command (command.go:137-149), for `err`
the result of `run(ct)`: `some code` when it calls `os.Exit(code)`, `none`
when it returns without calling `os.Exit`. -/
def Booster.Run (err : Option BoosterError) : Option Nat :=
  match err with
  | none => none
  | some BoosterError.ErrCompile => some 3
  | some BoosterError.ErrNoLocal => some 4
  | some (BoosterError.other _) => some 1

/-- The exit code of the process: the argument of `os.Exit`, and 0 when `Run`
returns and the program ends by returning from `main`. -/
def Booster.exitCode (err : Option BoosterError) : Nat := (Booster.Run err).getD 0

/-! ## The k8s operator: getYAMLFromTemplate -/

def specificPort : Nat := 31000
def envKeyHostPort : String := "HOST_PORT_"
def envKeyRandPort : String := "RAND_PORT_"
def UbaPortName : String := "uba-port"
def UbaPortNumber : Nat := 1345
def UbaProtocol : String := "tcp"
def templateVarImage : String := "__crm_image__"
def templateVarName : String := "__crm_name__"
def templateVarNamespace : String := "__crm_namespace__"
def templateVarInstance : String := "__crm_instance__"
def templateVarCPU : String := "__crm_cpu__"
def templateVarMem : String := "__crm_mem__"
def templateStorage : String := "__crm_storage__"
def templateLimitVarCPU : String := "__crm_limit_cpu__"
def templateLimitVarMem : String := "__crm_limit_mem__"
def templateLimitStorage : String := "__crm_limit_storage__"
def templateVarEnv : String := "__crm_env__"
def templateVarEnvKey : String := "__crm_env_key__"
def templateVarEnvValue : String := "__crm_env_value__"
def templateVarPorts : String := "__crm_ports__"
def templateVarPortsName : String := "__crm_ports_name__"
def templateVarPortsContainer : String := "__crm_ports_container__"
def templateVarPortsHost : String := "__crm_ports_host__"
def templateVarPlatform : String := "__crm_platform__"
def templateVarPlatformKey : String := "__crm_platform_key__"
def templateVarCity : String := "__crm_city__"
def templateVarCityKey : String := "__crm_city_key__"
def templateVarVolumeMounts : String := "__crm_volume_mounts__"
def templateVarVolumes : String := "__crm_volumes__"
def templateVarVolumeMountsName : String := "__crm_volume_mounts_name__"
def templateVarVolumeMountsPath : String := "__crm_volume_mounts_path__"
def templateVarVolumeHostPath : String := "__crm_volume_host_path__"
def templateVarRandPortNames : String := "__crm_rand_port_names__"
def templateVarHostNetwork : String := "__crm_host_network__"

def templateContentEnv : String :=
  "        - name: __crm_env_key__\n" ++
  "          value: __crm_env_value__"

def templateContentPorts : String :=
  "        - name: __crm_ports_name__\n" ++
  "          containerPort: __crm_ports_container__\n" ++
  "          hostPort: __crm_ports_host__"

def templateContentVolumeMounts : String :=
  "        - mountPath: __crm_volume_mounts_path__\n" ++
  "          name: __crm_volume_mounts_name__"

def templateContentVolumes : String :=
  "      - name: __crm_volume_mounts_name__\n" ++
  "        hostPath:\n" ++
  "          path: __crm_volume_host_path__\n" ++
  "          type: DirectoryOrCreate"

/-- The call `strings.ReplaceAll(s, old, new)`, for a non-empty `old`. -/
def ReplaceAll (s old new : String) : String := Replace s old new

/-- The call `strings.ToLower(s)` for a text of ASCII characters: the
upper-case ASCII letters are mapped to lower case and every other character
is kept. For a character outside ASCII Go takes the lower case from the
tables of package `unicode`, which are not embedded; such a text is outside
the domain of this definition, and what is proved of the case of every text
is stated for texts of ASCII characters. -/
def ToLower (s : String) : String := String.mk (s.data.map Char.toLower)

/-- The function `enginePort2K8SPort` (operator.go:1011-1013). -/
def enginePort2K8SPort (name : String) : String := ReplaceAll (ToLower name) "_" "-"

/-- The struct `portsMap` (operator.go:679-682). -/
structure portsMap where
  protocol : String
  port : Nat
deriving DecidableEq

/-- The assignment `m[k] = v` on a Go map, kept as the list of its entries:
the value of an entry with key `k` is replaced, a new entry is added
otherwise. A `range` over the map visits the entries of the list in order;
the order of a map's entries is not fixed by Go, and the properties below do
not depend on it. -/
def mapSet {β : Type} : List (String × β) → String → β → List (String × β)
  | [], k, v => [(k, v)]
  | (k1, v1) :: rest, k, v => if k1 = k then (k, v) :: rest else (k1, v1) :: mapSet rest k v

/-- The lookup `v, ok := m[k]` on a Go map. -/
def mapGet {β : Type} : List (String × β) → String → Option β
  | [], _ => none
  | (k1, v1) :: rest, k => if k1 = k then some v1 else mapGet rest k

/-- The loop `for port := range param.Ports` of `getYAMLFromTemplate`
(operator.go:708-721): `index` is the counter, `env` is `param.Env`, `pm` the
map of ports and `names` is `randPortsNames`. -/
def portsLoop : List (String × String) → Nat → List (String × String) →
    List (String × portsMap) → List String →
    List (String × String) × List (String × portsMap) × List String
  | [], _, env, pm, names => (env, pm, names)
  | (port, protocol) :: rest, index, env, pm, names =>
    let portNum := specificPort + index
    let env1 := mapSet env (envKeyHostPort ++ port) (toString portNum)
    let env2 := mapSet env1 (envKeyRandPort ++ port) (toString portNum)
    let pm1 := mapSet pm port { protocol := protocol, port := portNum }
    portsLoop rest (index + 1) env2 pm1 (names ++ [enginePort2K8SPort port])

/-- The part "add host port to env" and "to support uba listen port" of
`getYAMLFromTemplate` (operator.go:704-730): the environment, the map of
ports and `randPortsNames` it leaves. -/
def launchPorts (platform : String) (ports env : List (String × String)) :
    List (String × String) × List (String × portsMap) × List String :=
  let r := portsLoop ports 0 env [] []
  if platform = "windows" then
    (r.1, mapSet r.2.1 UbaPortName { protocol := UbaProtocol, port := UbaPortNumber },
      r.2.2 ++ [UbaPortName])
  else r

/-- The text of one port in `insertYamlPorts` (operator.go:957-962). -/
def portContent (name : String) (port : portsMap) : String :=
  ReplaceAll
    (ReplaceAll
      (ReplaceAll templateContentPorts templateVarPortsName (enginePort2K8SPort name))
      templateVarPortsContainer (toString port.port))
    templateVarPortsHost (toString port.port)

/-- The function `insertYamlPorts` (operator.go:951-971). -/
def insertYamlPorts (data : String) (ports : List (String × portsMap)) : String :=
  ReplaceAll data templateVarPorts
    (ports.foldl (fun portsYaml e => portsYaml ++ "\n" ++ portContent e.1 e.2) "")

/-- The function `insertYamlEnv` (operator.go:973-984). -/
def insertYamlEnv (data : String) (env : List (String × String)) : String :=
  ReplaceAll data templateVarEnv
    (env.foldl (fun envYaml e => envYaml ++ "\n" ++
      ReplaceAll (ReplaceAll templateContentEnv templateVarEnvKey e.1) templateVarEnvValue e.2) "")

/-- The two fields of `op.BcsVolume` that `insertYamlVolumes` reads. -/
structure BcsVolume where
  ContainerDir : String
  HostDir : String
deriving DecidableEq

/-- The function `insertYamlVolumes` (operator.go:986-1009). -/
def insertYamlVolumes (data : String) (volumes : List (String × BcsVolume)) : String :=
  ReplaceAll
    (ReplaceAll data templateVarVolumeMounts
      (volumes.foldl (fun y e => y ++ "\n" ++
        ReplaceAll (ReplaceAll templateContentVolumeMounts templateVarVolumeMountsPath
          e.2.ContainerDir) templateVarVolumeMountsName e.1) ""))
    templateVarVolumes
    (volumes.foldl (fun y e => y ++ "\n" ++
      ReplaceAll (ReplaceAll templateContentVolumes templateVarVolumeMountsName e.1)
        templateVarVolumeHostPath e.2.HostDir) "")

/-- The fields of `config.InstanceType` (package `server/config`) that
`getYAMLFromTemplate`, `getCPUAndMemIst` and `getFederationResource` read. The
type `α` stands for `float64`: the source compares these values with `<` and
`>`, subtracts, adds and multiplies them, and the embedding takes those
operations from `α`. -/
structure InstanceType (α : Type) where
  CPUPerInstance : α
  MemPerInstance : α
  CPUPerInstanceOffset : α
  MemPerInstanceOffset : α
  CPULimitPerInstance : α
  MemLimitPerInstance : α
  Platform : String := ""
  Group : String := ""

/-- The function `getCPUAndMemIst` (operator.go:366-376). -/
def getCPUAndMemIst {α : Type} [Zero α] [LT α] [DecidableRel (fun a b : α => a < b)] [Sub α]
    (ist : InstanceType α) : α × α :=
  let varCPU :=
    if 0 < ist.CPUPerInstanceOffset ∧ ist.CPUPerInstanceOffset < ist.CPUPerInstance then
      ist.CPUPerInstance - ist.CPUPerInstanceOffset
    else ist.CPUPerInstance
  let varMem :=
    if 0 < ist.MemPerInstanceOffset ∧ ist.MemPerInstanceOffset < ist.MemPerInstance then
      ist.MemPerInstance - ist.MemPerInstanceOffset
    else ist.MemPerInstance
  (varCPU, varMem)

/-- The fields of `config.ContainerResourceConfig` that `getYAMLFromTemplate`
reads through `o.conf`. -/
structure ContainerResourceConfig (α : Type) where
  BcsCPUPerInstance : α
  BcsMemPerInstance : α
  BcsCPUPerInstanceOffset : α
  BcsMemPerInstanceOffset : α
  BcsCPULimitPerInstance : α
  BcsMemLimitPerInstance : α
  BcsStoragePerInstance : α
  BcsStorageLimitPerInstance : α
  InstanceType : List (InstanceType α)

/-- The four locals `varCPU`, `varMem`, `varLimitCPU`, `varLimitMem` of
`getYAMLFromTemplate`. -/
structure Sizes (α : Type) where
  varCPU : α
  varMem : α
  varLimitCPU : α
  varLimitMem : α

/-- The loop `for _, istItem := range o.conf.InstanceType` of
`getYAMLFromTemplate` (operator.go:771-789); `check` is `param.CheckQueueKey`.
The first item that passes the check sets the locals and ends the loop. -/
def instanceLoop {α : Type} [Zero α] [LT α] [DecidableRel (fun a b : α => a < b)] [Sub α]
    (check : InstanceType α → Bool) : List (InstanceType α) → Sizes α → Sizes α
  | [], r => r
  | istItem :: rest, r =>
    if !check istItem then instanceLoop check rest r
    else
      let r1 := if 0 < istItem.CPUPerInstance then { r with varLimitCPU := istItem.CPUPerInstance }
                else r
      let r2 := if 0 < istItem.MemPerInstance then { r1 with varLimitMem := istItem.MemPerInstance }
                else r1
      let r3 := { r2 with varCPU := (getCPUAndMemIst istItem).1,
                          varMem := (getCPUAndMemIst istItem).2 }
      let r4 := if 0 < istItem.CPULimitPerInstance then
                  { r3 with varLimitCPU := istItem.CPULimitPerInstance }
                else r3
      if 0 < istItem.MemLimitPerInstance then
        { r4 with varLimitMem := istItem.MemLimitPerInstance }
      else r4

/-- The part "set instance default value" of `getYAMLFromTemplate`
(operator.go:754-789): the request and the limit of CPU and memory. -/
def instanceSizes {α : Type} [Zero α] [LT α] [DecidableRel (fun a b : α => a < b)] [Sub α]
    (conf : ContainerResourceConfig α) (check : InstanceType α → Bool) : Sizes α :=
  let d := getCPUAndMemIst
    { CPUPerInstance := conf.BcsCPUPerInstance, MemPerInstance := conf.BcsMemPerInstance,
      CPUPerInstanceOffset := conf.BcsCPUPerInstanceOffset,
      MemPerInstanceOffset := conf.BcsMemPerInstanceOffset,
      CPULimitPerInstance := 0, MemLimitPerInstance := 0 }
  let r0 : Sizes α := { varCPU := d.1, varMem := d.2, varLimitCPU := conf.BcsCPUPerInstance,
                        varLimitMem := conf.BcsMemPerInstance }
  let r1 := if 0 < conf.BcsCPULimitPerInstance then
              { r0 with varLimitCPU := conf.BcsCPULimitPerInstance }
            else r0
  let r2 := if 0 < conf.BcsMemLimitPerInstance then
              { r1 with varLimitMem := conf.BcsMemLimitPerInstance }
            else r1
  instanceLoop check conf.InstanceType r2

/-- The fields of `op.BcsLaunchParam` that `getYAMLFromTemplate` reads; the
maps are lists of entries and `CheckQueueKey` is the method of that name
(package `crm/operator`). `Env` is an allocated map. -/
structure BcsLaunchParam (α : Type) where
  Name : String
  Namespace : String
  Image : String
  Instance : Int
  AttributeCondition : List (String × String)
  Env : List (String × String)
  Ports : List (String × String)
  Volumes : List (String × BcsVolume)
  CheckQueueKey : InstanceType α → Bool

/-- The fields of `operator` that `getYAMLFromTemplate` reads, with the two
attribute keys `op.AttributeKeyPlatform` and `op.AttributeKeyCity`, constants
of package `crm/operator`. -/
structure operator (α : Type) where
  conf : ContainerResourceConfig α
  templates : String
  disableWinHostNW : Bool
  platformLabelKey : String
  cityLabelKey : String
  AttributeKeyPlatform : String
  AttributeKeyCity : String

/-- The platform that `getYAMLFromTemplate` settles on (operator.go:692-702),
with the value of `networkValue`. -/
def launchPlatform {α : Type} (o : operator α) (param : BcsLaunchParam α) : String × String :=
  match mapGet param.AttributeCondition o.AttributeKeyPlatform with
  | some v =>
    if v = "windows" ∨ v = "WINDOWS" ∨ v = "win" ∨ v = "WIN" then
      ("windows", if !o.disableWinHostNW then "hostNetwork: true" else "")
    else ("linux", "")
  | none => ("linux", "")

/-- The manifest of `getYAMLFromTemplate` up to the check of the city
(operator.go:732-746): the template with the image, the names, the instance
count, the ports, the environment `env`, the volumes and the platform put
in. -/
def renderHead {α : Type} (o : operator α) (param : BcsLaunchParam α) (platform : String)
    (networkValue : String) (env : List (String × String)) (pm : List (String × portsMap))
    (randPortsNames : List String) : String :=
  let data := o.templates
  let data := ReplaceAll data templateVarImage param.Image
  let data := ReplaceAll data templateVarName param.Name
  let data := ReplaceAll data templateVarNamespace param.Namespace
  let data := ReplaceAll data templateVarInstance (toString param.Instance)
  let data := ReplaceAll data templateVarRandPortNames (String.intercalate "," randPortsNames)
  let data := insertYamlPorts data pm
  let data := insertYamlEnv data env
  let data := insertYamlVolumes data param.Volumes
  let data := ReplaceAll data templateVarHostNetwork networkValue
  let data := ReplaceAll data templateVarPlatform platform
  ReplaceAll data templateVarPlatformKey o.platformLabelKey

/-- The end of `getYAMLFromTemplate` (operator.go:790-803): the requests and
the limits put into the manifest. `fmt2 x` is `fmt.Sprintf("%.2f", x)` and
`thousand` the constant `1000`. -/
def renderSizes {α : Type} [Zero α] [LT α] [DecidableRel (fun a b : α => a < b)] [Mul α]
    (fmt2 : α → String) (thousand : α) (conf : ContainerResourceConfig α) (sizes : Sizes α)
    (data : String) : String :=
  let storageRequest :=
    if 0 < conf.BcsStoragePerInstance then
      "ephemeral-storage: " ++ fmt2 conf.BcsStoragePerInstance ++ "Gi"
    else ""
  let storageLimitRequest :=
    if 0 < conf.BcsStorageLimitPerInstance then
      "ephemeral-storage: " ++ fmt2 conf.BcsStorageLimitPerInstance ++ "Gi"
    else storageRequest
  let data := ReplaceAll data templateVarCPU (fmt2 (sizes.varCPU * thousand))
  let data := ReplaceAll data templateVarMem (fmt2 sizes.varMem)
  let data := ReplaceAll data templateStorage storageRequest
  let data := ReplaceAll data templateLimitVarCPU (fmt2 (sizes.varLimitCPU * thousand))
  let data := ReplaceAll data templateLimitVarMem (fmt2 sizes.varLimitMem)
  ReplaceAll data templateLimitStorage storageLimitRequest

/-- The method `getYAMLFromTemplate` (operator.go:690-805): `param.Env` as the call
leaves it, and the manifest or the error. -/
def getYAMLFromTemplate {α : Type} [Zero α] [LT α] [DecidableRel (fun a b : α => a < b)]
    [Sub α] [Mul α] (fmt2 : α → String) (thousand : α) (o : operator α)
    (param : BcsLaunchParam α) : List (String × String) × Except String String :=
  let platform := (launchPlatform o param).1
  let networkValue := (launchPlatform o param).2
  let r := launchPorts platform param.Ports param.Env
  let data := renderHead o param platform networkValue r.1 r.2.1 r.2.2
  match mapGet param.AttributeCondition o.AttributeKeyCity with
  | none => (r.1, Except.error "unknown city for yaml")
  | some city =>
    let data := ReplaceAll data templateVarCity city
    let data := ReplaceAll data templateVarCityKey o.cityLabelKey
    (r.1, Except.ok (renderSizes fmt2 thousand o.conf
      (instanceSizes o.conf param.CheckQueueKey) data))

/-- The values of the examples: whole numbers for `float64`, written with two
decimals. -/
def fmt2Int (x : Int) : String := toString x ++ ".00"

/-- An operator for the examples, with a template that holds the ports, the
environment, the requests and the limits. -/
def sampleOperator : operator Int :=
  { conf := { BcsCPUPerInstance := 8, BcsMemPerInstance := 16, BcsCPUPerInstanceOffset := 1,
              BcsMemPerInstanceOffset := 2, BcsCPULimitPerInstance := 0,
              BcsMemLimitPerInstance := 0, BcsStoragePerInstance := 0,
              BcsStorageLimitPerInstance := 0, InstanceType := [] },
    templates := "ports:__crm_ports__\nenv:__crm_env__\nrequests: __crm_cpu__m __crm_mem__\nlimits: __crm_limit_cpu__m __crm_limit_mem__",
    disableWinHostNW := false, platformLabelKey := "kubernetes.io/os",
    cityLabelKey := "city", AttributeKeyPlatform := "platform", AttributeKeyCity := "city" }

/-- A launch on Linux with two logical ports. -/
def sampleParam : BcsLaunchParam Int :=
  { Name := "svc", Namespace := "ns", Image := "img", Instance := 1,
    AttributeCondition := [("city", "sz")],
    Env := [], Ports := [("SERVICE_PORT", "http"), ("STATS_PORT", "http")], Volumes := [],
    CheckQueueKey := fun _ => false }

/-- A launch on Windows with one logical port, named like the auxiliary port
of Windows services. -/
def ubaParam : BcsLaunchParam Int :=
  { Name := "svc", Namespace := "ns", Image := "img", Instance := 1,
    AttributeCondition := [("platform", "windows"), ("city", "sz")],
    Env := [], Ports := [("uba-port", "tcp")], Volumes := [],
    CheckQueueKey := fun _ => false }

/-- The instance whose sizes `getYAMLFromTemplate` takes: the first item of
`o.conf.InstanceType` that passes `param.CheckQueueKey`, the defaults of the
configuration when there is none. -/
def chosenInstance {α : Type} [Zero α] (conf : ContainerResourceConfig α)
    (check : InstanceType α → Bool) : InstanceType α :=
  match conf.InstanceType.find? check with
  | some ist => ist
  | none =>
    { CPUPerInstance := conf.BcsCPUPerInstance, MemPerInstance := conf.BcsMemPerInstance,
      CPUPerInstanceOffset := conf.BcsCPUPerInstanceOffset,
      MemPerInstanceOffset := conf.BcsMemPerInstanceOffset,
      CPULimitPerInstance := 0, MemLimitPerInstance := 0 }

deriving instance DecidableEq for Except

/-! ## The k8s operator: getServerStatus -/

/-- The call `strings.ToUpper(s)` for a text of ASCII characters: the
lower-case ASCII letters are mapped to upper case and every other character
is kept. For a character outside ASCII Go takes the upper case from the
tables of package `unicode`, which are not embedded; such a text is outside
the domain of this definition. -/
def ToUpper (s : String) : String := String.mk (s.data.map Char.toUpper)

/-- The function `k8sPort2EnginePort` (operator.go:1015-1017). -/
def k8sPort2EnginePort (name : String) : String := ReplaceAll (ToUpper name) "-" "_"

/-- The values of `op.ServiceInfo.Status` that the operator assigns; `unset`
is the value of the field in `&op.ServiceInfo{}`, before `getDeployments`
assigns it. -/
inductive ServiceStatus where
  | unset
  | ServiceStatusStaging
  | ServiceStatusRunning
deriving DecidableEq

/-- The record `op.Endpoint`; the map `Ports` is the list of its entries. -/
structure Endpoint where
  IP : String
  Ports : List (String × Int)
  Name : String
deriving DecidableEq

/-- The fields of `op.ServiceInfo` that `getServerStatus` fills. -/
structure ServiceInfo where
  Status : ServiceStatus
  RequestInstances : Int
  CurrentInstances : Int
  AvailableEndpoints : List Endpoint
deriving DecidableEq

/-- The two fields of `appsV1.DeploymentStatus` that `getDeployments` reads. -/
structure DeploymentStatus where
  Replicas : Int
  UnavailableReplicas : Int
deriving DecidableEq

/-- The two fields of `coreV1.ContainerPort` that `getPods` reads. -/
structure ContainerPort where
  Name : String
  HostPort : Int
deriving DecidableEq

/-- The fields of `coreV1.Pod` that `getPods` reads: `Phase` is
`pod.Status.Phase`, `ContainerStatuses` the length of
`pod.Status.ContainerStatuses`, and `Containers` holds the `Ports` of each
container of `pod.Spec.Containers`. -/
structure Pod where
  Name : String
  Phase : String
  HostIP : String
  ContainerStatuses : Nat
  Containers : List (List ContainerPort)
deriving DecidableEq

/-- The phase `coreV1.PodRunning`. -/
def PodRunning : String := "Running"

/-- The phase `coreV1.PodPending`. -/
def PodPending : String := "Pending"

/-- The method `getDeployments` (operator.go:521-545): `client` is the result of
`o.getClientSet`, `deploy` the result of the `Get` of the deployment; the
result is the error or `info` as the method leaves it. -/
def getDeployments (client : Option String) (deploy : Except String DeploymentStatus)
    (info : ServiceInfo) : Except String ServiceInfo :=
  match client with
  | some err => Except.error err
  | none =>
    match deploy with
    | Except.error err => Except.error err
    | Except.ok status =>
      let info1 := { info with Status := ServiceStatus.ServiceStatusRunning,
                               RequestInstances := status.Replicas }
      if status.UnavailableReplicas > 0 || status.Replicas == 0 then
        Except.ok { info1 with Status := ServiceStatus.ServiceStatusStaging }
      else Except.ok info1

/-- The ports of an endpoint (operator.go:580-586): the loop over
`pod.Spec.Containers[0].Ports`, with `ports` the map built so far. -/
def endpointPorts : List ContainerPort → List (String × Int) → List (String × Int)
  | [], ports => ports
  | port :: rest, ports =>
    endpointPorts rest (mapSet ports (k8sPort2EnginePort port.Name) port.HostPort)

/-- The loop over `podList.Items` of `getPods` (operator.go:560-593): the
status and the endpoints collected so far, and what they are after the
loop. -/
def podsLoop : List Pod → ServiceStatus → List Endpoint → ServiceStatus × List Endpoint
  | [], status, eps => (status, eps)
  | pod :: rest, status, eps =>
    if pod.Phase != PodRunning then
      if status != ServiceStatus.ServiceStatusStaging && pod.Phase == PodPending then
        podsLoop rest ServiceStatus.ServiceStatusStaging eps
      else podsLoop rest status eps
    else if pod.ContainerStatuses ≤ 0 || pod.Containers.length ≤ 0 then
      podsLoop rest status eps
    else
      match pod.Containers with
      | [] => podsLoop rest status eps
      | container :: _ =>
        podsLoop rest status
          (eps ++ [{ IP := pod.HostIP, Ports := endpointPorts container [], Name := pod.Name }])

/-- The method `getPods` (operator.go:547-603): `client` is the result of
`o.getClientSet`, `items` is `podList.Items`; an error of the `List` call is
logged and the method goes on with the list it got. -/
def getPods (client : Option String) (items : List Pod) (info : ServiceInfo) :
    Except String ServiceInfo :=
  match client with
  | some err => Except.error err
  | none =>
    let r := podsLoop items info.Status []
    let status :=
      if info.RequestInstances > (items.length : Int) &&
          r.1 != ServiceStatus.ServiceStatusStaging then
        ServiceStatus.ServiceStatusStaging
      else r.1
    Except.ok { info with Status := status, CurrentInstances := (r.2.length : Int),
                          AvailableEndpoints := r.2 }

/-- The method `getServerStatus` (operator.go:503-519); `client1` and `client2` are the
results of the two calls of `o.getClientSet`. -/
def getServerStatus (client1 client2 : Option String) (deploy : Except String DeploymentStatus)
    (items : List Pod) : Except String ServiceInfo :=
  match getDeployments client1 deploy
      { Status := ServiceStatus.unset, RequestInstances := 0, CurrentInstances := 0,
        AvailableEndpoints := [] } with
  | Except.error err => Except.error err
  | Except.ok info => getPods client2 items info

/-! ## The k8s operator: releaseServer -/

/-- The scan of `strings.Contains(s, substr)`, on characters. -/
def containsChars (sub : List Char) : List Char → Bool
  | [] => sub.isPrefixOf []
  | c :: cs => sub.isPrefixOf (c :: cs) || containsChars sub cs

/-- The call `strings.Contains(s, substr)`. -/
def Contains (s substr : String) : Bool := containsChars substr.data s.data

/-- The method `releaseServer` (operator.go:646-677): `client` is the error of
`o.getClientSet` (`none` for nil), `delete` the error of the `Delete` of the
deployment, given by its text; the result is the returned error. -/
def releaseServer (client : Option String) (delete : Option String) : Option String :=
  match client with
  | some err => some err
  | none =>
    match delete with
    | some err => if Contains err "not found" then none else some err
    | none => none

/-- The deployments of a cluster, by namespace and name, as the API server
keeps them. -/
structure Cluster where
  deployments : List (String × String)
deriving DecidableEq

/-- The answer of the API server to the `Delete` of a deployment: a
deployment that exists is removed, and for one that does not exist the
answer is the not-found error of the server, whose text is
`deployments.apps "<name>" not found`. -/
def Cluster.Delete (c : Cluster) (ns name : String) : Option String × Cluster :=
  if (ns, name) ∈ c.deployments then
    (none, { deployments := c.deployments.filter (fun d => d ≠ (ns, name)) })
  else (some ("deployments.apps \"" ++ name ++ "\" not found"), c)

/-- The call `ReleaseServer(clusterID, namespace, name)` against a cluster
whose client set can be obtained: the returned error and the cluster
afterwards. -/
def ReleaseServer (c : Cluster) (ns name : String) : Option String × Cluster :=
  (releaseServer none (c.Delete ns name).1, (c.Delete ns name).2)

/-! ## The k8s operator: the cache of client sets -/

/-- The struct `clusterClientSet` (operator.go:151-154): `clientSet` names the
`kubernetes.Clientset` it points to, `timeoutTime` is a time in
nanoseconds. -/
structure clusterClientSet where
  clientSet : Nat
  timeoutTime : Int
deriving DecidableEq

/-- The duration `1 * time.Minute`, in nanoseconds. -/
def Minute : Int := 60000000000

/-- The method `getClientSetFromCache` (operator.go:836-847): `cache` is
`o.clusterClientCache`, `now` is `time.Now().Local()`; `some cs` stands for
`(cs, true)` and `none` for a result whose second component is false. -/
def getClientSetFromCache (cache : List (String × clusterClientSet)) (clusterID : String)
    (now : Int) : Option clusterClientSet :=
  match mapGet cache clusterID with
  | some cs => if cs.timeoutTime < now then none else some cs
  | none => none

/-- What a call of `getClientSet` gives: the client set or the error, the
cache afterwards, and whether a new client set was built. -/
structure ClientSetResult where
  result : Except String clusterClientSet
  cache : List (String × clusterClientSet)
  built : Bool
deriving DecidableEq

/-- The methods `generateClient`, `generateNativeClient` and `generateBCSClient`
(operator.go:849-932): `build` is the outcome of building the
`kubernetes.Clientset` (from the kubeconfig or for the BCS host), `now` is
`time.Now().Local()`. -/
def generateClient (cache : List (String × clusterClientSet)) (clusterID : String)
    (build : Except String Nat) (now : Int) : ClientSetResult :=
  match build with
  | Except.error err => { result := Except.error err, cache := cache, built := false }
  | Except.ok clientSet =>
    { result := Except.ok { clientSet := clientSet, timeoutTime := now + Minute },
      cache := mapSet cache clusterID { clientSet := clientSet, timeoutTime := now + Minute },
      built := true }

/-- The method `getClientSet` (operator.go:808-834). `cache1` is the cache at the first
check and `cache2` the cache at the second check, under the lock of the
cluster (another goroutine may have stored a client set in between); `now1`,
`now2`, `now3` are the readings of the clock at the two checks and in
`generateClient`. -/
def getClientSet (cache1 cache2 : List (String × clusterClientSet)) (clusterID : String)
    (now1 now2 now3 : Int) (build : Except String Nat) : ClientSetResult :=
  match getClientSetFromCache cache1 clusterID now1 with
  | some cs => { result := Except.ok cs, cache := cache1, built := false }
  | none =>
    match getClientSetFromCache cache2 clusterID now2 with
    | some cs => { result := Except.ok cs, cache := cache2, built := false }
    | none => generateClient cache2 clusterID build now3

/-! ## The k8s operator: getFederationResource -/

/-- The struct `FederationResult` (operator.go:359-364), with `Total` for
`Data.Total`. -/
structure FederationResult where
  Code : Int
  Msg : String
  Total : Int
deriving DecidableEq

/-- The fields of `op.NodeInfo` that `getFederationResource` sets. -/
structure NodeInfo (α : Type) where
  IP : String
  Hostname : String
  DiskLeft : α
  MemUsed : α
  CPUUsed : α
  DiskUsed : α
  CPUTotal : α
  MemTotal : α
  Attributes : List (String × String)

/-- What `resourceUsed` holds after the loop over `podList.Items`
(operator.go:455-472), the sum of the limits of the pods of the instance
type that have not ended: the integers `resourceUsed.Cpu().Value()`,
`resourceUsed.Memory().Value()` and `resourceUsed.StorageEphemeral().Value()`
of the k8s quantities. -/
structure ResourceUsed where
  Cpu : Int
  Memory : Int
  StorageEphemeral : Int
deriving DecidableEq

/-- The errors that `getFederationResource` returns. -/
inductive FederationError where
  | namespaceNil
  | podList (err : String)
  | request (err : String)
  | resultNil
  | code (code : Int) (msg : String)
deriving DecidableEq

/-- The `op.NodeInfo` that `getFederationResource` appends for the instance
type `ist` (operator.go:473-488). `ofInt` is the conversion `float64(...)` of
an integer and `k1024` the constant `1024`. -/
def federationNode {α : Type} [Add α] [Mul α] [Div α] (ofInt : Int → α) (k1024 : α)
    (clusterID BcsNamespace AttributeKeyPlatform AttributeKeyCity : String)
    (ist : InstanceType α) (total : Int) (used : ResourceUsed) : NodeInfo α :=
  { IP := clusterID ++ "-" ++ BcsNamespace ++ "-" ++ ist.Platform ++ "-" ++ ist.Group,
    Hostname := clusterID ++ "-" ++ BcsNamespace ++ "-" ++ ist.Platform ++ "-" ++ ist.Group,
    DiskLeft := ofInt total,
    MemUsed := ofInt used.Memory / k1024 / k1024,
    CPUUsed := ofInt used.Cpu,
    DiskUsed := ofInt used.StorageEphemeral,
    CPUTotal := ofInt used.Cpu + ofInt total * ist.CPUPerInstance,
    MemTotal := ofInt used.Memory / k1024 / k1024 + ofInt total * ist.MemPerInstance,
    Attributes := mapSet (mapSet [] AttributeKeyPlatform ist.Platform) AttributeKeyCity
      ist.Group }

/-- The loop `for _, ist := range o.conf.InstanceType` of
`getFederationResource` (operator.go:438-490). `reply i` is what
`getFederationTotalNum` returns in turn `i` (the error, a nil result, or the
result) and `used i` is `resourceUsed` of that turn; `nodeInfoList` is the
list built so far. -/
def federationLoop {α : Type} [Add α] [Mul α] [Div α] (ofInt : Int → α) (k1024 : α)
    (clusterID BcsNamespace AttributeKeyPlatform AttributeKeyCity : String)
    (reply : Nat → Except String (Option FederationResult)) (used : Nat → ResourceUsed) :
    List (InstanceType α) → Nat → List (NodeInfo α) →
      List (NodeInfo α) × Option FederationError
  | [], _, nodeInfoList => (nodeInfoList, none)
  | ist :: rest, i, nodeInfoList =>
    match reply i with
    | Except.error err => (nodeInfoList, some (FederationError.request err))
    | Except.ok none => (nodeInfoList, some FederationError.resultNil)
    | Except.ok (some result) =>
      if result.Code != 0 then
        (nodeInfoList, some (FederationError.code result.Code result.Msg))
      else
        federationLoop ofInt k1024 clusterID BcsNamespace AttributeKeyPlatform AttributeKeyCity
          reply used rest (i + 1)
          (nodeInfoList ++ [federationNode ofInt k1024 clusterID BcsNamespace
            AttributeKeyPlatform AttributeKeyCity ist result.Total (used i)])

/-- The method `getFederationResource` (operator.go:431-501): the list and the error
it returns (`none` for the nil list of the first return). `podList` is the
error of `o.getPodList`, if any. -/
def getFederationResource {α : Type} [Add α] [Mul α] [Div α] (ofInt : Int → α) (k1024 : α)
    (clusterID BcsNamespace AttributeKeyPlatform AttributeKeyCity : String)
    (instanceTypes : List (InstanceType α)) (podList : Option String)
    (reply : Nat → Except String (Option FederationResult)) (used : Nat → ResourceUsed) :
    Option (List (NodeInfo α)) × Option FederationError :=
  if BcsNamespace == "" then (none, some FederationError.namespaceNil)
  else
    match podList with
    | some err => (some [], some (FederationError.podList err))
    | none =>
      let r := federationLoop ofInt k1024 clusterID BcsNamespace AttributeKeyPlatform
        AttributeKeyCity reply used instanceTypes 0 []
      (some r.1, r.2)

/-- An instance type for the examples: 4 CPU and 8192 MiB (8 Gi) of memory
per instance. -/
def sampleInstanceType : InstanceType Int :=
  { CPUPerInstance := 4, MemPerInstance := 8192, CPUPerInstanceOffset := 0,
    MemPerInstanceOffset := 0, CPULimitPerInstance := 0, MemLimitPerInstance := 0,
    Platform := "linux", Group := "A" }

/-! ## The handlers of api v2: ReleaseResource and SendMessage -/

/-- The values of `api.ServerErrCode` that `ReleaseResource` and `SendMessage`
answer with; the enumeration is declared in package `server/pkg/api`, so the
values are parameters of the embedding. -/
structure ServerErrCodes where
  ServerErrInvalidParam : Int
  ServerErrReleaseResourceFailed : Int
  ServerErrSendMessageFailed : Int
  ServerErrUnknownMessageType : Int

/-- The fields of `api.RestResponse` that the handlers set, next to `Resp`. A
field that the literal of the handler leaves out has its zero value: `0` for
`ErrCode`, `""` for `Message`, `none` (nil) for `Data`. -/
structure RestResponse where
  ErrCode : Int := 0
  Message : String := ""
  Data : Option String := none
deriving DecidableEq

/-- The record `ParamRelease`, the decoded body of a release request. -/
structure ParamRelease where
  TaskID : String
  Message : String
  Success : Bool
  Extra : String
deriving DecidableEq

/-- The record `manager.TaskReleaseParam`. -/
structure TaskReleaseParam where
  TaskID : String
  Message : String
  Success : Bool
  Extra : String
deriving DecidableEq

/-- The error values that `defaultManager.ReleaseTask` returns: the two
variables `engine.ErrorUnterminatedTaskNoFound` and
`types.ErrorTaskAlreadyTerminated`, which `ReleaseResource` recognises with
`==`, and any other error value, with its text. -/
inductive ReleaseError where
  | ErrorUnterminatedTaskNoFound
  | ErrorTaskAlreadyTerminated
  | other (text : String)
deriving DecidableEq

/-- The method `Error()` of an error of `ReleaseTask`; the texts of the two
variables, declared in packages `server/pkg/engine` and `server/pkg/types`,
are `textNoFound` and `textTerminated`. -/
def ReleaseError.Error (textNoFound textTerminated : String) : ReleaseError → String
  | ReleaseError.ErrorUnterminatedTaskNoFound => textNoFound
  | ReleaseError.ErrorTaskAlreadyTerminated => textTerminated
  | ReleaseError.other text => text

/-- The function `getReleaseParam` (handler.go:310-332). `body` is what
`ioutil.ReadAll` returns and `DecJSON` what `codec.DecJSON` decodes a body
to. -/
def getReleaseParam (body : Except String String)
    (DecJSON : String → Except String ParamRelease) : Except String TaskReleaseParam :=
  match body with
  | Except.error err => Except.error err
  | Except.ok body =>
    match DecJSON body with
    | Except.error err => Except.error err
    | Except.ok protocol =>
      Except.ok
        { TaskID := protocol.TaskID, Message := protocol.Message, Success := protocol.Success,
          Extra := protocol.Extra }

/-- The handler `ReleaseResource` (handler.go:163-187): the `api.RestResponse`
it passes to `api.ReturnRest`. `ReleaseTask` is the method of
`defaultManager`. -/
def ReleaseResource (codes : ServerErrCodes) (textNoFound textTerminated : String)
    (body : Except String String) (DecJSON : String → Except String ParamRelease)
    (ReleaseTask : TaskReleaseParam → Option ReleaseError) : RestResponse :=
  match getReleaseParam body DecJSON with
  | Except.error err => { ErrCode := codes.ServerErrInvalidParam, Message := err }
  | Except.ok param =>
    match ReleaseTask param with
    | some err =>
      if err = ReleaseError.ErrorUnterminatedTaskNoFound
          ∨ err = ReleaseError.ErrorTaskAlreadyTerminated then
        { Message := err.Error textNoFound textTerminated }
      else
        { ErrCode := codes.ServerErrReleaseResourceFailed,
          Message := err.Error textNoFound textTerminated }
    | none => {}

/-- The record `ParamMessage`, the decoded body of a message request; the field
`Type_` is the field `Type` of the source. -/
structure ParamMessage where
  Type_ : String
  TaskID : String
  ProjectID : String
  Scene : String
  Extra : String
deriving DecidableEq

/-- The function `getMessageParam` (handler.go:234-254). `MessageTask` is the
constant of that name, `GetProjectIDWithScene` the function of package
`common/types`. -/
def getMessageParam (MessageTask : String) (GetProjectIDWithScene : String → String → String)
    (body : Except String String) (DecJSON : String → Except String ParamMessage) :
    Except String ParamMessage :=
  match body with
  | Except.error err => Except.error err
  | Except.ok body =>
    match DecJSON body with
    | Except.error err => Except.error err
    | Except.ok protocol =>
      let protocol := if protocol.Type_ = "" then { protocol with Type_ := MessageTask } else protocol
      Except.ok { protocol with
        ProjectID := GetProjectIDWithScene protocol.ProjectID protocol.Scene }

/-- How a handler ends: it passes a response to `api.ReturnRest`, or it panics
because it calls the method `Error()` of a nil `error`. -/
inductive Answer where
  | rest (r : RestResponse)
  | nilDereference
deriving DecidableEq

/-- The handler `SendMessage` (handler.go:72-113). The variable `err` is the
one that `getMessageParam` assigned; it is nil when the `switch` is
reached, and the `default` branch calls `err.Error()` on it.
`SendTaskMessage` and `SendProjectMessage` are the methods of
`defaultManager`. -/
def SendMessage (codes : ServerErrCodes) (MessageTask MessageProject : String)
    (GetProjectIDWithScene : String → String → String)
    (body : Except String String) (DecJSON : String → Except String ParamMessage)
    (SendTaskMessage SendProjectMessage : String → String → Except String String) : Answer :=
  match getMessageParam MessageTask GetProjectIDWithScene body DecJSON with
  | Except.error err =>
    Answer.rest { ErrCode := codes.ServerErrInvalidParam, Message := err }
  | Except.ok param =>
    let err : Option String := none
    if param.Type_ = MessageTask then
      match SendTaskMessage param.TaskID param.Extra with
      | Except.error err =>
        Answer.rest { ErrCode := codes.ServerErrSendMessageFailed, Message := err }
      | Except.ok data => Answer.rest { Data := some data }
    else if param.Type_ = MessageProject then
      if param.ProjectID = "" then
        Answer.rest { ErrCode := codes.ServerErrSendMessageFailed, Message := "null project id" }
      else
        match SendProjectMessage param.ProjectID param.Extra with
        | Except.error err =>
          Answer.rest { ErrCode := codes.ServerErrSendMessageFailed, Message := err }
        | Except.ok data => Answer.rest { Data := some data }
    else
      match err with
      | none => Answer.nilDereference
      | some err =>
        Answer.rest { ErrCode := codes.ServerErrUnknownMessageType, Message := err }

/-- Values of the error codes for the examples, all different from the zero
value. -/
def sampleErrCodes : ServerErrCodes :=
  { ServerErrInvalidParam := 1, ServerErrReleaseResourceFailed := 2,
    ServerErrSendMessageFailed := 3, ServerErrUnknownMessageType := 4 }

/-- A decoder for the examples: every body decodes to the release of task
`t1`. -/
def sampleDecRelease : String → Except String ParamRelease :=
  fun _ => Except.ok { TaskID := "t1", Message := "", Success := true, Extra := "" }

/-- A decoder for the examples: the body is taken as the `Type` of a message
for task `t1`. -/
def sampleDecMessage : String → Except String ParamMessage :=
  fun body => Except.ok
    { Type_ := body, TaskID := "t1", ProjectID := "p1", Scene := "", Extra := "" }

/-! ## The clock of executeActions -/

/-- What the `select` of `executeActions` receives, with the time (in
nanoseconds) at which it is received: the result of the pending action at
position `pos`, or a tick of the ticker of the current loop turn. -/
inductive TimedEvent where
  | result (pos : Nat) (time : Nat)
  | tick (time : Nat)
deriving DecidableEq

/-- The events of the loop of `executeActions` (ubttool.go:290-321) for what
it receives at given times. Every turn of the `for` starts with
`starttime := time.Now()`; `starttime` is the time at which the turn
starts, which is the time at which the event of the turn before was received
(the handling of an event is taken to cost no time). The value
`curtime.Sub(starttime)` of a tick is the time of the tick less the
`starttime` of its turn. -/
def clockEvents : Nat → List TimedEvent → List Event
  | _, [] => []
  | _, TimedEvent.result pos time :: es => Event.result pos :: clockEvents time es
  | starttime, TimedEvent.tick time :: es =>
    Event.tick (time - starttime) :: clockEvents time es

/-- The ticks of `n` loop turns in which no result arrives: the ticker of a
turn is made by `time.NewTicker(TickSecs * time.Second)` when the turn starts,
at `starttime`, and fires `TickSecs` seconds later. -/
def tickTimes : Nat → Nat → List TimedEvent
  | _, 0 => []
  | starttime, n + 1 =>
    TimedEvent.tick (starttime + TickSecs * 1000000000)
      :: tickTimes (starttime + TickSecs * 1000000000) n

/-- The time of the last event of a list, `start` when there is none. -/
def lastTime : Nat → List TimedEvent → Nat
  | start, [] => start
  | _, TimedEvent.result _ time :: es => lastTime time es
  | _, TimedEvent.tick time :: es => lastTime time es

/-! ## Port names between the engine and k8s -/

/-- The characters of a logical port name: upper-case ASCII letters, digits
and the underscore. -/
def portNameChars : List Char := "ABCDEFGHIJKLMNOPQRSTUVWXYZ0123456789_".data

/-- The container ports that the text of `insertYamlPorts` declares for the
map `ports` (operator.go:955-966, `templateContentPorts`): for each entry a
port with `name: enginePort2K8SPort(name)` and `hostPort: port.port`. -/
def declaredPorts (ports : List (String × portsMap)) : List ContainerPort :=
  ports.map (fun e => { Name := enginePort2K8SPort e.1, HostPort := (e.2.port : Int) })

/-- An operator for the examples whose configuration holds two instance
types: the defaults are 8 CPU and 16 of memory, the instance type of group
`B` has 4 CPU with an offset of 1 and 8 of memory without offset, and no
limit is set anywhere. -/
def sampleIstOperator : operator Int :=
  { conf := { BcsCPUPerInstance := 8, BcsMemPerInstance := 16, BcsCPUPerInstanceOffset := 1,
              BcsMemPerInstanceOffset := 2, BcsCPULimitPerInstance := 0,
              BcsMemLimitPerInstance := 0, BcsStoragePerInstance := 0,
              BcsStorageLimitPerInstance := 0,
              InstanceType :=
                [{ CPUPerInstance := 2, MemPerInstance := 4, CPUPerInstanceOffset := 0,
                   MemPerInstanceOffset := 0, CPULimitPerInstance := 0,
                   MemLimitPerInstance := 0, Platform := "linux", Group := "A" },
                 { CPUPerInstance := 4, MemPerInstance := 8, CPUPerInstanceOffset := 1,
                   MemPerInstanceOffset := 0, CPULimitPerInstance := 0,
                   MemLimitPerInstance := 0, Platform := "linux", Group := "B" }] },
    templates := "requests: __crm_cpu__m __crm_mem__\nlimits: __crm_limit_cpu__m __crm_limit_mem__",
    disableWinHostNW := false, platformLabelKey := "kubernetes.io/os",
    cityLabelKey := "city", AttributeKeyPlatform := "platform", AttributeKeyCity := "city" }

/-- A launch on Linux whose queue key matches the instance types of group
`B`. -/
def sampleIstParam : BcsLaunchParam Int :=
  { Name := "svc", Namespace := "ns", Image := "img", Instance := 1,
    AttributeCondition := [("city", "sz")],
    Env := [], Ports := [], Volumes := [],
    CheckQueueKey := fun ist => ist.Group == "B" }

/-- The text of one ports entry of the manifest: `templateContentPorts` with
the k8s name of the port `name` in place of the name and `number` in place of
the container port and of the host port. -/
def portEntry (name : String) (number : Nat) : String :=
  "        - name: " ++ enginePort2K8SPort name ++ "\n          containerPort: " ++
    toString number ++ "\n          hostPort: " ++ toString number

/-- A launch on Windows with one logical port. -/
def sampleWinParam : BcsLaunchParam Int :=
  { Name := "svc", Namespace := "ns", Image := "img", Instance := 1,
    AttributeCondition := [("platform", "windows"), ("city", "sz")],
    Env := [], Ports := [("SERVICE_PORT", "tcp")], Volumes := [],
    CheckQueueKey := fun _ => false }

/-- A running pod of a launch: its first container declares the ports of the
text that `insertYamlPorts` makes for the map `pm`. -/
def launchedPod (pm : List (String × portsMap)) : Pod :=
  { Name := "pod-0", Phase := PodRunning, HostIP := "10.0.0.1", ContainerStatuses := 1,
    Containers := [declaredPorts pm] }

/-! # Theorems -/

/-! ## The loops as list operations -/

theorem getReadyLoop_eq (all ready : List Action) :
    getReadyLoop all ready = (all.map readyRec, ready ++ all.filter noDepend) := by
  induction all generalizing ready with
  | nil => simp [getReadyLoop]
  | cons v rest ih =>
    by_cases hv : noDepend v = true
    · simp [getReadyLoop, hv, ih, readyRec]
    · simp [getReadyLoop, hv, ih, readyRec]

theorem deleteReadyLoop_eq (pre l : List Action) (index : String) :
    deleteReadyLoop (pre ++ l) l pre.length index = pre ++ eraseIndex l index := by
  induction l generalizing pre with
  | nil => simp [deleteReadyLoop, eraseIndex]
  | cons v rest ih =>
    by_cases hv : v.Index = index
    · simp [deleteReadyLoop, eraseIndex, hv, removeaction, List.eraseIdx_append_of_length_le]
    · have h1 := ih (pre ++ [v])
      simp only [List.append_assoc, List.singleton_append, List.length_append,
        List.length_singleton] at h1
      simp [deleteReadyLoop, eraseIndex, hv, h1]

theorem deleteReadyLoop_eq_eraseIndex (l : List Action) (index : String) :
    deleteReadyLoop l l 0 index = eraseIndex l index := by
  simpa using deleteReadyLoop_eq [] l index

theorem removeDepLoop_eq (pre l : List String) (index : String) :
    removeDepLoop (pre ++ l) l pre.length index = pre ++ l.erase index := by
  induction l generalizing pre with
  | nil => simp [removeDepLoop]
  | cons v rest ih =>
    by_cases hv : v = index
    · simp [removeDepLoop, hv, remove, List.eraseIdx_append_of_length_le]
    · have h1 := ih (pre ++ [v])
      simp only [List.append_assoc, List.singleton_append, List.length_append,
        List.length_singleton] at h1
      simp [removeDepLoop, hv, h1, List.erase_cons]

theorem removeDepLoop_eq_erase (l : List String) (index : String) :
    removeDepLoop l l 0 index = l.erase index := by
  simpa using removeDepLoop_eq [] l index

theorem dependLoop_eq (all ready : List Action) (index : String) :
    dependLoop all index ready
      = (all.map (updateRec index), ready ++ all.filter (becomesReady index)) := by
  induction all generalizing ready with
  | nil => simp [dependLoop]
  | cons v rest ih =>
    by_cases hf : v.Finished = true
    · simp [dependLoop, hf, ih, updateRec, becomesReady]
    · by_cases hr : v.Running = true
      · simp [dependLoop, hf, hr, ih, updateRec, becomesReady, removeDepLoop_eq_erase]
      · by_cases hd : (v.Dep.erase index).length = 0
        · simp [dependLoop, hf, hr, hd, ih, updateRec, becomesReady, removeDepLoop_eq_erase]
        · simp [dependLoop, hf, hr, hd, ih, updateRec, becomesReady, removeDepLoop_eq_erase]

theorem markFinished_eq_map (l : List Action) (index : String)
    (hn : (l.map Action.Index).Nodup) : markFinished l index = l.map (markRec index) := by
  induction l with
  | nil => simp [markFinished]
  | cons v rest ih =>
    simp only [List.map_cons, List.nodup_cons] at hn
    by_cases hv : v.Index = index
    · have : ∀ w ∈ rest, markRec index w = w := by
        intro w hw
        have : w.Index ≠ index := by
          intro h; apply hn.1; rw [hv, ← h]; exact List.mem_map_of_mem _ hw
        simp [markRec, this]
      simp [markFinished, hv, markRec, List.map_congr_left this]
    · simp [markFinished, hv, markRec, ih hn.2]

/-! ## selectReadyAction -/

theorem firstNotRunningLoop_cases (l : List Action) (i : Nat) :
    (firstNotRunningLoop l i = -1 ∧ ∀ r ∈ l, r.Running = true) ∨
    (∃ pre r post, l = pre ++ r :: post ∧ (∀ x ∈ pre, x.Running = true) ∧ r.Running = false ∧
      firstNotRunningLoop l i = ((i + pre.length : Nat) : Int)) := by
  induction l generalizing i with
  | nil => left; simp [firstNotRunningLoop]
  | cons a rest ih =>
    by_cases ha : a.Running = true
    · rcases ih (i + 1) with ⟨h1, h2⟩ | ⟨pre, r, post, h1, h2, h3, h4⟩
      · left
        refine ⟨by simp [firstNotRunningLoop, ha, h1], ?_⟩
        intro r hr
        rcases List.mem_cons.1 hr with rfl | hr
        · exact ha
        · exact h2 r hr
      · right
        refine ⟨a :: pre, r, post, by simp [h1], ?_, h3, ?_⟩
        · intro x hx
          rcases List.mem_cons.1 hx with rfl | hx
          · exact ha
          · exact h2 x hx
        · simp only [firstNotRunningLoop, ha, Bool.not_true, Bool.false_eq_true, if_false, h4,
            List.length_cons]
          congr 1; omega
    · right
      refine ⟨[], a, rest, rfl, by simp, by simpa using ha, ?_⟩
      simp [firstNotRunningLoop, ha]

theorem mostFollowersLoop_cases (l : List Action) (i : Nat) (index followers : Int) :
    (mostFollowersLoop l i index followers = index ∧
      ∀ r ∈ l, r.Running = false → (r.FollowIndex.length : Int) ≤ followers) ∨
    (∃ pre r post, l = pre ++ r :: post ∧ r.Running = false ∧
      followers < (r.FollowIndex.length : Int) ∧
      (∀ x ∈ pre, x.Running = false → x.FollowIndex.length < r.FollowIndex.length) ∧
      (∀ x ∈ post, x.Running = false → x.FollowIndex.length ≤ r.FollowIndex.length) ∧
      mostFollowersLoop l i index followers = ((i + pre.length : Nat) : Int)) := by
  induction l generalizing i index followers with
  | nil => left; simp [mostFollowersLoop]
  | cons a rest ih =>
    by_cases ha : a.Running = false ∧ (a.FollowIndex.length : Int) > followers
    · obtain ⟨ha1, ha2⟩ := ha
      right
      rcases ih (i + 1) (i : Int) (a.FollowIndex.length : Int) with
        ⟨h1, h2⟩ | ⟨pre, r, post, h1, h2, h3, h4, h5, h6⟩
      · refine ⟨[], a, rest, rfl, ha1, ha2, by simp, ?_, ?_⟩
        · intro x hx hxr
          exact_mod_cast h2 x hx hxr
        · simp [mostFollowersLoop, ha1, ha2, h1]
      · refine ⟨a :: pre, r, post, by simp [h1], h2, by omega, ?_, h5, ?_⟩
        · intro x hx hxr
          rcases List.mem_cons.1 hx with rfl | hx
          · exact_mod_cast h3
          · exact h4 x hx hxr
        · simp only [mostFollowersLoop, ha1, ha2, Bool.not_false, if_true, h6, List.length_cons]
          congr 1; omega
    · have hstep : mostFollowersLoop (a :: rest) i index followers
          = mostFollowersLoop rest (i + 1) index followers := by
        by_cases har : a.Running = true
        · simp [mostFollowersLoop, har]
        · have har2 : a.Running = false := by simpa using har
          have : ¬ ((a.FollowIndex.length : Int) > followers) := fun h => ha ⟨har2, h⟩
          simp [mostFollowersLoop, har2, this]
      have hle : a.Running = false → (a.FollowIndex.length : Int) ≤ followers := by
        intro har
        by_contra hc
        exact ha ⟨har, by omega⟩
      rcases ih (i + 1) index followers with ⟨h1, h2⟩ | ⟨pre, r, post, h1, h2, h3, h4, h5, h6⟩
      · left
        refine ⟨by rw [hstep, h1], ?_⟩
        intro r hr hrr
        rcases List.mem_cons.1 hr with rfl | hr
        · exact hle hrr
        · exact h2 r hr hrr
      · right
        refine ⟨a :: pre, r, post, by simp [h1], h2, h3, ?_, h5, ?_⟩
        · intro x hx hxr
          rcases List.mem_cons.1 hx with rfl | hx
          · have := hle hxr
            omega
          · exact h4 x hx hxr
        · rw [hstep, h6]
          simp only [List.length_cons]
          congr 1; omega

/-- Either no ready entry can be selected and the result is `-1`, or the
result is the position of an entry that is not running. -/
theorem selectReadyAction_cases (h : UBTTool) :
    (selectReadyAction h = -1 ∧ ∀ r ∈ h.readyactions, r.Running = true) ∨
    (∃ pre r post, h.readyactions = pre ++ r :: post ∧ r.Running = false ∧
      selectReadyAction h = (pre.length : Int)) := by
  unfold selectReadyAction
  by_cases hm : h.MostDepentFirst = true
  · simp only [hm, if_true]
    rcases mostFollowersLoop_cases h.readyactions 0 (-1) (-1) with
      ⟨h1, h2⟩ | ⟨pre, r, post, h1, h2, _, _, _, h6⟩
    · left
      refine ⟨h1, ?_⟩
      intro r hr
      by_contra hc
      have := h2 r hr (by simpa using hc)
      omega
    · right
      exact ⟨pre, r, post, h1, h2, by simpa using h6⟩
  · simp only [hm, Bool.false_eq_true, if_false]
    rcases firstNotRunningLoop_cases h.readyactions 0 with
      ⟨h1, h2⟩ | ⟨pre, r, post, h1, _, h3, h4⟩
    · left; exact ⟨h1, h2⟩
    · right
      exact ⟨pre, r, post, h1, h3, by simpa using h4⟩

theorem setRunning_append (pre : List Action) (r : Action) (post : List Action) :
    setRunning (pre ++ r :: post) pre.length = pre ++ { r with Running := true } :: post := by
  induction pre with
  | nil => simp [setRunning]
  | cons a pre ih => simp [setRunning, ih]

/-! ## selectActionsToExecute -/

theorem get?_append_length {α : Type} (pre : List α) (x : α) (post : List α) :
    (pre ++ x :: post).get? pre.length = some x := by
  induction pre with
  | nil => rfl
  | cons a pre ih => simpa using ih

theorem selectLoop_succ_of_lt (fuel : Nat) (h : UBTTool) (out pre : List Action) (r : Action)
    (post : List Action) (hlt : h.runningnumber < h.maxjobs)
    (hr : h.readyactions = pre ++ r :: post) (hs : selectReadyAction h = (pre.length : Int)) :
    selectLoop (fuel + 1) h out
      = selectLoop fuel (dispatchOne h pre r post) (out ++ [{ r with Running := true }]) := by
  have hnn : ¬ ((pre.length : Int) < 0) := by omega
  have hg : ∀ x : Action, (pre ++ x :: post).get? pre.length = some x :=
    fun x => get?_append_length pre x post
  simp only [selectLoop, hlt, if_true, hs, hnn, if_false, Int.toNat_ofNat, hr,
    setRunning_append, dispatchOne, hg, Option.toList]

theorem selectLoop_stop (fuel : Nat) (h : UBTTool) (out : List Action)
    (hstop : ¬ h.runningnumber < h.maxjobs ∨ ∀ r ∈ h.readyactions, r.Running = true) :
    selectLoop fuel h out = (h, out) := by
  cases fuel with
  | zero => rfl
  | succ fuel =>
    by_cases hlt : h.runningnumber < h.maxjobs
    · rcases hstop with hs | hs
      · exact absurd hlt hs
      · rcases selectReadyAction_cases h with ⟨h1, _⟩ | ⟨pre, r, post, h1, h2, _⟩
        · simp [selectLoop, hlt, h1]
        · have := hs r (by simp [h1])
          simp [h2] at this
    · simp [selectLoop, hlt]

/-- Loop invariant rule for `selectActionsToExecute`: a property that every
launching turn keeps holds when the loop ends. -/
theorem selectLoop_induct (P : UBTTool → List Action → Prop)
    (hstep : ∀ h out pre r post, P h out → h.readyactions = pre ++ r :: post →
      r.Running = false → h.runningnumber < h.maxjobs →
      P (dispatchOne h pre r post) (out ++ [{ r with Running := true }]))
    (fuel : Nat) (h : UBTTool) (out : List Action) (h0 : P h out) :
    P (selectLoop fuel h out).1 (selectLoop fuel h out).2 := by
  induction fuel generalizing h out with
  | zero => simpa [selectLoop] using h0
  | succ fuel ih =>
    by_cases hlt : h.runningnumber < h.maxjobs
    · rcases selectReadyAction_cases h with ⟨_, h2⟩ | ⟨pre, r, post, h1, h2, h3⟩
      · rw [selectLoop_stop _ _ _ (Or.inr h2)]; exact h0
      · rw [selectLoop_succ_of_lt fuel h out pre r post hlt h1 h3]
        exact ih _ _ (hstep h out pre r post h0 h1 h2 hlt)
    · rw [selectLoop_stop _ _ _ (Or.inl hlt)]; exact h0

theorem idle_dispatch (pre : List Action) (r : Action) (post : List Action)
    (hr : r.Running = false) :
    idle (pre ++ r :: post) = idle (pre ++ { r with Running := true } :: post) + 1 := by
  simp [idle, List.filter_cons, hr]
  omega

theorem idle_zero (l : List Action) (h : idle l = 0) : ∀ r ∈ l, r.Running = true := by
  intro r hr
  by_contra hc
  have : r ∈ l.filter (fun r => !r.Running) := by
    simp [List.mem_filter, hr, hc]
  have := List.length_pos_of_mem this
  simp only [idle] at h
  omega

theorem idle_le_length (l : List Action) : idle l ≤ l.length := List.length_filter_le _ _

/-- With at least as much fuel as there are idle ready entries the loop of
`selectActionsToExecute` has left through one of its two exits: the job limit
is reached or no idle ready entry remains. -/
theorem selectLoop_exit (fuel : Nat) (h : UBTTool) (out : List Action)
    (hf : idle h.readyactions ≤ fuel) :
    ¬ (selectLoop fuel h out).1.runningnumber < (selectLoop fuel h out).1.maxjobs ∨
      ∀ r ∈ (selectLoop fuel h out).1.readyactions, r.Running = true := by
  induction fuel generalizing h out with
  | zero =>
    right
    simpa [selectLoop] using idle_zero _ (Nat.le_zero.1 hf)
  | succ fuel ih =>
    by_cases hlt : h.runningnumber < h.maxjobs
    · rcases selectReadyAction_cases h with ⟨_, h2⟩ | ⟨pre, r, post, h1, h2, h3⟩
      · rw [selectLoop_stop _ _ _ (Or.inr h2)]; exact Or.inr h2
      · rw [selectLoop_succ_of_lt fuel h out pre r post hlt h1 h3]
        apply ih
        have := idle_dispatch pre r post h2
        rw [h1] at hf
        simp only [dispatchOne]
        omega
    · rw [selectLoop_stop _ _ _ (Or.inl hlt)]; exact Or.inl hlt

/-- More fuel than there are idle ready entries changes nothing: the model of
`selectActionsToExecute` is the loop of the source run to its end. -/
theorem selectLoop_fuel (fuel k : Nat) (h : UBTTool) (out : List Action)
    (hf : idle h.readyactions ≤ fuel) :
    selectLoop (fuel + k) h out = selectLoop fuel h out := by
  induction fuel generalizing h out with
  | zero =>
    have hall := idle_zero _ (Nat.le_zero.1 hf)
    rw [selectLoop_stop _ _ _ (Or.inr hall), selectLoop_stop _ _ _ (Or.inr hall)]
  | succ fuel ih =>
    by_cases hlt : h.runningnumber < h.maxjobs
    · rcases selectReadyAction_cases h with ⟨_, h2⟩ | ⟨pre, r, post, h1, h2, h3⟩
      · rw [selectLoop_stop _ _ _ (Or.inr h2), selectLoop_stop _ _ _ (Or.inr h2)]
      · have e : fuel + 1 + k = (fuel + k) + 1 := by omega
        rw [e, selectLoop_succ_of_lt (fuel + k) h out pre r post hlt h1 h3,
          selectLoop_succ_of_lt fuel h out pre r post hlt h1 h3]
        apply ih
        have := idle_dispatch pre r post h2
        rw [h1] at hf
        simp only [dispatchOne]
        omega
    · rw [selectLoop_stop _ _ _ (Or.inl hlt), selectLoop_stop _ _ _ (Or.inl hlt)]

/-! ## onActionFinished as list operations -/

theorem finRec_eq (index : String) (exitcode : Int) (v : Action) :
    finRec index exitcode v =
      { v with
        Finished := v.Finished || v.Index == index,
        Dep := if exitcode == 0 && !(v.Finished || v.Index == index)
          then v.Dep.erase index else v.Dep,
        Running := v.Running || (exitcode == 0 && !(v.Finished || v.Index == index) &&
          (v.Dep.erase index).length == 0) } := by
  unfold finRec updateRec markRec becomesReady
  by_cases hc : exitcode = 0 <;> by_cases hf : v.Finished = true <;>
    by_cases hi : v.Index = index <;> by_cases hr : v.Running = true <;>
    by_cases hd : (v.Dep.erase index).length = 0 <;>
    simp [hc, hf, hi, hr, hd] <;> (cases v; simp_all)

theorem onActionFinished_eq (h : UBTTool) (index : String) (exitcode : Int)
    (hn : (h.allactions.map Action.Index).Nodup) :
    onActionFinished h index exitcode =
      if completes h then
        { h with finishednumber := int32 (h.finishednumber + 1),
                 runningnumber := int32 (h.runningnumber - 1), finished := true }
      else
        { h with finishednumber := int32 (h.finishednumber + 1),
                 runningnumber := int32 (h.runningnumber - 1),
                 allactions := h.allactions.map (finRec index exitcode),
                 readyactions := eraseIndex h.readyactions index ++
                   (if exitcode = 0 then
                      (h.allactions.map (markRec index)).filter (becomesReady index)
                    else []) } := by
  unfold onActionFinished completes
  by_cases hc : int32 (h.finishednumber + 1) ≥ int32 (h.allactions.length : Int)
  · simp [hc]
  · by_cases he : exitcode = 0
    · simp [hc, he, dependLoop_eq, deleteReadyLoop_eq_eraseIndex, markFinished_eq_map _ _ hn,
        finRec, Function.comp_def]
    · simp [hc, he, deleteReadyLoop_eq_eraseIndex, markFinished_eq_map _ _ hn, finRec]

theorem finRec_index (index : String) (exitcode : Int) (v : Action) :
    (finRec index exitcode v).Index = v.Index := by rw [finRec_eq]

theorem markRec_index (index : String) (v : Action) : (markRec index v).Index = v.Index := by
  unfold markRec; split <;> rfl

theorem finRec_running (index : String) (exitcode : Int) (v : Action) (hr : v.Running = true) :
    (finRec index exitcode v).Running = true := by rw [finRec_eq]; simp [hr]

theorem eraseIndex_sublist (l : List Action) (index : String) :
    List.Sublist (eraseIndex l index) l := by
  induction l with
  | nil => simp [eraseIndex]
  | cons v rest ih =>
    unfold eraseIndex
    split
    · exact List.sublist_cons_self v rest
    · exact ih.cons₂ v

theorem mem_eraseIndex_of_ne (l : List Action) (index : String) (r : Action) (hr : r ∈ l)
    (hne : r.Index ≠ index) : r ∈ eraseIndex l index := by
  induction l with
  | nil => simp at hr
  | cons v rest ih =>
    unfold eraseIndex
    rcases List.mem_cons.1 hr with rfl | hr
    · simp [hne]
    · split
      · exact hr
      · exact List.mem_cons_of_mem _ (ih hr)

theorem not_mem_eraseIndex (l : List Action) (index : String)
    (hn : (l.map Action.Index).Nodup) : ∀ r ∈ eraseIndex l index, r.Index ≠ index := by
  induction l with
  | nil => simp [eraseIndex]
  | cons v rest ih =>
    simp only [List.map_cons, List.nodup_cons] at hn
    intro r hr
    unfold eraseIndex at hr
    split at hr
    · rename_i hv
      intro hri
      apply hn.1
      have hv' : v.Index = index := by simpa using hv
      rw [hv', ← hri]
      exact List.mem_map_of_mem _ hr
    · rcases List.mem_cons.1 hr with rfl | hr
      · rename_i hv
        simpa using hv
      · exact ih hn.2 r hr

theorem get?_split {α : Type} (l : List α) (k : Nat) (a : α) (h : l.get? k = some a) :
    ∃ p1 p2, l = p1 ++ a :: p2 ∧ l.eraseIdx k = p1 ++ p2 := by
  induction l generalizing k with
  | nil => simp at h
  | cons x l ih =>
    cases k with
    | zero =>
      simp at h
      exact ⟨[], l, by simp [h], by simp⟩
    | succ k =>
      simp at h
      obtain ⟨p1, p2, h1, h2⟩ := ih k (by simpa using h)
      exact ⟨x :: p1, p2, by simp [h1], by simp [h2]⟩

/-! ## Invariants of a run -/

theorem dispatched_append (l1 l2 : List LogEntry) :
    dispatched (l1 ++ l2) = dispatched l1 ++ dispatched l2 := by
  induction l1 with
  | nil => rfl
  | cons e l1 ih => cases e <;> simp [dispatched, ih]

theorem reported_append (l1 l2 : List LogEntry) :
    reported (l1 ++ l2) = reported l1 ++ reported l2 := by
  induction l1 with
  | nil => rfl
  | cons e l1 ih => cases e <;> simp [reported, ih]

theorem mem_dispatched (l : List LogEntry) (x : String) :
    x ∈ dispatched l ↔ ∃ a, LogEntry.dispatch a ∈ l ∧ a.Index = x := by
  induction l with
  | nil => simp [dispatched]
  | cons e l ih =>
    cases e with
    | dispatch b =>
      simp only [dispatched, List.mem_cons, ih]
      constructor
      · rintro (rfl | ⟨a, h1, h2⟩)
        · exact ⟨b, Or.inl rfl, rfl⟩
        · exact ⟨a, Or.inr h1, h2⟩
      · rintro ⟨a, h1 | h1, h2⟩
        · left; injection h1 with h1; rw [← h2, h1]
        · exact Or.inr ⟨a, h1, h2⟩
    | finish i c =>
      simp only [dispatched, List.mem_cons, ih]
      constructor
      · rintro ⟨a, h1, h2⟩
        exact ⟨a, Or.inr h1, h2⟩
      · rintro ⟨a, h1 | h1, h2⟩
        · cases h1
        · exact ⟨a, h1, h2⟩

theorem mem_reported (l : List LogEntry) (x : String) :
    x ∈ reported l ↔ ∃ c, LogEntry.finish x c ∈ l := by
  induction l with
  | nil => simp [reported]
  | cons e l ih =>
    cases e with
    | dispatch b =>
      simp only [reported, List.mem_cons, ih]
      constructor
      · rintro ⟨c, h1⟩
        exact ⟨c, Or.inr h1⟩
      · rintro ⟨c, h1 | h1⟩
        · cases h1
        · exact ⟨c, h1⟩
    | finish i c =>
      simp only [reported, List.mem_cons, ih]
      constructor
      · rintro (rfl | ⟨c', h1⟩)
        · exact ⟨c, Or.inl rfl⟩
        · exact ⟨c', Or.inr h1⟩
      · rintro ⟨c', h1 | h1⟩
        · left; injection h1 with h1 _
        · exact Or.inr ⟨c', h1⟩

theorem split_snoc {α : Type} (l pre post : List α) (e a : α)
    (h : l ++ [e] = pre ++ a :: post) :
    (∃ post', l = pre ++ a :: post') ∨ (pre = l ∧ a = e ∧ post = []) := by
  induction l generalizing pre with
  | nil =>
    cases pre with
    | nil => simp at h; right; simp [h]
    | cons p pre => simp at h
  | cons x l ih =>
    cases pre with
    | nil =>
      simp at h
      left
      exact ⟨l, by simp [h.1]⟩
    | cons p pre =>
      simp at h
      rcases ih pre h.2 with ⟨post', h1⟩ | ⟨h1, h2, h3⟩
      · left; exact ⟨post', by simp [h.1, h1]⟩
      · right; exact ⟨by simp [h.1, h1], h2, h3⟩

theorem readyRec_index (v : Action) : (readyRec v).Index = v.Index := by
  unfold readyRec; split <;> rfl

theorem inv_init (most cont : Bool) (maxjobs : Int) (acts : List Action)
    (hu : (acts.map Action.Index).Nodup) : Inv acts (initRun most cont maxjobs acts) := by
  have hall : (initRun most cont maxjobs acts).h.allactions = acts.map readyRec := by
    simp [initRun, getReadyActions, getReadyLoop_eq, NewUBTTool]
  have hready : (initRun most cont maxjobs acts).h.readyactions = acts.filter noDepend := by
    simp [initRun, getReadyActions, getReadyLoop_eq, NewUBTTool]
  have hlog : (initRun most cont maxjobs acts).log = [] := rfl
  have hpend : (initRun most cont maxjobs acts).pending = [] := rfl
  have hinj := List.inj_on_of_nodup_map hu
  refine ⟨?_, ?_, ?_, ?_, ?_, ?_, ?_, ?_, ?_, ?_, ?_, ?_, ?_, ?_, ?_, ?_⟩
  · rw [hall, List.map_map]
    apply List.map_congr_left
    intro v _
    simp [readyRec_index]
  · intro b hb v hv hvi d hd
    rw [hall] at hv
    obtain ⟨w, hw, rfl⟩ := List.mem_map.1 hv
    rw [readyRec_index] at hvi
    have := hinj hw hb hvi
    subst this
    left
    unfold readyRec
    split <;> exact hd
  · intro r hr v hv hvi
    rw [hready] at hr
    rw [hall] at hv
    obtain ⟨hr1, hr2⟩ := List.mem_filter.1 hr
    obtain ⟨w, hw, rfl⟩ := List.mem_map.1 hv
    rw [readyRec_index] at hvi
    have := hinj hw hr1 hvi
    subst this
    have hr3 := hr2
    simp only [noDepend, Bool.and_eq_true, Bool.not_eq_true', beq_iff_eq,
      List.length_eq_zero] at hr3
    simp [readyRec, hr2, hr3.1.2, hr3.2]
  · intro r hr
    rw [hready] at hr
    exact List.mem_map_of_mem _ (List.mem_filter.1 hr).1
  · rw [hready]
    exact hu.sublist ((List.filter_sublist _).map _)
  · intro r hr
    rw [hready] at hr
    have := (List.mem_filter.1 hr).2
    simp only [noDepend, Bool.and_eq_true, Bool.not_eq_true'] at this
    exact this.1.2
  · intro pre a post h
    rw [hlog] at h
    simp at h
  · rw [hlog]; simp [dispatched]
  · intro x hx; rw [hlog] at hx; simp [dispatched] at hx
  · intro x hx; rw [hlog] at hx; simp [dispatched] at hx
  · intro a ha; rw [hpend] at ha; simp at ha
  · rw [hpend]; simp
  · intro a ha; rw [hpend] at ha; simp at ha
  · intro x hx; rw [hlog] at hx; simp [reported] at hx
  · rw [hlog]; simp [reported]
  · intro x hx; rw [hlog] at hx; simp [dispatched] at hx

theorem exists_rec_of_mem {acts all : List Action}
    (idx : all.map Action.Index = acts.map Action.Index) {x : String}
    (hx : x ∈ acts.map Action.Index) : ∃ v ∈ all, v.Index = x := by
  rw [← idx] at hx
  obtain ⟨v, hv, hvi⟩ := List.mem_map.1 hx
  exact ⟨v, hv, hvi⟩

theorem inv_dispatchOne {acts : List Action} {s : Run} (hI : Inv acts s)
    (pre : List Action) (r : Action) (post : List Action)
    (hr : s.h.readyactions = pre ++ r :: post) (hrun : r.Running = false) :
    Inv acts (s.dispatchOne pre r post) := by
  have hrmem : r ∈ s.h.readyactions := by simp [hr]
  have hold : ∀ x ∈ pre ++ { r with Running := true } :: post,
      x = { r with Running := true } ∨ (x ∈ s.h.readyactions ∧ x.Index ≠ r.Index) := by
    intro x hx
    have hnd := hI.ready_nodup
    rw [hr] at hnd
    simp only [List.map_append, List.map_cons] at hnd
    have hnd1 := List.nodup_append.1 hnd
    have hnd2 := List.nodup_cons.1 hnd1.2.1
    rcases List.mem_append.1 hx with hx | hx
    · right
      refine ⟨by simp [hr, hx], ?_⟩
      intro he
      exact hnd1.2.2 (List.mem_map_of_mem Action.Index hx) (by simp [he])
    · rcases List.mem_cons.1 hx with hx | hx
      · left; exact hx
      · right
        refine ⟨by simp [hr, hx], ?_⟩
        intro he
        apply hnd2.1
        rw [← he]
        exact List.mem_map_of_mem Action.Index hx
  have hnew : r.Index ∉ dispatched s.log := by
    intro hd
    have := hI.disp_ready _ hd r hrmem rfl
    simp [hrun] at this
  have hdl : dispatched (s.log ++ [LogEntry.dispatch { r with Running := true }])
      = dispatched s.log ++ [r.Index] := by
    simp [dispatched_append, dispatched]
  have hrl : reported (s.log ++ [LogEntry.dispatch { r with Running := true }])
      = reported s.log := by
    simp [reported_append, reported]
  refine ⟨hI.idx, ?_, ?_, ?_, ?_, ?_, ?_, ?_, ?_, ?_, ?_, ?_, ?_, ?_, ?_, ?_⟩
  · intro b hb v hv hvi d hd
    rcases hI.deps b hb v hv hvi d hd with h | h
    · exact Or.inl h
    · exact Or.inr (List.mem_append_left _ h)
  · intro x hx v hv hvi
    rcases hold x hx with rfl | ⟨h1, _⟩
    · exact hI.ready_rec r hrmem v hv hvi
    · exact hI.ready_rec x h1 v hv hvi
  · intro x hx
    rcases hold x hx with rfl | ⟨h1, _⟩
    · exact hI.ready_in r hrmem
    · exact hI.ready_in x h1
  · have := hI.ready_nodup
    rw [hr] at this
    simpa [Run.dispatchOne, UBT.dispatchOne] using this
  · intro x hx
    rcases hold x hx with rfl | ⟨h1, _⟩
    · exact hI.ready_unfin r hrmem
    · exact hI.ready_unfin x h1
  · intro p a q hsplit b hb hbi d hd
    rcases split_snoc _ _ _ _ _ hsplit with ⟨q', h1⟩ | ⟨h1, h2, _⟩
    · exact hI.dep_before p a q' h1 b hb hbi d hd
    · subst h1
      injection h2 with h2
      subst h2
      obtain ⟨v, hv, hvi⟩ := exists_rec_of_mem hI.idx (List.mem_map_of_mem Action.Index hb)
      have h3 := hI.ready_rec r hrmem v hv (by rw [hvi, hbi])
      rcases hI.deps b hb v hv hvi d hd with h | h
      · rw [h3.1] at h; simp at h
      · exact h
  · show (dispatched (s.log ++ _)).Nodup
    rw [hdl]
    exact List.Nodup.append hI.disp_nodup (by simp) (by simpa using hnew)
  · intro x hx y hy hyi
    change x ∈ dispatched (s.log ++ _) at hx
    rw [hdl] at hx
    rcases hold y hy with rfl | ⟨h1, h2⟩
    · rfl
    · rcases List.mem_append.1 hx with hx | hx
      · exact hI.disp_ready x hx y h1 hyi
      · simp at hx
        exact absurd (hyi.trans hx) h2
  · intro x hx v hv hvi
    change x ∈ dispatched (s.log ++ _) at hx
    rw [hdl] at hx
    rcases List.mem_append.1 hx with hx | hx
    · exact hI.disp_rec x hx v hv hvi
    · simp at hx
      exact (hI.ready_rec r hrmem v hv (by rw [hvi, hx])).2.1
  · intro a ha
    show a.Index ∈ dispatched (s.log ++ _)
    rw [hdl]
    rcases List.mem_append.1 ha with ha | ha
    · exact List.mem_append_left _ (hI.pend_disp a ha)
    · simp at ha
      simp [ha]
  · show ((s.pending ++ _).map Action.Index).Nodup
    rw [List.map_append]
    refine List.Nodup.append hI.pend_nodup (by simp) ?_
    intro x hx1 hx2
    simp at hx2
    obtain ⟨a, ha, hai⟩ := List.mem_map.1 hx1
    apply hnew
    rw [← hx2, ← hai]
    exact hI.pend_disp a ha
  · intro a ha
    show a.Index ∉ reported (s.log ++ _)
    rw [hrl]
    rcases List.mem_append.1 ha with ha | ha
    · exact hI.pend_unrep a ha
    · simp at ha
      intro hc
      apply hnew
      have := hI.rep_disp _ hc
      simpa [ha] using this
  · intro x hx
    change x ∈ reported (s.log ++ _) at hx
    rw [hrl] at hx
    show x ∈ dispatched (s.log ++ _)
    rw [hdl]
    exact List.mem_append_left _ (hI.rep_disp x hx)
  · show (reported (s.log ++ _)).Nodup
    rw [hrl]
    exact hI.rep_nodup
  · intro x hx
    change x ∈ dispatched (s.log ++ _) at hx
    rw [hdl] at hx
    rcases List.mem_append.1 hx with hx | hx
    · exact hI.disp_in x hx
    · simp at hx
      rw [hx]
      exact hI.ready_in r hrmem

theorem run_select_eq (s : Run) :
    s.select = { h := (selectLoop s.h.readyactions.length s.h []).1,
                 pending := s.pending ++ (selectLoop s.h.readyactions.length s.h []).2,
                 log := s.log ++
                   (selectLoop s.h.readyactions.length s.h []).2.map LogEntry.dispatch } := rfl

/-- Rule for `Run.select`: what holds before the call and is kept by every
launching turn holds after it. -/
theorem run_select_induct (P : Run → Prop)
    (hstep : ∀ s pre r post, P s → s.h.readyactions = pre ++ r :: post → r.Running = false →
      s.h.runningnumber < s.h.maxjobs → P (s.dispatchOne pre r post))
    (s : Run) (h0 : P s) : P s.select := by
  rw [run_select_eq]
  apply selectLoop_induct
    (fun h out => P { h := h, pending := s.pending ++ out,
                      log := s.log ++ out.map LogEntry.dispatch })
  · intro h out pre r post hP hr hrun hlt
    have := hstep _ pre r post hP hr hrun hlt
    simpa [Run.dispatchOne] using this
  · simpa using h0

theorem inv_select {acts : List Action} {s : Run} (hI : Inv acts s) : Inv acts s.select :=
  run_select_induct (Inv acts)
    (fun _ pre r post hP hr hrun _ => inv_dispatchOne hP pre r post hr hrun) s hI

theorem mem_readyAfter {all ready : List Action} {index : String} {exitcode : Int} {r : Action}
    (hr : r ∈ eraseIndex ready index ++
      (if exitcode = 0 then (all.map (markRec index)).filter (becomesReady index) else [])) :
    r ∈ eraseIndex ready index ∨
      (exitcode = 0 ∧ ∃ w ∈ all, r = markRec index w ∧ becomesReady index r = true) := by
  rcases List.mem_append.1 hr with h | h
  · exact Or.inl h
  · right
    by_cases hc : exitcode = 0
    · simp only [hc, if_true] at h
      obtain ⟨h1, h2⟩ := List.mem_filter.1 h
      obtain ⟨w, hw, rfl⟩ := List.mem_map.1 h1
      exact ⟨hc, w, hw, rfl, h2⟩
    · simp [hc] at h

theorem markRec_running (index : String) (v : Action) :
    (markRec index v).Running = v.Running := by
  unfold markRec; split <;> rfl

theorem markRec_dep (index : String) (v : Action) : (markRec index v).Dep = v.Dep := by
  unfold markRec; split <;> rfl

theorem inv_finish {acts : List Action} {s : Run} (hu : (acts.map Action.Index).Nodup)
    (hI : Inv acts s) (k : Nat) (a : Action) (exitcode : Int)
    (hk : s.pending.get? k = some a) : Inv acts (s.finish k a.Index exitcode) := by
  have hn : (s.h.allactions.map Action.Index).Nodup := by rw [hI.idx]; exact hu
  have hinj := List.inj_on_of_nodup_map hn
  obtain ⟨p1, p2, hp, hpe⟩ := get?_split _ _ _ hk
  have hamem : a ∈ s.pending := by simp [hp]
  have hdl : dispatched (s.log ++ [LogEntry.finish a.Index exitcode]) = dispatched s.log := by
    simp [dispatched_append, dispatched]
  have hrl : reported (s.log ++ [LogEntry.finish a.Index exitcode])
      = reported s.log ++ [a.Index] := by
    simp [reported_append, reported]
  have hsub : ∀ x ∈ p1 ++ p2, x ∈ s.pending ∧ x.Index ≠ a.Index := by
    intro x hx
    have hnd := hI.pend_nodup
    rw [hp] at hnd
    simp only [List.map_append, List.map_cons] at hnd
    have hnd1 := List.nodup_append.1 hnd
    have hnd2 := List.nodup_cons.1 hnd1.2.1
    rcases List.mem_append.1 hx with hx | hx
    · refine ⟨by simp [hp, hx], ?_⟩
      intro he
      exact hnd1.2.2 (List.mem_map_of_mem Action.Index hx) (by simp [he])
    · refine ⟨by simp [hp, hx], ?_⟩
      intro he
      apply hnd2.1
      rw [← he]
      exact List.mem_map_of_mem Action.Index hx
  -- the part of the invariant that talks about the engine state
  have hH : (s.finish k a.Index exitcode).h.allactions.map Action.Index = acts.map Action.Index ∧
      (∀ b ∈ acts, ∀ v ∈ (s.finish k a.Index exitcode).h.allactions, v.Index = b.Index →
        ∀ d ∈ b.Dep, d ∈ v.Dep ∨ LogEntry.finish d 0 ∈ (s.finish k a.Index exitcode).log) ∧
      (∀ r ∈ (s.finish k a.Index exitcode).h.readyactions,
        ∀ v ∈ (s.finish k a.Index exitcode).h.allactions, v.Index = r.Index →
        v.Dep = [] ∧ v.Running = true ∧ v.Finished = false) ∧
      (∀ r ∈ (s.finish k a.Index exitcode).h.readyactions, r.Index ∈ acts.map Action.Index) ∧
      ((s.finish k a.Index exitcode).h.readyactions.map Action.Index).Nodup ∧
      (∀ r ∈ (s.finish k a.Index exitcode).h.readyactions, r.Finished = false) ∧
      (∀ x ∈ dispatched s.log, ∀ r ∈ (s.finish k a.Index exitcode).h.readyactions,
        r.Index = x → r.Running = true) ∧
      (∀ x ∈ dispatched s.log, ∀ v ∈ (s.finish k a.Index exitcode).h.allactions,
        v.Index = x → v.Running = true) := by
    simp only [Run.finish, onActionFinished_eq _ _ _ hn]
    by_cases hc : completes s.h
    · simp only [hc, if_true]
      refine ⟨hI.idx, ?_, hI.ready_rec, hI.ready_in, hI.ready_nodup, hI.ready_unfin,
        hI.disp_ready, hI.disp_rec⟩
      intro b hb v hv hvi d hd
      rcases hI.deps b hb v hv hvi d hd with h | h
      · exact Or.inl h
      · exact Or.inr (List.mem_append_left _ h)
    · simp only [hc, if_false]
      refine ⟨?_, ?_, ?_, ?_, ?_, ?_, ?_, ?_⟩
      · rw [List.map_map, ← hI.idx]
        apply List.map_congr_left
        intro v _
        simp [finRec_index]
      · intro b hb v hv hvi d hd
        obtain ⟨w, hw, rfl⟩ := List.mem_map.1 hv
        rw [finRec_index] at hvi
        rcases hI.deps b hb w hw hvi d hd with h | h
        · rw [finRec_eq]
          by_cases hcond : (exitcode == 0 && !(w.Finished || w.Index == a.Index)) = true
          · by_cases hda : d = a.Index
            · right
              have : exitcode = 0 := by
                simp only [Bool.and_eq_true, beq_iff_eq] at hcond
                exact hcond.1
              simp [hda, this]
            · left
              simp only [hcond, if_true]
              exact (List.mem_erase_of_ne hda).2 h
          · left
            simp only [hcond]
            exact h
        · exact Or.inr (List.mem_append_left _ h)
      · intro r hr v hv hvi
        obtain ⟨w, hw, rfl⟩ := List.mem_map.1 hv
        rw [finRec_index] at hvi
        rcases mem_readyAfter hr with h | ⟨hc0, w0, hw0, rfl, hb⟩
        · have hr1 := (eraseIndex_sublist _ _).subset h
          have hr2 := not_mem_eraseIndex _ a.Index hI.ready_nodup r h
          obtain ⟨h1, h2, h3⟩ := hI.ready_rec r hr1 w hw hvi
          rw [finRec_eq]
          have : ¬ w.Index = a.Index := by rw [hvi]; exact hr2
          simp [h1, h2, h3, this]
        · rw [markRec_index] at hvi
          have := hinj hw hw0 hvi
          subst this
          simp only [becomesReady, Bool.and_eq_true, Bool.not_eq_true', beq_iff_eq,
            List.length_eq_zero] at hb
          obtain ⟨⟨hb1, hb2⟩, hb3⟩ := hb
          unfold finRec updateRec
          simp [hc0, hb1, becomesReady, hb2, hb3]
      · intro r hr
        rcases mem_readyAfter hr with h | ⟨_, w0, hw0, rfl, _⟩
        · exact hI.ready_in r ((eraseIndex_sublist _ _).subset h)
        · rw [markRec_index, ← hI.idx]
          exact List.mem_map_of_mem _ hw0
      · rw [List.map_append]
        refine List.Nodup.append (hI.ready_nodup.sublist ((eraseIndex_sublist _ _).map _)) ?_ ?_
        · by_cases hc0 : exitcode = 0
          · simp only [hc0, if_true]
            refine List.Nodup.sublist ((List.filter_sublist _).map _) ?_
            rw [List.map_map]
            have : (Action.Index ∘ markRec a.Index) = Action.Index := by
              funext v; simp [markRec_index]
            rw [this]; exact hn
          · simp [hc0]
        · intro x hx1 hx2
          obtain ⟨r1, hr1, rfl⟩ := List.mem_map.1 hx1
          obtain ⟨r2, hr2, hr2i⟩ := List.mem_map.1 hx2
          by_cases hc0 : exitcode = 0
          · simp only [hc0, if_true] at hr2
            obtain ⟨h1, hb⟩ := List.mem_filter.1 hr2
            obtain ⟨w0, hw0, rfl⟩ := List.mem_map.1 h1
            rw [markRec_index] at hr2i
            have := (hI.ready_rec r1 ((eraseIndex_sublist _ _).subset hr1) w0 hw0 hr2i).2.1
            simp [becomesReady, markRec_running, this] at hb
          · simp [hc0] at hr2
      · intro r hr
        rcases mem_readyAfter hr with h | ⟨_, w0, hw0, rfl, hb⟩
        · exact hI.ready_unfin r ((eraseIndex_sublist _ _).subset h)
        · simp only [becomesReady, Bool.and_eq_true, Bool.not_eq_true'] at hb
          exact hb.1.1
      · intro x hx r hr hri
        rcases mem_readyAfter hr with h | ⟨_, w0, hw0, rfl, hb⟩
        · exact hI.disp_ready x hx r ((eraseIndex_sublist _ _).subset h) hri
        · rw [markRec_index] at hri
          have := hI.disp_rec x hx w0 hw0 hri
          simp [becomesReady, markRec_running, this] at hb
      · intro x hx v hv hvi
        obtain ⟨w, hw, rfl⟩ := List.mem_map.1 hv
        rw [finRec_index] at hvi
        exact finRec_running _ _ _ (hI.disp_rec x hx w hw hvi)
  obtain ⟨g1, g2, g3, g4, g5, g6, g7, g8⟩ := hH
  refine ⟨g1, g2, g3, g4, g5, g6, ?_, ?_, ?_, ?_, ?_, ?_, ?_, ?_, ?_, ?_⟩
  · intro p b q hsplit
    rcases split_snoc _ _ _ _ _ hsplit with ⟨q', h1⟩ | ⟨_, h2, _⟩
    · exact hI.dep_before p b q' h1
    · cases h2
  · show (dispatched (s.log ++ _)).Nodup
    rw [hdl]; exact hI.disp_nodup
  · intro x hx
    change x ∈ dispatched (s.log ++ _) at hx
    rw [hdl] at hx
    exact g7 x hx
  · intro x hx
    change x ∈ dispatched (s.log ++ _) at hx
    rw [hdl] at hx
    exact g8 x hx
  · intro x hx
    show x.Index ∈ dispatched (s.log ++ _)
    rw [hdl]
    change x ∈ s.pending.eraseIdx k at hx
    rw [hpe] at hx
    exact hI.pend_disp x (hsub x hx).1
  · show ((s.pending.eraseIdx k).map Action.Index).Nodup
    exact hI.pend_nodup.sublist ((List.eraseIdx_sublist _ _).map _)
  · intro x hx
    show x.Index ∉ reported (s.log ++ _)
    rw [hrl]
    change x ∈ s.pending.eraseIdx k at hx
    rw [hpe] at hx
    intro hc
    rcases List.mem_append.1 hc with hc | hc
    · exact hI.pend_unrep x (hsub x hx).1 hc
    · simp at hc
      exact (hsub x hx).2 hc
  · intro x hx
    change x ∈ reported (s.log ++ _) at hx
    rw [hrl] at hx
    show x ∈ dispatched (s.log ++ _)
    rw [hdl]
    rcases List.mem_append.1 hx with hx | hx
    · exact hI.rep_disp x hx
    · simp at hx
      rw [hx]
      exact hI.pend_disp a hamem
  · show (reported (s.log ++ _)).Nodup
    rw [hrl]
    exact List.Nodup.append hI.rep_nodup (by simp) (by simpa using hI.pend_unrep a hamem)
  · intro x hx
    change x ∈ dispatched (s.log ++ _) at hx
    rw [hdl] at hx
    exact hI.disp_in x hx

theorem inv_step {acts : List Action} {s : Run} (hu : (acts.map Action.Index).Nodup)
    (hI : Inv acts s) (st : Step) : Inv acts (s.step st) := by
  cases st with
  | select => exact inv_select hI
  | finish pos exitcode =>
    simp only [Run.step]
    cases hk : s.pending.get? (pos % s.pending.length) with
    | none => exact hI
    | some a => exact inv_finish hu hI _ a exitcode hk

theorem inv_steps {acts : List Action} (hu : (acts.map Action.Index).Nodup) (l : List Step) :
    ∀ {s : Run}, Inv acts s → Inv acts (s.steps l) := by
  induction l with
  | nil => intro s hI; exact hI
  | cons st l ih => intro s hI; exact ih (inv_step hu hI st)

/-! ## C1: dispatch only after the dependencies -/

/-- C1: in every run of the engine over an action list with unique `Index`
values (`getReadyActions`, then any sequence of `selectActionsToExecute` and
of `onActionFinished` calls for dispatched actions), whenever an action is
dispatched it is an action of the list and every identity of its initial `Dep`
list has already been passed to `onActionFinished` with exit code 0. -/
theorem C1_dispatch_after_dependencies (most cont : Bool) (maxjobs : Int) (acts : List Action)
    (hu : (acts.map Action.Index).Nodup) (steps : List Step)
    (pre : List LogEntry) (a : Action) (post : List LogEntry)
    (hlog : ((initRun most cont maxjobs acts).steps steps).log
      = pre ++ LogEntry.dispatch a :: post) :
    a.Index ∈ acts.map Action.Index ∧
      ∀ b ∈ acts, b.Index = a.Index → ∀ d ∈ b.Dep, LogEntry.finish d 0 ∈ pre := by
  have hI := inv_steps hu steps (inv_init most cont maxjobs acts hu)
  refine ⟨?_, hI.dep_before pre a post hlog⟩
  apply hI.disp_in
  rw [mem_dispatched]
  exact ⟨a, by rw [hlog]; simp, rfl⟩

/-- C1 on the diamond with two jobs: `D` is dispatched after `B` and `C` have
been reported with exit code 0. -/
theorem C1_dispatch_after_dependencies_witness :
    (diamond.map Action.Index).Nodup ∧
    dispatched ((initRun false false 2 diamond).steps
      [Step.select, Step.finish 0 0, Step.select, Step.finish 1 0, Step.finish 0 0,
        Step.select]).log = ["A", "B", "C", "D"] ∧
    ∀ b ∈ diamond, b.Index = "D" → ∀ d ∈ b.Dep,
      LogEntry.finish d 0 ∈
        [LogEntry.dispatch { Index := "A", FollowIndex := ["B", "C"], Running := true },
         LogEntry.finish "A" 0,
         LogEntry.dispatch { Index := "B", Dep := ["A"], FollowIndex := ["D"], Running := true },
         LogEntry.dispatch { Index := "C", Dep := ["A"], FollowIndex := ["D"], Running := true },
         LogEntry.finish "C" 0,
         LogEntry.finish "B" 0] :=
  ⟨by decide, by decide,
    (C1_dispatch_after_dependencies false false 2 diamond (by decide)
      [Step.select, Step.finish 0 0, Step.select, Step.finish 1 0, Step.finish 0 0, Step.select]
      _ { Index := "D", Dep := ["B"], Running := true } [] (by decide)).2⟩

/-! ## C2: no action is dispatched twice -/

theorem onActionFinished_cases (h : UBTTool) (index : String) (exitcode : Int)
    (hn : (h.allactions.map Action.Index).Nodup) :
    (completes h ∧ (onActionFinished h index exitcode).allactions = h.allactions ∧
      (onActionFinished h index exitcode).readyactions = h.readyactions ∧
      (onActionFinished h index exitcode).finished = true) ∨
    (¬ completes h ∧
      (onActionFinished h index exitcode).allactions = h.allactions.map (finRec index exitcode) ∧
      (onActionFinished h index exitcode).readyactions = eraseIndex h.readyactions index ++
        (if exitcode = 0 then (h.allactions.map (markRec index)).filter (becomesReady index)
         else []) ∧
      (onActionFinished h index exitcode).finished = h.finished) := by
  rw [onActionFinished_eq _ _ _ hn]
  by_cases hc : completes h
  · left; simp [hc]
  · right; simp [hc]

theorem run_select_allactions (s : Run) :
    s.select.h.allactions = s.h.allactions ∧
      s.select.h.readyactions.map Action.Index = s.h.readyactions.map Action.Index := by
  apply run_select_induct
    (fun t => t.h.allactions = s.h.allactions ∧
      t.h.readyactions.map Action.Index = s.h.readyactions.map Action.Index)
  · intro t pre r post hP hr _ _
    refine ⟨hP.1, ?_⟩
    rw [← hP.2, hr]
    simp [Run.dispatchOne, UBT.dispatchOne]
  · exact ⟨rfl, rfl⟩

theorem ready_or_left_step {acts : List Action} {s : Run} (hu : (acts.map Action.Index).Nodup)
    (hI : Inv acts s) (x : String) (st : Step)
    (h : x ∈ s.h.readyactions.map Action.Index ∨ Left x s) :
    (x ∈ (s.step st).h.readyactions.map Action.Index ∨ Left x (s.step st)) ∧
      (Left x s → Left x (s.step st)) := by
  have hn : (s.h.allactions.map Action.Index).Nodup := by rw [hI.idx]; exact hu
  cases st with
  | select =>
    obtain ⟨h1, h2⟩ := run_select_allactions s
    simp only [Run.step, Left, h1, h2]
    exact ⟨h, id⟩
  | finish pos exitcode =>
    simp only [Run.step]
    cases hk : s.pending.get? (pos % s.pending.length) with
    | none => exact ⟨h, id⟩
    | some a =>
      simp only [Run.finish, Left]
      rcases onActionFinished_cases s.h a.Index exitcode hn with
        ⟨_, h1, h2, _⟩ | ⟨_, h1, h2, _⟩
      · rw [h1, h2]; exact ⟨h, id⟩
      · rw [h1, h2]
        -- a record that carries the `Running` mark is not appended again
        have hnew : (∀ v ∈ s.h.allactions, v.Index = x → v.Running = true) →
            x ∉ (if exitcode = 0 then
              (s.h.allactions.map (markRec a.Index)).filter (becomesReady a.Index)
              else []).map Action.Index := by
          intro hrun hx
          obtain ⟨r, hr, hri⟩ := List.mem_map.1 hx
          by_cases hc0 : exitcode = 0
          · simp only [hc0, if_true] at hr
            obtain ⟨hr1, hb⟩ := List.mem_filter.1 hr
            obtain ⟨w, hw, rfl⟩ := List.mem_map.1 hr1
            rw [markRec_index] at hri
            have := hrun w hw hri
            simp [becomesReady, markRec_running, this] at hb
          · simp [hc0] at hr
        have hleft : Left x s → (x ∉ (eraseIndex s.h.readyactions a.Index ++
              (if exitcode = 0 then
                (s.h.allactions.map (markRec a.Index)).filter (becomesReady a.Index)
               else [])).map Action.Index ∧
            ∀ v ∈ s.h.allactions.map (finRec a.Index exitcode), v.Index = x →
              v.Finished = true ∧ v.Running = true) := by
          intro hL
          constructor
          · rw [List.map_append, List.mem_append]
            rintro (hx | hx)
            · exact hL.1 (((eraseIndex_sublist _ _).map _).subset hx)
            · exact hnew (fun v hv hvi => (hL.2 v hv hvi).2) hx
          · intro v hv hvi
            obtain ⟨w, hw, rfl⟩ := List.mem_map.1 hv
            rw [finRec_index] at hvi
            obtain ⟨h3, h4⟩ := hL.2 w hw hvi
            rw [finRec_eq]
            simp [h3, h4]
        refine ⟨?_, hleft⟩
        rcases h with h | h
        · by_cases hxa : x = a.Index
          · right
            obtain ⟨r, hr, hri⟩ := List.mem_map.1 h
            have hrec := hI.ready_rec r hr
            constructor
            · rw [List.map_append, List.mem_append]
              rintro (hx | hx)
              · obtain ⟨r', hr', hri'⟩ := List.mem_map.1 hx
                exact not_mem_eraseIndex _ a.Index hI.ready_nodup r' hr' (by rw [hri', hxa])
              · exact hnew (fun v hv hvi => (hrec v hv (by rw [hvi, hri])).2.1) hx
            · intro v hv hvi
              obtain ⟨w, hw, rfl⟩ := List.mem_map.1 hv
              rw [finRec_index] at hvi
              have h4 := (hrec w hw (by rw [hvi, hri])).2.1
              rw [finRec_eq]
              have : w.Index = a.Index := by rw [hvi, hxa]
              simp [h4, this]
          · left
            obtain ⟨r, hr, hri⟩ := List.mem_map.1 h
            rw [List.map_append, List.mem_append]
            left
            rw [← hri]
            exact List.mem_map_of_mem _
              (mem_eraseIndex_of_ne _ _ r hr (by rw [hri]; exact hxa))
        · exact Or.inr (hleft h)

theorem ready_or_left_steps {acts : List Action} (hu : (acts.map Action.Index).Nodup)
    (x : String) (l : List Step) :
    ∀ {s : Run}, Inv acts s → (x ∈ s.h.readyactions.map Action.Index ∨ Left x s) →
      (x ∈ (s.steps l).h.readyactions.map Action.Index ∨ Left x (s.steps l)) ∧
      (Left x s → Left x (s.steps l)) := by
  induction l with
  | nil => intro s _ h; exact ⟨h, id⟩
  | cons st l ih =>
    intro s hI h
    have h1 := ready_or_left_step hu hI x st h
    have h2 := ih (inv_step hu hI st) h1.1
    exact ⟨h2.1, fun hL => h2.2 (h1.2 hL)⟩

/-- C2: in every run of the engine over an action list with unique `Index`
values no action is dispatched more than once; the ready list never holds an
`Index` twice; an action that has left the ready list has its record finished
and is never in the ready list again; and the entry that `selectReadyAction`
returns has its `Running` flag false. -/
theorem C2_dispatched_at_most_once (most cont : Bool) (maxjobs : Int) (acts : List Action)
    (hu : (acts.map Action.Index).Nodup) (steps1 steps2 steps3 : List Step) :
    (dispatched ((initRun most cont maxjobs acts).steps steps1).log).Nodup ∧
    (((initRun most cont maxjobs acts).steps steps1).h.readyactions.map Action.Index).Nodup ∧
    (∀ x ∈ ((initRun most cont maxjobs acts).steps steps1).h.readyactions.map Action.Index,
      x ∉ (((initRun most cont maxjobs acts).steps steps1).steps steps2).h.readyactions.map
        Action.Index →
      (∀ v ∈ (((initRun most cont maxjobs acts).steps steps1).steps steps2).h.allactions,
        v.Index = x → v.Finished = true) ∧
      x ∉ ((((initRun most cont maxjobs acts).steps steps1).steps steps2).steps
        steps3).h.readyactions.map Action.Index) ∧
    (∀ r, 0 ≤ selectReadyAction ((initRun most cont maxjobs acts).steps steps1).h →
      ((initRun most cont maxjobs acts).steps steps1).h.readyactions.get?
        (selectReadyAction ((initRun most cont maxjobs acts).steps steps1).h).toNat = some r →
      r.Running = false) := by
  have hI1 := inv_steps hu steps1 (inv_init most cont maxjobs acts hu)
  have hI2 := inv_steps hu steps2 hI1
  refine ⟨hI1.disp_nodup, hI1.ready_nodup, ?_, ?_⟩
  · intro x hx hnx
    have h2 := (ready_or_left_steps hu x steps2 hI1 (Or.inl hx)).1
    rcases h2 with h2 | h2
    · exact absurd h2 hnx
    · have h3 := (ready_or_left_steps hu x steps3 hI2 (Or.inr h2)).2 h2
      exact ⟨fun v hv hvi => (h2.2 v hv hvi).1, h3.1⟩
  · intro r hpos hget
    rcases selectReadyAction_cases ((initRun most cont maxjobs acts).steps steps1).h with
      ⟨h1, _⟩ | ⟨pre, r', post, h1, h2, h3⟩
    · omega
    · rw [h3, h1, Int.toNat_ofNat, get?_append_length] at hget
      injection hget with hget
      rw [← hget]; exact h2

/-- C2 on the diamond with two jobs: `A` is in the ready list at the start,
has left it after its result and stays out; nothing is dispatched twice. -/
theorem C2_dispatched_at_most_once_witness :
    (diamond.map Action.Index).Nodup ∧
    (dispatched ((initRun false false 2 diamond).steps [Step.select]).log).Nodup ∧
    "A" ∉ ((((initRun false false 2 diamond).steps [Step.select]).steps
      [Step.finish 0 0]).steps [Step.select, Step.finish 0 0, Step.finish 0 0,
        Step.select]).h.readyactions.map Action.Index :=
  ⟨by decide,
   (C2_dispatched_at_most_once false false 2 diamond (by decide) [Step.select]
      [Step.finish 0 0] [Step.select, Step.finish 0 0, Step.finish 0 0, Step.select]).1,
   ((C2_dispatched_at_most_once false false 2 diamond (by decide) [Step.select]
      [Step.finish 0 0] [Step.select, Step.finish 0 0, Step.finish 0 0, Step.select]).2.2.1
      "A" (by decide) (by decide)).2⟩

/-! ## C8: selectReadyAction -/

theorem get?_append_cases {α : Type} (pre : List α) (r : α) (post : List α) (j : Nat) (x : α)
    (h : (pre ++ r :: post).get? j = some x) :
    (j < pre.length ∧ x ∈ pre) ∨ (j = pre.length ∧ x = r) ∨ (pre.length < j ∧ x ∈ post) := by
  induction pre generalizing j with
  | nil =>
    cases j with
    | zero => simp at h; right; left; exact ⟨rfl, h.symm⟩
    | succ j =>
      right; right
      simp at h
      exact ⟨by simp, List.getElem?_mem h⟩
  | cons p pre ih =>
    cases j with
    | zero => simp at h; left; exact ⟨by simp, by simp [h]⟩
    | succ j =>
      simp only [List.cons_append, List.get?_cons_succ] at h
      rcases ih j h with ⟨h1, h2⟩ | ⟨h1, h2⟩ | ⟨h1, h2⟩
      · left; exact ⟨by simp; omega, List.mem_cons_of_mem _ h2⟩
      · right; left; exact ⟨by simp [h1], h2⟩
      · right; right; exact ⟨by simp; omega, h2⟩

theorem firstNotRunningLoop_of_split (pre : List Action) (r : Action) (post : List Action)
    (i : Nat) (hpre : ∀ x ∈ pre, x.Running = true) (hr : r.Running = false) :
    firstNotRunningLoop (pre ++ r :: post) i = ((i + pre.length : Nat) : Int) := by
  induction pre generalizing i with
  | nil => simp [firstNotRunningLoop, hr]
  | cons p pre ih =>
    have hp := hpre p (by simp)
    have hstep : firstNotRunningLoop (p :: pre ++ r :: post) i
        = firstNotRunningLoop (pre ++ r :: post) (i + 1) := by
      simp [firstNotRunningLoop, hp]
    rw [hstep, ih (i + 1) (fun x hx => hpre x (List.mem_cons_of_mem _ hx))]
    simp only [List.length_cons]
    congr 1; omega

theorem selectReadyAction_ge (h : UBTTool) : -1 ≤ selectReadyAction h := by
  rcases selectReadyAction_cases h with ⟨h1, _⟩ | ⟨pre, r, post, _, _, h3⟩
  · omega
  · omega

theorem selectReadyAction_eq_neg_one_iff (h : UBTTool) :
    selectReadyAction h = -1 ↔ ∀ r ∈ h.readyactions, r.Running = true := by
  constructor
  · intro he
    rcases selectReadyAction_cases h with ⟨_, h2⟩ | ⟨pre, r, post, _, _, h3⟩
    · exact h2
    · omega
  · intro hall
    rcases selectReadyAction_cases h with ⟨h1, _⟩ | ⟨pre, r, post, h1, h2, _⟩
    · exact h1
    · have := hall r (by simp [h1])
      simp [h2] at this

/-- C8: `selectReadyAction` returns `-1` exactly when no ready entry is idle.
Without `MostDepentFirst` it returns the lowest position of an idle entry;
with `MostDepentFirst` the position of an idle entry whose `FollowIndex` is at
least as long as that of every idle entry and strictly longer than that of
every idle entry before it; when every `FollowIndex` is empty both modes give
the same position. In a run over a list with unique `Index` values the entry
at the returned position is unfinished and its record in `allactions` is
unfinished with an empty `Dep` list. -/
theorem C8_selectReadyAction (h : UBTTool) (most cont : Bool) (maxjobs : Int)
    (acts : List Action) (hu : (acts.map Action.Index).Nodup) (steps : List Step) :
    (selectReadyAction h = -1 ↔ ∀ r ∈ h.readyactions, r.Running = true) ∧
    -1 ≤ selectReadyAction h ∧
    (h.MostDepentFirst = false → ∀ i : Nat, selectReadyAction h = (i : Int) →
      ∃ r, h.readyactions.get? i = some r ∧ r.Running = false ∧
        ∀ j x, h.readyactions.get? j = some x → j < i → x.Running = true) ∧
    (h.MostDepentFirst = true → ∀ i : Nat, selectReadyAction h = (i : Int) →
      ∃ r, h.readyactions.get? i = some r ∧ r.Running = false ∧
        ∀ j x, h.readyactions.get? j = some x → x.Running = false →
          x.FollowIndex.length ≤ r.FollowIndex.length ∧
          (j < i → x.FollowIndex.length < r.FollowIndex.length)) ∧
    ((∀ r ∈ h.readyactions, r.FollowIndex = []) →
      selectReadyAction { h with MostDepentFirst := true }
        = selectReadyAction { h with MostDepentFirst := false }) ∧
    (∀ i : Nat, selectReadyAction ((initRun most cont maxjobs acts).steps steps).h = (i : Int) →
      ∃ r, ((initRun most cont maxjobs acts).steps steps).h.readyactions.get? i = some r ∧
        r.Running = false ∧ r.Finished = false ∧
        (∃ v ∈ ((initRun most cont maxjobs acts).steps steps).h.allactions, v.Index = r.Index) ∧
        ∀ v ∈ ((initRun most cont maxjobs acts).steps steps).h.allactions,
          v.Index = r.Index → v.Finished = false ∧ v.Dep = []) := by
  refine ⟨selectReadyAction_eq_neg_one_iff h, selectReadyAction_ge h, ?_, ?_, ?_, ?_⟩
  · intro hm i hi
    simp only [selectReadyAction, hm, Bool.false_eq_true, if_false] at hi
    rcases firstNotRunningLoop_cases h.readyactions 0 with
      ⟨h1, _⟩ | ⟨pre, r, post, h1, h2, h3, h4⟩
    · omega
    · have hip : i = pre.length := by
        rw [h4] at hi; simp at hi; omega
      subst hip
      refine ⟨r, by rw [h1, get?_append_length], h3, ?_⟩
      intro j x hj hlt
      rw [h1] at hj
      rcases get?_append_cases _ _ _ _ _ hj with ⟨_, h6⟩ | ⟨h5, _⟩ | ⟨h5, _⟩
      · exact h2 x h6
      · omega
      · omega
  · intro hm i hi
    simp only [selectReadyAction, hm, if_true] at hi
    rcases mostFollowersLoop_cases h.readyactions 0 (-1) (-1) with
      ⟨h1, _⟩ | ⟨pre, r, post, h1, h2, _, h4, h5, h6⟩
    · omega
    · have hip : i = pre.length := by
        rw [h6] at hi; simp at hi; omega
      subst hip
      refine ⟨r, by rw [h1, get?_append_length], h2, ?_⟩
      intro j x hj hx
      rw [h1] at hj
      rcases get?_append_cases _ _ _ _ _ hj with ⟨h7, h8⟩ | ⟨h7, h8⟩ | ⟨h7, h8⟩
      · have := h4 x h8 hx
        exact ⟨by omega, fun _ => this⟩
      · subst h8
        exact ⟨le_refl _, fun hlt => by omega⟩
      · exact ⟨h5 x h8 hx, fun hlt => by omega⟩
  · intro hall
    simp only [selectReadyAction, if_true, Bool.false_eq_true, if_false]
    rcases mostFollowersLoop_cases h.readyactions 0 (-1) (-1) with
      ⟨h1, h2⟩ | ⟨pre, r, post, h1, h2, _, h4, _, h6⟩
    · rw [h1]
      rcases firstNotRunningLoop_cases h.readyactions 0 with
        ⟨h3, _⟩ | ⟨pre, r, post, h3, _, h5, _⟩
      · exact h3.symm
      · have := h2 r (by simp [h3]) h5
        omega
    · rw [h6, h1]
      have hr0 : r.FollowIndex.length = 0 := by
        rw [hall r (by simp [h1])]; rfl
      rw [firstNotRunningLoop_of_split pre r post 0 _ h2]
      intro x hx
      by_contra hc
      have := h4 x hx (by simpa using hc)
      omega
  · intro i hi
    have hI := inv_steps hu steps (inv_init most cont maxjobs acts hu)
    rcases selectReadyAction_cases ((initRun most cont maxjobs acts).steps steps).h with
      ⟨h1, _⟩ | ⟨pre, r, post, h1, h2, h3⟩
    · omega
    · have hip : i = pre.length := by omega
      subst hip
      have hr : r ∈ ((initRun most cont maxjobs acts).steps steps).h.readyactions := by
        simp [h1]
      refine ⟨r, by rw [h1, get?_append_length], h2, hI.ready_unfin r hr,
        exists_rec_of_mem hI.idx (hI.ready_in r hr), ?_⟩
      intro v hv hvi
      have := hI.ready_rec r hr v hv hvi
      exact ⟨this.2.2, this.1⟩

/-- C8 on the diamond under `MostDepentFirst`, after the result of `A`: the
selected entry is `B` at position 0, idle, unfinished, with an empty `Dep` in
`allactions`. -/
theorem C8_selectReadyAction_witness :
    (diamond.map Action.Index).Nodup ∧
    selectReadyAction ((initRun true false 1 diamond).steps
      [Step.select, Step.finish 0 0]).h = ((0 : Nat) : Int) ∧
    ∃ r, ((initRun true false 1 diamond).steps
        [Step.select, Step.finish 0 0]).h.readyactions.get? 0 = some r ∧
      r.Running = false ∧ r.Finished = false ∧
      (∃ v ∈ ((initRun true false 1 diamond).steps
        [Step.select, Step.finish 0 0]).h.allactions, v.Index = r.Index) ∧
      ∀ v ∈ ((initRun true false 1 diamond).steps
        [Step.select, Step.finish 0 0]).h.allactions,
        v.Index = r.Index → v.Finished = false ∧ v.Dep = [] :=
  ⟨by decide, by decide,
   (C8_selectReadyAction (NewUBTTool true false) true false 1 diamond (by decide)
      [Step.select, Step.finish 0 0]).2.2.2.2.2 0 (by decide)⟩

/-! ## C10: the flags of a finished record -/

/-- C10, as stated, fails: on the diamond, after `A` has been dispatched and
its result processed, the record of `A` in `allactions` has `Finished = true`
and still `Running = true`. -/
theorem C10_counterexample :
    ¬ ∀ v ∈ ((initRun false false 1 diamond).steps
        [Step.select, Step.finish 0 0]).h.allactions,
      v.Finished = true → v.Running = false := by
  decide

theorem finished_running_step {acts : List Action} {s : Run}
    (hu : (acts.map Action.Index).Nodup) (hI : Inv acts s)
    (hF : ∀ v ∈ s.h.allactions, v.Finished = true → v.Running = true) (st : Step) :
    ∀ v ∈ (s.step st).h.allactions, v.Finished = true → v.Running = true := by
  have hn : (s.h.allactions.map Action.Index).Nodup := by rw [hI.idx]; exact hu
  cases st with
  | select =>
    simp only [Run.step, (run_select_allactions s).1]
    exact hF
  | finish pos exitcode =>
    simp only [Run.step]
    cases hk : s.pending.get? (pos % s.pending.length) with
    | none => exact hF
    | some a =>
      simp only [Run.finish]
      rcases onActionFinished_cases s.h a.Index exitcode hn with
        ⟨_, h1, _, _⟩ | ⟨_, h1, _, _⟩
      · rw [h1]; exact hF
      · rw [h1]
        intro v hv hvf
        obtain ⟨w, hw, rfl⟩ := List.mem_map.1 hv
        apply finRec_running
        rw [finRec_eq] at hvf
        simp only [Bool.or_eq_true, beq_iff_eq] at hvf
        rcases hvf with hvf | hvf
        · exact hF w hw hvf
        · exact hI.disp_rec _ (hI.pend_disp a (List.get?_mem hk)) w hw hvf

/-- C10, amended: in every run of the engine over a list with unique `Index`
values whose `Finished` flags are false at the start, every record of
`allactions` with `Finished = true` has `Running = true` (the mark it got when
it was copied to the ready list is never cleared), and every entry of the
ready list has `Finished = false`. -/
theorem C10_finished_keeps_running (most cont : Bool) (maxjobs : Int) (acts : List Action)
    (hu : (acts.map Action.Index).Nodup) (hfresh : ∀ a ∈ acts, a.Finished = false)
    (steps : List Step) :
    (∀ v ∈ ((initRun most cont maxjobs acts).steps steps).h.allactions,
      v.Finished = true → v.Running = true) ∧
    (∀ r ∈ ((initRun most cont maxjobs acts).steps steps).h.readyactions,
      r.Finished = false) := by
  have key : ∀ (l : List Step) (s : Run), Inv acts s →
      (∀ v ∈ s.h.allactions, v.Finished = true → v.Running = true) →
      ∀ v ∈ (s.steps l).h.allactions, v.Finished = true → v.Running = true := by
    intro l
    induction l with
    | nil => intro s _ hF; exact hF
    | cons st l ih =>
      intro s hI hF
      exact ih _ (inv_step hu hI st) (finished_running_step hu hI hF st)
  have hI0 := inv_init most cont maxjobs acts hu
  refine ⟨key steps _ hI0 ?_, (inv_steps hu steps hI0).ready_unfin⟩
  intro v hv hvf
  have hall : (initRun most cont maxjobs acts).h.allactions = acts.map readyRec := by
    simp [initRun, getReadyActions, getReadyLoop_eq, NewUBTTool]
  rw [hall] at hv
  obtain ⟨w, hw, rfl⟩ := List.mem_map.1 hv
  have := hfresh w hw
  unfold readyRec at hvf
  split at hvf <;> simp [this] at hvf

/-- C10, amended, on the diamond after the result of `A`. -/
theorem C10_finished_keeps_running_witness :
    (diamond.map Action.Index).Nodup ∧ (∀ a ∈ diamond, a.Finished = false) ∧
    (∀ v ∈ ((initRun false false 1 diamond).steps
        [Step.select, Step.finish 0 0]).h.allactions,
      v.Finished = true → v.Running = true) :=
  ⟨by decide, by decide,
   (C10_finished_keeps_running false false 1 diamond (by decide) (by decide)
      [Step.select, Step.finish 0 0]).1⟩

/-! ## C9: what a successful finish does to the dependents -/

/-- C9, as stated, fails: with `Dep = ["A", "A"]` the call
`onActionFinished("A", 0)`, which does not complete the run, removes the first
`"A"` only, and the unfinished action `D` still has `"A"` in its `Dep` list. -/
theorem C9_counterexample :
    ¬ completes ((initRun false false 1 twice).steps [Step.select]).h ∧
    ¬ ∀ v ∈ (onActionFinished ((initRun false false 1 twice).steps [Step.select]).h
        "A" 0).allactions,
      v.Finished = false → "A" ∉ v.Dep := by
  decide

theorem onActionFinished_zero (h : UBTTool) (index : String) (hc : ¬ completes h) :
    (onActionFinished h index 0).allactions
        = (markFinished h.allactions index).map (updateRec index) ∧
      (onActionFinished h index 0).readyactions
        = eraseIndex h.readyactions index ++
          (markFinished h.allactions index).filter (becomesReady index) := by
  unfold completes at hc
  simp [onActionFinished, hc, dependLoop_eq, deleteReadyLoop_eq_eraseIndex]

theorem markFinished_mem (l : List Action) (index : String) :
    ∀ v ∈ markFinished l index, ∃ w ∈ l, v.Dep = w.Dep ∧ (v.Finished = false → v = w) := by
  induction l with
  | nil => simp [markFinished]
  | cons a l ih =>
    intro v hv
    unfold markFinished at hv
    split at hv
    · rcases List.mem_cons.1 hv with rfl | hv
      · exact ⟨a, by simp, rfl, by simp⟩
      · exact ⟨v, by simp [hv], rfl, fun _ => rfl⟩
    · rcases List.mem_cons.1 hv with rfl | hv
      · exact ⟨v, by simp, rfl, fun _ => rfl⟩
      · obtain ⟨w, hw, h1, h2⟩ := ih v hv
        exact ⟨w, by simp [hw], h1, h2⟩

/-- C9, amended: for every engine state and every identity `id` that no
`Dep` list of an unfinished action holds more than once, after
`onActionFinished(id, 0)` that does not complete the run, `id` occurs in the
`Dep` list of no unfinished action; every unfinished record with an empty
`Dep` list carries the `Running` mark of the records copied to the ready list;
and the ready list is the old one without its entry for `id`, followed by the
unfinished, unmarked records whose `Dep` list has become empty. -/
theorem C9_finish_updates_dependents (h : UBTTool) (id : String) (hc : ¬ completes h)
    (hdep : ∀ v ∈ h.allactions, v.Finished = false → v.Dep.count id ≤ 1) :
    (∀ v ∈ (onActionFinished h id 0).allactions, v.Finished = false → id ∉ v.Dep) ∧
    (∀ v ∈ (onActionFinished h id 0).allactions, v.Finished = false → v.Dep = [] →
      v.Running = true) ∧
    (onActionFinished h id 0).readyactions
      = eraseIndex h.readyactions id ++
        (markFinished h.allactions id).filter
          (fun v => !v.Finished && !v.Running && (v.Dep.erase id).length == 0) ∧
    (∀ w ∈ markFinished h.allactions id, w.Finished = false → w.Running = false →
      w.Dep.erase id = [] → w ∈ (onActionFinished h id 0).readyactions) := by
  obtain ⟨hall, hready⟩ := onActionFinished_zero h id hc
  have hfilter : (markFinished h.allactions id).filter (becomesReady id)
      = (markFinished h.allactions id).filter
          (fun v => !v.Finished && !v.Running && (v.Dep.erase id).length == 0) := rfl
  refine ⟨?_, ?_, by rw [hready, hfilter], ?_⟩
  · intro v hv hvf
    rw [hall] at hv
    obtain ⟨w, hw, rfl⟩ := List.mem_map.1 hv
    obtain ⟨w0, hw0, h1, h2⟩ := markFinished_mem _ _ w hw
    have hwf : w.Finished = false := by
      unfold updateRec at hvf
      by_cases hwf : w.Finished = true
      · simp [hwf] at hvf
      · simpa using hwf
    have hcount := hdep w0 hw0 (by rw [← h2 hwf]; exact hwf)
    have hnot : id ∉ w.Dep.erase id := by
      rw [h1]
      apply List.count_eq_zero.1
      rw [List.count_erase_self]
      omega
    unfold updateRec
    simp only [hwf, Bool.false_eq_true, if_false]
    split <;> exact hnot
  · intro v hv hvf hvd
    rw [hall] at hv
    obtain ⟨w, hw, rfl⟩ := List.mem_map.1 hv
    unfold updateRec at hvf hvd ⊢
    by_cases hwf : w.Finished = true
    · simp [hwf] at hvf
    · by_cases hb : becomesReady id w = true
      · simp [hwf, hb]
      · simp only [hwf, Bool.false_eq_true, if_false, hb] at hvd ⊢
        simp only [becomesReady, hwf, hvd, List.length_nil, beq_self_eq_true, Bool.and_true,
          Bool.not_false, Bool.true_and, Bool.not_eq_true', Bool.not_eq_false] at hb
        simpa using hb
  · intro w hw hwf hwr hwd
    rw [hready]
    apply List.mem_append_right
    apply List.mem_filter.2
    exact ⟨hw, by simp [becomesReady, hwf, hwr, hwd]⟩

/-- C9, amended, on the diamond after `A` has been dispatched: the result of
`A` leaves `"A"` in no `Dep` list of an unfinished action. -/
theorem C9_finish_updates_dependents_witness :
    ¬ completes ((initRun false false 1 diamond).steps [Step.select]).h ∧
    (∀ v ∈ ((initRun false false 1 diamond).steps [Step.select]).h.allactions,
      v.Finished = false → v.Dep.count "A" ≤ 1) ∧
    (∀ v ∈ (onActionFinished ((initRun false false 1 diamond).steps [Step.select]).h
        "A" 0).allactions, v.Finished = false → "A" ∉ v.Dep) :=
  ⟨by decide, by decide,
   (C9_finish_updates_dependents ((initRun false false 1 diamond).steps [Step.select]).h "A"
      (by decide) (by decide)).1⟩

/-! ## C7: loading an action list -/

/-- C7, as stated, fails: once `resolveActionJSON` has returned the list,
loading accepts a list with two actions of the same `Index`, a list with a
`Dep` entry that names no action, and a list whose dependencies form a cycle;
in each of the three runs an action is dispatched afterwards, and the run
over the list with the repeated `Index` even ends without an error. -/
theorem C7_counterexample :
    (∃ h, runActionsLoad (NewUBTTool false false)
        (Except.ok [{ Index := "A" }, { Index := "A" }]) = Except.ok h) ∧
    (runActions (NewUBTTool false false) (Except.ok [{ Index := "A" }, { Index := "A" }])
        (some 1) (fun _ => (0, false)) [Event.result 0, Event.result 0]).1
      = Outcome.returned none ∧
    (∃ h, runActionsLoad (NewUBTTool false false)
        (Except.ok [{ Index := "A" }, { Index := "B", Dep := ["Z"] }]) = Except.ok h) ∧
    ((runActions (NewUBTTool false false)
        (Except.ok [{ Index := "A" }, { Index := "B", Dep := ["Z"] }])
        (some 1) (fun _ => (0, false)) [Event.result 0]).2.map (fun s => dispatched s.log))
      = some ["A"] ∧
    (∃ h, runActionsLoad (NewUBTTool false false)
        (Except.ok [{ Index := "A" }, { Index := "B", Dep := ["C"] },
          { Index := "C", Dep := ["B"] }]) = Except.ok h) ∧
    ((runActions (NewUBTTool false false)
        (Except.ok [{ Index := "A" }, { Index := "B", Dep := ["C"] },
          { Index := "C", Dep := ["B"] }])
        (some 1) (fun _ => (0, false)) [Event.result 0]).2.map (fun s => dispatched s.log))
      = some ["A"] :=
  ⟨⟨_, rfl⟩, by decide, ⟨_, rfl⟩, by decide, ⟨_, rfl⟩, by decide⟩

/-- C7, amended: loading (`runActions` up to and including `getReadyActions`)
returns an error only when `resolveActionJSON` does, and then that error;
every list that `resolveActionJSON` returns is accepted and becomes
`allactions`, with the ready list computed by `getReadyActions`, whose error
result is nil for every list. -/
theorem C7_load_rejects_only_resolve_errors (h : UBTTool) :
    (∀ e, runActionsLoad h (Except.error e) = Except.error e) ∧
    (∀ acts, runActionsLoad h (Except.ok acts)
      = Except.ok (getReadyActions { h with allactions := acts })) ∧
    (∀ acts, getReadyActionsErr { h with allactions := acts } = none) :=
  ⟨fun _ => rfl, fun _ => rfl, fun _ => rfl⟩

/-! ## C5: halting on the first failure -/

theorem executeLoop_reach (outcome : Action → Int × Bool) (events : List Event) :
    ∀ s : Run, ∃ steps, (executeLoop outcome events s).2 = s.steps steps := by
  induction events with
  | nil => intro s; exact ⟨[], rfl⟩
  | cons ev es ih =>
    intro s
    cases ev with
    | tick elapsed =>
      simp only [executeLoop]
      split
      · exact ⟨[], rfl⟩
      · exact ih s
    | result pos =>
      simp only [executeLoop]
      cases hk : s.pending.get? (pos % s.pending.length) with
      | none => exact ih s
      | some a =>
        simp only []
        have hstep : s.finish (pos % s.pending.length) a.Index (outcome a).1
            = s.step (Step.finish pos (outcome a).1) := by
          simp only [Run.step, hk]
        split
        · exact ⟨[], rfl⟩
        · split
          · exact ⟨[Step.finish pos (outcome a).1], by simp [Run.steps, sentResult, hstep]⟩
          · split
            · exact ⟨[Step.finish pos (outcome a).1, Step.select],
                by simp [Run.steps, sentResult, hstep, Run.step]⟩
            · obtain ⟨steps, hs⟩ := ih (s.finish (pos % s.pending.length)
                (sentResult outcome a).Index (sentResult outcome a).Exitcode).select
              refine ⟨Step.finish pos (outcome a).1 :: Step.select :: steps, ?_⟩
              rw [hs]
              simp [Run.steps, sentResult, hstep, Run.step]

theorem executeActions_reach (most cont : Bool) (acts : List Action) (envjobs : Option Int)
    (outcome : Action → Int × Bool) (events : List Event) :
    ∃ steps, (executeActions (loaded most cont acts) envjobs outcome events).2
      = (initRun most cont (jobsOf envjobs) acts).steps steps := by
  have h0 : ({ h := { loaded most cont acts with maxjobs := jobsOf envjobs },
               pending := [], log := [] } : Run) = initRun most cont (jobsOf envjobs) acts := rfl
  unfold executeActions
  simp only []
  split
  · exact ⟨[], by rw [← h0]; rfl⟩
  · split
    · exact ⟨[Step.select], by rw [← h0]; rfl⟩
    · obtain ⟨steps, hs⟩ := executeLoop_reach outcome events
        (Run.select { h := { loaded most cont acts with maxjobs := jobsOf envjobs },
                      pending := [], log := [] })
      refine ⟨Step.select :: steps, ?_⟩
      rw [← h0]
      exact hs

theorem inv_no_descendant {acts : List Action} {s : Run} (hI : Inv acts s) (f : Action)
    (hf : f ∈ s.pending) (x : String) (hd : Descendant acts f.Index x) :
    x ∉ dispatched s.log := by
  induction hd with
  | direct b hb hfb =>
    intro hx
    obtain ⟨a, ha, hai⟩ := (mem_dispatched _ _).1 hx
    obtain ⟨pre, post, hsplit⟩ := List.append_of_mem ha
    have := hI.dep_before pre a post hsplit b hb hai.symm _ hfb
    apply hI.pend_unrep f hf
    rw [mem_reported]
    exact ⟨0, by rw [hsplit]; exact List.mem_append_left _ this⟩
  | step b y hb hyb _ ih =>
    intro hx
    obtain ⟨a, ha, hai⟩ := (mem_dispatched _ _).1 hx
    obtain ⟨pre, post, hsplit⟩ := List.append_of_mem ha
    have := hI.dep_before pre a post hsplit b hb hai.symm _ hyb
    apply ih
    apply hI.rep_disp
    rw [mem_reported]
    exact ⟨0, by rw [hsplit]; exact List.mem_append_left _ this⟩

theorem executeLoop_failed (outcome : Action → Int × Bool) (events : List Event) :
    ∀ (s : Run) (c : Int) (e : Bool),
      (executeLoop outcome events s).1 = Outcome.returned (some (ToolError.actionFailed c e)) →
      (executeLoop outcome events s).2.h.ContinueOnError = false ∧
      ∃ f ∈ (executeLoop outcome events s).2.pending,
        (outcome f).1 = c ∧ (outcome f).2 = e ∧ (c ≠ 0 ∨ e = true) := by
  induction events with
  | nil => intro s c e h; simp [executeLoop] at h
  | cons ev es ih =>
    intro s c e
    cases ev with
    | tick elapsed =>
      simp only [executeLoop]
      split
      · intro h; simp at h
      · exact ih s c e
    | result pos =>
      simp only [executeLoop]
      cases hk : s.pending.get? (pos % s.pending.length) with
      | none => exact ih s c e
      | some a =>
        simp only []
        split
        · rename_i hcond
          intro h
          simp only [sentResult, Outcome.returned.injEq, Option.some.injEq,
            ToolError.actionFailed.injEq] at h
          simp only [sentResult, Bool.and_eq_true, Bool.or_eq_true, bne_iff_ne, ne_eq,
            Bool.not_eq_true'] at hcond
          refine ⟨hcond.2, a, List.get?_mem hk, h.1, h.2, ?_⟩
          rw [← h.1, ← h.2]
          exact hcond.1
        · split
          · intro h; simp at h
          · split
            · intro h; simp at h
            · exact ih _ c e

/-- C5: with `ContinueOnError = false`, when the loop of `executeActions`
receives a result with a nonzero exit code or a non-nil error it returns the
error at once and leaves the run as it was (the action is not marked finished,
nothing more is dispatched). Hence when `executeActions` returns such an
error over a list with unique `Index` values, the failed action is still
among the launched actions without a processed result, its `Index` was never
passed to `onActionFinished`, and no action that depends on it, directly or
through others, has been dispatched. -/
theorem C5_halt_on_failure (most : Bool) (acts : List Action)
    (hu : (acts.map Action.Index).Nodup) (envjobs : Option Int)
    (outcome : Action → Int × Bool) :
    (∀ (es : List Event) (s : Run) (pos : Nat) (a : Action),
      s.h.ContinueOnError = false → s.pending.get? (pos % s.pending.length) = some a →
      ((outcome a).1 ≠ 0 ∨ (outcome a).2 = true) →
      executeLoop outcome (Event.result pos :: es) s
        = (Outcome.returned (some (ToolError.actionFailed (outcome a).1 (outcome a).2)), s)) ∧
    (∀ (events : List Event) (c : Int) (e : Bool),
      (executeActions (loaded most false acts) envjobs outcome events).1
        = Outcome.returned (some (ToolError.actionFailed c e)) →
      ∃ f ∈ (executeActions (loaded most false acts) envjobs outcome events).2.pending,
        (outcome f).1 = c ∧ (outcome f).2 = e ∧ (c ≠ 0 ∨ e = true) ∧
        f.Index ∉ reported (executeActions (loaded most false acts) envjobs outcome events).2.log ∧
        ∀ x, Descendant acts f.Index x →
          x ∉ dispatched
            (executeActions (loaded most false acts) envjobs outcome events).2.log) := by
  constructor
  · intro es s pos a hcont hk hfail
    have : ((sentResult outcome a).Exitcode != 0 || (sentResult outcome a).Err) = true := by
      simp only [sentResult, Bool.or_eq_true, bne_iff_ne, ne_eq]
      exact hfail
    have hc : (((sentResult outcome a).Exitcode != 0 || (sentResult outcome a).Err) &&
        !s.h.ContinueOnError) = true := by
      simp [this, hcont]
    simp only [sentResult] at hc
    simp only [executeLoop, hk, sentResult, hc, if_true]
  · intro events c e hret
    obtain ⟨steps, hs⟩ := executeActions_reach most false acts envjobs outcome events
    have hI : Inv acts (executeActions (loaded most false acts) envjobs outcome events).2 := by
      rw [hs]
      exact inv_steps hu steps (inv_init most false (jobsOf envjobs) acts hu)
    have hex : ∃ f ∈ (executeActions (loaded most false acts) envjobs outcome events).2.pending,
        (outcome f).1 = c ∧ (outcome f).2 = e ∧ (c ≠ 0 ∨ e = true) := by
      unfold executeActions at hret ⊢
      simp only [] at hret ⊢
      split at hret
      · simp at hret
      · rename_i hneg
        simp only [hneg, if_false]
        split at hret
        · simp at hret
        · rename_i hrun
          simp only [hrun, if_false]
          exact (executeLoop_failed outcome events _ c e hret).2
    obtain ⟨f, hf, h1, h2, h3⟩ := hex
    exact ⟨f, hf, h1, h2, h3, hI.pend_unrep f hf, fun x hd => inv_no_descendant hI f hf x hd⟩

/-- C5 on the diamond with two jobs: `B` and `C` are in flight, the result of
`B` arrives first and fails; `D`, which depends on `B`, is not dispatched. -/
theorem C5_halt_on_failure_witness :
    (diamond.map Action.Index).Nodup ∧
    (executeActions (loaded false false diamond) (some 2) failB
      [Event.result 0, Event.result 0]).1
        = Outcome.returned (some (ToolError.actionFailed 1 false)) ∧
    ∃ f ∈ (executeActions (loaded false false diamond) (some 2) failB
        [Event.result 0, Event.result 0]).2.pending,
      (failB f).1 = 1 ∧ (failB f).2 = false ∧ ((1 : Int) ≠ 0 ∨ false = true) ∧
      f.Index ∉ reported (executeActions (loaded false false diamond) (some 2) failB
        [Event.result 0, Event.result 0]).2.log ∧
      ∀ x, Descendant diamond f.Index x →
        x ∉ dispatched (executeActions (loaded false false diamond) (some 2) failB
          [Event.result 0, Event.result 0]).2.log :=
  ⟨by decide, by decide,
   (C5_halt_on_failure false diamond (by decide) (some 2) failB).2
      [Event.result 0, Event.result 0] 1 false (by decide)⟩

/-! ## The counters -/

theorem int32_of_range (x : Int) (h1 : -2147483648 ≤ x) (h2 : x < 2147483648) : int32 x = x := by
  unfold int32
  omega

theorem nodup_length_le {l1 l2 : List String} (hn : l1.Nodup) (hs : ∀ x ∈ l1, x ∈ l2) :
    l1.length ≤ l2.length :=
  (List.subperm_of_subset hn hs).length_le

theorem inv_pending_le {acts : List Action} {s : Run} (hI : Inv acts s) :
    s.pending.length ≤ acts.length := by
  have := @nodup_length_le _ (acts.map Action.Index) hI.pend_nodup (by
    intro x hx
    obtain ⟨a, ha, rfl⟩ := List.mem_map.1 hx
    exact hI.disp_in _ (hI.pend_disp a ha))
  simpa using this

theorem inv_reported_le {acts : List Action} {s : Run} (hI : Inv acts s) :
    (reported s.log).length ≤ acts.length := by
  have := @nodup_length_le _ (acts.map Action.Index) hI.rep_nodup
    (fun x hx => hI.disp_in _ (hI.rep_disp x hx))
  simpa using this

theorem cnt_init (most cont : Bool) (maxjobs : Int) (acts : List Action) :
    Cnt (initRun most cont maxjobs acts) := ⟨rfl, rfl⟩

theorem cnt_dispatchOne {acts : List Action} {s : Run} (hlen : (acts.length : Int) < 2147483648)
    (pre : List Action) (r : Action) (post : List Action)
    (hI : Inv acts (s.dispatchOne pre r post)) (hC : Cnt s) : Cnt (s.dispatchOne pre r post) := by
  have hle := inv_pending_le hI
  simp only [Run.dispatchOne, List.length_append, List.length_singleton] at hle
  constructor
  · simp only [Run.dispatchOne, UBT.dispatchOne, List.length_append, List.length_singleton,
      hC.run]
    rw [int32_of_range _ (by omega) (by omega)]
    push_cast; ring
  · simp only [Run.dispatchOne, UBT.dispatchOne, reported_append, reported, List.append_nil]
    exact hC.fin

theorem inv_cnt_select {acts : List Action} {s : Run} (hlen : (acts.length : Int) < 2147483648)
    (hI : Inv acts s) (hC : Cnt s) : Inv acts s.select ∧ Cnt s.select :=
  run_select_induct (fun t => Inv acts t ∧ Cnt t)
    (fun _ pre r post hP hr hrun _ =>
      have hI' := inv_dispatchOne hP.1 pre r post hr hrun
      ⟨hI', cnt_dispatchOne hlen pre r post hI' hP.2⟩) s ⟨hI, hC⟩

theorem onActionFinished_counters (h : UBTTool) (index : String) (exitcode : Int) :
    (onActionFinished h index exitcode).finishednumber = int32 (h.finishednumber + 1) ∧
    (onActionFinished h index exitcode).runningnumber = int32 (h.runningnumber - 1) ∧
    (onActionFinished h index exitcode).maxjobs = h.maxjobs ∧
    (onActionFinished h index exitcode).MostDepentFirst = h.MostDepentFirst ∧
    (onActionFinished h index exitcode).ContinueOnError = h.ContinueOnError := by
  unfold onActionFinished
  simp only []
  split
  · exact ⟨rfl, rfl, rfl, rfl, rfl⟩
  · split <;> exact ⟨rfl, rfl, rfl, rfl, rfl⟩

theorem cnt_finish {acts : List Action} {s : Run} (hlen : (acts.length : Int) < 2147483648)
    (k : Nat) (a : Action) (exitcode : Int) (hk : s.pending.get? k = some a)
    (hI : Inv acts (s.finish k a.Index exitcode)) (hC : Cnt s) :
    Cnt (s.finish k a.Index exitcode) := by
  obtain ⟨h1, h2, _⟩ := onActionFinished_counters s.h a.Index exitcode
  have hle := inv_reported_le hI
  obtain ⟨p1, p2, hp, hpe⟩ := get?_split _ _ _ hk
  simp only [Run.finish, reported_append, reported, List.length_append, List.length_cons,
    List.length_nil] at hle
  have hl1 : s.pending.length = p1.length + p2.length + 1 := by
    rw [hp]; simp; omega
  have hl2 : (s.pending.eraseIdx k).length = p1.length + p2.length := by
    rw [hpe]; simp
  constructor
  · show (onActionFinished s.h a.Index exitcode).runningnumber
      = ((s.pending.eraseIdx k).length : Int)
    rw [h2, hC.run, hl1, hl2, int32_of_range _ (by omega) (by
      have := inv_pending_le hI
      simp only [Run.finish, hl2] at this
      omega)]
    push_cast; ring
  · show (onActionFinished s.h a.Index exitcode).finishednumber
      = ((reported (s.log ++ [LogEntry.finish a.Index exitcode])).length : Int)
    rw [h1, hC.fin, int32_of_range _ (by omega) (by omega)]
    simp [reported_append, reported]

theorem inv_cnt_step {acts : List Action} {s : Run} (hu : (acts.map Action.Index).Nodup)
    (hlen : (acts.length : Int) < 2147483648) (hI : Inv acts s) (hC : Cnt s) (st : Step) :
    Inv acts (s.step st) ∧ Cnt (s.step st) := by
  cases st with
  | select => exact inv_cnt_select hlen hI hC
  | finish pos exitcode =>
    simp only [Run.step]
    cases hk : s.pending.get? (pos % s.pending.length) with
    | none => exact ⟨hI, hC⟩
    | some a =>
      have hI' := inv_finish hu hI _ a exitcode hk
      exact ⟨hI', cnt_finish hlen _ a exitcode hk hI' hC⟩

theorem inv_cnt_steps {acts : List Action} (hu : (acts.map Action.Index).Nodup)
    (hlen : (acts.length : Int) < 2147483648) (l : List Step) :
    ∀ {s : Run}, Inv acts s → Cnt s → Inv acts (s.steps l) ∧ Cnt (s.steps l) := by
  induction l with
  | nil => intro s hI hC; exact ⟨hI, hC⟩
  | cons st l ih =>
    intro s hI hC
    obtain ⟨h1, h2⟩ := inv_cnt_step hu hlen hI hC st
    exact ih h1 h2

/-! ## Progress of a run in which every result is a success -/

theorem prog_init (most cont : Bool) (maxjobs : Int) (acts : List Action)
    (hu : (acts.map Action.Index).Nodup) (hne : acts ≠ [])
    (hfresh : ∀ a ∈ acts, a.Running = false ∧ a.Finished = false)
    (hnd : ∀ a ∈ acts, a.Dep.Nodup) : Prog acts (initRun most cont maxjobs acts) := by
  have hall : (initRun most cont maxjobs acts).h.allactions = acts.map readyRec := by
    simp [initRun, getReadyActions, getReadyLoop_eq, NewUBTTool]
  have hready : (initRun most cont maxjobs acts).h.readyactions = acts.filter noDepend := by
    simp [initRun, getReadyActions, getReadyLoop_eq, NewUBTTool]
  have hlog : (initRun most cont maxjobs acts).log = [] := rfl
  have hinj := List.inj_on_of_nodup_map hu
  have hfin : ∀ w ∈ acts, (readyRec w).Finished = false := by
    intro w hw
    unfold readyRec
    split <;> exact (hfresh w hw).2
  have hdep : ∀ w : Action, (readyRec w).Dep = w.Dep := by
    intro w
    unfold readyRec
    split <;> rfl
  refine ⟨?_, ?_, ?_, ?_, ?_, ?_, ?_, rfl, ?_⟩
  · intro v hv hvf
    rw [hall] at hv
    obtain ⟨w, hw, rfl⟩ := List.mem_map.1 hv
    rw [hfin w hw] at hvf
    cases hvf
  · intro b hb v hv hvi d hd
    rw [hall] at hv
    obtain ⟨w, hw, rfl⟩ := List.mem_map.1 hv
    rw [readyRec_index] at hvi
    have := hinj hw hb hvi
    subst this
    rw [hdep] at hd
    exact hd
  · intro v hv
    rw [hall] at hv
    obtain ⟨w, hw, rfl⟩ := List.mem_map.1 hv
    rw [hdep]
    exact hnd w hw
  · intro v _ _ d _
    rw [hlog]
    simp [reported]
  · intro v hv _ hvd
    rw [hall] at hv
    obtain ⟨w, hw, rfl⟩ := List.mem_map.1 hv
    rw [hdep] at hvd
    have : noDepend w = true := by
      simp [noDepend, (hfresh w hw).1, (hfresh w hw).2, hvd]
    simp [readyRec, this]
  · intro v hv hvr _
    rw [hall] at hv
    obtain ⟨w, hw, rfl⟩ := List.mem_map.1 hv
    rw [hready]
    refine ⟨w, List.mem_filter.2 ⟨hw, ?_⟩, (readyRec_index w).symm⟩
    by_contra hc
    unfold readyRec at hvr
    simp only [hc, Bool.false_eq_true, if_false, (hfresh w hw).1] at hvr
  · intro r hr hrr
    rw [hready] at hr
    have := (hfresh r (List.mem_filter.1 hr).1).1
    rw [this] at hrr
    cases hrr
  · rw [hlog]
    simp only [reported, List.length_nil]
    exact List.length_pos.2 hne

theorem prog_dispatchOne {acts : List Action} {s : Run} (hP : Prog acts s)
    (pre : List Action) (r : Action) (post : List Action)
    (hr : s.h.readyactions = pre ++ r :: post) : Prog acts (s.dispatchOne pre r post) := by
  have hrl : reported (s.log ++ [LogEntry.dispatch { r with Running := true }])
      = reported s.log := by
    simp [reported_append, reported]
  have hold : ∀ x ∈ pre ++ { r with Running := true } :: post,
      x = { r with Running := true } ∨ x ∈ s.h.readyactions := by
    intro x hx
    rcases List.mem_append.1 hx with hx | hx
    · right; simp [hr, hx]
    · rcases List.mem_cons.1 hx with hx | hx
      · left; exact hx
      · right; simp [hr, hx]
  refine ⟨?_, hP.dep_sub, hP.dep_nd, ?_, hP.nodep_run, ?_, ?_, hP.notfin, ?_⟩
  · intro v hv hvf
    show v.Index ∈ reported (s.log ++ _)
    rw [hrl]
    exact hP.fin_rep v hv hvf
  · intro v hv hvf d hd
    show d ∉ reported (s.log ++ _)
    rw [hrl]
    exact hP.dep_unrep v hv hvf d hd
  · intro v hv hvr hvf
    obtain ⟨x, hx, hxi⟩ := hP.run_ready v hv hvr hvf
    rw [hr] at hx
    rcases List.mem_append.1 hx with hx | hx
    · exact ⟨x, by simp [Run.dispatchOne, UBT.dispatchOne, hx], hxi⟩
    · rcases List.mem_cons.1 hx with hx | hx
      · subst hx
        exact ⟨{ x with Running := true }, by simp [Run.dispatchOne, UBT.dispatchOne], hxi⟩
      · exact ⟨x, by simp [Run.dispatchOne, UBT.dispatchOne, hx], hxi⟩
  · intro x hx hxr
    rcases hold x hx with rfl | hx
    · exact ⟨_, List.mem_append_right _ (List.mem_singleton_self _), rfl⟩
    · obtain ⟨a, ha, hai⟩ := hP.run_pend x hx hxr
      exact ⟨a, List.mem_append_left _ ha, hai⟩
  · show (reported (s.log ++ _)).length < acts.length
    rw [hrl]
    exact hP.room

theorem prog_select {acts : List Action} {s : Run} (hP : Prog acts s) : Prog acts s.select :=
  run_select_induct (Prog acts)
    (fun _ pre r post h hr _ _ => prog_dispatchOne h pre r post hr) s hP

theorem completes_iff {acts : List Action} {s : Run} (hlen : (acts.length : Int) < 2147483648)
    (hI : Inv acts s) (hC : Cnt s) (hroom : (reported s.log).length < acts.length) :
    completes s.h ↔ (reported s.log).length + 1 = acts.length := by
  have hl : s.h.allactions.length = acts.length := by
    have := congrArg List.length hI.idx
    simpa using this
  unfold completes
  rw [hC.fin, hl, int32_of_range _ (by omega) (by omega), int32_of_range _ (by omega) (by omega)]
  constructor
  · intro h; omega
  · intro h; omega

theorem prog_finish {acts : List Action} {s : Run} (hu : (acts.map Action.Index).Nodup)
    (hlen : (acts.length : Int) < 2147483648) (hI : Inv acts s) (hC : Cnt s) (hP : Prog acts s)
    (k : Nat) (a : Action) (hk : s.pending.get? k = some a) (hc : ¬ completes s.h) :
    Prog acts (s.finish k a.Index 0) := by
  have hn : (s.h.allactions.map Action.Index).Nodup := by rw [hI.idx]; exact hu
  have hinj := List.inj_on_of_nodup_map hn
  obtain ⟨p1, p2, hp, hpe⟩ := get?_split _ _ _ hk
  have hrl : reported (s.log ++ [LogEntry.finish a.Index 0]) = reported s.log ++ [a.Index] := by
    simp [reported_append, reported]
  have hroom : (reported s.log).length + 1 < acts.length := by
    have h1 := (completes_iff hlen hI hC hP.room).not.1 hc
    have h2 := hP.room
    omega
  rcases onActionFinished_cases s.h a.Index 0 hn with ⟨h0, _⟩ | ⟨_, hall, hready, hfin⟩
  · exact absurd h0 hc
  simp only [if_true] at hready
  refine ⟨?_, ?_, ?_, ?_, ?_, ?_, ?_, ?_, ?_⟩
  · intro v hv hvf
    show v.Index ∈ reported (s.log ++ _)
    rw [hrl]
    change v ∈ (onActionFinished s.h a.Index 0).allactions at hv
    rw [hall] at hv
    obtain ⟨w, hw, rfl⟩ := List.mem_map.1 hv
    rw [finRec_eq] at hvf ⊢
    simp only [Bool.or_eq_true, beq_iff_eq] at hvf
    rcases hvf with hvf | hvf
    · exact List.mem_append_left _ (hP.fin_rep w hw hvf)
    · simp [hvf]
  · intro b hb v hv hvi d hd
    change v ∈ (onActionFinished s.h a.Index 0).allactions at hv
    rw [hall] at hv
    obtain ⟨w, hw, rfl⟩ := List.mem_map.1 hv
    rw [finRec_index] at hvi
    rw [finRec_eq] at hd
    simp only at hd
    split at hd
    · exact hP.dep_sub b hb w hw hvi d (List.mem_of_mem_erase hd)
    · exact hP.dep_sub b hb w hw hvi d hd
  · intro v hv
    change v ∈ (onActionFinished s.h a.Index 0).allactions at hv
    rw [hall] at hv
    obtain ⟨w, hw, rfl⟩ := List.mem_map.1 hv
    rw [finRec_eq]
    simp only
    split
    · exact (hP.dep_nd w hw).erase _
    · exact hP.dep_nd w hw
  · intro v hv hvf d hd
    show d ∉ reported (s.log ++ _)
    rw [hrl]
    change v ∈ (onActionFinished s.h a.Index 0).allactions at hv
    rw [hall] at hv
    obtain ⟨w, hw, rfl⟩ := List.mem_map.1 hv
    rw [finRec_eq] at hvf hd
    simp only [Bool.or_eq_false_iff, beq_eq_false_iff_ne, ne_eq] at hvf
    simp only [beq_self_eq_true, hvf.1, Bool.false_or, Bool.true_and, Bool.not_eq_true',
      beq_eq_false_iff_ne, ne_eq, hvf.2, not_false_eq_true, if_true] at hd
    have hd' := ((hP.dep_nd w hw).mem_erase_iff).1 hd
    intro hmem
    rcases List.mem_append.1 hmem with hmem | hmem
    · exact hP.dep_unrep w hw hvf.1 d hd'.2 hmem
    · simp at hmem
      exact hd'.1 hmem
  · intro v hv hvf hvd
    change v ∈ (onActionFinished s.h a.Index 0).allactions at hv
    rw [hall] at hv
    obtain ⟨w, hw, rfl⟩ := List.mem_map.1 hv
    rw [finRec_eq] at hvf hvd ⊢
    simp only [Bool.or_eq_false_iff, beq_eq_false_iff_ne, ne_eq] at hvf
    simp only [beq_self_eq_true, hvf.1, Bool.false_or, Bool.true_and, Bool.not_eq_true',
      beq_eq_false_iff_ne, ne_eq, hvf.2, not_false_eq_true, if_true] at hvd
    simp [hvf.1, hvf.2, hvd]
  · intro v hv hvr hvf
    change v ∈ (onActionFinished s.h a.Index 0).allactions at hv
    show ∃ r ∈ (onActionFinished s.h a.Index 0).readyactions, r.Index = v.Index
    rw [hall] at hv
    rw [hready]
    obtain ⟨w, hw, rfl⟩ := List.mem_map.1 hv
    rw [finRec_index]
    rw [finRec_eq] at hvr hvf
    simp only [Bool.or_eq_false_iff, beq_eq_false_iff_ne, ne_eq] at hvf
    by_cases hwr : w.Running = true
    · obtain ⟨r, hr, hri⟩ := hP.run_ready w hw hwr hvf.1
      exact ⟨r, List.mem_append_left _
        (mem_eraseIndex_of_ne _ _ r hr (by rw [hri]; exact hvf.2)), hri⟩
    · refine ⟨markRec a.Index w, List.mem_append_right _ (List.mem_filter.2
        ⟨List.mem_map_of_mem _ hw, ?_⟩), markRec_index _ _⟩
      have hwr' : w.Running = false := by simpa using hwr
      simp only [hwr', beq_self_eq_true, hvf.1, Bool.false_or, Bool.true_and, Bool.not_eq_true',
        beq_eq_false_iff_ne, ne_eq, hvf.2, not_false_eq_true, decide_True, Bool.true_and,
        beq_iff_eq] at hvr
      have hm : markRec a.Index w = w := by
        simp [markRec, hvf.2]
      have h0 : ((w.Dep.erase a.Index).length == 0) = true := by
        rw [Bool.and_eq_true] at hvr
        exact hvr.2
      rw [hm]
      unfold becomesReady
      rw [hvf.1, hwr', h0]
      rfl
  · intro r hr hrr
    change r ∈ (onActionFinished s.h a.Index 0).readyactions at hr
    show ∃ x ∈ s.pending.eraseIdx k, x.Index = r.Index
    rw [hready] at hr
    rw [hpe]
    rcases List.mem_append.1 hr with hr | hr
    · have hne := not_mem_eraseIndex _ a.Index hI.ready_nodup r hr
      obtain ⟨x, hx, hxi⟩ := hP.run_pend r ((eraseIndex_sublist _ _).subset hr) hrr
      rw [hp] at hx
      refine ⟨x, ?_, hxi⟩
      rcases List.mem_append.1 hx with hx | hx
      · exact List.mem_append_left _ hx
      · rcases List.mem_cons.1 hx with hx | hx
        · subst hx
          exact absurd hxi.symm hne
        · exact List.mem_append_right _ hx
    · have := (List.mem_filter.1 hr).2
      simp [becomesReady, hrr] at this
  · show (onActionFinished s.h a.Index 0).finished = false
    rw [hfin]
    exact hP.notfin
  · show (reported (s.log ++ _)).length < acts.length
    rw [hrl]
    simp only [List.length_append, List.length_singleton]
    exact hroom

theorem descendant_trans {acts : List Action} {a b c : String}
    (h1 : Descendant acts a b) (h2 : Descendant acts b c) : Descendant acts a c := by
  induction h2 with
  | direct b0 hb0 hmem => exact Descendant.step b0 b hb0 hmem h1
  | step b0 y hb0 hmem _ ih => exact Descendant.step b0 y hb0 hmem ih

/-- A numbering of the identities that grows along every dependency shows
that no action depends on itself. -/
theorem acyclic_of_rank (acts : List Action) (rank : String → Nat)
    (hrank : ∀ a ∈ acts, ∀ d ∈ a.Dep, rank d < rank a.Index) :
    ∀ x, ¬ Descendant acts x x := by
  have key : ∀ f x, Descendant acts f x → rank f < rank x := by
    intro f x hd
    induction hd with
    | direct b hb hmem => exact hrank b hb f hmem
    | step b y hb hmem _ ih => exact lt_trans ih (hrank b hb y hmem)
  intro x hx
  exact lt_irrefl _ (key x x hx)

/-- In a list without a dependency cycle, while the run is not complete, some
unfinished record has an empty `Dep` list. -/
theorem prog_exists_nodep {acts : List Action} {s : Run}
    (hu : (acts.map Action.Index).Nodup) (hI : Inv acts s) (hP : Prog acts s)
    (hin : ∀ a ∈ acts, ∀ d ∈ a.Dep, d ∈ acts.map Action.Index)
    (hacyc : ∀ x, ¬ Descendant acts x x) :
    ∃ w ∈ s.h.allactions, w.Finished = false ∧ w.Dep = [] := by
  have hex : ∃ u ∈ s.h.allactions, u.Finished = false := by
    by_contra hc
    have hall : ∀ x ∈ acts.map Action.Index, x ∈ reported s.log := by
      intro x hx
      obtain ⟨v, hv, hvi⟩ := exists_rec_of_mem hI.idx hx
      rw [← hvi]
      apply hP.fin_rep v hv
      by_contra hvf
      exact hc ⟨v, hv, by simpa using hvf⟩
    have := nodup_length_le hu hall
    have h2 := hP.room
    simp only [List.length_map] at this
    omega
  -- the dependency order on the identities of the list is well founded
  let r : { x // x ∈ acts.map Action.Index } → { x // x ∈ acts.map Action.Index } → Prop :=
    fun a b => Descendant acts a.1 b.1
  haveI : IsTrans _ r := ⟨fun _ _ _ h1 h2 => descendant_trans h1 h2⟩
  haveI : IsIrrefl _ r := ⟨fun a h => hacyc a.1 h⟩
  have wf : WellFounded r := Finite.wellFounded_of_trans_of_irrefl r
  obtain ⟨u, hu1, hu2⟩ := hex
  have hui : u.Index ∈ acts.map Action.Index := by
    rw [← hI.idx]; exact List.mem_map_of_mem _ hu1
  obtain ⟨m, ⟨w, hw, hwi, hwf⟩, hmin⟩ := wf.has_min
    { x | ∃ v ∈ s.h.allactions, v.Index = x.1 ∧ v.Finished = false }
    ⟨⟨u.Index, hui⟩, u, hu1, rfl, hu2⟩
  refine ⟨w, hw, hwf, ?_⟩
  by_contra hd
  obtain ⟨d, hd1⟩ := List.exists_mem_of_ne_nil _ hd
  obtain ⟨b, hb, hbi⟩ := List.mem_map.1 m.2
  have hdb := hP.dep_sub b hb w hw (hwi.trans hbi.symm) d hd1
  have hdi := hin b hb d hdb
  obtain ⟨w', hw', hwi'⟩ := exists_rec_of_mem hI.idx hdi
  have hwf' : w'.Finished = false := by
    by_contra hc
    have := hP.fin_rep w' hw' (by simpa using hc)
    rw [hwi'] at this
    exact hP.dep_unrep w hw hwf d hd1 this
  apply hmin ⟨d, hdi⟩ ⟨w', hw', hwi', hwf'⟩
  show Descendant acts d m.1
  rw [← hbi]
  exact Descendant.direct b hb hdb

theorem run_select_fields (s : Run) :
    s.select.h.maxjobs = s.h.maxjobs ∧ reported s.select.log = reported s.log ∧
      s.select.h.finished = s.h.finished ∧ s.select.h.finishednumber = s.h.finishednumber ∧
      s.select.h.ContinueOnError = s.h.ContinueOnError := by
  apply run_select_induct
    (fun t => t.h.maxjobs = s.h.maxjobs ∧ reported t.log = reported s.log ∧
      t.h.finished = s.h.finished ∧ t.h.finishednumber = s.h.finishednumber ∧
      t.h.ContinueOnError = s.h.ContinueOnError)
  · intro t pre r post hP _ _ _
    refine ⟨hP.1, ?_, hP.2.2.1, hP.2.2.2.1, hP.2.2.2.2⟩
    rw [← hP.2.1]
    simp [Run.dispatchOne, reported_append, reported]
  · exact ⟨rfl, rfl, rfl, rfl, rfl⟩

/-- After `selectActionsToExecute`, in a run without a dependency cycle that
is not complete and has had successes only, at least one action is in
flight. -/
theorem prog_select_running {acts : List Action} {s : Run}
    (hu : (acts.map Action.Index).Nodup) (hlen : (acts.length : Int) < 2147483648)
    (hI : Inv acts s) (hC : Cnt s) (hP : Prog acts s)
    (hin : ∀ a ∈ acts, ∀ d ∈ a.Dep, d ∈ acts.map Action.Index)
    (hacyc : ∀ x, ¬ Descendant acts x x) (hjobs : 1 ≤ s.h.maxjobs) :
    0 < s.select.h.runningnumber := by
  obtain ⟨hI', hC'⟩ := inv_cnt_select hlen hI hC
  have hP' := prog_select hP
  obtain ⟨w, hw, hwf, hwd⟩ := prog_exists_nodep hu hI' hP' hin hacyc
  obtain ⟨r, hr, _⟩ := hP'.run_ready w hw (hP'.nodep_run w hw hwf hwd) hwf
  have hexit := selectLoop_exit s.h.readyactions.length s.h [] (idle_le_length _)
  have hm := (run_select_fields s).1
  rw [run_select_eq] at hm hr hC' hP' ⊢
  simp only at hm hr ⊢
  rcases hexit with hexit | hexit
  · rw [hm] at hexit
    omega
  · obtain ⟨a, ha, _⟩ := hP'.run_pend r hr (hexit r hr)
    have := hC'.run
    simp only at this ha
    rw [this]
    have := List.length_pos_of_mem ha
    omega

/-! ## C3: a run of successes over an acyclic list completes -/

theorem executeLoop_result_ok (outcome : Action → Int × Bool) (es : List Event) (s : Run)
    (pos : Nat) (a : Action) (hk : s.pending.get? (pos % s.pending.length) = some a)
    (hok : outcome a = (0, false)) :
    executeLoop outcome (Event.result pos :: es) s =
      if (s.finish (pos % s.pending.length) a.Index 0).h.finished = true then
        (Outcome.returned none, s.finish (pos % s.pending.length) a.Index 0)
      else if (s.finish (pos % s.pending.length) a.Index 0).select.h.runningnumber ≤ 0 then
        (Outcome.returned (some ToolError.ErrorNoActionsToRun),
          (s.finish (pos % s.pending.length) a.Index 0).select)
      else executeLoop outcome es (s.finish (pos % s.pending.length) a.Index 0).select := by
  simp only [executeLoop, hk]
  simp [sentResult, hok]

theorem executeLoop_success {acts : List Action} (hu : (acts.map Action.Index).Nodup)
    (hlen : (acts.length : Int) < 2147483648)
    (hin : ∀ a ∈ acts, ∀ d ∈ a.Dep, d ∈ acts.map Action.Index)
    (hacyc : ∀ x, ¬ Descendant acts x x)
    (outcome : Action → Int × Bool) (hok : ∀ a, outcome a = (0, false)) (events : List Event) :
    ∀ s : Run, Inv acts s → Cnt s → Prog acts s → 1 ≤ s.h.maxjobs → 0 < s.h.runningnumber →
      ticksWithin events → acts.length ≤ (reported s.log).length + results events →
      (executeLoop outcome events s).1 = Outcome.returned none ∧
      (executeLoop outcome events s).2.h.finished = true ∧
      (reported (executeLoop outcome events s).2.log).length = acts.length ∧
      Inv acts (executeLoop outcome events s).2 ∧ Cnt (executeLoop outcome events s).2 := by
  induction events with
  | nil =>
    intro s _ _ hP _ _ _ hres
    have := hP.room
    simp only [results] at hres
    omega
  | cons ev es ih =>
    intro s hI hC hP hjobs hrun hticks hres
    have hticks' : ticksWithin es := fun t ht => hticks t (List.mem_cons_of_mem _ ht)
    cases ev with
    | tick elapsed =>
      have hle := hticks elapsed (List.mem_cons_self _ _)
      have hnot : ¬ elapsed > MaxWaitSecs * 1000000000 := by omega
      simp only [executeLoop, hnot, if_false]
      exact ih s hI hC hP hjobs hrun hticks' (by simpa [results] using hres)
    | result pos =>
      have hpos : 0 < s.pending.length := by
        have := hC.run
        omega
      have hlt : pos % s.pending.length < s.pending.length := Nat.mod_lt _ hpos
      obtain ⟨a, hk⟩ : ∃ a, s.pending.get? (pos % s.pending.length) = some a :=
        ⟨_, List.get?_eq_get hlt⟩
      have hres' : acts.length ≤ (reported s.log).length + 1 + results es := by
        simp only [results] at hres
        omega
      have hn : (s.h.allactions.map Action.Index).Nodup := by rw [hI.idx]; exact hu
      have hI1 := inv_finish hu hI _ a 0 hk
      have hC1 := cnt_finish hlen _ a 0 hk hI1 hC
      have hrep1 : reported (s.finish (pos % s.pending.length) a.Index 0).log
          = reported s.log ++ [a.Index] := by
        simp [Run.finish, reported_append, reported]
      rw [executeLoop_result_ok outcome es s pos a hk (hok a)]
      by_cases hc : completes s.h
      · have hfin : (s.finish (pos % s.pending.length) a.Index 0).h.finished = true := by
          rcases onActionFinished_cases s.h a.Index 0 hn with ⟨_, _, _, h4⟩ | ⟨h0, _⟩
          · exact h4
          · exact absurd hc h0
        rw [if_pos hfin]
        refine ⟨rfl, hfin, ?_, hI1, hC1⟩
        rw [hrep1]
        simp only [List.length_append, List.length_singleton]
        exact (completes_iff hlen hI hC hP.room).1 hc
      · have hP1 := prog_finish hu hlen hI hC hP _ a hk hc
        have hjobs1 : 1 ≤ (s.finish (pos % s.pending.length) a.Index 0).h.maxjobs := by
          have := (onActionFinished_counters s.h a.Index 0).2.2.1
          simp only [Run.finish, this]
          exact hjobs
        have hrun2 := prog_select_running hu hlen hI1 hC1 hP1 hin hacyc hjobs1
        obtain ⟨hI2, hC2⟩ := inv_cnt_select hlen hI1 hC1
        have hP2 := prog_select hP1
        obtain ⟨hf1, hf2, _⟩ := run_select_fields (s.finish (pos % s.pending.length) a.Index 0)
        have hnf : ¬ (s.finish (pos % s.pending.length) a.Index 0).h.finished = true := by
          rw [hP1.notfin]; simp
        have hnr : ¬ (s.finish (pos % s.pending.length) a.Index 0).select.h.runningnumber ≤ 0 := by
          omega
        rw [if_neg hnf, if_neg hnr]
        apply ih _ hI2 hC2 hP2 (by rw [hf1]; exact hjobs1) hrun2 hticks'
        rw [hf2, hrep1]
        simp only [List.length_append, List.length_singleton]
        exact hres'

/-- C3: for every non-empty action list with unique `Index` values, flags
initially false, every `Dep` entry naming an action of the list, no identity
repeated inside one `Dep` list and no dependency cycle, and every
`maxjobs >= 1`: when every dispatched action reports exit code 0 and no
error, no tick exceeds the waiting limit and at least `len(allactions)`
results arrive, `executeActions` returns nil with `finished = true` after
exactly `len(allactions)` calls of `onActionFinished`, and the dispatched
actions are exactly the actions of the list, each once. -/
theorem C3_acyclic_run_completes (most cont : Bool) (acts : List Action) (envjobs : Option Int)
    (outcome : Action → Int × Bool) (events : List Event)
    (hne : acts ≠ []) (hu : (acts.map Action.Index).Nodup)
    (hlen : (acts.length : Int) < 2147483648)
    (hfresh : ∀ a ∈ acts, a.Running = false ∧ a.Finished = false)
    (hin : ∀ a ∈ acts, ∀ d ∈ a.Dep, d ∈ acts.map Action.Index)
    (hnd : ∀ a ∈ acts, a.Dep.Nodup)
    (hacyc : ∀ x, ¬ Descendant acts x x)
    (hjobs : 1 ≤ jobsOf envjobs)
    (hok : ∀ a, outcome a = (0, false))
    (hticks : ticksWithin events) (hres : acts.length ≤ results events) :
    (executeActions (loaded most cont acts) envjobs outcome events).1 = Outcome.returned none ∧
    (executeActions (loaded most cont acts) envjobs outcome events).2.h.finished = true ∧
    (executeActions (loaded most cont acts) envjobs outcome events).2.h.finishednumber
      = (acts.length : Int) ∧
    (reported (executeActions (loaded most cont acts) envjobs outcome events).2.log).length
      = acts.length ∧
    List.Perm (dispatched (executeActions (loaded most cont acts) envjobs outcome events).2.log)
      (acts.map Action.Index) := by
  have hI0 := inv_init most cont (jobsOf envjobs) acts hu
  have hC0 := cnt_init most cont (jobsOf envjobs) acts
  have hP0 := prog_init most cont (jobsOf envjobs) acts hu hne hfresh hnd
  have hrun := prog_select_running hu hlen hI0 hC0 hP0 hin hacyc (by exact hjobs)
  obtain ⟨hI1, hC1⟩ := inv_cnt_select hlen hI0 hC0
  have hP1 := prog_select hP0
  obtain ⟨hf1, hf2, _⟩ := run_select_fields (initRun most cont (jobsOf envjobs) acts)
  have hmain := executeLoop_success hu hlen hin hacyc outcome hok events
    (initRun most cont (jobsOf envjobs) acts).select hI1 hC1 hP1
    (by rw [hf1]; exact hjobs) hrun hticks
    (by rw [hf2]; omega)
  have heq : executeActions (loaded most cont acts) envjobs outcome events
      = executeLoop outcome events (initRun most cont (jobsOf envjobs) acts).select := by
    have hnneg : ¬ jobsOf envjobs < 0 := by omega
    have hnr : ¬ (initRun most cont (jobsOf envjobs) acts).select.h.runningnumber ≤ 0 := by
      omega
    have hexp : executeActions (loaded most cont acts) envjobs outcome events
        = (if jobsOf envjobs < 0 then
            (Outcome.panicked, initRun most cont (jobsOf envjobs) acts)
          else if (initRun most cont (jobsOf envjobs) acts).select.h.runningnumber ≤ 0 then
            (Outcome.returned (some ToolError.ErrorNoActionsToRun),
              (initRun most cont (jobsOf envjobs) acts).select)
          else executeLoop outcome events (initRun most cont (jobsOf envjobs) acts).select) :=
      rfl
    rw [hexp, if_neg hnneg, if_neg hnr]
  rw [heq]
  obtain ⟨g1, g2, g3, g4, g5⟩ := hmain
  refine ⟨g1, g2, ?_, g3, ?_⟩
  · rw [g5.fin, g3]
  · have hsub : List.Subperm (dispatched (executeLoop outcome events
        (initRun most cont (jobsOf envjobs) acts).select).2.log) (acts.map Action.Index) :=
      List.subperm_of_subset g4.disp_nodup g4.disp_in
    apply hsub.perm_of_length_le
    have h1 := (List.subperm_of_subset g4.rep_nodup g4.rep_disp).length_le
    simp only [List.length_map]
    omega

/-- C3 on the diamond `A→B, A→C, B→D, C→D` with two jobs and the result of
`C` arriving before that of `B`: four dispatches, four results, success. -/
theorem C3_acyclic_run_completes_witness :
    (diamond.map Action.Index).Nodup ∧ (∀ x, ¬ Descendant diamond x x) ∧
    1 ≤ jobsOf (some 2) ∧
    (executeActions (loaded false false diamond) (some 2) (fun _ => (0, false))
      [Event.result 0, Event.result 1, Event.result 0, Event.result 0]).1
        = Outcome.returned none ∧
    (executeActions (loaded false false diamond) (some 2) (fun _ => (0, false))
      [Event.result 0, Event.result 1, Event.result 0, Event.result 0]).2.h.finished = true ∧
    (executeActions (loaded false false diamond) (some 2) (fun _ => (0, false))
      [Event.result 0, Event.result 1, Event.result 0, Event.result 0]).2.h.finishednumber
        = ((4 : Nat) : Int) ∧
    (reported (executeActions (loaded false false diamond) (some 2) (fun _ => (0, false))
      [Event.result 0, Event.result 1, Event.result 0, Event.result 0]).2.log).length = 4 ∧
    List.Perm (dispatched (executeActions (loaded false false diamond) (some 2)
      (fun _ => (0, false))
      [Event.result 0, Event.result 1, Event.result 0, Event.result 0]).2.log)
      ["A", "B", "C", "D"] :=
  ⟨by decide, acyclic_of_rank diamond diamondRank (by decide), by decide,
   C3_acyclic_run_completes false false diamond (some 2) (fun _ => (0, false))
     [Event.result 0, Event.result 1, Event.result 0, Event.result 0]
     (by decide) (by decide) (by decide) (by decide) (by decide) (by decide)
     (acyclic_of_rank diamond diamondRank (by decide)) (by decide) (fun _ => rfl)
     (fun t ht => by simp at ht) (by decide)⟩

/-! ## Runs do not depend on `maxjobs` once it reaches the number of actions -/

theorem selectLoop_jobs (m : Int) (fuel : Nat) :
    ∀ (h : UBTTool) (out : List Action),
      h.runningnumber + (idle h.readyactions : Int) ≤ m →
      h.runningnumber + (idle h.readyactions : Int) ≤ h.maxjobs →
      -2147483648 ≤ h.runningnumber →
      h.runningnumber + (idle h.readyactions : Int) < 2147483648 →
      selectLoop fuel { h with maxjobs := m } out
        = ({ (selectLoop fuel h out).1 with maxjobs := m }, (selectLoop fuel h out).2) := by
  induction fuel with
  | zero => intro h out _ _ _ _; rfl
  | succ fuel ih =>
    intro h out h1 h2 h3 h4
    rcases selectReadyAction_cases h with ⟨_, hall⟩ | ⟨pre, r, post, hr, hrun, hsel⟩
    · rw [selectLoop_stop _ _ _ (Or.inr hall)]
      rw [selectLoop_stop _ { h with maxjobs := m } _ (Or.inr hall)]
    · have hidle := idle_dispatch pre r post hrun
      rw [← hr] at hidle
      have hlt : h.runningnumber < h.maxjobs := by omega
      have hlt' : ({ h with maxjobs := m } : UBTTool).runningnumber
          < ({ h with maxjobs := m } : UBTTool).maxjobs := by
        show h.runningnumber < m
        omega
      rw [selectLoop_succ_of_lt fuel h out pre r post hlt hr hsel]
      rw [selectLoop_succ_of_lt fuel { h with maxjobs := m } out pre r post hlt' hr hsel]
      have hrunning : (UBT.dispatchOne h pre r post).runningnumber = h.runningnumber + 1 := by
        show int32 (h.runningnumber + 1) = h.runningnumber + 1
        exact int32_of_range _ (by omega) (by omega)
      have hidle' : idle (UBT.dispatchOne h pre r post).readyactions + 1
          = idle h.readyactions := by
        show idle (pre ++ { r with Running := true } :: post) + 1 = idle h.readyactions
        omega
      have := ih (UBT.dispatchOne h pre r post) (out ++ [{ r with Running := true }])
        (by rw [hrunning]; omega)
        (by rw [hrunning]; show _ ≤ h.maxjobs; omega)
        (by rw [hrunning]; omega) (by rw [hrunning]; omega)
      exact this

theorem inv_running_idle_le {acts : List Action} {s : Run} (hI : Inv acts s) (hC : Cnt s) :
    s.h.runningnumber + (idle s.h.readyactions : Int) ≤ (acts.length : Int) := by
  have hnd : (s.pending.map Action.Index ++
      (s.h.readyactions.filter (fun r => !r.Running)).map Action.Index).Nodup := by
    refine List.Nodup.append hI.pend_nodup
      (hI.ready_nodup.sublist ((List.filter_sublist _).map _)) ?_
    intro x hx1 hx2
    obtain ⟨a, ha, rfl⟩ := List.mem_map.1 hx1
    obtain ⟨r, hr, hri⟩ := List.mem_map.1 hx2
    obtain ⟨hr1, hr2⟩ := List.mem_filter.1 hr
    have := hI.disp_ready _ (hI.pend_disp a ha) r hr1 hri
    simp [this] at hr2
  have hsub : ∀ x ∈ s.pending.map Action.Index ++
      (s.h.readyactions.filter (fun r => !r.Running)).map Action.Index,
      x ∈ acts.map Action.Index := by
    intro x hx
    rcases List.mem_append.1 hx with hx | hx
    · obtain ⟨a, ha, rfl⟩ := List.mem_map.1 hx
      exact hI.disp_in _ (hI.pend_disp a ha)
    · obtain ⟨r, hr, rfl⟩ := List.mem_map.1 hx
      exact hI.ready_in r (List.mem_filter.1 hr).1
  have := nodup_length_le hnd hsub
  simp only [List.length_append, List.length_map] at this
  rw [hC.run]
  unfold idle
  exact_mod_cast this

theorem run_select_setJobs {acts : List Action} {s : Run}
    (hlen : (acts.length : Int) < 2147483648) (hI : Inv acts s) (hC : Cnt s) (m : Int)
    (hm : (acts.length : Int) ≤ m) (hM : (acts.length : Int) ≤ s.h.maxjobs) :
    (s.setJobs m).select = s.select.setJobs m := by
  have hb := inv_running_idle_le hI hC
  have hr := hC.run
  have := selectLoop_jobs m s.h.readyactions.length s.h [] (by omega) (by omega) (by omega)
    (by omega)
  simp only [Run.select, Run.setJobs, selectActionsToExecute, this]

theorem onActionFinished_setJobs (h : UBTTool) (index : String) (exitcode : Int) (m : Int) :
    onActionFinished { h with maxjobs := m } index exitcode
      = { onActionFinished h index exitcode with maxjobs := m } := by
  unfold onActionFinished
  simp only []
  split
  · rfl
  · split <;> rfl

theorem run_finish_setJobs (s : Run) (k : Nat) (index : String) (exitcode : Int) (m : Int) :
    (s.setJobs m).finish k index exitcode = (s.finish k index exitcode).setJobs m := by
  simp only [Run.finish, Run.setJobs, onActionFinished_setJobs]

theorem executeLoop_setJobs {acts : List Action} (hu : (acts.map Action.Index).Nodup)
    (hlen : (acts.length : Int) < 2147483648) (outcome : Action → Int × Bool) (m : Int)
    (hm : (acts.length : Int) ≤ m) (events : List Event) :
    ∀ s : Run, Inv acts s → Cnt s → (acts.length : Int) ≤ s.h.maxjobs →
      executeLoop outcome events (s.setJobs m)
        = ((executeLoop outcome events s).1, (executeLoop outcome events s).2.setJobs m) := by
  induction events with
  | nil => intro s _ _ _; rfl
  | cons ev es ih =>
    intro s hI hC hM
    cases ev with
    | tick elapsed =>
      simp only [executeLoop]
      split
      · rfl
      · exact ih s hI hC hM
    | result pos =>
      have hpend : (s.setJobs m).pending = s.pending := rfl
      have hcont : (s.setJobs m).h.ContinueOnError = s.h.ContinueOnError := rfl
      simp only [executeLoop, hpend, hcont]
      cases hk : s.pending.get? (pos % s.pending.length) with
      | none => exact ih s hI hC hM
      | some a =>
        simp only []
        have hI1 := inv_finish hu hI _ a (outcome a).1 hk
        have hC1 := cnt_finish hlen _ a (outcome a).1 hk hI1 hC
        have hM1 : (acts.length : Int)
            ≤ (s.finish (pos % s.pending.length) a.Index (outcome a).1).h.maxjobs := by
          have := (onActionFinished_counters s.h a.Index (outcome a).1).2.2.1
          simp only [Run.finish, this]
          exact hM
        obtain ⟨hI2, hC2⟩ := inv_cnt_select hlen hI1 hC1
        have hM2 : (acts.length : Int)
            ≤ (s.finish (pos % s.pending.length) a.Index (outcome a).1).select.h.maxjobs := by
          rw [(run_select_fields _).1]; exact hM1
        split
        · rfl
        · simp only [sentResult, run_finish_setJobs, run_select_setJobs hlen hI1 hC1 m hm hM1]
          have hfin : ∀ t : Run, (t.setJobs m).h.finished = t.h.finished := fun _ => rfl
          have hrun : ∀ t : Run, (t.setJobs m).h.runningnumber = t.h.runningnumber :=
            fun _ => rfl
          simp only [hfin, hrun]
          split
          · rfl
          · split
            · rfl
            · exact ih _ hI2 hC2 hM2

/-- For `maxjobs` at least the number of actions (and in the `int32` range)
the course of `executeActions` is the same whatever `maxjobs` is. -/
theorem executeActions_jobs {acts : List Action} (hu : (acts.map Action.Index).Nodup)
    (hlen : (acts.length : Int) < 2147483648) (most cont : Bool)
    (outcome : Action → Int × Bool) (events : List Event) (m M : Int)
    (hm : (acts.length : Int) ≤ m) (hm2 : m < 2147483648)
    (hM : (acts.length : Int) ≤ M) (hM2 : M < 2147483648) :
    executeActions (loaded most cont acts) (some m) outcome events
      = ((executeActions (loaded most cont acts) (some M) outcome events).1,
         (executeActions (loaded most cont acts) (some M) outcome events).2.setJobs m) := by
  have hexp : ∀ j : Int, 0 ≤ j → j < 2147483648 →
      executeActions (loaded most cont acts) (some j) outcome events
        = (if (initRun most cont j acts).select.h.runningnumber ≤ 0 then
            (Outcome.returned (some ToolError.ErrorNoActionsToRun),
              (initRun most cont j acts).select)
          else executeLoop outcome events (initRun most cont j acts).select) := by
    intro j hj1 hj2
    have hj : jobsOf (some j) = j := int32_of_range j (by omega) hj2
    have hexp0 : executeActions (loaded most cont acts) (some j) outcome events
        = (if jobsOf (some j) < 0 then
            (Outcome.panicked, initRun most cont (jobsOf (some j)) acts)
          else if (initRun most cont (jobsOf (some j)) acts).select.h.runningnumber ≤ 0 then
            (Outcome.returned (some ToolError.ErrorNoActionsToRun),
              (initRun most cont (jobsOf (some j)) acts).select)
          else executeLoop outcome events (initRun most cont (jobsOf (some j)) acts).select) :=
      rfl
    rw [hexp0, hj, if_neg (by omega)]
  have hI0 := inv_init most cont M acts hu
  have hC0 := cnt_init most cont M acts
  obtain ⟨hI1, hC1⟩ := inv_cnt_select hlen hI0 hC0
  have hinit : initRun most cont m acts = (initRun most cont M acts).setJobs m := rfl
  have hsel : (initRun most cont m acts).select = (initRun most cont M acts).select.setJobs m := by
    rw [hinit]
    exact run_select_setJobs hlen hI0 hC0 m hm (by show (acts.length : Int) ≤ M; exact hM)
  rw [hexp m (by omega) hm2, hexp M (by omega) hM2, hsel]
  have hrun : ∀ t : Run, (t.setJobs m).h.runningnumber = t.h.runningnumber := fun _ => rfl
  rw [hrun]
  split
  · rfl
  · exact executeLoop_setJobs hu hlen outcome m hm events _ hI1 hC1
      (by rw [(run_select_fields _).1]; exact hM)

/-! ## All the courses of a run -/

theorem executeLoop_result (outcome : Action → Int × Bool) (es : List Event) (s : Run)
    (pos : Nat) (a : Action) (hk : s.pending.get? (pos % s.pending.length) = some a) :
    executeLoop outcome (Event.result pos :: es) s =
      match afterResult outcome (pos % s.pending.length) a s with
      | Sum.inl r => r
      | Sum.inr s2 => executeLoop outcome es s2 := by
  have hidx : (sentResult outcome a).Index = a.Index := rfl
  simp only [executeLoop, hk, afterResult, hidx]
  split_ifs <;> rfl

theorem explore_sound (outcome : Action → Int × Bool) (P : Outcome × Run → Prop) (n : Nat) :
    ∀ (s : Run) (sched : List Nat),
      (∀ r ∈ explore outcome n s, r.1 ≠ Outcome.waiting ∧ P r) → n ≤ sched.length →
      P (executeLoop outcome (sched.map Event.result) s) := by
  induction n with
  | zero =>
    intro s sched h _
    exact absurd rfl (h (Outcome.waiting, s) (by simp [explore])).1
  | succ n ih =>
    intro s sched h hlen
    by_cases hp : s.pending.length = 0
    · exact absurd rfl (h (Outcome.waiting, s) (by simp [explore, hp])).1
    · cases sched with
      | nil => simp at hlen
      | cons p rest =>
        have hlt : p % s.pending.length < s.pending.length := Nat.mod_lt _ (by omega)
        have hk : s.pending.get? (p % s.pending.length)
            = some (s.pending.get ⟨p % s.pending.length, hlt⟩) := List.get?_eq_get hlt
        simp only [List.map_cons]
        rw [executeLoop_result outcome _ s p _ hk]
        have hsub : ∀ r, r ∈ (match afterResult outcome (p % s.pending.length)
              (s.pending.get ⟨p % s.pending.length, hlt⟩) s with
            | Sum.inl r => [r]
            | Sum.inr s2 => explore outcome n s2) → r ∈ explore outcome (n + 1) s := by
          intro r hr
          simp only [explore, hp, if_false, List.mem_flatMap, List.mem_range]
          exact ⟨p % s.pending.length, hlt, by rw [hk]; exact hr⟩
        cases hres : afterResult outcome (p % s.pending.length)
            (s.pending.get ⟨p % s.pending.length, hlt⟩) s with
        | inl r =>
          rw [hres] at hsub
          exact (h r (hsub r (by simp))).2
        | inr s2 =>
          rw [hres] at hsub
          simp only []
          exact ih s2 rest (fun r hr => h r (hsub r hr)) (by simpa using hlen)

theorem executeActions_eq (most cont : Bool) (acts : List Action) (j : Int)
    (outcome : Action → Int × Bool) (events : List Event)
    (hj1 : 0 ≤ j) (hj2 : j < 2147483648) :
    executeActions (loaded most cont acts) (some j) outcome events
      = (if (initRun most cont j acts).select.h.runningnumber ≤ 0 then
          (Outcome.returned (some ToolError.ErrorNoActionsToRun),
            (initRun most cont j acts).select)
        else executeLoop outcome events (initRun most cont j acts).select) := by
  have hj : jobsOf (some j) = j := int32_of_range j (by omega) hj2
  have hexp0 : executeActions (loaded most cont acts) (some j) outcome events
      = (if jobsOf (some j) < 0 then
          (Outcome.panicked, initRun most cont (jobsOf (some j)) acts)
        else if (initRun most cont (jobsOf (some j)) acts).select.h.runningnumber ≤ 0 then
          (Outcome.returned (some ToolError.ErrorNoActionsToRun),
            (initRun most cont (jobsOf (some j)) acts).select)
        else executeLoop outcome events (initRun most cont (jobsOf (some j)) acts).select) :=
    rfl
  rw [hexp0, hj, if_neg (by omega)]

theorem exploreAll_sound (most cont : Bool) (j : Int) (acts : List Action)
    (outcome : Action → Int × Bool) (P : Outcome × Run → Prop) (n : Nat) (sched : List Nat)
    (hj1 : 0 ≤ j) (hj2 : j < 2147483648)
    (h : ∀ r ∈ exploreAll most cont j acts outcome n, r.1 ≠ Outcome.waiting ∧ P r)
    (hlen : n ≤ sched.length) :
    P (executeActions (loaded most cont acts) (some j) outcome (sched.map Event.result)) := by
  rw [executeActions_eq most cont acts j outcome _ hj1 hj2]
  unfold exploreAll at h
  split
  · rename_i hc
    simp only [hc, if_true] at h
    exact (h _ (by simp)).2
  · rename_i hc
    simp only [hc, if_false] at h
    exact explore_sound outcome P n _ sched h hlen

/-! ## Runs depend on the outcomes only through success and failure -/

theorem run_finish_cont (s : Run) (k : Nat) (index : String) (exitcode : Int) :
    (s.finish k index exitcode).h.ContinueOnError = s.h.ContinueOnError :=
  (onActionFinished_counters s.h index exitcode).2.2.2.2

theorem executeLoop_normFail (outcome : Action → Int × Bool) (events : List Event) :
    ∀ s : Run, s.h.ContinueOnError = false →
      (executeLoop outcome events s).2 = (executeLoop (normFail outcome) events s).2 ∧
      ((executeLoop outcome events s).1 = (executeLoop (normFail outcome) events s).1 ∨
        ((∃ c e, (executeLoop outcome events s).1
            = Outcome.returned (some (ToolError.actionFailed c e))) ∧
          (executeLoop (normFail outcome) events s).1
            = Outcome.returned (some (ToolError.actionFailed 1 false)))) := by
  induction events with
  | nil => intro s _; exact ⟨rfl, Or.inl rfl⟩
  | cons ev es ih =>
    intro s hcont
    cases ev with
    | tick elapsed =>
      simp only [executeLoop]
      split
      · exact ⟨rfl, Or.inl rfl⟩
      · exact ih s hcont
    | result pos =>
      cases hk : s.pending.get? (pos % s.pending.length) with
      | none =>
        simp only [executeLoop, hk]
        exact ih s hcont
      | some a =>
        rw [executeLoop_result outcome es s pos a hk,
          executeLoop_result (normFail outcome) es s pos a hk]
        by_cases hok : (outcome a).1 = 0 ∧ (outcome a).2 = false
        · have hsame : sentResult (normFail outcome) a = sentResult outcome a := by
            simp only [sentResult, normFail, hok, and_self, if_true]
          have hafter : afterResult (normFail outcome) (pos % s.pending.length) a s
              = afterResult outcome (pos % s.pending.length) a s := by
            simp only [afterResult, hsame]
          rw [hafter]
          cases hres : afterResult outcome (pos % s.pending.length) a s with
          | inl r => exact ⟨rfl, Or.inl rfl⟩
          | inr s2 =>
            simp only []
            apply ih
            simp only [afterResult] at hres
            split_ifs at hres
            injection hres with hres
            rw [← hres, (run_select_fields _).2.2.2.2, run_finish_cont]
            exact hcont
        · have h1 : afterResult outcome (pos % s.pending.length) a s
              = Sum.inl (Outcome.returned (some (ToolError.actionFailed (outcome a).1
                  (outcome a).2)), s) := by
            have : ((outcome a).1 != 0 || (outcome a).2) = true := by
              by_cases hc : (outcome a).1 = 0
              · have : (outcome a).2 = true := by
                  by_contra he
                  exact hok ⟨hc, by simpa using he⟩
                simp [this]
              · simp [hc]
            simp [afterResult, sentResult, this, hcont]
          have h2 : afterResult (normFail outcome) (pos % s.pending.length) a s
              = Sum.inl (Outcome.returned (some (ToolError.actionFailed 1 false)), s) := by
            simp [afterResult, sentResult, normFail, hok, hcont]
          rw [h1, h2]
          exact ⟨rfl, Or.inr ⟨⟨_, _, rfl⟩, rfl⟩⟩

theorem onActionFinished_code (h : UBTTool) (index : String) (c c' : Int)
    (hc : c = 0 ↔ c' = 0) : onActionFinished h index c = onActionFinished h index c' := by
  have hb : (c == 0) = (c' == 0) := by
    by_cases h0 : c = 0
    · have h0' := hc.1 h0
      rw [beq_iff_eq.2 h0, beq_iff_eq.2 h0']
    · have h0' : ¬ c' = 0 := fun h => h0 (hc.2 h)
      rw [beq_eq_false_iff_ne.2 h0, beq_eq_false_iff_ne.2 h0']
  unfold onActionFinished
  simp only [hb]

theorem sim_finish {s t : Run} (hS : Sim s t) (k : Nat) (index : String) (c c' : Int)
    (hc : c = 0 ↔ c' = 0) : Sim (s.finish k index c) (t.finish k index c') := by
  obtain ⟨h1, h2, h3⟩ := hS
  refine ⟨?_, ?_, ?_⟩
  · simp only [Run.finish, h1, onActionFinished_code t.h index c c' hc]
  · simp only [Run.finish, h2]
  · simp only [Run.finish, dispatched_append, dispatched, h3]

theorem dispatched_map (l : List Action) :
    dispatched (l.map LogEntry.dispatch) = l.map Action.Index := by
  induction l with
  | nil => rfl
  | cons a l ih => simp [dispatched, ih]

theorem sim_select {s t : Run} (hS : Sim s t) : Sim s.select t.select := by
  obtain ⟨h1, h2, h3⟩ := hS
  refine ⟨?_, ?_, ?_⟩
  · simp only [Run.select, h1]
  · simp only [Run.select, h1, h2]
  · simp only [Run.select, dispatched_append, h1, h3]

theorem executeLoop_normCode (outcome : Action → Int × Bool) (events : List Event) :
    ∀ s t : Run, Sim s t → s.h.ContinueOnError = true →
      (executeLoop outcome events s).1 = (executeLoop (normCode outcome) events t).1 ∧
      Sim (executeLoop outcome events s).2 (executeLoop (normCode outcome) events t).2 := by
  induction events with
  | nil => intro s t hS _; exact ⟨rfl, hS⟩
  | cons ev es ih =>
    intro s t hS hcont
    cases ev with
    | tick elapsed =>
      simp only [executeLoop]
      split
      · exact ⟨rfl, hS⟩
      · exact ih s t hS hcont
    | result pos =>
      have hp : t.pending = s.pending := hS.2.1.symm
      have hcont' : t.h.ContinueOnError = true := by rw [← hS.1]; exact hcont
      cases hk : s.pending.get? (pos % s.pending.length) with
      | none =>
        have hk' : t.pending.get? (pos % t.pending.length) = none := by rw [hp]; exact hk
        simp only [executeLoop, hk, hk']
        exact ih s t hS hcont
      | some a =>
        have hk' : t.pending.get? (pos % t.pending.length) = some a := by rw [hp]; exact hk
        rw [executeLoop_result outcome es s pos a hk,
          executeLoop_result (normCode outcome) es t pos a hk']
        have hc : (outcome a).1 = 0 ↔ (normCode outcome a).1 = 0 := by
          simp only [normCode]
          by_cases h0 : (outcome a).1 = 0
          · simp [h0]
          · simp [h0]
        have hS1 : Sim (s.finish (pos % s.pending.length) a.Index (outcome a).1)
            (t.finish (pos % t.pending.length) a.Index (normCode outcome a).1) := by
          rw [hp]
          exact sim_finish hS (pos % s.pending.length) a.Index _ _ hc
        have hS2 := sim_select hS1
        have hA : afterResult outcome (pos % s.pending.length) a s
            = if (s.finish (pos % s.pending.length) a.Index (outcome a).1).h.finished = true then
                Sum.inl (Outcome.returned none,
                  s.finish (pos % s.pending.length) a.Index (outcome a).1)
              else if (s.finish (pos % s.pending.length) a.Index
                  (outcome a).1).select.h.runningnumber ≤ 0 then
                Sum.inl (Outcome.returned (some ToolError.ErrorNoActionsToRun),
                  (s.finish (pos % s.pending.length) a.Index (outcome a).1).select)
              else Sum.inr (s.finish (pos % s.pending.length) a.Index (outcome a).1).select := by
          simp [afterResult, sentResult, hcont]
        have hB : afterResult (normCode outcome) (pos % t.pending.length) a t
            = if (t.finish (pos % t.pending.length) a.Index
                  (normCode outcome a).1).h.finished = true then
                Sum.inl (Outcome.returned none,
                  t.finish (pos % t.pending.length) a.Index (normCode outcome a).1)
              else if (t.finish (pos % t.pending.length) a.Index
                  (normCode outcome a).1).select.h.runningnumber ≤ 0 then
                Sum.inl (Outcome.returned (some ToolError.ErrorNoActionsToRun),
                  (t.finish (pos % t.pending.length) a.Index (normCode outcome a).1).select)
              else Sum.inr
                (t.finish (pos % t.pending.length) a.Index (normCode outcome a).1).select := by
          simp [afterResult, sentResult, hcont']
        rw [hA, hB]
        have e1 : (t.finish (pos % t.pending.length) a.Index (normCode outcome a).1).h.finished
            = (s.finish (pos % s.pending.length) a.Index (outcome a).1).h.finished := by
          rw [hS1.1]
        have e2 : (t.finish (pos % t.pending.length) a.Index
              (normCode outcome a).1).select.h.runningnumber
            = (s.finish (pos % s.pending.length) a.Index (outcome a).1).select.h.runningnumber := by
          rw [hS2.1]
        rw [e1, e2]
        by_cases c1 : (s.finish (pos % s.pending.length) a.Index (outcome a).1).h.finished = true
        · rw [if_pos c1, if_pos c1]
          show Outcome.returned none = Outcome.returned none ∧
            Sim (s.finish (pos % s.pending.length) a.Index (outcome a).1)
              (t.finish (pos % t.pending.length) a.Index (normCode outcome a).1)
          exact ⟨rfl, hS1⟩
        · rw [if_neg c1, if_neg c1]
          by_cases c2 : (s.finish (pos % s.pending.length) a.Index
              (outcome a).1).select.h.runningnumber ≤ 0
          · rw [if_pos c2, if_pos c2]
            show Outcome.returned (some ToolError.ErrorNoActionsToRun)
                = Outcome.returned (some ToolError.ErrorNoActionsToRun) ∧
              Sim (s.finish (pos % s.pending.length) a.Index (outcome a).1).select
                (t.finish (pos % t.pending.length) a.Index (normCode outcome a).1).select
            exact ⟨rfl, hS2⟩
          · rw [if_neg c2, if_neg c2]
            apply ih _ _ hS2
            rw [(run_select_fields _).2.2.2.2, run_finish_cont]
            exact hcont

theorem executeActions_normCode (most : Bool) (acts : List Action) (j : Int)
    (outcome : Action → Int × Bool) (events : List Event)
    (hj1 : 0 ≤ j) (hj2 : j < 2147483648) :
    (executeActions (loaded most true acts) (some j) outcome events).1
      = (executeActions (loaded most true acts) (some j) (normCode outcome) events).1 ∧
    dispatched (executeActions (loaded most true acts) (some j) outcome events).2.log
      = dispatched
          (executeActions (loaded most true acts) (some j) (normCode outcome) events).2.log := by
  rw [executeActions_eq most true acts j outcome _ hj1 hj2,
    executeActions_eq most true acts j (normCode outcome) _ hj1 hj2]
  split
  · exact ⟨rfl, rfl⟩
  · have hcont : (initRun most true j acts).select.h.ContinueOnError = true := by
      rw [(run_select_fields _).2.2.2.2]; rfl
    have := executeLoop_normCode outcome events _ _ (⟨rfl, rfl, rfl⟩ :
      Sim (initRun most true j acts).select (initRun most true j acts).select) hcont
    exact ⟨this.1, this.2.2.2⟩

theorem executeActions_normFail (most : Bool) (acts : List Action) (j : Int)
    (outcome : Action → Int × Bool) (events : List Event)
    (hj1 : 0 ≤ j) (hj2 : j < 2147483648) :
    (executeActions (loaded most false acts) (some j) outcome events).2
      = (executeActions (loaded most false acts) (some j) (normFail outcome) events).2 ∧
    ((executeActions (loaded most false acts) (some j) outcome events).1
        = (executeActions (loaded most false acts) (some j) (normFail outcome) events).1 ∨
      ((∃ c e, (executeActions (loaded most false acts) (some j) outcome events).1
          = Outcome.returned (some (ToolError.actionFailed c e))) ∧
        (executeActions (loaded most false acts) (some j) (normFail outcome) events).1
          = Outcome.returned (some (ToolError.actionFailed 1 false)))) := by
  rw [executeActions_eq most false acts j outcome _ hj1 hj2,
    executeActions_eq most false acts j (normFail outcome) _ hj1 hj2]
  split
  · exact ⟨rfl, Or.inl rfl⟩
  · have hcont : (initRun most false j acts).select.h.ContinueOnError = false := by
      rw [(run_select_fields _).2.2.2.2]; rfl
    exact executeLoop_normFail outcome events _ hcont

/-! ## C4: a failure under ContinueOnError -/

/-- C4, as stated, fails: on the diamond with `ContinueOnError = true`, `B`
failing with exit code 1 and the other actions succeeding, `executeActions`
returns `ErrorNoActionsToRun` after dispatching `A`, `B` and `C`; `D` is never
dispatched, and its `Dep` list still holds `"B"`. -/
theorem C4_counterexample :
    (executeActions (loaded false true diamond) (some 1) failB
      [Event.result 0, Event.result 0, Event.result 0, Event.result 0]).1
        = Outcome.returned (some ToolError.ErrorNoActionsToRun) ∧
    dispatched (executeActions (loaded false true diamond) (some 1) failB
      [Event.result 0, Event.result 0, Event.result 0, Event.result 0]).2.log
        = ["A", "B", "C"] ∧
    ∃ v ∈ (executeActions (loaded false true diamond) (some 1) failB
      [Event.result 0, Event.result 0, Event.result 0, Event.result 0]).2.h.allactions,
      v.Index = "D" ∧ "B" ∈ v.Dep := by
  decide

theorem markFinished_dep (l : List Action) (index : String) :
    (markFinished l index).map Action.Dep = l.map Action.Dep := by
  induction l with
  | nil => rfl
  | cons v rest ih =>
    unfold markFinished
    split
    · rfl
    · simp [ih]

theorem diamond_cont_failB (most : Bool) (j : Int)
    (hj : j = 1 ∨ j = 2 ∨ j = 3 ∨ j = 4) (sched : List Nat) (hlen : 3 ≤ sched.length) :
    (executeActions (loaded most true diamond) (some j) failB (sched.map Event.result)).1
        = Outcome.returned (some ToolError.ErrorNoActionsToRun) ∧
      dispatched (executeActions (loaded most true diamond) (some j) failB
        (sched.map Event.result)).2.log = ["A", "B", "C"] := by
  have hj1 : 0 ≤ j := by omega
  have hj2 : j < 2147483648 := by omega
  apply exploreAll_sound most true j diamond failB
    (fun r => r.1 = Outcome.returned (some ToolError.ErrorNoActionsToRun) ∧
      dispatched r.2.log = ["A", "B", "C"]) 3 sched hj1 hj2 _ hlen
  rcases hj with rfl | rfl | rfl | rfl <;> cases most <;> decide

/-- C4, amended: with `ContinueOnError = true` an action that finishes with a
nonzero exit code (in a call of `onActionFinished` that does not complete the
run) is marked finished and leaves the ready list, but no `Dep` list changes
and nothing is appended to the ready list. For the diamond with `B` reporting
a nonzero exit code and every other action exit code 0, for every
`maxjobs >= 1` and every order of the results, `A`, `B` and `C` are
dispatched, `D` is not, and `executeActions` returns `ErrorNoActionsToRun`. -/
theorem C4_failure_keeps_dependents_waiting (h : UBTTool) (id : String) (code : Int)
    (hcode : code ≠ 0) (hc : ¬ completes h)
    (most : Bool) (m : Int) (hm1 : 1 ≤ m) (hm2 : m < 2147483648)
    (outcome : Action → Int × Bool)
    (hB : ∀ a, a.Index = "B" → (outcome a).1 ≠ 0)
    (hO : ∀ a, a.Index ≠ "B" → (outcome a).1 = 0)
    (sched : List Nat) (hlen : 3 ≤ sched.length) :
    ((onActionFinished h id code).allactions = markFinished h.allactions id ∧
      (onActionFinished h id code).allactions.map Action.Dep = h.allactions.map Action.Dep ∧
      (onActionFinished h id code).readyactions = eraseIndex h.readyactions id) ∧
    (executeActions (loaded most true diamond) (some m) outcome (sched.map Event.result)).1
      = Outcome.returned (some ToolError.ErrorNoActionsToRun) ∧
    dispatched (executeActions (loaded most true diamond) (some m) outcome
      (sched.map Event.result)).2.log = ["A", "B", "C"] := by
  constructor
  · have hall : (onActionFinished h id code).allactions = markFinished h.allactions id ∧
        (onActionFinished h id code).readyactions = eraseIndex h.readyactions id := by
      unfold completes at hc
      simp [onActionFinished, hc, hcode, deleteReadyLoop_eq_eraseIndex]
    exact ⟨hall.1, by rw [hall.1, markFinished_dep], hall.2⟩
  · have hnorm : normCode outcome = failB := by
      funext a
      by_cases ha : a.Index = "B"
      · simp [normCode, failB, ha, hB a ha]
      · simp [normCode, failB, ha, hO a ha]
    have hsmall : ∀ j : Int, (j = 1 ∨ j = 2 ∨ j = 3 ∨ j = 4) →
        (executeActions (loaded most true diamond) (some j) outcome (sched.map Event.result)).1
          = Outcome.returned (some ToolError.ErrorNoActionsToRun) ∧
        dispatched (executeActions (loaded most true diamond) (some j) outcome
          (sched.map Event.result)).2.log = ["A", "B", "C"] := by
      intro j hj
      have h1 := executeActions_normCode most diamond j outcome (sched.map Event.result)
        (by omega) (by omega)
      rw [hnorm] at h1
      have h2 := diamond_cont_failB most j hj sched hlen
      rw [h1.1, h1.2]
      exact h2
    by_cases hm : m ≤ 3
    · exact hsmall m (by omega)
    · have hjobs := @executeActions_jobs diamond (by decide) (by decide) most true
        outcome (sched.map Event.result) m 4 (by simp [diamond]; omega) hm2 (by decide)
        (by decide)
      rw [hjobs]
      exact hsmall 4 (by omega)

/-- C4, amended, on the diamond with two jobs, `B` failing with exit code 1
and the result of `C` arriving before that of `B`. -/
theorem C4_failure_keeps_dependents_waiting_witness :
    ¬ completes ((initRun false true 2 diamond).steps [Step.select, Step.finish 0 0,
      Step.select]).h ∧
    (executeActions (loaded false true diamond) (some 2) failB
      ([0, 1, 0].map Event.result)).1
        = Outcome.returned (some ToolError.ErrorNoActionsToRun) ∧
    dispatched (executeActions (loaded false true diamond) (some 2) failB
      ([0, 1, 0].map Event.result)).2.log = ["A", "B", "C"] :=
  ⟨by decide,
   (C4_failure_keeps_dependents_waiting
      ((initRun false true 2 diamond).steps [Step.select, Step.finish 0 0, Step.select]).h
      "B" 1 (by decide) (by decide) false 2 (by decide) (by decide) failB
      (fun a ha => by simp [failB, ha]) (fun a ha => by simp [failB, ha])
      [0, 1, 0] (by decide)).2⟩

/-! ## C6: the diamond with `B` failing and `ContinueOnError = false` -/

/-- C6, as stated, fails: with `maxjobs = 2`, after the result of `A` both `B`
and `C` are dispatched before any result of `B` can arrive, so `C` is
dispatched. -/
theorem C6_counterexample :
    (executeActions (loaded false false diamond) (some 2) failB
      [Event.result 0, Event.result 0]).1
        = Outcome.returned (some (ToolError.actionFailed 1 false)) ∧
    "C" ∈ dispatched (executeActions (loaded false false diamond) (some 2) failB
      [Event.result 0, Event.result 0]).2.log ∧
    dispatched (executeActions (loaded false false diamond) (some 2) failB
      [Event.result 0, Event.result 0]).2.log = ["A", "B", "C"] := by
  decide

theorem diamond_halt_failB (most : Bool) (j : Int)
    (hj : j = 1 ∨ j = 2 ∨ j = 3 ∨ j = 4) (sched : List Nat) (hlen : 3 ≤ sched.length) :
    (executeActions (loaded most false diamond) (some j) failB (sched.map Event.result)).1
        = Outcome.returned (some (ToolError.actionFailed 1 false)) ∧
      dispatched (executeActions (loaded most false diamond) (some j) failB
        (sched.map Event.result)).2.log = (if j = 1 then ["A", "B"] else ["A", "B", "C"]) := by
  have hj1 : 0 ≤ j := by omega
  have hj2 : j < 2147483648 := by omega
  apply exploreAll_sound most false j diamond failB
    (fun r => r.1 = Outcome.returned (some (ToolError.actionFailed 1 false)) ∧
      dispatched r.2.log = (if j = 1 then ["A", "B"] else ["A", "B", "C"])) 3 sched hj1 hj2 _ hlen
  rcases hj with rfl | rfl | rfl | rfl <;> cases most <;> decide

/-- C6, amended: for the diamond `A→B, A→C, B→D, C→D` (listed A, B, C, D) with
`ContinueOnError = false`, `B` failing (nonzero exit code or an error) and the
other actions succeeding, for every `maxjobs >= 1` and every order of the
results the run ends with the error of a failed result and `D` is never
dispatched; with `maxjobs = 1` the actions dispatched are `A` and then `B`;
with `maxjobs >= 2` they are `A`, `B` and `C`, `C` being launched together
with `B`. -/
theorem C6_diamond_halts_at_B (most : Bool) (m : Int) (hm1 : 1 ≤ m) (hm2 : m < 2147483648)
    (outcome : Action → Int × Bool)
    (hB : ∀ a, a.Index = "B" → ((outcome a).1 ≠ 0 ∨ (outcome a).2 = true))
    (hO : ∀ a, a.Index ≠ "B" → outcome a = (0, false))
    (sched : List Nat) (hlen : 3 ≤ sched.length) :
    (∃ c e, (executeActions (loaded most false diamond) (some m) outcome
      (sched.map Event.result)).1 = Outcome.returned (some (ToolError.actionFailed c e))) ∧
    "D" ∉ dispatched (executeActions (loaded most false diamond) (some m) outcome
      (sched.map Event.result)).2.log ∧
    (m = 1 → dispatched (executeActions (loaded most false diamond) (some m) outcome
      (sched.map Event.result)).2.log = ["A", "B"]) ∧
    (2 ≤ m → dispatched (executeActions (loaded most false diamond) (some m) outcome
      (sched.map Event.result)).2.log = ["A", "B", "C"]) := by
  have hnorm : normFail outcome = failB := by
    funext a
    by_cases ha : a.Index = "B"
    · have : ¬ ((outcome a).1 = 0 ∧ (outcome a).2 = false) := by
        rintro ⟨h1, h2⟩
        rcases hB a ha with h | h
        · exact h h1
        · rw [h2] at h; cases h
      simp [normFail, failB, ha, this]
    · simp [normFail, failB, ha, hO a ha]
  have hsmall : ∀ j : Int, (j = 1 ∨ j = 2 ∨ j = 3 ∨ j = 4) →
      (∃ c e, (executeActions (loaded most false diamond) (some j) outcome
        (sched.map Event.result)).1 = Outcome.returned (some (ToolError.actionFailed c e))) ∧
      dispatched (executeActions (loaded most false diamond) (some j) outcome
        (sched.map Event.result)).2.log = (if j = 1 then ["A", "B"] else ["A", "B", "C"]) := by
    intro j hj
    have h1 := executeActions_normFail most diamond j outcome (sched.map Event.result)
      (by omega) (by omega)
    rw [hnorm] at h1
    have h2 := diamond_halt_failB most j hj sched hlen
    refine ⟨?_, by rw [h1.1]; exact h2.2⟩
    rcases h1.2 with h3 | h3
    · exact ⟨1, false, by rw [h3]; exact h2.1⟩
    · exact h3.1
  have hall : (∃ c e, (executeActions (loaded most false diamond) (some m) outcome
        (sched.map Event.result)).1 = Outcome.returned (some (ToolError.actionFailed c e))) ∧
      dispatched (executeActions (loaded most false diamond) (some m) outcome
        (sched.map Event.result)).2.log = (if m = 1 then ["A", "B"] else ["A", "B", "C"]) := by
    by_cases hm : m ≤ 3
    · exact hsmall m (by omega)
    · have hjobs := @executeActions_jobs diamond (by decide) (by decide) most false
        outcome (sched.map Event.result) m 4 (by simp [diamond]; omega) hm2 (by decide)
        (by decide)
      rw [hjobs]
      have h4 := hsmall 4 (by omega)
      have hne : ¬ m = 1 := by omega
      simp only [hne, if_false]
      exact ⟨h4.1, h4.2⟩
  obtain ⟨g1, g2⟩ := hall
  refine ⟨g1, ?_, ?_, ?_⟩
  · rw [g2]
    split <;> decide
  · intro h1
    rw [g2, if_pos h1]
  · intro h2
    rw [g2, if_neg (by omega)]

/-- C6, amended, on the diamond with one job: `A`, then `B`, whose failure
ends the run. -/
theorem C6_diamond_halts_at_B_witness :
    (1 : Int) ≤ 1 ∧
    (∃ c e, (executeActions (loaded false false diamond) (some 1) failB
      ([0, 0, 0].map Event.result)).1 = Outcome.returned (some (ToolError.actionFailed c e))) ∧
    dispatched (executeActions (loaded false false diamond) (some 1) failB
      ([0, 0, 0].map Event.result)).2.log = ["A", "B"] :=
  ⟨by decide,
   (C6_diamond_halts_at_B false 1 (by decide) (by decide) failB
      (fun a ha => by simp [failB, ha]) (fun a ha => by simp [failB, ha])
      [0, 0, 0] (by decide)).1,
   (C6_diamond_halts_at_B false 1 (by decide) (by decide) failB
      (fun a ha => by simp [failB, ha]) (fun a ha => by simp [failB, ha])
      [0, 0, 0] (by decide)).2.2.1 rfl⟩

/-! ## C11: the job bound -/

theorem idle_of_running (l : List Action) (h : ∀ r ∈ l, r.Running = true) : idle l = 0 := by
  unfold idle
  rw [List.length_eq_zero, List.filter_eq_nil_iff]
  intro r hr
  simp [h r hr]

theorem bnd_init (most cont : Bool) (maxjobs : Int) (acts : List Action) (h0 : 0 ≤ maxjobs) :
    Bnd (initRun most cont maxjobs acts) := ⟨le_refl _, h0, rfl, rfl⟩

theorem bnd_dispatchOne {s : Run} (hm : s.h.maxjobs < 2147483648)
    (pre : List Action) (r : Action) (post : List Action) (hlt : s.h.runningnumber < s.h.maxjobs)
    (hB : Bnd s) : Bnd (s.dispatchOne pre r post) := by
  have hlo := hB.lo
  have hrun : (s.dispatchOne pre r post).h.runningnumber = s.h.runningnumber + 1 := by
    show int32 (s.h.runningnumber + 1) = s.h.runningnumber + 1
    exact int32_of_range _ (by omega) (by omega)
  have hmax : (s.dispatchOne pre r post).h.maxjobs = s.h.maxjobs := rfl
  refine ⟨by omega, by omega, ?_, ?_⟩
  · rw [hrun, hB.run]
    simp only [Run.dispatchOne, List.length_append, List.length_singleton]
    push_cast; ring
  · simp only [Run.dispatchOne, dispatched_append, reported_append, dispatched, reported,
      List.length_append, List.length_singleton, List.append_nil, List.length_cons,
      List.length_nil]
    have := hB.unreported
    omega

theorem bnd_select {s : Run} (hm : s.h.maxjobs < 2147483648) (hB : Bnd s) :
    s.select.h.maxjobs = s.h.maxjobs ∧ Bnd s.select :=
  run_select_induct (fun t => t.h.maxjobs = s.h.maxjobs ∧ Bnd t)
    (fun t pre r post hP _ _ hlt =>
      ⟨hP.1, bnd_dispatchOne (by rw [hP.1]; exact hm) pre r post hlt hP.2⟩) s ⟨rfl, hB⟩

theorem bnd_finish {s : Run} (hm : s.h.maxjobs < 2147483648)
    (k : Nat) (a : Action) (exitcode : Int) (hk : s.pending.get? k = some a) (hB : Bnd s) :
    (s.finish k a.Index exitcode).h.maxjobs = s.h.maxjobs ∧ Bnd (s.finish k a.Index exitcode) := by
  obtain ⟨_, h2, h3, _⟩ := onActionFinished_counters s.h a.Index exitcode
  obtain ⟨p1, p2, hp, hpe⟩ := get?_split _ _ _ hk
  have hl1 : s.pending.length = p1.length + p2.length + 1 := by
    rw [hp]; simp; omega
  have hl2 : (s.pending.eraseIdx k).length = p1.length + p2.length := by
    rw [hpe]; simp
  have hlo := hB.lo
  have hhi := hB.hi
  have hrun := hB.run
  have hun := hB.unreported
  have hr : (s.finish k a.Index exitcode).h.runningnumber = s.h.runningnumber - 1 := by
    show (onActionFinished s.h a.Index exitcode).runningnumber = s.h.runningnumber - 1
    rw [h2]
    exact int32_of_range _ (by omega) (by omega)
  have hmj : (s.finish k a.Index exitcode).h.maxjobs = s.h.maxjobs := h3
  have hpl : (s.finish k a.Index exitcode).pending.length = p1.length + p2.length := hl2
  refine ⟨hmj, ⟨by omega, by omega, by omega, ?_⟩⟩
  show (dispatched (s.log ++ [LogEntry.finish a.Index exitcode])).length
    = (reported (s.log ++ [LogEntry.finish a.Index exitcode])).length
      + (s.pending.eraseIdx k).length
  simp only [dispatched_append, reported_append, dispatched, reported, List.length_append,
    List.length_singleton, List.append_nil, List.length_cons, List.length_nil, hl2]
  omega

theorem bnd_step {s : Run} (hm : s.h.maxjobs < 2147483648) (hB : Bnd s) (st : Step) :
    (s.step st).h.maxjobs = s.h.maxjobs ∧ Bnd (s.step st) := by
  cases st with
  | select => exact bnd_select hm hB
  | finish pos exitcode =>
    simp only [Run.step]
    cases hk : s.pending.get? (pos % s.pending.length) with
    | none => exact ⟨rfl, hB⟩
    | some a => exact bnd_finish hm _ a exitcode hk hB

theorem bnd_steps (l : List Step) :
    ∀ {s : Run}, s.h.maxjobs < 2147483648 → Bnd s →
      (s.steps l).h.maxjobs = s.h.maxjobs ∧ Bnd (s.steps l) := by
  induction l with
  | nil => intro s _ hB; exact ⟨rfl, hB⟩
  | cons st l ih =>
    intro s hm hB
    obtain ⟨h1, h2⟩ := bnd_step hm hB st
    obtain ⟨h3, h4⟩ := @ih (s.step st) (by rw [h1]; exact hm) h2
    exact ⟨by show ((s.step st).steps l).h.maxjobs = _; rw [h3, h1], h4⟩

/-- The number of launches of `fuel` turns of the loop of
`selectActionsToExecute`: one per turn until the job limit is reached or the
idle ready entries run out. -/
theorem selectLoop_count (fuel : Nat) :
    ∀ (h : UBTTool) (out : List Action), 0 ≤ h.runningnumber → h.runningnumber ≤ h.maxjobs →
      h.maxjobs < 2147483648 →
      ((selectLoop fuel h out).2.length : Int) = (out.length : Int)
          + min (fuel : Int) (min (h.maxjobs - h.runningnumber) (idle h.readyactions : Int)) ∧
        (selectLoop fuel h out).1.runningnumber = h.runningnumber
          + min (fuel : Int) (min (h.maxjobs - h.runningnumber) (idle h.readyactions : Int)) ∧
        (selectLoop fuel h out).1.maxjobs = h.maxjobs := by
  induction fuel with
  | zero =>
    intro h out h0 h1 h2
    have : selectLoop 0 h out = (h, out) := rfl
    rw [this]
    refine ⟨?_, ?_, rfl⟩ <;> simp <;> omega
  | succ fuel ih =>
    intro h out h0 h1 h2
    by_cases hlt : h.runningnumber < h.maxjobs
    · rcases selectReadyAction_cases h with ⟨_, hall⟩ | ⟨pre, r, post, hr, hrun, hs⟩
      · rw [selectLoop_stop _ _ _ (Or.inr hall), idle_of_running _ hall]
        refine ⟨?_, ?_, rfl⟩ <;> simp <;> omega
      · rw [selectLoop_succ_of_lt fuel h out pre r post hlt hr hs]
        have hrn : (dispatchOne h pre r post).runningnumber = h.runningnumber + 1 := by
          show int32 (h.runningnumber + 1) = h.runningnumber + 1
          exact int32_of_range _ (by omega) (by omega)
        have hmj : (dispatchOne h pre r post).maxjobs = h.maxjobs := rfl
        have hid : idle h.readyactions = idle (dispatchOne h pre r post).readyactions + 1 := by
          rw [hr]; exact idle_dispatch pre r post hrun
        obtain ⟨e1, e2, e3⟩ := ih (dispatchOne h pre r post) (out ++ [{ r with Running := true }])
          (by omega) (by omega) (by omega)
        rw [e1, e2, e3, hrn, hmj, hid]
        simp only [List.length_append, List.length_singleton]
        refine ⟨?_, ?_, trivial⟩ <;> push_cast <;> omega
    · rw [selectLoop_stop _ _ _ (Or.inl hlt)]
      have hz : min ((fuel + 1 : Nat) : Int)
          (min (h.maxjobs - h.runningnumber) (idle h.readyactions : Int)) = 0 := by omega
      rw [hz]
      simp


theorem jobsOf_lt (envjobs : Option Int) : jobsOf envjobs < 2147483648 := by
  cases envjobs with
  | none => decide
  | some m => show int32 m < 2147483648; unfold int32; omega

/-- C11: in every state of a run of `executeActions` with `maxjobs >= 0` (the
state after any sequence of `selectActionsToExecute` calls and results, and so
the state `executeActions` is in after any events), `runningnumber` lies
between 0 and `maxjobs` and is the number of dispatched actions that
`onActionFinished` has not been called for; the same holds after any number
`fuel` of turns of the loop of `selectActionsToExecute`, which launches one
action per turn until `runningnumber` reaches `maxjobs` or no ready action
that is not running remains: in all it launches the smaller of
`maxjobs - runningnumber` and the number of such ready actions. -/
theorem C11_runningnumber_bounds (most cont : Bool) (acts : List Action) (envjobs : Option Int)
    (hjobs : 0 ≤ jobsOf envjobs) (steps : List Step) (fuel : Nat) :
    let s := (initRun most cont (jobsOf envjobs) acts).steps steps
    let t := selectLoop fuel s.h []
    (s.h.maxjobs = jobsOf envjobs ∧ 0 ≤ s.h.runningnumber ∧ s.h.runningnumber ≤ s.h.maxjobs ∧
      s.h.runningnumber = (s.pending.length : Int) ∧
      s.h.runningnumber = ((dispatched s.log).length : Int) - ((reported s.log).length : Int)) ∧
    (0 ≤ t.1.runningnumber ∧ t.1.runningnumber ≤ t.1.maxjobs ∧
      t.1.runningnumber = ((s.pending ++ t.2).length : Int) ∧
      (t.2.length : Int)
        = min (fuel : Int) (min (s.h.maxjobs - s.h.runningnumber) (idle s.h.readyactions : Int))) ∧
    (((selectActionsToExecute s.h).2.length : Int)
        = min (s.h.maxjobs - s.h.runningnumber) (idle s.h.readyactions : Int) ∧
      (¬ (selectActionsToExecute s.h).1.runningnumber < (selectActionsToExecute s.h).1.maxjobs ∨
        ∀ r ∈ (selectActionsToExecute s.h).1.readyactions, r.Running = true)) ∧
    (∀ outcome events,
      0 ≤ (executeActions (loaded most cont acts) envjobs outcome events).2.h.runningnumber ∧
      (executeActions (loaded most cont acts) envjobs outcome events).2.h.runningnumber
        ≤ (executeActions (loaded most cont acts) envjobs outcome events).2.h.maxjobs ∧
      (executeActions (loaded most cont acts) envjobs outcome events).2.h.runningnumber
        = ((executeActions (loaded most cont acts) envjobs outcome events).2.pending.length : Int)) := by
  intro s t
  have hlt := jobsOf_lt envjobs
  have hall : ∀ l : List Step,
      ((initRun most cont (jobsOf envjobs) acts).steps l).h.maxjobs = jobsOf envjobs ∧
        Bnd ((initRun most cont (jobsOf envjobs) acts).steps l) := fun l =>
    @bnd_steps l (initRun most cont (jobsOf envjobs) acts) hlt (bnd_init most cont _ acts hjobs)
  obtain ⟨hm, hB⟩ := hall steps
  have hm' : s.h.maxjobs = jobsOf envjobs := hm
  have hlo : 0 ≤ s.h.runningnumber := hB.lo
  have hhi : s.h.runningnumber ≤ s.h.maxjobs := hB.hi
  have hrun : s.h.runningnumber = (s.pending.length : Int) := hB.run
  have hun : (dispatched s.log).length = (reported s.log).length + s.pending.length :=
    hB.unreported
  obtain ⟨c1, c2, c3⟩ := selectLoop_count fuel s.h [] hlo hhi (by omega)
  obtain ⟨d1, d2, d3⟩ := selectLoop_count s.h.readyactions.length s.h [] hlo hhi (by omega)
  have hidle := idle_le_length s.h.readyactions
  refine ⟨⟨hm', hlo, hhi, hrun, by omega⟩, ⟨?_, ?_, ?_, ?_⟩, ⟨?_, ?_⟩, ?_⟩
  · show 0 ≤ (selectLoop fuel s.h []).1.runningnumber
    rw [c2]; omega
  · show (selectLoop fuel s.h []).1.runningnumber ≤ (selectLoop fuel s.h []).1.maxjobs
    rw [c2, c3]; omega
  · show (selectLoop fuel s.h []).1.runningnumber
      = ((s.pending ++ (selectLoop fuel s.h []).2).length : Int)
    rw [c2, List.length_append]
    push_cast
    rw [c1]
    simp only [List.length_nil]
    omega
  · show ((selectLoop fuel s.h []).2.length : Int) = _
    rw [c1]; simp
  · show ((selectLoop s.h.readyactions.length s.h []).2.length : Int) = _
    rw [d1]
    simp only [List.length_nil]
    omega
  · exact selectLoop_exit _ _ _ hidle
  · intro outcome events
    obtain ⟨l, hl⟩ := executeActions_reach most cont acts envjobs outcome events
    rw [hl]
    obtain ⟨_, hB'⟩ := hall l
    exact ⟨hB'.lo, hB'.hi, hB'.run⟩

/-- The bounds of C11 on the diamond with `maxjobs = 2`, after the first batch
and the result of `A`. -/
theorem C11_runningnumber_bounds_witness :
    0 ≤ jobsOf (some 2) ∧
    (let s := (initRun false false (jobsOf (some 2)) diamond).steps
        [Step.select, Step.finish 0 0]
     let t := selectLoop 1 s.h []
     (s.h.maxjobs = jobsOf (some 2) ∧ 0 ≤ s.h.runningnumber ∧ s.h.runningnumber ≤ s.h.maxjobs ∧
       s.h.runningnumber = (s.pending.length : Int) ∧
       s.h.runningnumber = ((dispatched s.log).length : Int) - ((reported s.log).length : Int)) ∧
     (0 ≤ t.1.runningnumber ∧ t.1.runningnumber ≤ t.1.maxjobs ∧
       t.1.runningnumber = ((s.pending ++ t.2).length : Int) ∧
       (t.2.length : Int)
         = min ((1 : Nat) : Int)
             (min (s.h.maxjobs - s.h.runningnumber) (idle s.h.readyactions : Int))) ∧
     (((selectActionsToExecute s.h).2.length : Int)
         = min (s.h.maxjobs - s.h.runningnumber) (idle s.h.readyactions : Int) ∧
       (¬ (selectActionsToExecute s.h).1.runningnumber < (selectActionsToExecute s.h).1.maxjobs ∨
         ∀ r ∈ (selectActionsToExecute s.h).1.readyactions, r.Running = true)) ∧
     (∀ outcome events,
       0 ≤ (executeActions (loaded false false diamond) (some 2) outcome events).2.h.runningnumber ∧
       (executeActions (loaded false false diamond) (some 2) outcome events).2.h.runningnumber
         ≤ (executeActions (loaded false false diamond) (some 2) outcome events).2.h.maxjobs ∧
       (executeActions (loaded false false diamond) (some 2) outcome events).2.h.runningnumber
         = ((executeActions (loaded false false diamond) (some 2) outcome events).2.pending.length
             : Int))) :=
  ⟨by decide, C11_runningnumber_bounds false false diamond (some 2) (by decide)
    [Step.select, Step.finish 0 0] 1⟩

/-! ## C12: the attempts of executeOneAction and its result -/

theorem runsOf_append (l1 l2 : List ExecEvent) : runsOf (l1 ++ l2) = runsOf l1 ++ runsOf l2 := by
  induction l1 with
  | nil => rfl
  | cons e l ih => cases e <;> simp [runsOf, ih]

theorem sleepsOf_append (l1 l2 : List ExecEvent) :
    sleepsOf (l1 ++ l2) = sleepsOf l1 ++ sleepsOf l2 := by
  induction l1 with
  | nil => rfl
  | cons e l ih => cases e <;> simp [sleepsOf, ih]

theorem sentOf_append (l1 l2 : List ExecEvent) : sentOf (l1 ++ l2) = sentOf l1 ++ sentOf l2 := by
  induction l1 with
  | nil => rfl
  | cons e l ih => cases e <;> simp [sentOf, ih]

/-- One turn of the loop of `executeOneAction`, by what the call returned. -/
theorem tryLoop_succ (codes : RetCodes) (decJSON : String → Option WorkerChanged)
    (run : ExecState → Nat → RunResult) (n attempt : Nat) (waitsecs : Int) (st : ExecState)
    (last : RunResult) (tr : List ExecEvent) :
    tryLoop codes decJSON run (n + 1) attempt waitsecs st last tr
      = if (run st attempt).retcode ≠ codes.ServerErrOK then
          if (run st attempt).retcode = codes.ServerErrWorkNotFound then
            tryLoop codes decJSON run n (attempt + 1) waitsecs
              (dealWorkNotFound decJSON st (run st attempt).retcode (run st attempt).retmsg).1
              (run st attempt) (tr ++ [ExecEvent.run attempt (run st attempt)])
          else (st, run st attempt, tr ++ [ExecEvent.run attempt (run st attempt)])
        else if (run st attempt).err = true then
          tryLoop codes decJSON run n (attempt + 1) (waitsecs * 2) st (run st attempt)
            (tr ++ [ExecEvent.run attempt (run st attempt)] ++ [ExecEvent.sleep waitsecs])
        else (st, run st attempt, tr ++ [ExecEvent.run attempt (run st attempt)]) := by
  simp only [tryLoop, bne_iff_ne, beq_iff_eq, ne_eq, ite_not]

/-- What `n` turns of the loop of `executeOneAction` add to the trace: no
send, at most `n` calls and at least one when `n > 0`, in consecutive turns,
and `retcode, retmsg, err` end as the last call returned them. -/
theorem tryLoop_spec (codes : RetCodes) (decJSON : String → Option WorkerChanged)
    (run : ExecState → Nat → RunResult) (n : Nat) :
    ∀ (attempt : Nat) (waitsecs : Int) (st : ExecState) (last : RunResult) (tr : List ExecEvent),
      ∃ extra, (tryLoop codes decJSON run n attempt waitsecs st last tr).2.2 = tr ++ extra ∧
        sentOf extra = [] ∧
        (runsOf extra).map Prod.fst = List.range' attempt (runsOf extra).length ∧
        (runsOf extra).length ≤ n ∧ (0 < n → 0 < (runsOf extra).length) ∧
        (tryLoop codes decJSON run n attempt waitsecs st last tr).2.1
          = (((runsOf extra).getLast?).map Prod.snd).getD last := by
  induction n with
  | zero =>
    intro attempt waitsecs st last tr
    exact ⟨[], by simp [tryLoop], rfl, rfl, le_refl _, fun h => absurd h (lt_irrefl _), rfl⟩
  | succ n ih =>
    intro attempt waitsecs st last tr
    rw [tryLoop_succ]
    have hstop : ∃ extra, (st, run st attempt, tr ++ [ExecEvent.run attempt (run st attempt)]).2.2
          = tr ++ extra ∧ sentOf extra = [] ∧
        (runsOf extra).map Prod.fst = List.range' attempt (runsOf extra).length ∧
        (runsOf extra).length ≤ n + 1 ∧ (0 < n + 1 → 0 < (runsOf extra).length) ∧
        (st, run st attempt, tr ++ [ExecEvent.run attempt (run st attempt)]).2.1
          = (((runsOf extra).getLast?).map Prod.snd).getD last :=
      ⟨[ExecEvent.run attempt (run st attempt)], rfl, rfl, rfl, by simp [runsOf],
        fun _ => by simp [runsOf], rfl⟩
    have hlast : ∀ (l : List (Nat × RunResult)) (r : RunResult),
        ((l.getLast?).map Prod.snd).getD r
          = ((((attempt, r) :: l).getLast?).map Prod.snd).getD last := by
      intro l r
      cases l with
      | nil => rfl
      | cons x l => rw [List.getLast?_cons_cons]; cases h : (x :: l).getLast? with
        | none => simp at h
        | some y => rfl
    split_ifs with h1 h2 h3
    · obtain ⟨extra, e1, e2, e3, e4, _, e6⟩ := ih (attempt + 1) waitsecs
        (dealWorkNotFound decJSON st (run st attempt).retcode (run st attempt).retmsg).1
        (run st attempt) (tr ++ [ExecEvent.run attempt (run st attempt)])
      refine ⟨ExecEvent.run attempt (run st attempt) :: extra, ?_, ?_, ?_, ?_, ?_, ?_⟩
      · rw [e1]; simp
      · simpa [sentOf] using e2
      · simp only [runsOf, List.map_cons, List.length_cons, List.range'_succ, e3]
      · simp only [runsOf, List.length_cons]; omega
      · intro _; simp [runsOf]
      · rw [e6]; exact hlast _ _
    · exact hstop
    · obtain ⟨extra, e1, e2, e3, e4, _, e6⟩ := ih (attempt + 1) (waitsecs * 2) st
        (run st attempt)
        (tr ++ [ExecEvent.run attempt (run st attempt)] ++ [ExecEvent.sleep waitsecs])
      refine ⟨ExecEvent.run attempt (run st attempt) :: ExecEvent.sleep waitsecs :: extra,
        ?_, ?_, ?_, ?_, ?_, ?_⟩
      · rw [e1]; simp
      · simpa [sentOf] using e2
      · simp only [runsOf, List.map_cons, List.length_cons, List.range'_succ, e3]
      · simp only [runsOf, List.length_cons]; omega
      · intro _; simp [runsOf]
      · rw [e6]; exact hlast _ _
    · exact hstop

/-- When every call returns work-not-found, `n` turns of the loop make `n`
calls. -/
theorem tryLoop_all_notfound (codes : RetCodes) (decJSON : String → Option WorkerChanged)
    (run : ExecState → Nat → RunResult)
    (hne : codes.ServerErrWorkNotFound ≠ codes.ServerErrOK)
    (hall : ∀ st k, (run st k).retcode = codes.ServerErrWorkNotFound) (n : Nat) :
    ∀ (attempt : Nat) (waitsecs : Int) (st : ExecState) (last : RunResult) (tr : List ExecEvent),
      (runsOf (tryLoop codes decJSON run n attempt waitsecs st last tr).2.2).length
        = (runsOf tr).length + n := by
  induction n with
  | zero => intro attempt waitsecs st last tr; rfl
  | succ n ih =>
    intro attempt waitsecs st last tr
    rw [tryLoop_succ, if_pos (by rw [hall]; exact hne), if_pos (hall _ _), ih, runsOf_append]
    simp [runsOf]
    omega

/-- C12: whatever `h.executor.Run` returns, `executeOneAction` calls it at
least once and at most 3 times, in the turns 0, 1, ..., and afterwards sends
exactly one result, the last thing it does, whose `Index` is the action's and
whose `Exitcode` is the return code of the last call; when every call returns
work-not-found there are exactly 3 calls. -/
theorem C12_attempts_and_result (codes : RetCodes) (decJSON : String → Option WorkerChanged)
    (run : ExecState → Nat → RunResult) (st : ExecState) (action : Action) :
    (1 ≤ (runsOf (executeOneAction codes decJSON run st action).2).length ∧
      (runsOf (executeOneAction codes decJSON run st action).2).length ≤ 3 ∧
      (runsOf (executeOneAction codes decJSON run st action).2).map Prod.fst
        = List.range (runsOf (executeOneAction codes decJSON run st action).2).length) ∧
    (∃ front last, (executeOneAction codes decJSON run st action).2 = front ++ [ExecEvent.send
          { Index := action.Index, Exitcode := last.retcode, Err := last.err }] ∧
        sentOf front = [] ∧
        (runsOf front).getLast?
          = some ((runsOf (executeOneAction codes decJSON run st action).2).length - 1, last)) ∧
    (codes.ServerErrWorkNotFound ≠ codes.ServerErrOK →
      (∀ st k, (run st k).retcode = codes.ServerErrWorkNotFound) →
      (runsOf (executeOneAction codes decJSON run st action).2).length = 3) := by
  obtain ⟨extra, e1, e2, e3, e4, e5, e6⟩ := tryLoop_spec codes decJSON run 3 0 5 st
    { retcode := 0, retmsg := "", err := false } []
  have hpos := e5 (by decide)
  have hres : ∀ x, (runsOf extra).getLast? = some x →
      (executeOneAction codes decJSON run st action).2
        = extra ++ [ExecEvent.send
            { Index := action.Index, Exitcode := x.2.retcode, Err := x.2.err }] := by
    intro x hx
    rw [hx] at e6
    unfold executeOneAction
    simp only []
    rw [e1, e6]
    rfl
  obtain ⟨x, hl⟩ : ∃ x, (runsOf extra).getLast? = some x := by
    cases hl : (runsOf extra).getLast? with
    | none =>
      rw [List.getLast?_eq_none_iff] at hl
      rw [hl] at hpos
      exact absurd hpos (by decide)
    | some x => exact ⟨x, rfl⟩
  have htr := hres x hl
  have hruns : runsOf (executeOneAction codes decJSON run st action).2 = runsOf extra := by
    rw [htr, runsOf_append]; simp [runsOf]
  refine ⟨⟨?_, ?_, ?_⟩, ?_, ?_⟩
  · rw [hruns]; exact hpos
  · rw [hruns]; exact e4
  · rw [hruns, e3, List.range_eq_range']
  · refine ⟨extra, x.2, htr, e2, ?_⟩
    rw [hruns, hl]
    have h1 : ((runsOf extra).map Prod.fst).getLast? = some x.1 := by
      rw [List.getLast?_map, hl]; rfl
    rw [e3] at h1
    have h2 : (List.range' 0 (runsOf extra).length).getLast?
        = some ((runsOf extra).length - 1) := by
      cases hn : (runsOf extra).length with
      | zero => rw [hn] at hpos; exact absurd hpos (by decide)
      | succ m =>
        rw [List.range'_concat, List.getLast?_append]
        simp
    rw [h2] at h1
    have h3 : x.1 = (runsOf extra).length - 1 := (Option.some.inj h1).symm
    rw [← h3]
  · intro hne hall
    have := tryLoop_all_notfound codes decJSON run hne hall 3 0 5 st
      { retcode := 0, retmsg := "", err := false } []
    rw [hruns, ← List.nil_append extra, ← e1]
    exact this

/-! ## C13: sleeping and retrying -/

/-- C13, as stated, fails: when the first call returns a code that is neither
OK nor work-not-found (here 2, with a non-nil error), `executeOneAction` makes
no second call and does not sleep; it sends the result at once. -/
theorem C13_counterexample :
    (executeOneAction sampleCodes (fun _ => none)
        (fun _ _ => { retcode := 2, retmsg := "failed", err := true })
        { workID := "w1", calls := [] } { Index := "A" }).2
      = [ExecEvent.run 0 { retcode := 2, retmsg := "failed", err := true },
         ExecEvent.send { Index := "A", Exitcode := 2, Err := true }] := by
  decide

theorem tryLoop_shape (codes : RetCodes) (decJSON : String → Option WorkerChanged)
    (run : ExecState → Nat → RunResult) (n : Nat) :
    ∀ (attempt : Nat) (waitsecs : Int) (st : ExecState) (last : RunResult) (tr : List ExecEvent),
      ∃ extra, (tryLoop codes decJSON run n attempt waitsecs st last tr).2.2 = tr ++ extra ∧
        Shape codes n attempt waitsecs extra := by
  induction n with
  | zero =>
    intro attempt waitsecs st last tr
    exact ⟨[], by simp [tryLoop], Shape.done _ _⟩
  | succ n ih =>
    intro attempt waitsecs st last tr
    rw [tryLoop_succ]
    split_ifs with h1 h2 h3
    · obtain ⟨extra, e1, e2⟩ := ih (attempt + 1) waitsecs
        (dealWorkNotFound decJSON st (run st attempt).retcode (run st attempt).retmsg).1
        (run st attempt) (tr ++ [ExecEvent.run attempt (run st attempt)])
      exact ⟨ExecEvent.run attempt (run st attempt) :: extra, by rw [e1]; simp,
        Shape.notfound _ _ _ _ _ h1 h2 e2⟩
    · exact ⟨[ExecEvent.run attempt (run st attempt)], rfl, Shape.fail _ _ _ _ h1 h2⟩
    · obtain ⟨extra, e1, e2⟩ := ih (attempt + 1) (waitsecs * 2) st (run st attempt)
        (tr ++ [ExecEvent.run attempt (run st attempt)] ++ [ExecEvent.sleep waitsecs])
      exact ⟨ExecEvent.run attempt (run st attempt) :: ExecEvent.sleep waitsecs :: extra,
        by rw [e1]; simp, Shape.retry _ _ _ _ _ (not_not.mp h1) h3 e2⟩
    · exact ⟨[ExecEvent.run attempt (run st attempt)], rfl,
        Shape.ok _ _ _ _ (not_not.mp h1) (by simpa using h3)⟩

theorem shape_head {codes : RetCodes} {n attempt : Nat} {w : Int} {extra : List ExecEvent}
    (h : Shape codes (n + 1) attempt w extra) :
    ∃ r rest, extra = ExecEvent.run attempt r :: rest := by
  cases h with
  | ok _ _ _ r _ _ => exact ⟨r, [], rfl⟩
  | fail _ _ _ r _ _ => exact ⟨r, [], rfl⟩
  | notfound _ _ _ r rest _ _ _ => exact ⟨r, rest, rfl⟩
  | retry _ _ _ r rest _ _ _ => exact ⟨r, _, rfl⟩

/-- The sleeps of a trace of the loop: `w`, `2 w`, `4 w`, ..., at most one per
turn. -/
theorem shape_sleeps {codes : RetCodes} {n attempt : Nat} {w : Int} {extra : List ExecEvent}
    (h : Shape codes n attempt w extra) :
    ∃ m, m ≤ n ∧ sleepsOf extra = (List.range m).map (fun i => w * 2 ^ i) := by
  induction h with
  | done _ _ => exact ⟨0, le_refl _, rfl⟩
  | ok _ _ _ _ _ _ => exact ⟨0, Nat.zero_le _, rfl⟩
  | fail _ _ _ _ _ _ => exact ⟨0, Nat.zero_le _, rfl⟩
  | notfound n _ _ _ rest _ _ _ ih =>
    obtain ⟨m, hm, hs⟩ := ih
    exact ⟨m, by omega, by simpa [sleepsOf] using hs⟩
  | retry n _ w _ rest _ _ _ ih =>
    obtain ⟨m, hm, hs⟩ := ih
    refine ⟨m + 1, by omega, ?_⟩
    simp only [sleepsOf, hs, List.range_succ_eq_map, List.map_cons, List.map_map, pow_zero,
      mul_one, List.cons.injEq, true_and]
    apply List.map_congr_left
    intro i _
    simp only [Function.comp, pow_succ]
    ring

/-- In a trace of the loop, a call that returned the OK code with an error is
followed by a sleep, whose length is `w` doubled once for each earlier sleep,
and, unless the call was in the last turn, by the call of the next turn. -/
theorem shape_retry {codes : RetCodes} {n attempt : Nat} {w : Int} {extra : List ExecEvent}
    (h : Shape codes n attempt w extra) :
    ∀ (pre : List ExecEvent) (k : Nat) (r : RunResult) (post : List ExecEvent),
      extra = pre ++ ExecEvent.run k r :: post → r.retcode = codes.ServerErrOK → r.err = true →
      ∃ post', post = ExecEvent.sleep (w * 2 ^ (sleepsOf pre).length) :: post' ∧
        (k + 1 < attempt + n → ∃ r' post'', post' = ExecEvent.run (k + 1) r' :: post'') ∧
        (k + 1 = attempt + n → post' = []) := by
  induction h with
  | done _ _ => intro pre k r post he; simp at he
  | ok n attempt w r0 h1 h2 =>
    intro pre k r post he hok herr
    cases pre with
    | nil =>
      simp only [List.nil_append, List.cons.injEq, ExecEvent.run.injEq] at he
      obtain ⟨⟨_, hr⟩, _⟩ := he
      rw [hr, herr] at h2
      exact absurd h2 (by decide)
    | cons e pre => simp at he
  | fail n attempt w r0 h1 h2 =>
    intro pre k r post he hok herr
    cases pre with
    | nil =>
      simp only [List.nil_append, List.cons.injEq, ExecEvent.run.injEq] at he
      obtain ⟨⟨_, hr⟩, _⟩ := he
      rw [hr] at h1
      exact absurd hok h1
    | cons e pre => simp at he
  | notfound n attempt w r0 rest h1 h2 hrest ih =>
    intro pre k r post he hok herr
    cases pre with
    | nil =>
      simp only [List.nil_append, List.cons.injEq, ExecEvent.run.injEq] at he
      obtain ⟨⟨_, hr⟩, _⟩ := he
      rw [hr] at h1
      exact absurd hok h1
    | cons e pre =>
      simp only [List.cons_append, List.cons.injEq] at he
      obtain ⟨he1, he2⟩ := he
      obtain ⟨post', p1, p2, p3⟩ := ih pre k r post he2 hok herr
      refine ⟨post', ?_, fun hk => p2 (by omega), fun hk => p3 (by omega)⟩
      rw [p1, ← he1]
      rfl
  | retry n attempt w r0 rest h1 h2 hrest ih =>
    intro pre k r post he hok herr
    cases pre with
    | nil =>
      simp only [List.nil_append, List.cons.injEq, ExecEvent.run.injEq] at he
      obtain ⟨⟨hk, _⟩, hpost⟩ := he
      refine ⟨rest, ?_, ?_, ?_⟩
      · rw [← hpost]; simp [sleepsOf]
      · intro hlt
        cases n with
        | zero => omega
        | succ n =>
          obtain ⟨r', rest', hr'⟩ := shape_head hrest
          exact ⟨r', rest', by rw [hr', hk]⟩
      · intro heq
        have hn : n = 0 := by omega
        rw [hn] at hrest
        cases hrest
        rfl
    | cons e pre =>
      simp only [List.cons_append, List.cons.injEq] at he
      obtain ⟨he1, he2⟩ := he
      cases pre with
      | nil => simp at he2
      | cons e2 pre =>
        simp only [List.cons_append, List.cons.injEq] at he2
        obtain ⟨he3, he4⟩ := he2
        obtain ⟨post', p1, p2, p3⟩ := ih pre k r post he4 hok herr
        refine ⟨post', ?_, fun hk => p2 (by omega), fun hk => p3 (by omega)⟩
        rw [p1, ← he1, ← he3]
        simp only [sleepsOf, List.length_cons, pow_succ]
        congr 2
        ring

/-- In a trace of the loop nothing follows a call that returned a code that
is neither OK nor work-not-found. -/
theorem shape_break {codes : RetCodes} {n attempt : Nat} {w : Int} {extra : List ExecEvent}
    (h : Shape codes n attempt w extra) :
    ∀ (pre : List ExecEvent) (k : Nat) (r : RunResult) (post : List ExecEvent),
      extra = pre ++ ExecEvent.run k r :: post → r.retcode ≠ codes.ServerErrOK →
      r.retcode ≠ codes.ServerErrWorkNotFound → post = [] := by
  induction h with
  | done _ _ => intro pre k r post he; simp at he
  | ok n attempt w r0 h1 h2 =>
    intro pre k r post he hok hnf
    cases pre with
    | nil =>
      simp only [List.nil_append, List.cons.injEq, ExecEvent.run.injEq] at he
      exact he.2.symm
    | cons e pre => simp at he
  | fail n attempt w r0 h1 h2 =>
    intro pre k r post he hok hnf
    cases pre with
    | nil =>
      simp only [List.nil_append, List.cons.injEq, ExecEvent.run.injEq] at he
      exact he.2.symm
    | cons e pre => simp at he
  | notfound n attempt w r0 rest h1 h2 hrest ih =>
    intro pre k r post he hok hnf
    cases pre with
    | nil =>
      simp only [List.nil_append, List.cons.injEq, ExecEvent.run.injEq] at he
      obtain ⟨⟨_, hr⟩, _⟩ := he
      rw [hr] at h2
      exact absurd h2 hnf
    | cons e pre =>
      simp only [List.cons_append, List.cons.injEq] at he
      exact ih pre k r post he.2 hok hnf
  | retry n attempt w r0 rest h1 h2 hrest ih =>
    intro pre k r post he hok hnf
    cases pre with
    | nil =>
      simp only [List.nil_append, List.cons.injEq, ExecEvent.run.injEq] at he
      obtain ⟨⟨_, hr⟩, _⟩ := he
      rw [hr] at h1
      exact absurd h1 hok
    | cons e pre =>
      simp only [List.cons_append, List.cons.injEq] at he
      cases pre with
      | nil => simp at he
      | cons e2 pre =>
        simp only [List.cons_append, List.cons.injEq] at he
        exact ih pre k r post he.2.2 hok hnf

/-- The trace of `executeOneAction`: a trace of three turns of its loop from
turn 0 with `waitsecs = 5`, then the send of the result. -/
theorem executeOneAction_shape (codes : RetCodes) (decJSON : String → Option WorkerChanged)
    (run : ExecState → Nat → RunResult) (st : ExecState) (action : Action) :
    ∃ extra r, (executeOneAction codes decJSON run st action).2 = extra ++ [ExecEvent.send r] ∧
      Shape codes 3 0 5 extra := by
  obtain ⟨extra, e1, e2⟩ := tryLoop_shape codes decJSON run 3 0 5 st
    { retcode := 0, retmsg := "", err := false } []
  refine ⟨extra, Actionresult.mk action.Index
    (tryLoop codes decJSON run 3 0 5 st (RunResult.mk 0 "" false) []).2.1.retcode
    (tryLoop codes decJSON run 3 0 5 st (RunResult.mk 0 "" false) []).2.1.err, ?_, e2⟩
  unfold executeOneAction
  simp only []
  rw [e1]
  rfl

theorem split_before_send {extra pre post : List ExecEvent} {x : Actionresult} {k : Nat}
    {r : RunResult} (h : extra ++ [ExecEvent.send x] = pre ++ ExecEvent.run k r :: post) :
    ∃ post0, post = post0 ++ [ExecEvent.send x] ∧ extra = pre ++ ExecEvent.run k r :: post0 := by
  rcases List.eq_nil_or_concat post with hp | ⟨post0, y, hp⟩
  · rw [hp] at h
    have := List.append_inj_right' h rfl
    simp at this
  · rw [hp] at h
    have h2 : extra ++ [ExecEvent.send x] = (pre ++ ExecEvent.run k r :: post0) ++ [y] := by
      rw [h]; simp
    have h3 := List.append_inj_right' h2 rfl
    have h4 := List.append_inj_left' h2 rfl
    simp only [List.cons.injEq, and_true] at h3
    exact ⟨post0, by rw [hp, h3]; simp, h4⟩

/-- C13, amended: in `executeOneAction`, a call of `h.executor.Run` that
returns the OK code together with a non-nil error is followed by a sleep and,
when it was made before the third turn, by the call of the next turn; the
sleep lasts 5 s doubled once for every earlier sleep, so the sleeps of one
`executeOneAction` are 5 s, 10 s, 20 s in this order (as many as there were
such calls); a call that returns a code that is neither OK nor
work-not-found is followed by the send of the result only, without a sleep
and without another call. -/
theorem C13_sleep_and_retry (codes : RetCodes) (decJSON : String → Option WorkerChanged)
    (run : ExecState → Nat → RunResult) (st : ExecState) (action : Action) :
    (∀ pre k r post,
      (executeOneAction codes decJSON run st action).2 = pre ++ ExecEvent.run k r :: post →
      r.retcode = codes.ServerErrOK → r.err = true →
      ∃ post', post = ExecEvent.sleep (5 * 2 ^ (sleepsOf pre).length) :: post' ∧
        (k < 2 → ∃ r' post'', post' = ExecEvent.run (k + 1) r' :: post'')) ∧
    (∃ m, m ≤ 3 ∧ sleepsOf (executeOneAction codes decJSON run st action).2
      = List.take m [5, 10, 20]) ∧
    (∀ pre k r post,
      (executeOneAction codes decJSON run st action).2 = pre ++ ExecEvent.run k r :: post →
      r.retcode ≠ codes.ServerErrOK → r.retcode ≠ codes.ServerErrWorkNotFound →
      ∃ x, post = [ExecEvent.send x]) := by
  obtain ⟨extra, x, htr, hS⟩ := executeOneAction_shape codes decJSON run st action
  rw [htr]
  refine ⟨?_, ?_, ?_⟩
  · intro pre k r post he hok herr
    obtain ⟨post0, hp, hex⟩ := split_before_send he
    obtain ⟨post', p1, p2, _⟩ := shape_retry hS pre k r post0 hex hok herr
    refine ⟨post' ++ [ExecEvent.send x], by rw [hp, p1]; rfl, ?_⟩
    intro hk
    obtain ⟨r', post'', hr'⟩ := p2 (by omega)
    exact ⟨r', post'' ++ [ExecEvent.send x], by rw [hr']; rfl⟩
  · obtain ⟨m, hm, hs⟩ := shape_sleeps hS
    refine ⟨m, hm, ?_⟩
    rw [sleepsOf_append, hs]
    have h4 : m = 0 ∨ m = 1 ∨ m = 2 ∨ m = 3 := by omega
    have hx : sleepsOf [ExecEvent.send x] = [] := rfl
    rw [hx, List.append_nil]
    rcases h4 with h | h | h | h <;> subst h <;> decide
  · intro pre k r post he hok hnf
    obtain ⟨post0, hp, hex⟩ := split_before_send he
    have := shape_break hS pre k r post0 hex hok hnf
    exact ⟨x, by rw [hp, this]; rfl⟩

/-- The first part of C13 at a run in which every call returns the OK code
with an error: the first call is followed by a sleep of 5 s and the second
call. -/
theorem C13_sleep_and_retry_witness :
    ∃ post', [ExecEvent.sleep 5,
        ExecEvent.run 1 { retcode := 0, retmsg := "", err := true }, ExecEvent.sleep 10,
        ExecEvent.run 2 { retcode := 0, retmsg := "", err := true }, ExecEvent.sleep 20,
        ExecEvent.send { Index := "A", Exitcode := 0, Err := true }]
      = ExecEvent.sleep (5 * 2 ^ (sleepsOf []).length) :: post' ∧
      ((0 : Nat) < 2 → ∃ r' post'', post' = ExecEvent.run (0 + 1) r' :: post'') :=
  (C13_sleep_and_retry sampleCodes (fun _ => none)
    (fun _ _ => { retcode := 0, retmsg := "", err := true })
    { workID := "w1", calls := [] } { Index := "A" }).1 []
    0 { retcode := 0, retmsg := "", err := true } _ (by decide) (by decide) (by decide)

/-- The last part of C12 at a run in which every call returns work-not-found:
three calls. -/
theorem C12_attempts_and_result_witness :
    (runsOf (executeOneAction sampleCodes (fun _ => none)
      (fun _ _ => { retcode := 6, retmsg := "", err := false })
      { workID := "w1", calls := [] } { Index := "A" }).2).length = 3 :=
  (C12_attempts_and_result sampleCodes (fun _ => none)
    (fun _ _ => { retcode := 6, retmsg := "", err := false })
    { workID := "w1", calls := [] } { Index := "A" }).2.2 (by decide) (fun _ _ => by decide)

/-! ## C14: the work ID that dealWorkNotFound installs -/

/-- C14, as stated, fails: the message below ends with `|` followed by a
document that decodes to the work ID `work-2`, but it holds an earlier `|`;
`dealWorkNotFound` hands `msgs[1] = "stale"` to the decoder, returns its
error and leaves the work ID as it was. -/
theorem C14_counterexample :
    sampleDecJSON "\x7b\"new_work_id\":\"work-2\"\x7d" = some { NewWorkID := "work-2" } ∧
    "work not found|stale|\x7b\"new_work_id\":\"work-2\"\x7d"
      = "work not found|stale" ++ "|" ++ "\x7b\"new_work_id\":\"work-2\"\x7d" ∧
    Split "work not found|stale|\x7b\"new_work_id\":\"work-2\"\x7d"
      = ["work not found", "stale", "\x7b\"new_work_id\":\"work-2\"\x7d"] ∧
    dealWorkNotFound sampleDecJSON { workID := "work-1", calls := [] } 6
        "work not found|stale|\x7b\"new_work_id\":\"work-2\"\x7d"
      = ({ workID := "work-1", calls := [] }, true) := by
  decide

theorem splitChars_none (sep : Char) (l : List Char) (h : sep ∉ l) : splitChars sep l = [l] := by
  induction l with
  | nil => rfl
  | cons c cs ih =>
    have hc : c ≠ sep := fun e => h (by rw [e]; exact List.mem_cons_self _ _)
    have hcs : sep ∉ cs := fun m => h (List.mem_cons_of_mem _ m)
    simp only [splitChars, if_neg hc, ih hcs]

theorem splitChars_append (sep : Char) (p rest : List Char) (h : sep ∉ p) :
    splitChars sep (p ++ sep :: rest) = p :: splitChars sep rest := by
  induction p with
  | nil => simp [splitChars]
  | cons c cs ih =>
    have hc : c ≠ sep := fun e => h (by rw [e]; exact List.mem_cons_self _ _)
    have hcs : sep ∉ cs := fun m => h (List.mem_cons_of_mem _ m)
    have hi : splitChars sep (cs.append (sep :: rest)) = cs :: splitChars sep rest := ih hcs
    simp only [List.cons_append, splitChars, if_neg hc]
    rw [hi]

/-- The pieces of a message with a first piece `P` and a second piece `J`. -/
theorem Split_two (P J : String) (hP : '|' ∉ P.data) (hJ : '|' ∉ J.data) :
    Split (P ++ "|" ++ J) = [P, J] ∧ ∀ R, ∃ more, Split (P ++ "|" ++ J ++ "|" ++ R) = P :: J :: more := by
  constructor
  · have hd : (P ++ "|" ++ J).data = P.data ++ '|' :: J.data := by
      simp [String.data_append]
    simp only [Split, hd, splitChars_append _ _ _ hP, splitChars_none _ _ hJ, List.map_cons,
      List.map_nil]
  · intro R
    have hd : (P ++ "|" ++ J ++ "|" ++ R).data = P.data ++ '|' :: (J.data ++ '|' :: R.data) := by
      simp [String.data_append]
    exact ⟨(splitChars '|' R.data).map String.mk, by
      simp only [Split, hd, splitChars_append _ _ _ hP, splitChars_append _ _ _ hJ, List.map_cons]⟩

/-- C14, amended: for a message made of a text `P` without `|`, then `|`, then
a document `J` without `|` that decodes to a `WorkerChanged` whose `NewWorkID`
is a non-empty string `W` (and then nothing, or `|` and any text `R`),
`dealWorkNotFound` sets the work ID to `W`, then calls `h.executor.Update()`
and `h.setToolChain()`, and returns nil: the work ID is decoded from the text
between the first `|` and the second `|` or the end of the message. -/
theorem C14_work_id_from_second_piece (decJSON : String → Option WorkerChanged)
    (st : ExecState) (retcode : Int) (P J W : String)
    (hP : '|' ∉ P.data) (hJ : '|' ∉ J.data)
    (hdec : decJSON J = some { NewWorkID := W }) (hW : W ≠ "") :
    dealWorkNotFound decJSON st retcode (P ++ "|" ++ J)
      = ({ workID := W, calls := st.calls
            ++ [ExecCall.SetEnv W, ExecCall.Update, ExecCall.setToolChain] }, false) ∧
    ∀ R, dealWorkNotFound decJSON st retcode (P ++ "|" ++ J ++ "|" ++ R)
      = ({ workID := W, calls := st.calls
            ++ [ExecCall.SetEnv W, ExecCall.Update, ExecCall.setToolChain] }, false) := by
  obtain ⟨h1, h2⟩ := Split_two P J hP hJ
  have hne : ∀ X : String, (P ++ "|" ++ X == "") = false := by
    intro X
    rw [beq_eq_false_iff_ne]
    intro h
    have := congrArg String.length h
    simp only [String.length_append] at this
    have h1 : "|".length = 1 := by decide
    have h0 : "".length = 0 := by decide
    omega
  constructor
  · unfold dealWorkNotFound
    rw [hne, h1]
    simp [hdec, hW]
  · intro R
    obtain ⟨more, hm⟩ := h2 R
    have hne2 : (P ++ "|" ++ J ++ "|" ++ R == "") = false := by
      have := hne (J ++ "|" ++ R)
      simpa [String.append_assoc] using this
    unfold dealWorkNotFound
    rw [hne2, hm]
    simp [hdec, hW]

/-- C14 at the message `work not found|{"new_work_id":"work-2"}`. -/
theorem C14_work_id_from_second_piece_witness :
    dealWorkNotFound sampleDecJSON { workID := "work-1", calls := [] } 6
        ("work not found" ++ "|" ++ "\x7b\"new_work_id\":\"work-2\"\x7d")
      = ({ workID := "work-2", calls := []
            ++ [ExecCall.SetEnv "work-2", ExecCall.Update, ExecCall.setToolChain] }, false) :=
  (C14_work_id_from_second_piece sampleDecJSON { workID := "work-1", calls := [] } 6
    "work not found" "\x7b\"new_work_id\":\"work-2\"\x7d" "work-2"
    (by decide) (by decide) (by decide) (by decide)).1

/-! ## C15: the address put in place of the host template -/

/-- C15, as stated, fails: of the two addresses `10.0.0.5` and `8.8.8.8` the
first is in the private range 10.0.0.0/8 and the second is public, so the
claim names `8.8.8.8`; `isIPValid` accepts `10.0.0.5`, which is the address
substituted. Likewise `192.0.2.1`, outside the private ranges, is passed over
for `8.8.8.8`. -/
theorem C15_counterexample :
    hostIP ["10.0.0.5", "8.8.8.8"] = some "10.0.0.5" ∧
    specHostIP ["10.0.0.5", "8.8.8.8"] = some "8.8.8.8" ∧
    (adjustHostIP ["10.0.0.5", "8.8.8.8"]
      { Index := "A", Arg := "-host=$\x7bhost_ip\x7d -port=1345" }).Arg
        = "-host=10.0.0.5 -port=1345" ∧
    hostIP ["192.0.2.1", "8.8.8.8"] = some "8.8.8.8" ∧
    specHostIP ["192.0.2.1", "8.8.8.8"] = some "192.0.2.1" := by
  decide

theorem hostIPLoop_eq (l : List String) (ip : String) :
    hostIPLoop l ip = (l.find? (fun x => isIPValid x)).getD ip := by
  induction l with
  | nil => rfl
  | cons x rest ih =>
    by_cases hx : isIPValid x = true
    · simp [hostIPLoop, hx]
    · simp [hostIPLoop, hx, ih]

theorem hostIPLoop_split (pre : List String) (x : String) (post : List String) (ip : String)
    (hpre : ∀ y ∈ pre, isIPValid y = false) (hx : isIPValid x = true) :
    hostIPLoop (pre ++ x :: post) ip = x := by
  induction pre with
  | nil => simp [hostIPLoop, hx]
  | cons y pre ih =>
    have hy : isIPValid y = false := hpre y (List.mem_cons_self _ _)
    simp only [List.cons_append, hostIPLoop, hy]
    exact ih (fun z hz => hpre z (List.mem_cons_of_mem _ hz))

theorem hostIPLoop_none (l : List String) (ip : String) (h : ∀ y ∈ l, isIPValid y = false) :
    hostIPLoop l ip = ip := by
  induction l with
  | nil => rfl
  | cons y l ih =>
    have hy : isIPValid y = false := h y (List.mem_cons_self _ _)
    simp only [hostIPLoop, hy]
    exact ih (fun z hz => h z (List.mem_cons_of_mem _ hz))

/-- A text that holds no character of `old` is left as it is by the
replacement. -/
theorem replaceChars_none (old new : List Char) (hold : old ≠ []) (s : List Char)
    (h : ∀ c ∈ s, c ∉ old) : replaceChars old new 0 s = s := by
  induction s with
  | nil => rfl
  | cons c cs ih =>
    have hc : c ∉ old := h c (List.mem_cons_self _ _)
    have hp : old.isPrefixOf (c :: cs) = false := by
      cases old with
      | nil => exact absurd rfl hold
      | cons o os =>
        have hne : o ≠ c := fun e => hc (by rw [e]; exact List.mem_cons_self _ _)
        simp [List.isPrefixOf, hne]
    simp only [replaceChars, hp]
    rw [ih (fun d hd => h d (List.mem_cons_of_mem _ hd))]
    rfl

theorem Replace_of_not_containsAny (s old new : String) (hold : old.data ≠ [])
    (h : ContainsAny s old = false) : Replace s old new = s := by
  unfold Replace
  rw [replaceChars_none _ _ hold]
  intro c hc hm
  have : ContainsAny s old = true := by
    unfold ContainsAny
    rw [List.any_eq_true]
    exact ⟨c, hc, by simpa using hm⟩
  rw [h] at this
  exact absurd this (by decide)

/-- C15, amended: `isIPValid` accepts exactly the addresses that do not begin
with `192.`, `172.` or `127.`; from a non-empty list the address chosen is the
first one that `isIPValid` accepts, and the first address of the list when it
accepts none; the chosen address is the one put in place of every
`${host_ip}` of the `Arg` of an action. -/
theorem C15_host_ip_choice (ips : List String) (hne : ips ≠ []) :
    (∀ ip, isIPValid ip = true ↔
      (HasPrefix ip "192." = false ∧ HasPrefix ip "172." = false ∧ HasPrefix ip "127." = false)) ∧
    (∀ pre x post, ips = pre ++ x :: post → (∀ y ∈ pre, isIPValid y = false) →
      isIPValid x = true → hostIP ips = some x) ∧
    ((∀ y ∈ ips, isIPValid y = false) → hostIP ips = ips.head?) ∧
    (∃ ip, hostIP ips = some ip ∧ ip ∈ ips ∧
      ∀ a, (adjustHostIP ips a).Arg = Replace a.Arg UbaTemplateHostIP ip) := by
  cases ips with
  | nil => exact absurd rfl hne
  | cons ip0 rest =>
    refine ⟨?_, ?_, ?_, ?_⟩
    · intro ip
      unfold isIPValid
      cases HasPrefix ip "192." <;> cases HasPrefix ip "172." <;> cases HasPrefix ip "127." <;>
        simp
    · intro pre x post he hpre hx
      show some (hostIPLoop (ip0 :: rest) ip0) = some x
      rw [he, hostIPLoop_split pre x post ip0 hpre hx]
    · intro hall
      show some (hostIPLoop (ip0 :: rest) ip0) = some ip0
      rw [hostIPLoop_none _ _ hall]
    · refine ⟨hostIPLoop (ip0 :: rest) ip0, rfl, ?_, ?_⟩
      · rw [hostIPLoop_eq]
        cases hf : (ip0 :: rest).find? (fun x => isIPValid x) with
        | none => exact List.mem_cons_self _ _
        | some y => exact List.mem_of_find?_eq_some hf
      · intro a
        have hh : hostIP (ip0 :: rest) = some (hostIPLoop (ip0 :: rest) ip0) := rfl
        unfold adjustHostIP
        rw [hh]
        by_cases hc : ContainsAny a.Arg UbaTemplateHostIP = true
        · simp only [hc, if_true]
        · have hc' : ContainsAny a.Arg UbaTemplateHostIP = false := by simpa using hc
          simp only [hc', Bool.false_eq_true, if_false]
          exact (Replace_of_not_containsAny _ _ _ (by decide) hc').symm

/-- C15 at a list whose first address begins with `192.`: the second address,
`10.0.0.5`, is chosen. -/
theorem C15_host_ip_choice_witness :
    hostIP ["192.168.1.2", "10.0.0.5", "8.8.8.8"] = some "10.0.0.5" :=
  (C15_host_ip_choice ["192.168.1.2", "10.0.0.5", "8.8.8.8"] (by decide)).2.1
    ["192.168.1.2"] "10.0.0.5" ["8.8.8.8"] (by decide) (by decide) (by decide)

/-! ## C16, C17: the local slots after ServerConfig.Parse -/

/-- The three class settings are normalised one after the other against the
same `LocalSlots`. -/
theorem parse_eq (dsc : ServerConfig) (numCPU : Nat) :
    dsc.Parse numCPU
      = ServerConfig.mk
          (if dsc.LocalSlots = 0 then max ((numCPU : Int) - 2) 1
           else if dsc.LocalSlots ≤ 0 then 1 else dsc.LocalSlots)
          (if dsc.LocalPreSlots ≤ 0 ∨ dsc.LocalPreSlots >
              (if dsc.LocalSlots = 0 then max ((numCPU : Int) - 2) 1
               else if dsc.LocalSlots ≤ 0 then 1 else dsc.LocalSlots) then
            (if dsc.LocalSlots = 0 then max ((numCPU : Int) - 2) 1
             else if dsc.LocalSlots ≤ 0 then 1 else dsc.LocalSlots)
           else dsc.LocalPreSlots)
          (if dsc.LocalExeSlots ≤ 0 ∨ dsc.LocalExeSlots >
              (if dsc.LocalSlots = 0 then max ((numCPU : Int) - 2) 1
               else if dsc.LocalSlots ≤ 0 then 1 else dsc.LocalSlots) then
            (if dsc.LocalSlots = 0 then max ((numCPU : Int) - 2) 1
             else if dsc.LocalSlots ≤ 0 then 1 else dsc.LocalSlots)
           else dsc.LocalExeSlots)
          (if dsc.LocalPostSlots ≤ 0 ∨ dsc.LocalPostSlots >
              (if dsc.LocalSlots = 0 then max ((numCPU : Int) - 2) 1
               else if dsc.LocalSlots ≤ 0 then 1 else dsc.LocalSlots) then
            (if dsc.LocalSlots = 0 then max ((numCPU : Int) - 2) 1
             else if dsc.LocalSlots ≤ 0 then 1 else dsc.LocalSlots)
           else dsc.LocalPostSlots) := by
  obtain ⟨s, a, b, c⟩ := dsc
  have clamp : ∀ S : Int,
      (let dsc2 : ServerConfig := ServerConfig.mk S a b c
       let dsc3 :=
         if dsc2.LocalPreSlots ≤ 0 || dsc2.LocalPreSlots > dsc2.LocalSlots then
           { dsc2 with LocalPreSlots := dsc2.LocalSlots }
         else dsc2
       let dsc4 :=
         if dsc3.LocalExeSlots ≤ 0 || dsc3.LocalExeSlots > dsc3.LocalSlots then
           { dsc3 with LocalExeSlots := dsc3.LocalSlots }
         else dsc3
       if dsc4.LocalPostSlots ≤ 0 || dsc4.LocalPostSlots > dsc4.LocalSlots then
         { dsc4 with LocalPostSlots := dsc4.LocalSlots }
       else dsc4)
      = ServerConfig.mk S (if a ≤ 0 ∨ a > S then S else a) (if b ≤ 0 ∨ b > S then S else b)
          (if c ≤ 0 ∨ c > S then S else c) := by
    intro S
    by_cases ha : a ≤ 0 ∨ a > S <;> by_cases hb : b ≤ 0 ∨ b > S <;>
      by_cases hc : c ≤ 0 ∨ c > S <;> simp [ha, hb, hc]
  by_cases h0 : s = 0
  · by_cases h1 : (numCPU : Int) - 2 ≤ 0
    · have hm : max ((numCPU : Int) - 2) 1 = 1 := by omega
      simp only [h0, if_true, hm]
      rw [← clamp 1]
      simp [ServerConfig.Parse, h1]
    · have hm : max ((numCPU : Int) - 2) 1 = (numCPU : Int) - 2 := by omega
      simp only [h0, if_true, hm]
      rw [← clamp ((numCPU : Int) - 2)]
      simp [ServerConfig.Parse, h1]
  · by_cases h1 : s ≤ 0
    · simp only [h0, h1, if_true, if_false]
      rw [← clamp 1]
      simp [ServerConfig.Parse, h0, h1]
    · simp only [h0, h1, if_false]
      rw [← clamp s]
      simp [ServerConfig.Parse, h0, h1]

/-- The result of the slot normalisation, setting by setting. -/
theorem parse_fields (dsc : ServerConfig) (numCPU : Nat) :
    (dsc.Parse numCPU).LocalSlots
        = (if dsc.LocalSlots = 0 then max ((numCPU : Int) - 2) 1
           else if dsc.LocalSlots ≤ 0 then 1 else dsc.LocalSlots) ∧
    (dsc.Parse numCPU).LocalPreSlots
        = (if dsc.LocalPreSlots ≤ 0 ∨ dsc.LocalPreSlots > (dsc.Parse numCPU).LocalSlots then
            (dsc.Parse numCPU).LocalSlots else dsc.LocalPreSlots) ∧
    (dsc.Parse numCPU).LocalExeSlots
        = (if dsc.LocalExeSlots ≤ 0 ∨ dsc.LocalExeSlots > (dsc.Parse numCPU).LocalSlots then
            (dsc.Parse numCPU).LocalSlots else dsc.LocalExeSlots) ∧
    (dsc.Parse numCPU).LocalPostSlots
        = (if dsc.LocalPostSlots ≤ 0 ∨ dsc.LocalPostSlots > (dsc.Parse numCPU).LocalSlots then
            (dsc.Parse numCPU).LocalSlots else dsc.LocalPostSlots) := by
  rw [parse_eq]
  exact ⟨rfl, rfl, rfl, rfl⟩

/-- C16: after the slot normalisation of `ServerConfig.Parse`, whatever the
four settings and the number of processors, `LocalSlots >= 1` and each of
`LocalPreSlots`, `LocalExeSlots`, `LocalPostSlots` lies between 1 and
`LocalSlots`. -/
theorem C16_slots_in_range (dsc : ServerConfig) (numCPU : Nat) :
    1 ≤ (dsc.Parse numCPU).LocalSlots ∧
    (1 ≤ (dsc.Parse numCPU).LocalPreSlots ∧
      (dsc.Parse numCPU).LocalPreSlots ≤ (dsc.Parse numCPU).LocalSlots) ∧
    (1 ≤ (dsc.Parse numCPU).LocalExeSlots ∧
      (dsc.Parse numCPU).LocalExeSlots ≤ (dsc.Parse numCPU).LocalSlots) ∧
    (1 ≤ (dsc.Parse numCPU).LocalPostSlots ∧
      (dsc.Parse numCPU).LocalPostSlots ≤ (dsc.Parse numCPU).LocalSlots) := by
  obtain ⟨h1, h2, h3, h4⟩ := parse_fields dsc numCPU
  have hs : 1 ≤ (dsc.Parse numCPU).LocalSlots := by
    rw [h1]; split_ifs <;> omega
  refine ⟨hs, ?_, ?_, ?_⟩
  · rw [h2]; split_ifs with h <;> omega
  · rw [h3]; split_ifs with h <;> omega
  · rw [h4]; split_ifs with h <;> omega

/-- C17: with the four settings left at 0, `ServerConfig.Parse` sets
`LocalSlots = max(NumCPU - 2, 1)` and the three class settings to
`LocalSlots`; a positive `LocalSlots` is kept, and a class setting between 1
and the resulting `LocalSlots` is kept. -/
theorem C17_slot_defaults (dsc : ServerConfig) (numCPU : Nat) :
    (ServerConfig.Parse (ServerConfig.mk 0 0 0 0) numCPU
      = ServerConfig.mk (max ((numCPU : Int) - 2) 1) (max ((numCPU : Int) - 2) 1)
          (max ((numCPU : Int) - 2) 1) (max ((numCPU : Int) - 2) 1)) ∧
    (0 < dsc.LocalSlots → (dsc.Parse numCPU).LocalSlots = dsc.LocalSlots) ∧
    (1 ≤ dsc.LocalPreSlots → dsc.LocalPreSlots ≤ (dsc.Parse numCPU).LocalSlots →
      (dsc.Parse numCPU).LocalPreSlots = dsc.LocalPreSlots) ∧
    (1 ≤ dsc.LocalExeSlots → dsc.LocalExeSlots ≤ (dsc.Parse numCPU).LocalSlots →
      (dsc.Parse numCPU).LocalExeSlots = dsc.LocalExeSlots) ∧
    (1 ≤ dsc.LocalPostSlots → dsc.LocalPostSlots ≤ (dsc.Parse numCPU).LocalSlots →
      (dsc.Parse numCPU).LocalPostSlots = dsc.LocalPostSlots) := by
  obtain ⟨h1, h2, h3, h4⟩ := parse_fields dsc numCPU
  refine ⟨?_, ?_, ?_, ?_, ?_⟩
  · rw [parse_eq]
    simp only [if_true, le_refl, true_or]
  · intro h; rw [h1]; split_ifs <;> omega
  · intro ha hb; rw [h2, if_neg (by omega)]
  · intro ha hb; rw [h3, if_neg (by omega)]
  · intro ha hb; rw [h4, if_neg (by omega)]

/-- C17 at `LocalSlots = 8`, `LocalPreSlots = 4` on 16 processors: both are
kept. -/
theorem C17_slot_defaults_witness :
    (ServerConfig.Parse (ServerConfig.mk 8 4 0 9) 16).LocalSlots = 8 ∧
    (ServerConfig.Parse (ServerConfig.mk 8 4 0 9) 16).LocalPreSlots = 4 :=
  ⟨(C17_slot_defaults (ServerConfig.mk 8 4 0 9) 16).2.1 (by decide),
   (C17_slot_defaults (ServerConfig.mk 8 4 0 9) 16).2.2.1 (by decide) (by decide)⟩

/-! ## C18: the exit code of the booster -/

/-- C18: `Run` exits with code 3 when the error is `ErrCompile`, with code 4
when it is `ErrNoLocal`, with code 1 for every other non-nil error, and does
not call `os.Exit` when there is no error, so that the process ends with
code 0. -/
theorem C18_exit_codes :
    Booster.Run (some BoosterError.ErrCompile) = some 3 ∧
    Booster.Run (some BoosterError.ErrNoLocal) = some 4 ∧
    (∀ e, e ≠ BoosterError.ErrCompile → e ≠ BoosterError.ErrNoLocal →
      Booster.Run (some e) = some 1) ∧
    Booster.Run none = none ∧ Booster.exitCode none = 0 ∧
    (∀ err, Booster.exitCode err = 0 ↔ err = none) := by
  refine ⟨rfl, rfl, ?_, rfl, rfl, ?_⟩
  · intro e h1 h2
    cases e with
    | ErrCompile => exact absurd rfl h1
    | ErrNoLocal => exact absurd rfl h2
    | other msg => rfl
  · intro err
    cases err with
    | none => simp [Booster.exitCode, Booster.Run]
    | some e => cases e <;> simp [Booster.exitCode, Booster.Run]

/-- C18 at an error that is neither `ErrCompile` nor `ErrNoLocal`. -/
theorem C18_exit_codes_witness :
    Booster.Run (some (BoosterError.other "exit status 2")) = some 1 :=
  C18_exit_codes.2.2.1 (BoosterError.other "exit status 2") (by decide) (by decide)

/-! ## The ports of getYAMLFromTemplate -/

theorem mapSet_new {β : Type} (m : List (String × β)) (k : String) (v : β)
    (h : k ∉ m.map Prod.fst) : mapSet m k v = m ++ [(k, v)] := by
  induction m with
  | nil => rfl
  | cons e m ih =>
    obtain ⟨k1, v1⟩ := e
    have h1 : k1 ≠ k := fun he => h (by simp [he])
    have h2 : k ∉ m.map Prod.fst := fun hm => h (by simp [hm])
    simp only [mapSet, if_neg h1, ih h2, List.cons_append]

theorem mapGet_mapSet_self {β : Type} (m : List (String × β)) (k : String) (v : β) :
    mapGet (mapSet m k v) k = some v := by
  induction m with
  | nil => simp [mapSet, mapGet]
  | cons e m ih =>
    obtain ⟨k1, v1⟩ := e
    by_cases h1 : k1 = k
    · simp [mapSet, mapGet, h1]
    · simp [mapSet, mapGet, h1, ih]

theorem mapGet_mapSet_ne {β : Type} (m : List (String × β)) (k k2 : String) (v : β)
    (h : k2 ≠ k) : mapGet (mapSet m k v) k2 = mapGet m k2 := by
  induction m with
  | nil =>
    have h' : ¬ k = k2 := fun e => h e.symm
    simp only [mapSet, mapGet, if_neg h']
  | cons e m ih =>
    obtain ⟨k1, v1⟩ := e
    by_cases h1 : k1 = k
    · have h3 : ¬ k1 = k2 := fun he => h (by rw [← he, h1])
      have h4 : ¬ k = k2 := fun e => h e.symm
      simp only [mapSet, if_pos h1, mapGet, if_neg h3, if_neg h4]
    · by_cases h2 : k1 = k2
      · simp only [mapSet, if_neg h1, mapGet, if_pos h2]
      · simp only [mapSet, if_neg h1, mapGet, if_neg h2, ih]

theorem mapGet_append_new {β : Type} (m : List (String × β)) (k : String) (v : β)
    (h : k ∉ m.map Prod.fst) : mapGet (m ++ [(k, v)]) k = some v := by
  rw [← mapSet_new m k v h]
  exact mapGet_mapSet_self m k v

theorem append_left_cancel_string (s a b : String) (h : s ++ a = s ++ b) : a = b := by
  have h1 := congrArg String.data h
  simp only [String.data_append] at h1
  exact String.ext (List.append_cancel_left h1)

theorem host_ne_rand (a b : String) : envKeyHostPort ++ a ≠ envKeyRandPort ++ b := by
  intro h
  have h1 := congrArg (fun s => s.data.head?) h
  simp only [String.data_append] at h1
  have h2 : (envKeyHostPort.data ++ a.data).head? = some 'H' := rfl
  have h3 : (envKeyRandPort.data ++ b.data).head? = some 'R' := rfl
  rw [h2, h3] at h1
  exact absurd h1 (by decide)

/-- The loop over `param.Ports` changes no entry of the environment other
than the two of each port. -/
theorem portsLoop_other (k : String) (ports : List (String × String)) :
    ∀ (index : Nat) (env : List (String × String)) (pm : List (String × portsMap))
      (names : List String),
      (∀ p ∈ ports, k ≠ envKeyHostPort ++ p.1 ∧ k ≠ envKeyRandPort ++ p.1) →
      mapGet (portsLoop ports index env pm names).1 k = mapGet env k := by
  induction ports with
  | nil => intro index env pm names _; rfl
  | cons p rest ih =>
    intro index env pm names h
    obtain ⟨port, protocol⟩ := p
    obtain ⟨h1, h2⟩ := h (port, protocol) (List.mem_cons_self _ _)
    simp only [portsLoop]
    rw [ih _ _ _ _ (fun q hq => h q (List.mem_cons_of_mem _ hq)),
      mapGet_mapSet_ne _ _ _ _ h2, mapGet_mapSet_ne _ _ _ _ h1]

/-- The two environment entries of the port at position `j`. -/
theorem portsLoop_env (ports : List (String × String)) :
    ∀ (index : Nat) (env : List (String × String)) (pm : List (String × portsMap))
      (names : List String) (j : Nat) (name protocol : String),
      (ports.map Prod.fst).Nodup → ports.get? j = some (name, protocol) →
      mapGet (portsLoop ports index env pm names).1 (envKeyHostPort ++ name)
          = some (toString (specificPort + (index + j))) ∧
        mapGet (portsLoop ports index env pm names).1 (envKeyRandPort ++ name)
          = some (toString (specificPort + (index + j))) := by
  induction ports with
  | nil => intro index env pm names j name protocol _ hj; simp at hj
  | cons p rest ih =>
    intro index env pm names j name protocol hnd hj
    obtain ⟨port, proto⟩ := p
    simp only [List.map_cons, List.nodup_cons] at hnd
    cases j with
    | zero =>
      simp only [List.get?_cons_zero, Option.some.injEq, Prod.mk.injEq] at hj
      obtain ⟨hp, _⟩ := hj
      subst hp
      have hother : ∀ q ∈ rest, port ≠ q.1 := by
        intro q hq he
        exact hnd.1 (by rw [he]; exact List.mem_map_of_mem _ hq)
      simp only [portsLoop, Nat.add_zero]
      constructor
      · rw [portsLoop_other _ _ _ _ _ _ (fun q hq =>
          ⟨fun he => hother q hq (append_left_cancel_string _ _ _ he),
           host_ne_rand _ _⟩)]
        rw [mapGet_mapSet_ne _ _ _ _ (host_ne_rand _ _), mapGet_mapSet_self]
      · rw [portsLoop_other _ _ _ _ _ _ (fun q hq =>
          ⟨fun he => host_ne_rand _ _ he.symm,
           fun he => hother q hq (append_left_cancel_string _ _ _ he)⟩)]
        rw [mapGet_mapSet_self]
    | succ j =>
      simp only [List.get?_cons_succ] at hj
      simp only [portsLoop]
      have := ih (index + 1)
        (mapSet (mapSet env (envKeyHostPort ++ port) (toString (specificPort + index)))
          (envKeyRandPort ++ port) (toString (specificPort + index)))
        (mapSet pm port { protocol := proto, port := specificPort + index })
        (names ++ [enginePort2K8SPort port]) j name protocol hnd.2 hj
      have e : index + 1 + j = index + (j + 1) := by omega
      rw [e] at this
      exact this

/-- The map of ports after the loop over `param.Ports`: one new entry for each
port, in order, numbered from `specificPort + index` on. -/
theorem portsLoop_pm (ports : List (String × String)) :
    ∀ (index : Nat) (env : List (String × String)) (pm : List (String × portsMap))
      (names : List String),
      (ports.map Prod.fst).Nodup → (∀ p ∈ ports, p.1 ∉ pm.map Prod.fst) →
      (portsLoop ports index env pm names).2.1
        = pm ++ (ports.enumFrom index).map
            (fun e => (e.2.1, { protocol := e.2.2, port := specificPort + e.1 })) := by
  induction ports with
  | nil => intro index env pm names _ _; simp [portsLoop]
  | cons p rest ih =>
    intro index env pm names hnd hnew
    obtain ⟨port, proto⟩ := p
    simp only [List.map_cons, List.nodup_cons] at hnd
    have h0 : port ∉ pm.map Prod.fst := hnew (port, proto) (List.mem_cons_self _ _)
    simp only [portsLoop, List.enumFrom_cons, List.map_cons]
    rw [mapSet_new _ _ _ h0, ih _ _ _ _ hnd.2]
    · simp
    · intro q hq hm
      simp only [List.map_append, List.map_cons, List.map_nil, List.mem_append,
        List.mem_singleton] at hm
      rcases hm with hm | hm
      · exact hnew q (List.mem_cons_of_mem _ hq) hm
      · exact hnd.1 (by rw [← hm]; exact List.mem_map_of_mem _ hq)

theorem enumFrom_map_fst (ports : List (String × String)) (index : Nat) :
    ((ports.enumFrom index).map
      (fun e => ((e.2.1, { protocol := e.2.2, port := specificPort + e.1 }) :
        String × portsMap))).map Prod.fst = ports.map Prod.fst := by
  induction ports generalizing index with
  | nil => rfl
  | cons p rest ih => simp only [List.enumFrom_cons, List.map_cons, ih]

theorem enumFrom_map_port (ports : List (String × String)) (index : Nat) :
    ((ports.enumFrom index).map
      (fun e => ((e.2.1, { protocol := e.2.2, port := specificPort + e.1 }) :
        String × portsMap))).map (fun e => e.2.port)
      = List.range' (specificPort + index) ports.length := by
  induction ports generalizing index with
  | nil => rfl
  | cons p rest ih =>
    simp only [List.enumFrom_cons, List.map_cons, ih, List.length_cons, List.range'_succ]
    rfl

theorem enumFrom_filter (ports : List (String × String)) :
    ∀ (index j : Nat) (name protocol : String), (ports.map Prod.fst).Nodup →
      ports.get? j = some (name, protocol) →
      ((ports.enumFrom index).map
        (fun e => ((e.2.1, { protocol := e.2.2, port := specificPort + e.1 }) :
          String × portsMap))).filter (fun e => e.1 = name)
        = [(name, { protocol := protocol, port := specificPort + (index + j) })] := by
  induction ports with
  | nil => intro index j name protocol _ hj; simp at hj
  | cons p rest ih =>
    intro index j name protocol hnd hj
    obtain ⟨port, proto⟩ := p
    simp only [List.map_cons, List.nodup_cons] at hnd
    cases j with
    | zero =>
      simp only [List.get?_cons_zero, Option.some.injEq, Prod.mk.injEq] at hj
      obtain ⟨hp, hq⟩ := hj
      subst hp hq
      simp only [List.enumFrom_cons, List.map_cons, List.filter_cons, decide_True, if_true,
        Nat.add_zero, List.cons.injEq, true_and]
      rw [List.filter_eq_nil_iff]
      intro e he
      have : e.1 ∈ rest.map Prod.fst := by
        rw [← enumFrom_map_fst rest (index + 1)]
        exact List.mem_map_of_mem Prod.fst he
      intro hc
      simp only [decide_eq_true_eq] at hc
      rw [hc] at this
      exact hnd.1 this
    | succ j =>
      simp only [List.get?_cons_succ] at hj
      have hne : ¬ port = name := by
        intro he
        exact hnd.1 (by rw [he]; exact List.mem_map_of_mem Prod.fst (List.get?_mem hj))
      simp only [List.enumFrom_cons, List.map_cons, List.filter_cons, hne, decide_False,
        Bool.false_eq_true, if_false]
      rw [ih (index + 1) j name protocol hnd.2 hj]
      have e : index + 1 + j = index + (j + 1) := by omega
      rw [e]

/-- The ports of a launch whose logical ports have distinct names, none of
them the name of the auxiliary port when the platform is Windows: the map of
ports holds one entry for each logical port, in order, with the numbers
31000, 31001, ..., followed on Windows by the entry of the auxiliary port;
the environment holds the number of each logical port under
`HOST_PORT_<name>` and `RAND_PORT_<name>`. -/
theorem launchPorts_logical_ports (platform : String) (ports env : List (String × String))
    (hnd : (ports.map Prod.fst).Nodup)
    (hu : platform = "windows" → UbaPortName ∉ ports.map Prod.fst) :
    (launchPorts platform ports env).2.1
      = (ports.enumFrom 0).map
          (fun e => (e.2.1, { protocol := e.2.2, port := specificPort + e.1 }))
        ++ (if platform = "windows" then
              [(UbaPortName, { protocol := UbaProtocol, port := UbaPortNumber })]
            else []) ∧
    (((ports.enumFrom 0).map
        (fun e => ((e.2.1, { protocol := e.2.2, port := specificPort + e.1 }) :
          String × portsMap))).map (fun e => e.2.port)
      = List.range' specificPort ports.length) ∧
    (∀ j name protocol, ports.get? j = some (name, protocol) →
      mapGet (launchPorts platform ports env).1 (envKeyHostPort ++ name)
          = some (toString (specificPort + j)) ∧
        mapGet (launchPorts platform ports env).1 (envKeyRandPort ++ name)
          = some (toString (specificPort + j)) ∧
        ((launchPorts platform ports env).2.1.filter (fun e => e.1 = name))
          = [(name, { protocol := protocol, port := specificPort + j })]) := by
  have hpm := portsLoop_pm ports 0 env [] [] hnd (fun _ _ h => by simp at h)
  rw [List.nil_append] at hpm
  have hpm2 : (launchPorts platform ports env).2.1
      = (ports.enumFrom 0).map
          (fun e => (e.2.1, { protocol := e.2.2, port := specificPort + e.1 }))
        ++ (if platform = "windows" then
              [(UbaPortName, { protocol := UbaProtocol, port := UbaPortNumber })]
            else []) := by
    unfold launchPorts
    by_cases hw : platform = "windows"
    · simp only [hw, if_true]
      rw [hpm, mapSet_new]
      rw [enumFrom_map_fst]
      exact hu hw
    · simp only [hw, if_false, List.append_nil]
      exact hpm
  have henv : (launchPorts platform ports env).1 = (portsLoop ports 0 env [] []).1 := by
    unfold launchPorts
    by_cases hw : platform = "windows"
    · simp only [hw, if_true]
    · simp only [hw, if_false]
  refine ⟨hpm2, ?_, ?_⟩
  · have := enumFrom_map_port ports 0
    rw [Nat.add_zero] at this
    exact this
  · intro j name protocol hj
    obtain ⟨e1, e2⟩ := portsLoop_env ports 0 env [] [] j name protocol hnd hj
    rw [Nat.zero_add] at e1 e2
    refine ⟨by rw [henv]; exact e1, by rw [henv]; exact e2, ?_⟩
    rw [hpm2, List.filter_append]
    have hname : name ∈ ports.map Prod.fst :=
      List.mem_map_of_mem Prod.fst (List.get?_mem hj)
    have haux : (if platform = "windows" then
          [(UbaPortName, ({ protocol := UbaProtocol, port := UbaPortNumber } : portsMap))]
        else []).filter (fun e => e.1 = name) = [] := by
      by_cases hw : platform = "windows"
      · simp only [hw, if_true, List.filter_cons, List.filter_nil]
        have hne : ¬ UbaPortName = name := fun he => hu hw (by rw [he]; exact hname)
        simp [hne]
      · simp [hw]
    rw [haux, List.append_nil]
    have := enumFrom_filter ports 0 j name protocol hnd hj
    rw [Nat.zero_add] at this
    exact this

/-! ## C20: the request rendered by getYAMLFromTemplate -/

set_option maxRecDepth 100000 in
/-- C20, as stated, fails: with `BcsCPUPerInstance = 8`, `BcsMemPerInstance =
16` and the offsets 1 and 2 (and no `InstanceType`), the request that
`getYAMLFromTemplate` renders is `7000.00` milli-CPU and `14.00` of memory,
the values reduced by the offsets; the unshrunk values 8 and 16 are rendered
as the limits. -/
theorem C20_counterexample :
    (instanceSizes sampleOperator.conf sampleParam.CheckQueueKey).varCPU = 7 ∧
    (instanceSizes sampleOperator.conf sampleParam.CheckQueueKey).varMem = 14 ∧
    sampleOperator.conf.BcsCPUPerInstance = 8 ∧ sampleOperator.conf.BcsMemPerInstance = 16 ∧
    (getYAMLFromTemplate fmt2Int 1000 sampleOperator sampleParam).2
      = Except.ok ("ports:\n        - name: service-port\n          containerPort: 31000\n" ++
          "          hostPort: 31000\n        - name: stats-port\n" ++
          "          containerPort: 31001\n          hostPort: 31001\n" ++
          "env:\n        - name: HOST_PORT_SERVICE_PORT\n          value: 31000\n" ++
          "        - name: RAND_PORT_SERVICE_PORT\n          value: 31000\n" ++
          "        - name: HOST_PORT_STATS_PORT\n          value: 31001\n" ++
          "        - name: RAND_PORT_STATS_PORT\n          value: 31001\n" ++
          "requests: 7000.00m 14.00\nlimits: 8000.00m 16.00") := by
  decide

/-- The loop over `o.conf.InstanceType` sets the request from the first item
that passes the check and leaves it as it was when there is none. -/
theorem instanceLoop_request {α : Type} [Zero α] [LT α] [DecidableRel (fun a b : α => a < b)]
    [Sub α] (check : InstanceType α → Bool) (l : List (InstanceType α)) (r : Sizes α) :
    (instanceLoop check l r).varCPU
        = (match l.find? check with
           | some ist => (getCPUAndMemIst ist).1
           | none => r.varCPU) ∧
    (instanceLoop check l r).varMem
        = (match l.find? check with
           | some ist => (getCPUAndMemIst ist).2
           | none => r.varMem) := by
  induction l with
  | nil => exact ⟨rfl, rfl⟩
  | cons ist rest ih =>
    by_cases hc : check ist = true
    · rw [List.find?_cons_of_pos _ hc]
      simp only [instanceLoop, hc, Bool.not_true, Bool.false_eq_true, if_false]
      constructor <;> split_ifs <;> rfl
    · have hc' : check ist = false := by simpa using hc
      rw [List.find?_cons_of_neg _ hc]
      simp only [instanceLoop, hc', Bool.not_false, if_true]
      exact ih

/-- The request of `getYAMLFromTemplate` is what `getCPUAndMemIst` returns for
the chosen instance. -/
theorem instanceSizes_request {α : Type} [Zero α] [LT α] [DecidableRel (fun a b : α => a < b)]
    [Sub α] (conf : ContainerResourceConfig α) (check : InstanceType α → Bool) :
    (instanceSizes conf check).varCPU = (getCPUAndMemIst (chosenInstance conf check)).1 ∧
    (instanceSizes conf check).varMem = (getCPUAndMemIst (chosenInstance conf check)).2 := by
  unfold instanceSizes chosenInstance
  simp only []
  constructor
  · rw [(instanceLoop_request _ _ _).1]
    cases conf.InstanceType.find? check with
    | some ist => rfl
    | none => simp only []; split_ifs <;> rfl
  · rw [(instanceLoop_request _ _ _).2]
    cases conf.InstanceType.find? check with
    | some ist => rfl
    | none => simp only []; split_ifs <;> rfl

/-- C20, amended: the CPU and memory request that `getYAMLFromTemplate`
renders is the per-instance value of the chosen instance (the first
`InstanceType` that passes `CheckQueueKey`, else the defaults) reduced by its
offset whenever the offset is positive and smaller than the value, and the
per-instance value itself otherwise; the manifest holds
`fmt2 (varCPU * 1000)` and `fmt2 varMem` of these values. -/
theorem C20_request_is_shrunk {α : Type} [Zero α] [LT α] [DecidableRel (fun a b : α => a < b)]
    [Sub α] [Mul α] (fmt2 : α → String) (thousand : α) (o : operator α)
    (param : BcsLaunchParam α) :
    (instanceSizes o.conf param.CheckQueueKey).varCPU
      = (if 0 < (chosenInstance o.conf param.CheckQueueKey).CPUPerInstanceOffset ∧
            (chosenInstance o.conf param.CheckQueueKey).CPUPerInstanceOffset
              < (chosenInstance o.conf param.CheckQueueKey).CPUPerInstance then
          (chosenInstance o.conf param.CheckQueueKey).CPUPerInstance
            - (chosenInstance o.conf param.CheckQueueKey).CPUPerInstanceOffset
        else (chosenInstance o.conf param.CheckQueueKey).CPUPerInstance) ∧
    (instanceSizes o.conf param.CheckQueueKey).varMem
      = (if 0 < (chosenInstance o.conf param.CheckQueueKey).MemPerInstanceOffset ∧
            (chosenInstance o.conf param.CheckQueueKey).MemPerInstanceOffset
              < (chosenInstance o.conf param.CheckQueueKey).MemPerInstance then
          (chosenInstance o.conf param.CheckQueueKey).MemPerInstance
            - (chosenInstance o.conf param.CheckQueueKey).MemPerInstanceOffset
        else (chosenInstance o.conf param.CheckQueueKey).MemPerInstance) ∧
    (∀ city, mapGet param.AttributeCondition o.AttributeKeyCity = some city →
      (getYAMLFromTemplate fmt2 thousand o param).2
        = Except.ok (renderSizes fmt2 thousand o.conf
            (instanceSizes o.conf param.CheckQueueKey)
            (ReplaceAll (ReplaceAll
              (renderHead o param (launchPlatform o param).1 (launchPlatform o param).2
                (launchPorts (launchPlatform o param).1 param.Ports param.Env).1
                (launchPorts (launchPlatform o param).1 param.Ports param.Env).2.1
                (launchPorts (launchPlatform o param).1 param.Ports param.Env).2.2)
              templateVarCity city) templateVarCityKey o.cityLabelKey))) := by
  obtain ⟨h1, h2⟩ := instanceSizes_request o.conf param.CheckQueueKey
  refine ⟨by rw [h1]; rfl, by rw [h2]; rfl, ?_⟩
  intro city hcity
  unfold getYAMLFromTemplate
  simp only [hcity]

/-- C20 at the sample operator and launch: the rendered manifest is built
from the reduced request. -/
theorem C20_request_is_shrunk_witness :
    (getYAMLFromTemplate fmt2Int 1000 sampleOperator sampleParam).2
      = Except.ok (renderSizes fmt2Int 1000 sampleOperator.conf
          (instanceSizes sampleOperator.conf sampleParam.CheckQueueKey)
          (ReplaceAll (ReplaceAll
            (renderHead sampleOperator sampleParam (launchPlatform sampleOperator sampleParam).1
              (launchPlatform sampleOperator sampleParam).2
              (launchPorts (launchPlatform sampleOperator sampleParam).1 sampleParam.Ports
                sampleParam.Env).1
              (launchPorts (launchPlatform sampleOperator sampleParam).1 sampleParam.Ports
                sampleParam.Env).2.1
              (launchPorts (launchPlatform sampleOperator sampleParam).1 sampleParam.Ports
                sampleParam.Env).2.2)
            templateVarCity "sz") templateVarCityKey sampleOperator.cityLabelKey)) :=
  (C20_request_is_shrunk fmt2Int 1000 sampleOperator sampleParam).2.2 "sz" (by decide)

/-! ## C21: the limit rendered by getYAMLFromTemplate -/

/-- C21, as stated, fails: the sample configuration sets no limit, and the
manifest holds the limits `8000.00` milli-CPU and `16.00` of memory, the
per-instance values, while the requests are `7000.00` and `14.00`, the values
reduced by the offsets. -/
theorem C21_counterexample :
    ¬ 0 < sampleOperator.conf.BcsCPULimitPerInstance ∧
    ¬ 0 < sampleOperator.conf.BcsMemLimitPerInstance ∧
    sampleOperator.conf.InstanceType.length = 0 ∧
    (instanceSizes sampleOperator.conf sampleParam.CheckQueueKey).varLimitCPU = 8 ∧
    (instanceSizes sampleOperator.conf sampleParam.CheckQueueKey).varCPU = 7 ∧
    (instanceSizes sampleOperator.conf sampleParam.CheckQueueKey).varLimitMem = 16 ∧
    (instanceSizes sampleOperator.conf sampleParam.CheckQueueKey).varMem = 14 ∧
    renderSizes fmt2Int 1000 sampleOperator.conf
        (instanceSizes sampleOperator.conf sampleParam.CheckQueueKey)
        "requests: __crm_cpu__m __crm_mem__\nlimits: __crm_limit_cpu__m __crm_limit_mem__"
      = "requests: 7000.00m 14.00\nlimits: 8000.00m 16.00" := by
  decide

/-- The limits after the loop over `o.conf.InstanceType`, when the first item
that passes the check sets no limit of its own. -/
theorem instanceLoop_limit {α : Type} [Zero α] [LT α] [DecidableRel (fun a b : α => a < b)]
    [Sub α] (check : InstanceType α → Bool) (l : List (InstanceType α)) (r : Sizes α)
    (hno : ∀ ist, l.find? check = some ist →
      ¬ 0 < ist.CPULimitPerInstance ∧ ¬ 0 < ist.MemLimitPerInstance) :
    (instanceLoop check l r).varLimitCPU
        = (match l.find? check with
           | some ist => if 0 < ist.CPUPerInstance then ist.CPUPerInstance else r.varLimitCPU
           | none => r.varLimitCPU) ∧
    (instanceLoop check l r).varLimitMem
        = (match l.find? check with
           | some ist => if 0 < ist.MemPerInstance then ist.MemPerInstance else r.varLimitMem
           | none => r.varLimitMem) := by
  induction l with
  | nil => exact ⟨rfl, rfl⟩
  | cons ist rest ih =>
    by_cases hc : check ist = true
    · rw [List.find?_cons_of_pos _ hc] at hno ⊢
      obtain ⟨h1, h2⟩ := hno ist rfl
      simp only [instanceLoop, hc, Bool.not_true, Bool.false_eq_true, if_false, h1, h2]
      constructor <;> split_ifs <;> rfl
    · have hc' : check ist = false := by simpa using hc
      rw [List.find?_cons_of_neg _ hc] at hno ⊢
      simp only [instanceLoop, hc', Bool.not_false, if_true]
      exact ih hno

/-! ## C22: the status reported by getServerStatus -/

/-- C22, as stated, fails: a deployment with `Replicas = 0` and no
unavailable replica, with no pod at all, has no unavailable replica, no
pending pod and not fewer pods than requested, and `getServerStatus` reports
Staging. -/
theorem C22_counterexample :
    getServerStatus none none (Except.ok { Replicas := 0, UnavailableReplicas := 0 }) []
      = Except.ok { Status := ServiceStatus.ServiceStatusStaging, RequestInstances := 0,
                    CurrentInstances := 0, AvailableEndpoints := [] } := by
  decide

/-- The status after the loop over the pods. -/
theorem podsLoop_status (items : List Pod) :
    ∀ (status : ServiceStatus) (eps : List Endpoint),
      (podsLoop items status eps).1
        = if status = ServiceStatus.ServiceStatusStaging ∨ ∃ pod ∈ items, pod.Phase = PodPending
          then ServiceStatus.ServiceStatusStaging else status := by
  induction items with
  | nil =>
    intro status eps
    by_cases hs : status = ServiceStatus.ServiceStatusStaging <;> simp [podsLoop, hs]
  | cons pod rest ih =>
    intro status eps
    have hne : PodPending ≠ PodRunning := by decide
    by_cases hr : pod.Phase = PodRunning
    · have hp : pod.Phase ≠ PodPending := by rw [hr]; exact fun h => hne h.symm
      have hstep : (podsLoop (pod :: rest) status eps).1 = (podsLoop rest status eps).1 ∨
          ∃ eps2, (podsLoop (pod :: rest) status eps).1 = (podsLoop rest status eps2).1 := by
        simp only [podsLoop, hr, bne_self_eq_false, Bool.false_eq_true, if_false]
        split_ifs
        · exact Or.inl rfl
        · cases hcs : pod.Containers with
          | nil => exact Or.inl rfl
          | cons c cs => exact Or.inr ⟨_, rfl⟩
      have hex : (∃ p ∈ pod :: rest, p.Phase = PodPending) ↔ ∃ p ∈ rest, p.Phase = PodPending := by
        simp [hp]
      rcases hstep with h | ⟨eps2, h⟩ <;> rw [h, ih] <;> simp only [hex]
    · by_cases hp : pod.Phase = PodPending
      · by_cases hs : status = ServiceStatus.ServiceStatusStaging
        · have : (podsLoop (pod :: rest) status eps).1 = (podsLoop rest status eps).1 := by
            simp [podsLoop, hr, hs]
          rw [this, ih]
          simp [hs]
        · have : (podsLoop (pod :: rest) status eps).1
              = (podsLoop rest ServiceStatus.ServiceStatusStaging eps).1 := by
            have hr2 : ¬ PodPending = PodRunning := hne
            rw [hp] at hr
            simp [podsLoop, hs, hp, hr2]
          rw [this, ih]
          simp [hp]
      · have : (podsLoop (pod :: rest) status eps).1 = (podsLoop rest status eps).1 := by
          simp [podsLoop, hr, hp]
        rw [this, ih]
        simp [hp]

/-- C22, amended: for every deployment status and pod list, `getServerStatus`
reports Staging exactly when the deployment has an unavailable replica or has
no replica at all (`Replicas == 0`), or some pod of the service is Pending,
or there are fewer pods than `RequestInstances`; in every other case it
reports Running. `RequestInstances` is the number of replicas. -/
theorem C22_staging_or_running (d : DeploymentStatus) (items : List Pod) :
    ∃ info, getServerStatus none none (Except.ok d) items = Except.ok info ∧
      info.RequestInstances = d.Replicas ∧
      info.Status
        = (if d.UnavailableReplicas > 0 ∨ d.Replicas = 0 ∨
              (∃ pod ∈ items, pod.Phase = PodPending) ∨ (items.length : Int) < d.Replicas
           then ServiceStatus.ServiceStatusStaging else ServiceStatus.ServiceStatusRunning) := by
  by_cases h1 : d.UnavailableReplicas > 0 ∨ d.Replicas = 0
  · refine ⟨_, by simp [getServerStatus, getDeployments, h1]; rfl, rfl, ?_⟩
    have hc : (d.UnavailableReplicas > 0 ∨ d.Replicas = 0 ∨
        (∃ pod ∈ items, pod.Phase = PodPending) ∨ (items.length : Int) < d.Replicas) := by
      rcases h1 with h | h
      · exact Or.inl h
      · exact Or.inr (Or.inl h)
    simp only [hc, if_true, podsLoop_status]
    simp
  · refine ⟨_, by simp [getServerStatus, getDeployments, h1]; rfl, rfl, ?_⟩
    simp only [podsLoop_status]
    have h1a : ¬ d.UnavailableReplicas > 0 := fun h => h1 (Or.inl h)
    have h1b : ¬ d.Replicas = 0 := fun h => h1 (Or.inr h)
    by_cases hp : ∃ pod ∈ items, pod.Phase = PodPending
    · simp [hp]
    · by_cases hl : (items.length : Int) < d.Replicas
      · simp [hp, hl, h1a, h1b]
      · simp [hp, hl, h1a, h1b]

/-! ## C23: releaseServer and its repetition -/

theorem containsChars_start (sub rest : List Char) : containsChars sub (sub ++ rest) = true := by
  cases h : sub ++ rest with
  | nil =>
    have : sub = [] := (List.append_eq_nil.mp h).1
    rw [this]
    rfl
  | cons c cs =>
    simp only [containsChars, Bool.or_eq_true]
    left
    rw [← h]
    exact List.isPrefixOf_iff_prefix.mpr (List.prefix_append sub rest)

theorem containsChars_append (sub pre rest : List Char) (h : containsChars sub rest = true) :
    containsChars sub (pre ++ rest) = true := by
  induction pre with
  | nil => exact h
  | cons c pre ih =>
    simp only [List.cons_append, containsChars, Bool.or_eq_true]
    exact Or.inr ih

/-- The text of the not-found answer of the API server contains
`not found`. -/
theorem notFound_contains (name : String) :
    Contains ("deployments.apps \"" ++ name ++ "\" not found") "not found" = true := by
  unfold Contains
  have h : ("deployments.apps \"" ++ name ++ "\" not found").data
      = ("deployments.apps \"".data ++ name.data ++ "\" ".data) ++ ("not found".data ++ []) := by
    simp only [String.data_append, List.append_nil, List.append_assoc]
    rfl
  rw [h]
  exact containsChars_append _ _ _ (containsChars_start _ _)

/-- C23: when the client set is obtained, `releaseServer` returns nil when the
delete succeeds and when it fails with an error whose text contains
`not found`, and returns the error of the delete otherwise. Hence, against
a cluster that removes a deployment that exists and answers not-found for one
that does not, two consecutive `ReleaseServer` calls for the same namespace
and name both return nil, and so do two calls whose deletes each succeed or
fail with not-found. -/
theorem C23_release_idempotent (c : Cluster) (ns name : String) (d1 d2 : Option String) :
    releaseServer none none = none ∧
    (∀ err, Contains err "not found" = true → releaseServer none (some err) = none) ∧
    (∀ err, Contains err "not found" = false → releaseServer none (some err) = some err) ∧
    ((d1 = none ∨ ∃ err, d1 = some err ∧ Contains err "not found" = true) →
      (d2 = none ∨ ∃ err, d2 = some err ∧ Contains err "not found" = true) →
      releaseServer none d1 = none ∧ releaseServer none d2 = none) ∧
    ((ReleaseServer c ns name).1 = none ∧
      (ReleaseServer (ReleaseServer c ns name).2 ns name).1 = none ∧
      (ns, name) ∉ (ReleaseServer c ns name).2.deployments) := by
  have hnf : ∀ err, Contains err "not found" = true → releaseServer none (some err) = none := by
    intro err h
    simp only [releaseServer, h, if_true]
  have hrel : ∀ c : Cluster, (ReleaseServer c ns name).1 = none := by
    intro c
    unfold ReleaseServer Cluster.Delete
    by_cases hm : (ns, name) ∈ c.deployments
    · simp only [hm, if_true]
      rfl
    · simp only [hm, if_false]
      exact hnf _ (notFound_contains name)
  refine ⟨rfl, hnf, ?_, ?_, hrel c, hrel _, ?_⟩
  · intro err h
    simp only [releaseServer, h, Bool.false_eq_true, if_false]
  · intro h1 h2
    constructor
    · rcases h1 with h | ⟨err, h, hc⟩
      · rw [h]; rfl
      · rw [h]; exact hnf err hc
    · rcases h2 with h | ⟨err, h, hc⟩
      · rw [h]; rfl
      · rw [h]; exact hnf err hc
  · unfold ReleaseServer Cluster.Delete
    by_cases hm : (ns, name) ∈ c.deployments
    · simp only [hm, if_true]
      intro h
      have := (List.mem_filter.mp h).2
      simp at this
    · simp only [hm, if_false]
      exact fun h => h

/-- C23 at a cluster with the deployment `ns/svc`: the first release deletes
it, the second meets the not-found answer, and both return nil. -/
theorem C23_release_idempotent_witness :
    releaseServer none none = none ∧
      releaseServer none (some "deployments.apps \"svc\" not found") = none :=
  (C23_release_idempotent { deployments := [("ns", "svc")] } "ns" "svc" none
    (some "deployments.apps \"svc\" not found")).2.2.2.1 (Or.inl rfl)
    (Or.inr ⟨_, rfl, by decide⟩)

/-! ## C24: the client sets that getClientSet returns -/

theorem getClientSetFromCache_some (cache : List (String × clusterClientSet))
    (clusterID : String) (now : Int) (cs : clusterClientSet) :
    getClientSetFromCache cache clusterID now = some cs ↔
      (mapGet cache clusterID = some cs ∧ ¬ cs.timeoutTime < now) := by
  unfold getClientSetFromCache
  cases hg : mapGet cache clusterID with
  | none => simp
  | some c =>
    by_cases hlt : c.timeoutTime < now
    · simp only [hlt, if_true, Option.some.injEq]
      constructor
      · intro h; exact absurd h (by simp)
      · intro h
        have := h.2
        rw [← h.1] at this
        exact absurd hlt this
    · simp only [hlt, if_false, Option.some.injEq]
      constructor
      · intro h; rw [← h]; exact ⟨rfl, hlt⟩
      · intro h; exact h.1

theorem getClientSet_cases (cache1 cache2 : List (String × clusterClientSet))
    (clusterID : String) (now1 now2 now3 : Int) (build : Except String Nat) :
    (∃ cs, getClientSetFromCache cache1 clusterID now1 = some cs ∧
      getClientSet cache1 cache2 clusterID now1 now2 now3 build
        = { result := Except.ok cs, cache := cache1, built := false }) ∨
    (∃ cs, getClientSetFromCache cache2 clusterID now2 = some cs ∧
      getClientSet cache1 cache2 clusterID now1 now2 now3 build
        = { result := Except.ok cs, cache := cache2, built := false }) ∨
    (getClientSetFromCache cache1 clusterID now1 = none ∧
      getClientSetFromCache cache2 clusterID now2 = none ∧
      getClientSet cache1 cache2 clusterID now1 now2 now3 build
        = generateClient cache2 clusterID build now3) := by
  unfold getClientSet
  cases h1 : getClientSetFromCache cache1 clusterID now1 with
  | some c1 => exact Or.inl ⟨c1, rfl, rfl⟩
  | none =>
    cases h2 : getClientSetFromCache cache2 clusterID now2 with
    | some c2 => exact Or.inr (Or.inl ⟨c2, rfl, rfl⟩)
    | none => exact Or.inr (Or.inr ⟨rfl, rfl, rfl⟩)

/-- C24: a client set that `getClientSet` returns without building one is the
entry of the cluster in the cache and its `timeoutTime` is not before the
clock of the check; an entry that has expired is passed over: a new client
set with `timeoutTime = now + 1 minute` is built, stored for the cluster and
returned (or the error of building it is returned and the cache is left as
it is); an entry that has not expired is returned and nothing is built. -/
theorem C24_cache_freshness (cache1 cache2 : List (String × clusterClientSet))
    (clusterID : String) (now1 now2 now3 : Int) (build : Except String Nat) :
    (∀ cs, (getClientSet cache1 cache2 clusterID now1 now2 now3 build).result = Except.ok cs →
      (getClientSet cache1 cache2 clusterID now1 now2 now3 build).built = false →
      (mapGet cache1 clusterID = some cs ∧ ¬ cs.timeoutTime < now1) ∨
      (mapGet cache2 clusterID = some cs ∧ ¬ cs.timeoutTime < now2)) ∧
    (∀ cs, (getClientSet cache1 cache2 clusterID now1 now2 now3 build).result = Except.ok cs →
      (getClientSet cache1 cache2 clusterID now1 now2 now3 build).built = true →
      cs.timeoutTime = now3 + Minute ∧ build = Except.ok cs.clientSet ∧
      mapGet (getClientSet cache1 cache2 clusterID now1 now2 now3 build).cache clusterID
        = some cs) ∧
    (∀ old, mapGet cache1 clusterID = some old → old.timeoutTime < now1 →
      cache2 = cache1 → now1 ≤ now2 →
      (∀ clientSet, build = Except.ok clientSet →
        getClientSet cache1 cache2 clusterID now1 now2 now3 build
          = { result := Except.ok { clientSet := clientSet, timeoutTime := now3 + Minute },
              cache := mapSet cache1 clusterID
                { clientSet := clientSet, timeoutTime := now3 + Minute },
              built := true }) ∧
      (∀ err, build = Except.error err →
        getClientSet cache1 cache2 clusterID now1 now2 now3 build
          = { result := Except.error err, cache := cache1, built := false })) ∧
    (∀ cs, mapGet cache1 clusterID = some cs → ¬ cs.timeoutTime < now1 →
      getClientSet cache1 cache2 clusterID now1 now2 now3 build
        = { result := Except.ok cs, cache := cache1, built := false }) := by
  refine ⟨?_, ?_, ?_, ?_⟩
  · intro cs hres hb
    rcases getClientSet_cases cache1 cache2 clusterID now1 now2 now3 build with
      ⟨c, hc, he⟩ | ⟨c, hc, he⟩ | ⟨_, _, he⟩
    · rw [he] at hres
      simp only [Except.ok.injEq] at hres
      subst hres
      exact Or.inl ((getClientSetFromCache_some _ _ _ _).mp hc)
    · rw [he] at hres
      simp only [Except.ok.injEq] at hres
      subst hres
      exact Or.inr ((getClientSetFromCache_some _ _ _ _).mp hc)
    · rw [he] at hres hb
      cases build with
      | error e => simp [generateClient] at hres
      | ok c => simp [generateClient] at hb
  · intro cs hres hb
    rcases getClientSet_cases cache1 cache2 clusterID now1 now2 now3 build with
      ⟨c, hc, he⟩ | ⟨c, hc, he⟩ | ⟨_, _, he⟩
    · rw [he] at hb; simp at hb
    · rw [he] at hb; simp at hb
    · rw [he] at hres ⊢
      cases build with
      | error e => simp [generateClient] at hres
      | ok c =>
        simp only [generateClient, Except.ok.injEq] at hres ⊢
        subst hres
        exact ⟨rfl, rfl, mapGet_mapSet_self _ _ _⟩
  · intro old hget hexp h21 hle
    subst h21
    have h1 : getClientSetFromCache cache2 clusterID now1 = none := by
      simp [getClientSetFromCache, hget, hexp]
    have h2 : getClientSetFromCache cache2 clusterID now2 = none := by
      have : old.timeoutTime < now2 := lt_of_lt_of_le hexp hle
      simp [getClientSetFromCache, hget, this]
    constructor
    · intro clientSet hb
      simp only [getClientSet, h1, h2, hb, generateClient]
    · intro err hb
      simp only [getClientSet, h1, h2, hb, generateClient]
  · intro cs hget hfresh
    have h1 : getClientSetFromCache cache1 clusterID now1 = some cs := by
      simp [getClientSetFromCache, hget, hfresh]
    simp only [getClientSet, h1]

/-- C24 at a cache whose entry for `c1` expired at time 100, asked at time
200: a new client set is built with `timeoutTime = 200 + 1 minute`. -/
theorem C24_cache_freshness_witness :
    getClientSet [("c1", { clientSet := 1, timeoutTime := 100 })]
        [("c1", { clientSet := 1, timeoutTime := 100 })] "c1" 200 200 200 (Except.ok 2)
      = { result := Except.ok { clientSet := 2, timeoutTime := 200 + Minute },
          cache := mapSet [("c1", { clientSet := 1, timeoutTime := 100 })] "c1"
            { clientSet := 2, timeoutTime := 200 + Minute },
          built := true } :=
  ((C24_cache_freshness [("c1", { clientSet := 1, timeoutTime := 100 })]
    [("c1", { clientSet := 1, timeoutTime := 100 })] "c1" 200 200 200 (Except.ok 2)).2.2.1
    { clientSet := 1, timeoutTime := 100 } (by decide) (by decide) rfl (by decide)).1 2 rfl

/-! ## C25: the totals of getFederationResource -/

/-- The list built by the loop of `getFederationResource` when every reply is
a result with code 0: one `NodeInfo` for each instance type, in order. -/
theorem federationLoop_ok {α : Type} [Add α] [Mul α] [Div α] (ofInt : Int → α) (k1024 : α)
    (clusterID BcsNamespace AttributeKeyPlatform AttributeKeyCity : String)
    (reply : Nat → Except String (Option FederationResult)) (used : Nat → ResourceUsed)
    (total : Nat → Int) (ists : List (InstanceType α)) :
    ∀ (i : Nat) (acc : List (NodeInfo α)),
      (∀ j, j < ists.length → ∃ msg, reply (i + j) = Except.ok (some
        { Code := 0, Msg := msg, Total := total (i + j) })) →
      federationLoop ofInt k1024 clusterID BcsNamespace AttributeKeyPlatform AttributeKeyCity
          reply used ists i acc
        = (acc ++ (ists.enumFrom i).map (fun e =>
            federationNode ofInt k1024 clusterID BcsNamespace AttributeKeyPlatform
              AttributeKeyCity e.2 (total e.1) (used e.1)), none) := by
  induction ists with
  | nil => intro i acc _; simp [federationLoop]
  | cons ist rest ih =>
    intro i acc h
    obtain ⟨msg, h0⟩ := h 0 (by simp)
    rw [Nat.add_zero] at h0
    simp only [federationLoop, h0, bne_self_eq_false, Bool.false_eq_true, if_false]
    rw [ih (i + 1) _ (fun j hj => by
      have := h (j + 1) (by simp; omega)
      rw [show i + (j + 1) = i + 1 + j by omega] at this
      exact this)]
    simp [List.enumFrom_cons]

/-- C25: when the namespace is set, the pod list is obtained and every
federation reply is a result with code 0, `getFederationResource` returns,
without error, exactly one `NodeInfo` for each configured `InstanceType`, in
order, and the one of the instance type at position `j`, whose reply counts
`total j` instances, has `CPUTotal = CPUUsed + total * CPUPerInstance` and
`MemTotal = MemUsed + total * MemPerInstance`. -/
theorem C25_federation_totals {α : Type} [Add α] [Mul α] [Div α] (ofInt : Int → α) (k1024 : α)
    (clusterID BcsNamespace AttributeKeyPlatform AttributeKeyCity : String)
    (ists : List (InstanceType α))
    (reply : Nat → Except String (Option FederationResult)) (used : Nat → ResourceUsed)
    (total : Nat → Int) (hns : BcsNamespace ≠ "")
    (hok : ∀ j, j < ists.length → ∃ msg, reply j = Except.ok (some
      { Code := 0, Msg := msg, Total := total j })) :
    ∃ nodes, getFederationResource ofInt k1024 clusterID BcsNamespace AttributeKeyPlatform
        AttributeKeyCity ists none reply used = (some nodes, none) ∧
      nodes.length = ists.length ∧
      ∀ j ist, ists.get? j = some ist →
        ∃ node, nodes.get? j = some node ∧
          node.CPUTotal = node.CPUUsed + ofInt (total j) * ist.CPUPerInstance ∧
          node.MemTotal = node.MemUsed + ofInt (total j) * ist.MemPerInstance ∧
          node.CPUUsed = ofInt (used j).Cpu ∧
          node.MemUsed = ofInt (used j).Memory / k1024 / k1024 := by
  have hloop := federationLoop_ok ofInt k1024 clusterID BcsNamespace AttributeKeyPlatform
    AttributeKeyCity reply used total ists 0 [] (fun j hj => by
      rw [Nat.zero_add]; exact hok j hj)
  have hne : (BcsNamespace == "") = false := by
    rw [beq_eq_false_iff_ne]; exact hns
  refine ⟨_, by simp only [getFederationResource, hne, hloop]; rfl, by simp, ?_⟩
  intro j ist hj
  refine ⟨federationNode ofInt k1024 clusterID BcsNamespace AttributeKeyPlatform
    AttributeKeyCity ist (total j) (used j), ?_, rfl, rfl, rfl, rfl⟩
  simp only [List.nil_append, List.get?_eq_getElem?, List.getElem?_map, List.getElem?_enumFrom,
    Nat.zero_add]
  rw [List.get?_eq_getElem?] at hj
  simp [hj]

/-- C25 at one instance type with 4 CPU and 8192 MiB per instance, a reply
that counts 10 instances, and 3 CPU and 2 GiB in use: `CPUTotal = 3 + 40` and
`MemTotal = 2048 + 81920`. -/
theorem C25_federation_totals_witness :
    ∃ nodes, getFederationResource (fun x : Int => x) 1024 "c1" "ns" "platform" "city"
        [sampleInstanceType] none
        (fun _ => Except.ok (some { Code := 0, Msg := "", Total := 10 }))
        (fun _ => { Cpu := 3, Memory := 2147483648, StorageEphemeral := 0 })
        = (some nodes, none) ∧
      nodes.length = [sampleInstanceType].length ∧
      ∀ j ist, [sampleInstanceType].get? j = some ist →
        ∃ node, nodes.get? j = some node ∧
          node.CPUTotal = node.CPUUsed + (fun x : Int => x) ((fun _ => (10 : Int)) j)
            * ist.CPUPerInstance ∧
          node.MemTotal = node.MemUsed + (fun x : Int => x) ((fun _ => (10 : Int)) j)
            * ist.MemPerInstance ∧
          node.CPUUsed = (fun x : Int => x)
            ((fun _ => ({ Cpu := 3, Memory := 2147483648, StorageEphemeral := 0 }
              : ResourceUsed)) j).Cpu ∧
          node.MemUsed = (fun x : Int => x)
            ((fun _ => ({ Cpu := 3, Memory := 2147483648, StorageEphemeral := 0 }
              : ResourceUsed)) j).Memory / 1024 / 1024 :=
  C25_federation_totals (fun x : Int => x) 1024 "c1" "ns" "platform" "city"
    [sampleInstanceType] (fun _ => Except.ok (some { Code := 0, Msg := "", Total := 10 }))
    (fun _ => { Cpu := 3, Memory := 2147483648, StorageEphemeral := 0 })
    (fun _ => 10) (by decide) (fun _ _ => ⟨"", rfl⟩)

/-! ## C26: the answers of ReleaseResource -/

/-- C26: when the release parameter is decoded and `ServerErrReleaseResourceFailed`
is not the zero code, `ReleaseResource` answers without an error code exactly
when `ReleaseTask` returns nil, `ErrorUnterminatedTaskNoFound` or
`ErrorTaskAlreadyTerminated`; for the two errors the message is the text of
the error, for nil it is empty, and every other error is answered with
`ServerErrReleaseResourceFailed` and the text of the error. -/
theorem C26_release_answers (codes : ServerErrCodes) (textNoFound textTerminated : String)
    (body : Except String String) (DecJSON : String → Except String ParamRelease)
    (ReleaseTask : TaskReleaseParam → Option ReleaseError) (param : TaskReleaseParam)
    (hparam : getReleaseParam body DecJSON = Except.ok param)
    (hcode : codes.ServerErrReleaseResourceFailed ≠ 0) :
    ((ReleaseResource codes textNoFound textTerminated body DecJSON ReleaseTask).ErrCode = 0 ↔
      (ReleaseTask param = none
        ∨ ReleaseTask param = some ReleaseError.ErrorUnterminatedTaskNoFound
        ∨ ReleaseTask param = some ReleaseError.ErrorTaskAlreadyTerminated)) ∧
    (ReleaseTask param = none →
      ReleaseResource codes textNoFound textTerminated body DecJSON ReleaseTask = {}) ∧
    (∀ err, ReleaseTask param = some err →
      (err = ReleaseError.ErrorUnterminatedTaskNoFound
        ∨ err = ReleaseError.ErrorTaskAlreadyTerminated) →
      ReleaseResource codes textNoFound textTerminated body DecJSON ReleaseTask
        = { Message := err.Error textNoFound textTerminated }) ∧
    (∀ err, ReleaseTask param = some err →
      err ≠ ReleaseError.ErrorUnterminatedTaskNoFound →
      err ≠ ReleaseError.ErrorTaskAlreadyTerminated →
      ReleaseResource codes textNoFound textTerminated body DecJSON ReleaseTask
        = { ErrCode := codes.ServerErrReleaseResourceFailed,
            Message := err.Error textNoFound textTerminated }) := by
  cases hr : ReleaseTask param with
  | none => simp [ReleaseResource, hparam, hr]
  | some err =>
    by_cases h : err = ReleaseError.ErrorUnterminatedTaskNoFound
        ∨ err = ReleaseError.ErrorTaskAlreadyTerminated
    · refine ⟨?_, ?_, ?_, ?_⟩
      · simp [ReleaseResource, hparam, hr, h]
      · simp
      · intro e he _
        cases he
        simp [ReleaseResource, hparam, hr, h]
      · intro e he h1 h2
        cases he
        rcases h with h | h
        · exact absurd h h1
        · exact absurd h h2
    · refine ⟨?_, ?_, ?_, ?_⟩
      · simp only [ReleaseResource, hparam, hr, h, if_false]
        push_neg at h
        simp [hcode, h.1, h.2]
      · simp
      · intro e he h1
        cases he
        exact absurd h1 h
      · intro e he _ _
        cases he
        simp [ReleaseResource, hparam, hr, h]

/-- C26 at a release for which `ReleaseTask` returns
`ErrorTaskAlreadyTerminated`. -/
theorem C26_release_answers_witness :
    getReleaseParam (Except.ok "body") sampleDecRelease
      = Except.ok { TaskID := "t1", Message := "", Success := true, Extra := "" } ∧
    ReleaseResource sampleErrCodes "no unterminated task" "task already terminated"
        (Except.ok "body") sampleDecRelease
        (fun _ => some ReleaseError.ErrorTaskAlreadyTerminated)
      = { Message := "task already terminated" } :=
  ⟨rfl, (C26_release_answers sampleErrCodes "no unterminated task" "task already terminated"
    (Except.ok "body") sampleDecRelease (fun _ => some ReleaseError.ErrorTaskAlreadyTerminated)
    { TaskID := "t1", Message := "", Success := true, Extra := "" } rfl
    (by decide)).2.2.1 ReleaseError.ErrorTaskAlreadyTerminated rfl (Or.inr rfl)⟩

/-! ## C28: SendMessage with an unknown message type -/

/-- In `SendMessage`, a decoded message whose `Type` is neither `MessageTask`
nor `MessageProject` after `getMessageParam` reaches `err.Error()` with a nil
`err`. -/
theorem sendMessage_default (codes : ServerErrCodes) (MessageTask MessageProject : String)
    (GetProjectIDWithScene : String → String → String)
    (body : Except String String) (DecJSON : String → Except String ParamMessage)
    (SendTaskMessage SendProjectMessage : String → String → Except String String)
    (param : ParamMessage)
    (hparam : getMessageParam MessageTask GetProjectIDWithScene body DecJSON = Except.ok param)
    (h1 : param.Type_ ≠ MessageTask) (h2 : param.Type_ ≠ MessageProject) :
    SendMessage codes MessageTask MessageProject GetProjectIDWithScene body DecJSON
      SendTaskMessage SendProjectMessage = Answer.nilDereference := by
  simp [SendMessage, hparam, h1, h2]

/-- C28: for the decoded message of type `unknown`, with `task` and `project`
the two known types, `SendMessage` does not answer: it calls `err.Error()`
on the nil `err` of the `default` branch. -/
theorem C28_unknown_type_nil_error :
    (getMessageParam "task" (fun id _ => id) (Except.ok "unknown") sampleDecMessage).map
        (fun p => p.Type_) = Except.ok "unknown" ∧
    SendMessage sampleErrCodes "task" "project" (fun id _ => id) (Except.ok "unknown")
      sampleDecMessage (fun _ _ => Except.ok "") (fun _ _ => Except.ok "")
      = Answer.nilDereference := by
  refine ⟨by decide, by decide⟩

/-! ## C27: the time limit of executeActions -/

/-- Ticks alone never end the loop of `executeActions`: each one is measured
from the `starttime` of its own turn, `TickSecs` seconds before. -/
theorem executeLoop_tickTimes (outcome : Action → Int × Bool) (s : Run) (n : Nat) :
    ∀ starttime, executeLoop outcome (clockEvents starttime (tickTimes starttime n)) s
      = (Outcome.waiting, s) := by
  induction n with
  | zero => intro t; rfl
  | succ n ih =>
    intro t
    have h : ¬ (t + TickSecs * 1000000000 - t > MaxWaitSecs * 1000000000) := by
      simp only [TickSecs, MaxWaitSecs]
      omega
    simp only [tickTimes, clockEvents, executeLoop, h, if_false]
    exact ih _

/-- The last of `n` ticks that follow each other comes `n * TickSecs` seconds
after the start. -/
theorem lastTime_tickTimes (n : Nat) :
    ∀ starttime, lastTime starttime (tickTimes starttime n)
      = starttime + n * (TickSecs * 1000000000) := by
  induction n with
  | zero => intro t; simp [tickTimes, lastTime]
  | succ n ih =>
    intro t
    simp only [tickTimes, lastTime, ih]
    ring

/-- C27: with one action whose result never arrives, `executeActions` is
still waiting after 400 ticks, the last of them 12000 seconds after the call,
which is more than `MaxWaitSecs` seconds: it has not returned
`ErrorOverMaxTime`, because each tick is compared with the `starttime` of its
own loop turn. -/
theorem C27_waits_past_ceiling :
    (executeActions (loaded false false [{ Index := "A" }]) none (fun _ => (0, false))
        (clockEvents 0 (tickTimes 0 400))).1 = Outcome.waiting ∧
      lastTime 0 (tickTimes 0 400) = 12000 * 1000000000 ∧
      MaxWaitSecs * 1000000000 < lastTime 0 (tickTimes 0 400) := by
  have hl := lastTime_tickTimes 400 0
  refine ⟨?_, ?_, ?_⟩
  · have h : ∀ events, executeActions (loaded false false [{ Index := "A" }]) none
          (fun _ => (0, false)) events
        = executeLoop (fun _ => (0, false)) events
            (initRun false false 240 [{ Index := "A" }]).select := fun _ => rfl
    rw [h, executeLoop_tickTimes]
  · rw [hl]; simp only [TickSecs]
  · rw [hl]; simp only [TickSecs, MaxWaitSecs]; omega

/-! ## C30: executeActions without a ready action -/

/-- When no action has an empty `Dep` list, `getReadyActions` finds no ready
action and changes nothing. -/
theorem getReadyLoop_none (acts ready : List Action) (h : ∀ a ∈ acts, a.Dep ≠ []) :
    getReadyLoop acts ready = (acts, ready) := by
  induction acts generalizing ready with
  | nil => rfl
  | cons v rest ih =>
    have hv : noDepend v = false := by
      have := h v (List.mem_cons_self _ _)
      cases hd : v.Dep with
      | nil => exact absurd hd this
      | cons d ds => simp [noDepend, hd]
    simp only [getReadyLoop, hv, Bool.false_eq_true, if_false]
    rw [ih ready (fun a ha => h a (List.mem_cons_of_mem _ ha))]

/-- For a value of `maxjobs` that is not negative: when no action has an
empty `Dep` list (so also for the empty list), `executeActions` returns
`ErrorNoActionsToRun` and has dispatched nothing. -/
theorem executeActions_none_ready (most cont : Bool) (acts : List Action)
    (envjobs : Option Int) (outcome : Action → Int × Bool) (events : List Event)
    (h : ∀ a ∈ acts, a.Dep ≠ []) (hj : 0 ≤ jobsOf envjobs) :
    (executeActions (loaded most cont acts) envjobs outcome events).1
        = Outcome.returned (some ToolError.ErrorNoActionsToRun) ∧
      (executeActions (loaded most cont acts) envjobs outcome events).2.log = [] := by
  have hexp : executeActions (loaded most cont acts) envjobs outcome events
      = (if jobsOf envjobs < 0 then
          (Outcome.panicked, initRun most cont (jobsOf envjobs) acts)
        else if (initRun most cont (jobsOf envjobs) acts).select.h.runningnumber ≤ 0 then
          (Outcome.returned (some ToolError.ErrorNoActionsToRun),
            (initRun most cont (jobsOf envjobs) acts).select)
        else executeLoop outcome events (initRun most cont (jobsOf envjobs) acts).select) := by
    cases envjobs <;> rfl
  have hsel : (initRun most cont (jobsOf envjobs) acts).select
      = initRun most cont (jobsOf envjobs) acts := by
    simp only [Run.select, initRun, selectActionsToExecute, getReadyActions, NewUBTTool,
      getReadyLoop_none acts [] h, List.length_nil, selectLoop, List.append_nil, List.map_nil]
  have hrun : (initRun most cont (jobsOf envjobs) acts).h.runningnumber = 0 := by
    simp only [initRun, getReadyActions, NewUBTTool]
  rw [hexp, if_neg (by omega), hsel, hrun]
  simp only [le_refl, if_true, initRun, and_self]

/-- A negative value of `maxjobs` makes `executeActions` panic in
`make(chan common.Actionresult, h.maxjobs)`, before any action is looked
at. -/
theorem executeActions_negative_jobs (h : UBTTool) (envjobs : Option Int)
    (outcome : Action → Int × Bool) (events : List Event) (hj : jobsOf envjobs < 0) :
    (executeActions h envjobs outcome events).1 = Outcome.panicked := by
  have hj2 : (match envjobs with
      | none => DefaultJobs
      | some m => int32 m) < 0 := hj
  unfold executeActions
  simp only []
  split
  · rfl
  · rename_i hn
    exact absurd hj2 hn

/-- C30: with the max-jobs environment value `-1` and the empty action list,
`executeActions` does not return `ErrorNoActionsToRun`: it panics in
`make(chan common.Actionresult, h.maxjobs)`, whose size is negative; with the
value `0` it returns `ErrorNoActionsToRun` and dispatches nothing. -/
theorem C30_negative_maxjobs_panics :
    (executeActions (loaded false false []) (some (-1)) (fun _ => (0, false)) []).1
        = Outcome.panicked ∧
      (executeActions (loaded false false [{ Index := "B", Dep := ["A"] }]) (some (-1))
        (fun _ => (0, false)) []).1 = Outcome.panicked ∧
      executeActions (loaded false false []) (some 0) (fun _ => (0, false)) []
        = (Outcome.returned (some ToolError.ErrorNoActionsToRun),
            { h := loaded false false [], pending := [], log := [] }) := by
  refine ⟨by decide, by decide, by decide⟩

/-! ## The round trip of port names -/

/-- Replacing a text of one character by another text of one character
replaces that character wherever it stands. -/
theorem replaceChars_single (a b : Char) (l : List Char) :
    replaceChars [a] [b] 0 l = l.map (fun c => if c = a then b else c) := by
  induction l with
  | nil => rfl
  | cons c cs ih =>
    by_cases h : c = a
    · subst h
      have hp : [c].isPrefixOf (c :: cs) = true := by simp [List.isPrefixOf]
      simp only [replaceChars, hp, if_true, List.length_singleton, Nat.sub_self, ih, List.map_cons,
        List.singleton_append]
    · have hp : [a].isPrefixOf (c :: cs) = false := by
        have hne : ¬ a = c := fun e => h e.symm
        simp [List.isPrefixOf, hne]
      simp only [replaceChars, hp, Bool.false_eq_true, if_false, ih, List.map_cons, h]

/-- The function `enginePort2K8SPort`, character by character. -/
theorem enginePort2K8SPort_data (name : String) :
    enginePort2K8SPort name = String.mk (name.data.map
      (fun c => if Char.toLower c = '_' then '-' else Char.toLower c)) := by
  have h : enginePort2K8SPort name
      = String.mk (replaceChars ['_'] ['-'] 0 (name.data.map Char.toLower)) := rfl
  rw [h, replaceChars_single, List.map_map]
  rfl

/-- The function `k8sPort2EnginePort`, character by character. -/
theorem k8sPort2EnginePort_data (name : String) :
    k8sPort2EnginePort name = String.mk (name.data.map
      (fun c => if Char.toUpper c = '-' then '_' else Char.toUpper c)) := by
  have h : k8sPort2EnginePort name
      = String.mk (replaceChars ['-'] ['_'] 0 (name.data.map Char.toUpper)) := rfl
  rw [h, replaceChars_single, List.map_map]
  rfl

/-- A character whose code is between 65 and 90 is an upper-case letter. -/
theorem char_upper_letter (c : Char) (h : 65 ≤ c.toNat ∧ c.toNat ≤ 90) :
    c ∈ "ABCDEFGHIJKLMNOPQRSTUVWXYZ".data := by
  have hc : c = Char.ofNat c.toNat := (Char.ofNat_toNat c).symm
  obtain ⟨n, hn⟩ : ∃ n, c.toNat = n := ⟨_, rfl⟩
  rw [hn] at h hc
  rw [hc]
  obtain ⟨h1, h2⟩ := h
  interval_cases n <;> decide

/-- The character map of `enginePort2K8SPort` changes nothing when it is
applied a second time. -/
theorem enginePortChar_idem (c : Char) :
    (fun c => if Char.toLower c = '_' then '-' else Char.toLower c)
        ((fun c => if Char.toLower c = '_' then '-' else Char.toLower c) c)
      = (fun c => if Char.toLower c = '_' then '-' else Char.toLower c) c := by
  by_cases h : 65 ≤ c.toNat ∧ c.toNat ≤ 90
  · have hall : ∀ d ∈ "ABCDEFGHIJKLMNOPQRSTUVWXYZ".data,
        (fun c => if Char.toLower c = '_' then '-' else Char.toLower c)
            ((fun c => if Char.toLower c = '_' then '-' else Char.toLower c) d)
          = (fun c => if Char.toLower c = '_' then '-' else Char.toLower c) d := by
      decide
    exact hall c (char_upper_letter c h)
  · have hl : Char.toLower c = c := by
      have h2 : ¬ (c.toNat ≥ 65 ∧ c.toNat ≤ 90) := h
      simp only [Char.toLower, h2, if_false]
    by_cases hu : c = '_'
    · rw [hu]
      decide
    · simp only [hl, hu, if_false]

/-- The port names of the endpoint of a pod whose container declares the
ports of `insertYamlPorts`: when the names of `ports` are logical port names,
all different, they are added one by one to the map built so far, which holds
none of them. -/
theorem endpointPorts_declared (ports : List (String × portsMap))
    (hback : ∀ e ∈ ports, k8sPort2EnginePort (enginePort2K8SPort e.1) = e.1)
    (hnd : (ports.map Prod.fst).Nodup) :
    ∀ acc : List (String × Int), (∀ e ∈ ports, e.1 ∉ acc.map Prod.fst) →
      endpointPorts (declaredPorts ports) acc
        = acc ++ ports.map (fun e => (e.1, (e.2.port : Int))) := by
  induction ports with
  | nil => intro acc _; simp [declaredPorts, endpointPorts]
  | cons e rest ih =>
    intro acc hacc
    have he : k8sPort2EnginePort (enginePort2K8SPort e.1) = e.1 :=
      hback e (List.mem_cons_self _ _)
    have hnd2 : e.1 ∉ rest.map Prod.fst ∧ (rest.map Prod.fst).Nodup := by
      simpa using hnd
    have hstep : endpointPorts (declaredPorts (e :: rest)) acc
        = endpointPorts (declaredPorts rest) (mapSet acc e.1 (e.2.port : Int)) := by
      simp only [declaredPorts, List.map_cons, endpointPorts, he]
    rw [hstep, mapSet_new acc e.1 _ (hacc e (List.mem_cons_self _ _)),
      ih (fun x hx => hback x (List.mem_cons_of_mem _ hx)) hnd2.2]
    · simp
    · intro x hx hmem
      simp only [List.map_append, List.map_cons, List.map_nil, List.mem_append,
        List.mem_singleton] at hmem
      rcases hmem with hm | hm
      · exact hacc x (List.mem_cons_of_mem _ hx) hm
      · exact hnd2.1 (by rw [← hm]; exact List.mem_map_of_mem Prod.fst hx)

/-- The round trip of one name made of logical port name characters. -/
theorem portName_back (name : String) (hname : ∀ c ∈ name.data, c ∈ portNameChars) :
    k8sPort2EnginePort (enginePort2K8SPort name) = name := by
  have hall : ∀ c ∈ portNameChars,
      (if Char.toUpper (if Char.toLower c = '_' then '-' else Char.toLower c) = '-' then '_'
        else Char.toUpper (if Char.toLower c = '_' then '-' else Char.toLower c)) = c := by
    decide
  rw [enginePort2K8SPort_data, k8sPort2EnginePort_data]
  simp only [List.map_map]
  have hmap : ∀ l : List Char, (∀ c ∈ l, c ∈ portNameChars) →
      l.map ((fun c => if Char.toUpper c = '-' then '_' else Char.toUpper c) ∘
        (fun c => if Char.toLower c = '_' then '-' else Char.toLower c)) = l := by
    intro l
    induction l with
    | nil => intro _; rfl
    | cons c cs ih =>
      intro h
      simp only [List.map_cons, Function.comp]
      rw [hall c (h c (List.mem_cons_self _ _))]
      have := ih (fun d hd => h d (List.mem_cons_of_mem _ hd))
      simp only [Function.comp] at this
      rw [this]
  rw [hmap name.data hname]

/-! ## C21: the limit and the request -/

/-- C21, amended: when no CPU or memory limit is configured, the limit that
`getYAMLFromTemplate` renders is the per-instance value before its offset is
subtracted: the one of the first `InstanceType` that passes `CheckQueueKey`
when that value is positive, and the one of the defaults otherwise. When that
value is positive or no `InstanceType` passes, the rendered request is this
limit less the offset if the offset applies (it is positive and smaller than
the value) and is this limit itself if it does not. The manifest holds
`fmt2 (varLimitCPU * 1000)` and `fmt2 varLimitMem` of these limits. -/
theorem C21_limit_is_unshrunk {α : Type} [Zero α] [LT α] [DecidableRel (fun a b : α => a < b)]
    [Sub α] [Mul α] (fmt2 : α → String) (thousand : α) (o : operator α)
    (param : BcsLaunchParam α)
    (hc : ¬ 0 < o.conf.BcsCPULimitPerInstance) (hm : ¬ 0 < o.conf.BcsMemLimitPerInstance)
    (hno : ∀ ist, o.conf.InstanceType.find? param.CheckQueueKey = some ist →
      ¬ 0 < ist.CPULimitPerInstance ∧ ¬ 0 < ist.MemLimitPerInstance) :
    (instanceSizes o.conf param.CheckQueueKey).varLimitCPU
        = (match o.conf.InstanceType.find? param.CheckQueueKey with
           | some ist =>
             if 0 < ist.CPUPerInstance then ist.CPUPerInstance else o.conf.BcsCPUPerInstance
           | none => o.conf.BcsCPUPerInstance) ∧
    (instanceSizes o.conf param.CheckQueueKey).varLimitMem
        = (match o.conf.InstanceType.find? param.CheckQueueKey with
           | some ist =>
             if 0 < ist.MemPerInstance then ist.MemPerInstance else o.conf.BcsMemPerInstance
           | none => o.conf.BcsMemPerInstance) ∧
    ((∀ ist, o.conf.InstanceType.find? param.CheckQueueKey = some ist →
        0 < ist.CPUPerInstance) →
      (instanceSizes o.conf param.CheckQueueKey).varCPU
        = (if 0 < (chosenInstance o.conf param.CheckQueueKey).CPUPerInstanceOffset ∧
              (chosenInstance o.conf param.CheckQueueKey).CPUPerInstanceOffset
                < (instanceSizes o.conf param.CheckQueueKey).varLimitCPU then
            (instanceSizes o.conf param.CheckQueueKey).varLimitCPU
              - (chosenInstance o.conf param.CheckQueueKey).CPUPerInstanceOffset
          else (instanceSizes o.conf param.CheckQueueKey).varLimitCPU)) ∧
    ((∀ ist, o.conf.InstanceType.find? param.CheckQueueKey = some ist →
        0 < ist.MemPerInstance) →
      (instanceSizes o.conf param.CheckQueueKey).varMem
        = (if 0 < (chosenInstance o.conf param.CheckQueueKey).MemPerInstanceOffset ∧
              (chosenInstance o.conf param.CheckQueueKey).MemPerInstanceOffset
                < (instanceSizes o.conf param.CheckQueueKey).varLimitMem then
            (instanceSizes o.conf param.CheckQueueKey).varLimitMem
              - (chosenInstance o.conf param.CheckQueueKey).MemPerInstanceOffset
          else (instanceSizes o.conf param.CheckQueueKey).varLimitMem)) ∧
    (∀ city, mapGet param.AttributeCondition o.AttributeKeyCity = some city →
      (getYAMLFromTemplate fmt2 thousand o param).2
        = Except.ok (renderSizes fmt2 thousand o.conf
            (instanceSizes o.conf param.CheckQueueKey)
            (ReplaceAll (ReplaceAll
              (renderHead o param (launchPlatform o param).1 (launchPlatform o param).2
                (launchPorts (launchPlatform o param).1 param.Ports param.Env).1
                (launchPorts (launchPlatform o param).1 param.Ports param.Env).2.1
                (launchPorts (launchPlatform o param).1 param.Ports param.Env).2.2)
              templateVarCity city) templateVarCityKey o.cityLabelKey))) := by
  have hl : (instanceSizes o.conf param.CheckQueueKey).varLimitCPU
        = (match o.conf.InstanceType.find? param.CheckQueueKey with
           | some ist =>
             if 0 < ist.CPUPerInstance then ist.CPUPerInstance else o.conf.BcsCPUPerInstance
           | none => o.conf.BcsCPUPerInstance) ∧
      (instanceSizes o.conf param.CheckQueueKey).varLimitMem
        = (match o.conf.InstanceType.find? param.CheckQueueKey with
           | some ist =>
             if 0 < ist.MemPerInstance then ist.MemPerInstance else o.conf.BcsMemPerInstance
           | none => o.conf.BcsMemPerInstance) := by
    unfold instanceSizes
    simp only [hc, hm, if_false]
    exact instanceLoop_limit param.CheckQueueKey o.conf.InstanceType _ hno
  obtain ⟨r1, r2⟩ := instanceSizes_request o.conf param.CheckQueueKey
  refine ⟨hl.1, hl.2, ?_, ?_, ?_⟩
  · intro hpos
    have hv : (instanceSizes o.conf param.CheckQueueKey).varLimitCPU
        = (chosenInstance o.conf param.CheckQueueKey).CPUPerInstance := by
      rw [hl.1]
      unfold chosenInstance
      cases hf : o.conf.InstanceType.find? param.CheckQueueKey with
      | some ist => simp only [if_pos (hpos ist hf)]
      | none => rfl
    rw [r1, hv]
    rfl
  · intro hpos
    have hv : (instanceSizes o.conf param.CheckQueueKey).varLimitMem
        = (chosenInstance o.conf param.CheckQueueKey).MemPerInstance := by
      rw [hl.2]
      unfold chosenInstance
      cases hf : o.conf.InstanceType.find? param.CheckQueueKey with
      | some ist => simp only [if_pos (hpos ist hf)]
      | none => rfl
    rw [r2, hv]
    rfl
  · intro city hcity
    unfold getYAMLFromTemplate
    simp only [hcity]

set_option maxRecDepth 100000 in
/-- C21 at a configuration with two instance types, the second of which
passes the check: the CPU limit is its 4 CPU and the request is 3, the limit
less the offset 1; the memory limit and request are both its 8, no offset
applying; the manifest holds these values. -/
theorem C21_limit_is_unshrunk_witness :
    (instanceSizes sampleIstOperator.conf sampleIstParam.CheckQueueKey).varLimitCPU = 4 ∧
    (instanceSizes sampleIstOperator.conf sampleIstParam.CheckQueueKey).varCPU = 3 ∧
    (instanceSizes sampleIstOperator.conf sampleIstParam.CheckQueueKey).varLimitMem = 8 ∧
    (instanceSizes sampleIstOperator.conf sampleIstParam.CheckQueueKey).varMem = 8 ∧
    (getYAMLFromTemplate fmt2Int 1000 sampleIstOperator sampleIstParam).2
      = Except.ok "requests: 3000.00m 8.00\nlimits: 4000.00m 8.00" :=
  ⟨((C21_limit_is_unshrunk fmt2Int 1000 sampleIstOperator sampleIstParam (by decide)
      (by decide) (by decide)).1).trans (by decide),
   ((C21_limit_is_unshrunk fmt2Int 1000 sampleIstOperator sampleIstParam (by decide)
      (by decide) (by decide)).2.2.1 (by decide)).trans (by decide),
   ((C21_limit_is_unshrunk fmt2Int 1000 sampleIstOperator sampleIstParam (by decide)
      (by decide) (by decide)).2.1).trans (by decide),
   ((C21_limit_is_unshrunk fmt2Int 1000 sampleIstOperator sampleIstParam (by decide)
      (by decide) (by decide)).2.2.2.1 (by decide)).trans (by decide),
   ((C21_limit_is_unshrunk fmt2Int 1000 sampleIstOperator sampleIstParam (by decide)
      (by decide) (by decide)).2.2.2.2 "sz" (by decide)).trans (by decide)⟩

/-! ## The text of a ports entry -/

/-- The characters passed over after a match are dropped. -/
theorem replaceChars_skip (old new : List Char) (xs rest : List Char) :
    replaceChars old new xs.length (xs ++ rest) = replaceChars old new 0 rest := by
  induction xs with
  | nil => rfl
  | cons x xs ih => simpa [replaceChars] using ih

/-- A text that starts with `old` starts with `new` after the replacement. -/
theorem replaceChars_match (o : Char) (os new rest : List Char) :
    replaceChars (o :: os) new 0 ((o :: os) ++ rest)
      = new ++ replaceChars (o :: os) new 0 rest := by
  have hp : (o :: os).isPrefixOf (o :: (os ++ rest)) = true := by
    simp [List.isPrefixOf]
  have hs := replaceChars_skip (o :: os) new os rest
  simp only [List.cons_append, replaceChars, List.append_eq, hp, if_true, List.length_cons,
    Nat.add_sub_cancel, hs]

/-- Characters other than the first of `old` are kept by the replacement. -/
theorem replaceChars_pass (o : Char) (os new a rest : List Char) (h : ∀ c ∈ a, c ≠ o) :
    replaceChars (o :: os) new 0 (a ++ rest) = a ++ replaceChars (o :: os) new 0 rest := by
  induction a with
  | nil => rfl
  | cons c cs ih =>
    have hc : ¬ o = c := fun e => h c (List.mem_cons_self _ _) e.symm
    have hp : (o :: os).isPrefixOf (c :: (cs ++ rest)) = false := by
      simp [List.isPrefixOf, hc]
    simp only [List.cons_append, replaceChars, List.append_eq, hp, Bool.false_eq_true, if_false,
      ih (fun d hd => h d (List.mem_cons_of_mem _ hd))]

/-- One occurrence of `old`, after a text without the first character of
`old` and before a text without `old`, is replaced by `new`. -/
theorem replaceChars_once (o : Char) (os new a b : List Char) (ha : ∀ c ∈ a, c ≠ o)
    (hb : replaceChars (o :: os) new 0 b = b) :
    replaceChars (o :: os) new 0 (a ++ ((o :: os) ++ b)) = a ++ (new ++ b) := by
  rw [replaceChars_pass o os new a _ ha, replaceChars_match, hb]

/-- No decimal digit is an underscore. -/
theorem digitChar_ne_underscore (n : Nat) (h : n < 10) : Nat.digitChar n ≠ '_' := by
  have hall : ∀ k, k < 10 → Nat.digitChar k ≠ '_' := by decide
  exact hall n h

theorem toDigitsCore_ne_underscore :
    ∀ (fuel n : Nat) (ds : List Char), (∀ c ∈ ds, c ≠ '_') →
      ∀ c ∈ Nat.toDigitsCore 10 fuel n ds, c ≠ '_' := by
  intro fuel
  induction fuel with
  | zero => intro n ds h; simpa [Nat.toDigitsCore] using h
  | succ fuel ih =>
    intro n ds h
    have hd : ∀ c ∈ Nat.digitChar (n % 10) :: ds, c ≠ '_' := by
      intro c hc
      rcases List.mem_cons.1 hc with e | e
      · rw [e]; exact digitChar_ne_underscore _ (Nat.mod_lt _ (by decide))
      · exact h c e
    unfold Nat.toDigitsCore
    simp only []
    split_ifs
    · exact hd
    · exact ih _ _ hd

/-- The decimal text of a number holds no underscore. -/
theorem toString_ne_underscore (n : Nat) : ∀ c ∈ (toString n).data, c ≠ '_' := by
  have h : (toString n).data = Nat.toDigitsCore 10 (n + 1) n [] := rfl
  rw [h]
  exact toDigitsCore_ne_underscore _ _ _ (fun _ hc => absurd hc (List.not_mem_nil _))

/-- The k8s name of a port holds no underscore. -/
theorem enginePort2K8SPort_ne_underscore (name : String) :
    ∀ c ∈ (enginePort2K8SPort name).data, c ≠ '_' := by
  rw [enginePort2K8SPort_data]
  intro c hc
  simp only [List.mem_map] at hc
  obtain ⟨d, _, hd⟩ := hc
  rw [← hd]
  by_cases h : Char.toLower d = '_'
  · simp only [h, if_true]
    decide
  · simp only [h, if_false]
    exact h

/-- The text that `insertYamlPorts` makes for one port: the three
placeholders of `templateContentPorts` are taken by the k8s name and, twice,
by the number. -/
theorem portContent_eq (name : String) (port : portsMap) :
    portContent name port = portEntry name port.port := by
  apply String.ext
  have hX := enginePort2K8SPort_ne_underscore name
  have hN := toString_ne_underscore port.port
  have hl : (portContent name port).data
      = replaceChars templateVarPortsHost.data (toString port.port).data 0
          (replaceChars templateVarPortsContainer.data (toString port.port).data 0
            (replaceChars templateVarPortsName.data (enginePort2K8SPort name).data 0
              templateContentPorts.data)) := rfl
  have hr : (portEntry name port.port).data
      = "        - name: ".data ++ ((enginePort2K8SPort name).data
          ++ ("\n          containerPort: ".data ++ ((toString port.port).data
            ++ ("\n          hostPort: ".data ++ (toString port.port).data)))) := by
    simp only [portEntry, String.data_append, List.append_assoc]
  have ht : templateContentPorts.data
      = "        - name: ".data ++ (templateVarPortsName.data
          ++ ("\n          containerPort: ".data ++ (templateVarPortsContainer.data
            ++ ("\n          hostPort: ".data ++ templateVarPortsHost.data)))) := by
    decide
  have h1 : ∀ new : List Char, replaceChars templateVarPortsName.data new 0
      ("\n          containerPort: ".data ++ (templateVarPortsContainer.data
        ++ ("\n          hostPort: ".data ++ templateVarPortsHost.data)))
      = "\n          containerPort: ".data ++ (templateVarPortsContainer.data
        ++ ("\n          hostPort: ".data ++ templateVarPortsHost.data)) := fun _ => rfl
  have h2 : ∀ new : List Char, replaceChars templateVarPortsContainer.data new 0
      ("\n          hostPort: ".data ++ templateVarPortsHost.data)
      = "\n          hostPort: ".data ++ templateVarPortsHost.data := fun _ => rfl
  have hp1 : templateVarPortsName.data = '_' :: "_crm_ports_name__".data := rfl
  have hp2 : templateVarPortsContainer.data = '_' :: "_crm_ports_container__".data := rfl
  have hp3 : templateVarPortsHost.data = '_' :: "_crm_ports_host__".data := rfl
  have hpre : ∀ c ∈ "        - name: ".data, c ≠ '_' := by decide
  have hmid1 : ∀ c ∈ "\n          containerPort: ".data, c ≠ '_' := by decide
  have hmid2 : ∀ c ∈ "\n          hostPort: ".data, c ≠ '_' := by decide
  rw [hl, hr, ht]
  have s1 : replaceChars templateVarPortsName.data (enginePort2K8SPort name).data 0
      ("        - name: ".data ++ (templateVarPortsName.data
          ++ ("\n          containerPort: ".data ++ (templateVarPortsContainer.data
            ++ ("\n          hostPort: ".data ++ templateVarPortsHost.data)))))
      = "        - name: ".data ++ ((enginePort2K8SPort name).data
          ++ ("\n          containerPort: ".data ++ (templateVarPortsContainer.data
            ++ ("\n          hostPort: ".data ++ templateVarPortsHost.data)))) := by
    have := h1 (enginePort2K8SPort name).data
    rw [hp1] at this ⊢
    exact replaceChars_once _ _ _ _ _ hpre this
  rw [s1]
  have s2 : replaceChars templateVarPortsContainer.data (toString port.port).data 0
      ("        - name: ".data ++ ((enginePort2K8SPort name).data
          ++ ("\n          containerPort: ".data ++ (templateVarPortsContainer.data
            ++ ("\n          hostPort: ".data ++ templateVarPortsHost.data)))))
      = "        - name: ".data ++ ((enginePort2K8SPort name).data
          ++ ("\n          containerPort: ".data ++ ((toString port.port).data
            ++ ("\n          hostPort: ".data ++ templateVarPortsHost.data)))) := by
    have := h2 (toString port.port).data
    rw [hp2] at this ⊢
    have ha : ∀ c ∈ "        - name: ".data ++ ((enginePort2K8SPort name).data
        ++ "\n          containerPort: ".data), c ≠ '_' := by
      intro c hc
      simp only [List.mem_append] at hc
      rcases hc with hc | hc | hc
      · exact hpre c hc
      · exact hX c hc
      · exact hmid1 c hc
    have := replaceChars_once _ _ _ _ _ ha this
    simpa only [List.append_assoc] using this
  rw [s2]
  have s3 : replaceChars templateVarPortsHost.data (toString port.port).data 0
      ("        - name: ".data ++ ((enginePort2K8SPort name).data
          ++ ("\n          containerPort: ".data ++ ((toString port.port).data
            ++ ("\n          hostPort: ".data ++ templateVarPortsHost.data)))))
      = "        - name: ".data ++ ((enginePort2K8SPort name).data
          ++ ("\n          containerPort: ".data ++ ((toString port.port).data
            ++ ("\n          hostPort: ".data ++ (toString port.port).data)))) := by
    rw [hp3]
    have ha : ∀ c ∈ "        - name: ".data ++ ((enginePort2K8SPort name).data
        ++ ("\n          containerPort: ".data ++ ((toString port.port).data
          ++ "\n          hostPort: ".data))), c ≠ '_' := by
      intro c hc
      simp only [List.mem_append] at hc
      rcases hc with hc | hc | hc | hc | hc
      · exact hpre c hc
      · exact hX c hc
      · exact hmid1 c hc
      · exact hN c hc
      · exact hmid2 c hc
    have := replaceChars_once '_' "_crm_ports_host__".data (toString port.port).data _ [] ha rfl
    simpa only [List.append_assoc, List.append_nil] using this
  rw [s3]

/-- The ports text of `insertYamlPorts`: a line break and the entry of each
port of the map, in order. -/
theorem insertYamlPorts_entries (data : String) (pm : List (String × portsMap)) :
    insertYamlPorts data pm = ReplaceAll data templateVarPorts
      (pm.foldl (fun portsYaml e => portsYaml ++ "\n" ++ portEntry e.1 e.2.port) "") := by
  unfold insertYamlPorts
  simp only [portContent_eq]

/-- The environment that `getYAMLFromTemplate` leaves is the one after the
loop over the ports, with or without a city. -/
theorem getYAMLFromTemplate_env {α : Type} [Zero α] [LT α]
    [DecidableRel (fun a b : α => a < b)] [Sub α] [Mul α] (fmt2 : α → String) (thousand : α)
    (o : operator α) (param : BcsLaunchParam α) :
    (getYAMLFromTemplate fmt2 thousand o param).1
      = (launchPorts (launchPlatform o param).1 param.Ports param.Env).1 := by
  unfold getYAMLFromTemplate
  cases mapGet param.AttributeCondition o.AttributeKeyCity <;> rfl

/-! ## C19: the ports of a launch -/

set_option maxRecDepth 100000 in
/-- C19, as stated, fails: on Windows with the one logical port `uba-port`,
the port is numbered 31000 and the environment holds `HOST_PORT_uba-port =
RAND_PORT_uba-port = 31000`, but the assignment of the auxiliary port, which
has this name, replaces its entry in the map of ports, and the only ports
entry of the manifest has `containerPort` and `hostPort` 1345; on Linux the
same launch renders the entry with 31000. -/
theorem C19_counterexample :
    launchPorts "windows" ubaParam.Ports ubaParam.Env
      = ([("HOST_PORT_uba-port", "31000"), ("RAND_PORT_uba-port", "31000")],
         [("uba-port", { protocol := "tcp", port := 1345 })], ["uba-port", "uba-port"]) ∧
    getYAMLFromTemplate fmt2Int 1000 sampleOperator ubaParam
      = ([("HOST_PORT_uba-port", "31000"), ("RAND_PORT_uba-port", "31000")],
         Except.ok ("ports:\n        - name: uba-port\n          containerPort: 1345\n" ++
          "          hostPort: 1345\n" ++
          "env:\n        - name: HOST_PORT_uba-port\n          value: 31000\n" ++
          "        - name: RAND_PORT_uba-port\n          value: 31000\n" ++
          "requests: 7000.00m 14.00\nlimits: 8000.00m 16.00")) ∧
    (launchPorts "linux" ubaParam.Ports ubaParam.Env).2.1
      = [("uba-port", { protocol := "tcp", port := 31000 })] := by
  decide

/-- C19, amended: for every launch parameter that has a city attribute and
logical ports with distinct names, none of them named `uba-port` when the
platform is Windows, `getYAMLFromTemplate` gives the `n` logical ports the
numbers 31000, ..., 31000+n-1, pairwise distinct, in the order of the ports;
the environment it leaves holds the number of each logical port under
`HOST_PORT_<name>` and `RAND_PORT_<name>`; the map of ports it hands to
`insertYamlPorts` holds exactly one entry for each logical port, with that
number (and after them, on Windows, the entry of the auxiliary port), and
`insertYamlPorts` puts in place of the ports placeholder one entry text for
each entry of the map, whose `containerPort` and `hostPort` are both the
number of the entry. -/
theorem C19_logical_ports {α : Type} [Zero α] [LT α] [DecidableRel (fun a b : α => a < b)]
    [Sub α] [Mul α] (fmt2 : α → String) (thousand : α) (o : operator α)
    (param : BcsLaunchParam α) (city : String)
    (hcity : mapGet param.AttributeCondition o.AttributeKeyCity = some city)
    (hnd : (param.Ports.map Prod.fst).Nodup)
    (hu : (launchPlatform o param).1 = "windows" → UbaPortName ∉ param.Ports.map Prod.fst) :
    (launchPorts (launchPlatform o param).1 param.Ports param.Env).2.1
      = (param.Ports.enumFrom 0).map
          (fun e => (e.2.1, { protocol := e.2.2, port := specificPort + e.1 }))
        ++ (if (launchPlatform o param).1 = "windows" then
              [(UbaPortName, { protocol := UbaProtocol, port := UbaPortNumber })]
            else []) ∧
    (((param.Ports.enumFrom 0).map
        (fun e => ((e.2.1, { protocol := e.2.2, port := specificPort + e.1 }) :
          String × portsMap))).map (fun e => e.2.port)
      = List.range' specificPort param.Ports.length) ∧
    (List.range' specificPort param.Ports.length).Nodup ∧
    (∀ j name protocol, param.Ports.get? j = some (name, protocol) →
      mapGet (getYAMLFromTemplate fmt2 thousand o param).1 (envKeyHostPort ++ name)
          = some (toString (specificPort + j)) ∧
        mapGet (getYAMLFromTemplate fmt2 thousand o param).1 (envKeyRandPort ++ name)
          = some (toString (specificPort + j)) ∧
        ((launchPorts (launchPlatform o param).1 param.Ports param.Env).2.1.filter
            (fun e => e.1 = name))
          = [(name, { protocol := protocol, port := specificPort + j })]) ∧
    (getYAMLFromTemplate fmt2 thousand o param).2
      = Except.ok (renderSizes fmt2 thousand o.conf
          (instanceSizes o.conf param.CheckQueueKey)
          (ReplaceAll (ReplaceAll
            (renderHead o param (launchPlatform o param).1 (launchPlatform o param).2
              (launchPorts (launchPlatform o param).1 param.Ports param.Env).1
              ((param.Ports.enumFrom 0).map
                  (fun e => (e.2.1, { protocol := e.2.2, port := specificPort + e.1 }))
                ++ (if (launchPlatform o param).1 = "windows" then
                      [(UbaPortName, { protocol := UbaProtocol, port := UbaPortNumber })]
                    else []))
              (launchPorts (launchPlatform o param).1 param.Ports param.Env).2.2)
            templateVarCity city) templateVarCityKey o.cityLabelKey)) ∧
    (∀ data : String,
      insertYamlPorts data (launchPorts (launchPlatform o param).1 param.Ports param.Env).2.1
        = ReplaceAll data templateVarPorts
            (List.foldl
              (fun (portsYaml : String) (e : String × portsMap) =>
                portsYaml ++ "\n" ++ portEntry e.1 e.2.port) ""
              ((param.Ports.enumFrom 0).map
                  (fun e => (e.2.1, { protocol := e.2.2, port := specificPort + e.1 }))
                ++ (if (launchPlatform o param).1 = "windows" then
                      [(UbaPortName, { protocol := UbaProtocol, port := UbaPortNumber })]
                    else [])))) := by
  obtain ⟨h1, h2, h3⟩ :=
    launchPorts_logical_ports (launchPlatform o param).1 param.Ports param.Env hnd hu
  have henv := getYAMLFromTemplate_env fmt2 thousand o param
  refine ⟨h1, h2, List.nodup_range' _ _, ?_, ?_, ?_⟩
  · intro j name protocol hj
    rw [henv]
    exact h3 j name protocol hj
  · rw [← h1]
    unfold getYAMLFromTemplate
    simp only [hcity]
  · intro data
    rw [insertYamlPorts_entries, h1]

set_option maxRecDepth 100000 in
/-- C19 at the sample launches: on Linux the second of the two logical ports,
`STATS_PORT`, has the number 31001 in the environment and in its one entry,
and the ports text holds the entries of the two ports; on Windows the logical
port `SERVICE_PORT` has the number 31000 and the ports text holds its entry
and the entry of the auxiliary port. -/
theorem C19_logical_ports_witness :
    (mapGet (getYAMLFromTemplate fmt2Int 1000 sampleOperator sampleParam).1
          "HOST_PORT_STATS_PORT" = some "31001" ∧
      mapGet (getYAMLFromTemplate fmt2Int 1000 sampleOperator sampleParam).1
          "RAND_PORT_STATS_PORT" = some "31001" ∧
      ((launchPorts (launchPlatform sampleOperator sampleParam).1 sampleParam.Ports
          sampleParam.Env).2.1.filter (fun e => e.1 = "STATS_PORT"))
        = [("STATS_PORT", { protocol := "http", port := 31001 })]) ∧
    insertYamlPorts "ports:__crm_ports__"
        (launchPorts (launchPlatform sampleOperator sampleParam).1 sampleParam.Ports
          sampleParam.Env).2.1
      = "ports:\n        - name: service-port\n          containerPort: 31000\n" ++
        "          hostPort: 31000\n        - name: stats-port\n" ++
        "          containerPort: 31001\n          hostPort: 31001" ∧
    insertYamlPorts "ports:__crm_ports__"
        (launchPorts (launchPlatform sampleOperator sampleWinParam).1 sampleWinParam.Ports
          sampleWinParam.Env).2.1
      = "ports:\n        - name: service-port\n          containerPort: 31000\n" ++
        "          hostPort: 31000\n        - name: uba-port\n" ++
        "          containerPort: 1345\n          hostPort: 1345" :=
  ⟨(C19_logical_ports fmt2Int 1000 sampleOperator sampleParam "sz" (by decide) (by decide)
      (fun h => absurd h (by decide))).2.2.2.1 1 "STATS_PORT" "http" (by decide),
   ((C19_logical_ports fmt2Int 1000 sampleOperator sampleParam "sz" (by decide) (by decide)
      (fun h => absurd h (by decide))).2.2.2.2.2 "ports:__crm_ports__").trans (by decide),
   ((C19_logical_ports fmt2Int 1000 sampleOperator sampleWinParam "sz" (by decide) (by decide)
      (fun _ => by decide)).2.2.2.2.2 "ports:__crm_ports__").trans (by decide)⟩

/-! ## C29: the port names of an endpoint -/

/-- The ports of an endpoint are collected container port by container
port. -/
theorem endpointPorts_append (a b : List ContainerPort) :
    ∀ acc : List (String × Int),
      endpointPorts (a ++ b) acc = endpointPorts b (endpointPorts a acc) := by
  induction a with
  | nil => intro acc; rfl
  | cons p rest ih => intro acc; simp only [List.cons_append, endpointPorts, List.append_eq, ih]

/-- The name of the auxiliary port is not a logical port name: it holds
lower-case letters. -/
theorem ubaPortName_not_logical (ports : List (String × String))
    (hports : ∀ p ∈ ports, ∀ c ∈ p.1.data, c ∈ portNameChars) :
    UbaPortName ∉ ports.map Prod.fst := by
  intro hmem
  simp only [List.mem_map] at hmem
  obtain ⟨p, hp, he⟩ := hmem
  have h := hports p hp 'u' (by rw [he]; decide)
  exact absurd h (by decide)

/-- The endpoint ports of a pod whose container declares the ports of a
launch with logical port names. -/
theorem endpointPorts_launch (platform : String) (ports env : List (String × String))
    (hports : ∀ p ∈ ports, ∀ c ∈ p.1.data, c ∈ portNameChars)
    (hnd : (ports.map Prod.fst).Nodup)
    (hu : platform = "windows" → "UBA_PORT" ∉ ports.map Prod.fst) :
    endpointPorts (declaredPorts (launchPorts platform ports env).2.1) []
      = (ports.enumFrom 0).map (fun e => (e.2.1, ((specificPort + e.1 : Nat) : Int)))
        ++ (if platform = "windows" then [("UBA_PORT", (UbaPortNumber : Int))] else []) := by
  have hpm := (launchPorts_logical_ports platform ports env hnd
    (fun _ => ubaPortName_not_logical ports hports)).1
  have hfst : ((ports.enumFrom 0).map
      (fun e => ((e.2.1, { protocol := e.2.2, port := specificPort + e.1 }) :
        String × portsMap))).map Prod.fst = ports.map Prod.fst := enumFrom_map_fst ports 0
  have hlog : endpointPorts (declaredPorts ((ports.enumFrom 0).map
      (fun e => ((e.2.1, { protocol := e.2.2, port := specificPort + e.1 }) :
        String × portsMap)))) []
      = (ports.enumFrom 0).map (fun e => (e.2.1, ((specificPort + e.1 : Nat) : Int))) := by
    rw [endpointPorts_declared _ _ (by rw [hfst]; exact hnd) [] (fun _ _ => by simp)]
    · simp [List.map_map, Function.comp]
    · intro e he
      simp only [List.mem_map] at he
      obtain ⟨x, hx, hxe⟩ := he
      rw [← hxe]
      have hmem : x.2 ∈ ports := by
        have := List.mem_enumFrom hx
        rw [this.2.2]
        exact List.getElem_mem _
      exact portName_back x.2.1 (hports x.2 hmem)
  rw [hpm]
  by_cases hw : platform = "windows"
  · simp only [hw, if_true]
    have hd : declaredPorts ((ports.enumFrom 0).map
        (fun e => ((e.2.1, { protocol := e.2.2, port := specificPort + e.1 }) :
          String × portsMap))
        ++ [(UbaPortName, { protocol := UbaProtocol, port := UbaPortNumber })])
        = declaredPorts ((ports.enumFrom 0).map
            (fun e => ((e.2.1, { protocol := e.2.2, port := specificPort + e.1 }) :
              String × portsMap)))
          ++ [{ Name := enginePort2K8SPort UbaPortName, HostPort := (UbaPortNumber : Int) }] := by
      simp [declaredPorts]
    have hk : k8sPort2EnginePort (enginePort2K8SPort UbaPortName) = "UBA_PORT" := by decide
    rw [hd, endpointPorts_append, hlog]
    simp only [endpointPorts, hk]
    apply mapSet_new
    have hkeys : ((ports.enumFrom 0).map
        (fun e => (e.2.1, ((specificPort + e.1 : Nat) : Int)))).map Prod.fst
        = ports.map Prod.fst := by
      have := enumFrom_map_fst ports 0
      simpa [List.map_map, Function.comp] using this
    rw [hkeys]
    exact hu hw
  · simp only [hw, if_false, List.append_nil]
    exact hlog

/-- What `getPods` reports for one running pod with a container. -/
theorem getPods_running (pod : Pod) (container : List ContainerPort)
    (more : List (List ContainerPort)) (info : ServiceInfo)
    (hphase : pod.Phase = PodRunning) (hstat : 0 < pod.ContainerStatuses)
    (hpod : pod.Containers = container :: more) :
    ∃ info1, getPods none [pod] info = Except.ok info1 ∧
      info1.AvailableEndpoints
        = [{ IP := pod.HostIP, Ports := endpointPorts container [], Name := pod.Name }] := by
  have hs : ¬ pod.ContainerStatuses ≤ 0 := by omega
  refine ⟨_, rfl, ?_⟩
  simp [getPods, podsLoop, hphase, hs, hpod]

set_option maxRecDepth 100000 in
/-- C29, as stated, fails: the launch on Windows with the one logical port
`SERVICE_PORT`, a name of upper-case letters and an underscore, gives a pod
whose endpoint is reported with the port keys `SERVICE_PORT` and `UBA_PORT`;
the second is the key of the auxiliary port `uba-port`, not a logical port
name that was passed to the launch. -/
theorem C29_counterexample :
    (∀ c ∈ "SERVICE_PORT".data, c ∈ portNameChars) ∧
    (launchPlatform sampleOperator sampleWinParam).1 = "windows" ∧
    sampleWinParam.Ports.map Prod.fst = ["SERVICE_PORT"] ∧
    getPods none
        [launchedPod (launchPorts (launchPlatform sampleOperator sampleWinParam).1
          sampleWinParam.Ports sampleWinParam.Env).2.1]
        { Status := ServiceStatus.ServiceStatusRunning, RequestInstances := 1,
          CurrentInstances := 0, AvailableEndpoints := [] }
      = Except.ok
          { Status := ServiceStatus.ServiceStatusRunning, RequestInstances := 1,
            CurrentInstances := 1,
            AvailableEndpoints :=
              [{ IP := "10.0.0.1", Ports := [("SERVICE_PORT", 31000), ("UBA_PORT", 1345)],
                 Name := "pod-0" }] } := by
  decide

/-- C29, amended: `k8sPort2EnginePort (enginePort2K8SPort name) = name` for
every name made only of upper-case ASCII letters, digits and underscores; so,
for a launch whose logical ports have such names, the endpoint that `getPods`
reports for a running pod whose first container declares the ports of the
launch has, as port keys, the logical port names in order, each with its
number, followed on Windows (where no logical port is named `UBA_PORT`) by
the key `UBA_PORT` of the auxiliary port with the number 1345; and
`enginePort2K8SPort` applied twice to a name of ASCII characters gives what
it gives applied once. -/
theorem C29_port_name_round_trip (name platform : String)
    (ports env : List (String × String)) (pod : Pod) (more : List (List ContainerPort))
    (info : ServiceInfo)
    (hname : ∀ c ∈ name.data, c ∈ portNameChars)
    (hports : ∀ p ∈ ports, ∀ c ∈ p.1.data, c ∈ portNameChars)
    (hnd : (ports.map Prod.fst).Nodup)
    (hu : platform = "windows" → "UBA_PORT" ∉ ports.map Prod.fst)
    (hphase : pod.Phase = PodRunning) (hstat : 0 < pod.ContainerStatuses)
    (hpod : pod.Containers = declaredPorts (launchPorts platform ports env).2.1 :: more) :
    k8sPort2EnginePort (enginePort2K8SPort name) = name ∧
    (∃ info1, getPods none [pod] info = Except.ok info1 ∧
      info1.AvailableEndpoints
        = [{ IP := pod.HostIP,
             Ports := (ports.enumFrom 0).map
                 (fun e => (e.2.1, ((specificPort + e.1 : Nat) : Int)))
               ++ (if platform = "windows" then [("UBA_PORT", (UbaPortNumber : Int))] else []),
             Name := pod.Name }]) ∧
    (∀ s : String, (∀ c ∈ s.data, c.toNat < 128) →
      enginePort2K8SPort (enginePort2K8SPort s) = enginePort2K8SPort s) := by
  refine ⟨portName_back name hname, ?_, ?_⟩
  · obtain ⟨info1, h1, h2⟩ := getPods_running pod _ more info hphase hstat hpod
    refine ⟨info1, h1, ?_⟩
    rw [h2, endpointPorts_launch platform ports env hports hnd hu]
  · intro s _
    rw [enginePort2K8SPort_data s, enginePort2K8SPort_data]
    simp only [List.map_map]
    congr 1
    apply List.map_congr_left
    intro c _
    exact enginePortChar_idem c

set_option maxRecDepth 100000 in
/-- C29 at the name `SERVICE_PORT_2` and at the launch on Linux with the two
logical ports `SERVICE_PORT` and `STATS_PORT`: the endpoint of its pod has the
keys `SERVICE_PORT` and `STATS_PORT`, with the numbers 31000 and 31001. -/
theorem C29_port_name_round_trip_witness :
    enginePort2K8SPort "SERVICE_PORT_2" = "service-port-2" ∧
    k8sPort2EnginePort (enginePort2K8SPort "SERVICE_PORT_2") = "SERVICE_PORT_2" ∧
    (∃ info1, getPods none [launchedPod (launchPorts "linux" sampleParam.Ports sampleParam.Env).2.1]
        { Status := ServiceStatus.ServiceStatusRunning, RequestInstances := 1,
          CurrentInstances := 0, AvailableEndpoints := [] } = Except.ok info1 ∧
      info1.AvailableEndpoints
        = [{ IP := "10.0.0.1", Ports := [("SERVICE_PORT", 31000), ("STATS_PORT", 31001)],
             Name := "pod-0" }]) ∧
    enginePort2K8SPort (enginePort2K8SPort "Service_Port") = enginePort2K8SPort "Service_Port" :=
  ⟨by decide,
   (C29_port_name_round_trip "SERVICE_PORT_2" "linux" sampleParam.Ports sampleParam.Env
      (launchedPod (launchPorts "linux" sampleParam.Ports sampleParam.Env).2.1) []
      { Status := ServiceStatus.ServiceStatusRunning, RequestInstances := 1,
        CurrentInstances := 0, AvailableEndpoints := [] }
      (by decide) (by decide) (by decide) (fun h => absurd h (by decide)) rfl (by decide)
      rfl).1,
   (C29_port_name_round_trip "SERVICE_PORT_2" "linux" sampleParam.Ports sampleParam.Env
      (launchedPod (launchPorts "linux" sampleParam.Ports sampleParam.Env).2.1) []
      { Status := ServiceStatus.ServiceStatusRunning, RequestInstances := 1,
        CurrentInstances := 0, AvailableEndpoints := [] }
      (by decide) (by decide) (by decide) (fun h => absurd h (by decide)) rfl (by decide)
      rfl).2.1,
   (C29_port_name_round_trip "SERVICE_PORT_2" "linux" sampleParam.Ports sampleParam.Env
      (launchedPod (launchPorts "linux" sampleParam.Ports sampleParam.Env).2.1) []
      { Status := ServiceStatus.ServiceStatusRunning, RequestInstances := 1,
        CurrentInstances := 0, AvailableEndpoints := [] }
      (by decide) (by decide) (by decide) (fun h => absurd h (by decide)) rfl (by decide)
      rfl).2.2 "Service_Port" (by decide)⟩

end UBT
